import Mathlib

/-!
# The Sleuth Kit: volume-system dispatch, path resolution, reverse block lookup
# and ISO9660 directory parsing

A shallow embedding of `tsk3/vs/mm_open.c`, `tsk3/fs/ifind_lib.c` and
`tsk3/fs/iso9660_dent.c`.

Conventions of the embedding.

* A C string is the list of its characters before the terminating NUL.
* Pointers that may be NULL are `Option`s.
* The global error channel (`tsk_errno`, `tsk_errstr`, `tsk_errstr2`) is an explicit
  record threaded through the functions that touch it.
* `size_t` and `TSK_DADDR_T` arithmetic is arithmetic on `Nat` reduced modulo `2 ^ 64`.
* Driver operations (`dir_open_meta`, the file and inode walks, the volume-system
  openers) are fields of the handle: their outcome is given, the generic code
  around them is what is embedded.
-/

set_option autoImplicit false

namespace Tsk

/-! ## Common types -/

/-- C strings: the characters before the terminating NUL. -/
abbrev CStr := List Char

/-- The wrap-around of 64-bit unsigned arithmetic (`size_t`, `TSK_DADDR_T`). -/
def wrap64 (n : Nat) : Nat := n % 2 ^ 64

/-- Unsigned 64-bit subtraction `a - b`. -/
def sub64 (a b : Nat) : Nat := (a + 2 ^ 64 - b % 2 ^ 64) % 2 ^ 64

/-- Modelled from the spec: the error codes of the error channel that the embedded
functions set (the `TSK_ERR_*` constants are declared in a header that is not part of
the sources at hand). `NONE` is the value after `tsk_error_reset`. -/
inductive TSK_ERR_ENUM
  | NONE
  | VS_UNKTYPE
  | VS_UNSUPTYPE
  | FS_WALK_RNG
  | FS_ARG
  | FS_READ
  | FS_INODE_NUM
  | FS_UNICODE
  | OTHER (code : Nat)
  deriving DecidableEq

/-- The global error channel: `tsk_errno`, `tsk_errstr`, `tsk_errstr2`. -/
structure TskError where
  tsk_errno : TSK_ERR_ENUM
  tsk_errstr : String
  tsk_errstr2 : String
  deriving DecidableEq

/-- Modelled from the spec: `tsk_error_reset` clears the error channel. -/
def tsk_error_reset (_e : TskError) : TskError :=
  { tsk_errno := TSK_ERR_ENUM.NONE, tsk_errstr := "", tsk_errstr2 := "" }

/-- Return values of walk callbacks. -/
inductive TSK_WALK_RET_ENUM
  | TSK_WALK_CONT
  | TSK_WALK_STOP
  | TSK_WALK_ERROR
  deriving DecidableEq

/-- Return values of the drivers. -/
inductive TSK_RETVAL_ENUM
  | TSK_OK
  | TSK_ERR
  | TSK_COR
  deriving DecidableEq

/-! ## Volume-system dispatcher (`mm_open.c`) -/

/-- The volume-system type tag. -/
inductive TSK_VS_TYPE_ENUM
  | TSK_VS_TYPE_DETECT
  | TSK_VS_TYPE_DOS
  | TSK_VS_TYPE_BSD
  | TSK_VS_TYPE_SUN
  | TSK_VS_TYPE_MAC
  | TSK_VS_TYPE_GPT
  | TSK_VS_TYPE_UNSUPP
  deriving DecidableEq

/-- Modelled from the spec: the integer value of a type tag, as printed by `%d` in the
unsupported-type message (the enum is declared in a header that is not part of the
sources at hand). -/
def TSK_VS_TYPE_ENUM.code : TSK_VS_TYPE_ENUM → Nat
  | TSK_VS_TYPE_DETECT => 0
  | TSK_VS_TYPE_DOS => 1
  | TSK_VS_TYPE_BSD => 2
  | TSK_VS_TYPE_SUN => 4
  | TSK_VS_TYPE_MAC => 8
  | TSK_VS_TYPE_GPT => 16
  | TSK_VS_TYPE_UNSUPP => 65535

/-- The outcome of one opener: the handle (or NULL) and the error channel it leaves. -/
abbrev OpenResult (H : Type) := Option H × TskError

/-- The five type-specific openers, over images `I` and handles `H`. Each takes the image,
the offset (the DOS opener also its `test` flag) and the error channel before the call. -/
structure VsOpeners (I H : Type) where
  tsk_vs_dos_open : I → Nat → Nat → TskError → OpenResult H
  tsk_vs_bsd_open : I → Nat → TskError → OpenResult H
  tsk_vs_gpt_open : I → Nat → TskError → OpenResult H
  tsk_vs_sun_open : I → Nat → TskError → OpenResult H
  tsk_vs_mac_open : I → Nat → TskError → OpenResult H

/-- What `tsk_vs_open` leaves behind: the error channel and the handles on which
`close` has been called, in call order. -/
structure VsState (H : Type) where
  err : TskError
  closed : List H

/-- The local variables `set` and `vs_set` of the autodetect branch, with the state. -/
structure DetectState (H : Type) where
  set : Option String
  vs_set : Option H
  st : VsState H

/-- Lines 48-54: the DOS attempt (with the `test` flag 1). -/
def detect_dos {I H : Type} (o : VsOpeners I H) (img : I) (offset : Nat)
    (d : DetectState H) : DetectState H :=
  let r := o.tsk_vs_dos_open img offset 1 d.st.err
  match r.1 with
  | some vs => { set := some "DOS", vs_set := some vs, st := { d.st with err := r.2 } }
  | none => { d with st := { d.st with err := tsk_error_reset r.2 } }

/-- Lines 55-77: the BSD attempt; a success overwrites `set` and `vs_set`
unconditionally. -/
def detect_bsd {I H : Type} (o : VsOpeners I H) (img : I) (offset : Nat)
    (d : DetectState H) : DetectState H :=
  let r := o.tsk_vs_bsd_open img offset d.st.err
  match r.1 with
  | some vs => { set := some "BSD", vs_set := some vs, st := { d.st with err := r.2 } }
  | none => { d with st := { d.st with err := tsk_error_reset r.2 } }

/-- Lines 78-95, 97-114, 116-133: the common shape of the GPT, Sun and Mac attempts.
`Sum.inl` is the early `return NULL` of a conflict, `Sum.inr` continues. -/
def detect_exclusive {H : Type} (label : String) (offset : Nat)
    (r : OpenResult H) (d : DetectState H) : VsState H ⊕ DetectState H :=
  match r.1 with
  | some vs =>
    match d.set with
    | none => Sum.inr { set := some label, vs_set := some vs, st := { d.st with err := r.2 } }
    | some set =>
      Sum.inl
        { err :=
            { tsk_error_reset r.2 with
              tsk_errno := TSK_ERR_ENUM.VS_UNKTYPE
              tsk_errstr := label ++ " or " ++ set ++ " at " ++ toString offset }
          closed := d.st.closed ++ d.vs_set.toList ++ [vs] }
  | none => Sum.inr { d with st := { d.st with err := tsk_error_reset r.2 } }

/-- Lines 44-142: autodetection. -/
def tsk_vs_open_detect {I H : Type} (o : VsOpeners I H) (img : I) (offset : Nat)
    (st : VsState H) : Option H × VsState H :=
  let d0 : DetectState H := { set := none, vs_set := none, st := st }
  let d1 := detect_dos o img offset d0
  let d2 := detect_bsd o img offset d1
  match detect_exclusive "GPT" offset (o.tsk_vs_gpt_open img offset d2.st.err) d2 with
  | Sum.inl s => (none, s)
  | Sum.inr d3 =>
    match detect_exclusive "Sun" offset (o.tsk_vs_sun_open img offset d3.st.err) d3 with
    | Sum.inl s => (none, s)
    | Sum.inr d4 =>
      match detect_exclusive "Mac" offset (o.tsk_vs_mac_open img offset d4.st.err) d4 with
      | Sum.inl s => (none, s)
      | Sum.inr d5 =>
        match d5.vs_set with
        | none =>
          (none, { d5.st with
                   err := { tsk_error_reset d5.st.err with
                            tsk_errno := TSK_ERR_ENUM.VS_UNKTYPE } })
        | some vs => (some vs, d5.st)

/-- The function `tsk_vs_open` (lines 33-164). -/
def tsk_vs_open {I H : Type} (o : VsOpeners I H) (img : I) (offset : Nat)
    (type : TSK_VS_TYPE_ENUM) (st : VsState H) : Option H × VsState H :=
  match type with
  | TSK_VS_TYPE_ENUM.TSK_VS_TYPE_DETECT => tsk_vs_open_detect o img offset st
  | TSK_VS_TYPE_ENUM.TSK_VS_TYPE_DOS =>
    let r := o.tsk_vs_dos_open img offset 0 st.err
    (r.1, { st with err := r.2 })
  | TSK_VS_TYPE_ENUM.TSK_VS_TYPE_MAC =>
    let r := o.tsk_vs_mac_open img offset st.err
    (r.1, { st with err := r.2 })
  | TSK_VS_TYPE_ENUM.TSK_VS_TYPE_BSD =>
    let r := o.tsk_vs_bsd_open img offset st.err
    (r.1, { st with err := r.2 })
  | TSK_VS_TYPE_ENUM.TSK_VS_TYPE_SUN =>
    let r := o.tsk_vs_sun_open img offset st.err
    (r.1, { st with err := r.2 })
  | TSK_VS_TYPE_ENUM.TSK_VS_TYPE_GPT =>
    let r := o.tsk_vs_gpt_open img offset st.err
    (r.1, { st with err := r.2 })
  | TSK_VS_TYPE_ENUM.TSK_VS_TYPE_UNSUPP =>
    (none, { st with
             err := { tsk_error_reset st.err with
                      tsk_errno := TSK_ERR_ENUM.VS_UNSUPTYPE
                      tsk_errstr := toString type.code } })

/-! ## File-system data model -/

/-- The file-system type tag. -/
inductive TSK_FS_TYPE_ENUM
  | NTFS
  | FAT12
  | FAT16
  | FAT32
  | FFS1
  | FFS1B
  | FFS2
  | EXT2
  | EXT3
  | SWAP
  | RAW
  | ISO9660
  | HFS
  | UNSUPP
  deriving DecidableEq

/-- Modelled from the spec: the family test `TSK_FS_TYPE_ISNTFS` (a header macro that is
not part of the sources at hand). -/
def TSK_FS_TYPE_ISNTFS : TSK_FS_TYPE_ENUM → Bool
  | TSK_FS_TYPE_ENUM.NTFS => true
  | _ => false

/-- Modelled from the spec: the family test `TSK_FS_TYPE_ISFAT` (header macro). -/
def TSK_FS_TYPE_ISFAT : TSK_FS_TYPE_ENUM → Bool
  | TSK_FS_TYPE_ENUM.FAT12 => true
  | TSK_FS_TYPE_ENUM.FAT16 => true
  | TSK_FS_TYPE_ENUM.FAT32 => true
  | _ => false

/-- Modelled from the spec: the family test `TSK_FS_TYPE_ISFFS` (header macro). -/
def TSK_FS_TYPE_ISFFS : TSK_FS_TYPE_ENUM → Bool
  | TSK_FS_TYPE_ENUM.FFS1 => true
  | TSK_FS_TYPE_ENUM.FFS1B => true
  | TSK_FS_TYPE_ENUM.FFS2 => true
  | _ => false

/-- Modelled from the spec: the family test `TSK_FS_TYPE_ISEXT` (header macro). -/
def TSK_FS_TYPE_ISEXT : TSK_FS_TYPE_ENUM → Bool
  | TSK_FS_TYPE_ENUM.EXT2 => true
  | TSK_FS_TYPE_ENUM.EXT3 => true
  | _ => false

/-- The type of a directory entry. -/
inductive TSK_FS_NAME_TYPE_ENUM
  | TSK_FS_NAME_TYPE_UNDEF
  | TSK_FS_NAME_TYPE_DIR
  | TSK_FS_NAME_TYPE_REG
  | TSK_FS_NAME_TYPE_LNK
  deriving DecidableEq

/-- The allocation flag of a directory entry. -/
inductive TSK_FS_NAME_FLAG_ENUM
  | TSK_FS_NAME_FLAG_ALLOC
  | TSK_FS_NAME_FLAG_UNALLOC
  deriving DecidableEq

/-- The type of a metadata entry. -/
inductive TSK_FS_META_TYPE_ENUM
  | TSK_FS_META_TYPE_UNDEF
  | TSK_FS_META_TYPE_REG
  | TSK_FS_META_TYPE_DIR
  | TSK_FS_META_TYPE_LNK
  | TSK_FS_META_TYPE_SPECIAL
  deriving DecidableEq

/-- A directory entry (name record). -/
structure TSK_FS_NAME where
  name : CStr
  shrt_name : CStr
  meta_addr : Nat
  type : TSK_FS_NAME_TYPE_ENUM
  flags : TSK_FS_NAME_FLAG_ENUM
  deriving DecidableEq

/-- The flags of a file walk that the embedded code sets. -/
structure WalkFlags where
  aonly : Bool
  slack : Bool
  deriving DecidableEq

/-- What the driver delivers in one file walk: the callbacks `(addr, size)` in order, and
whether the driver itself fails once they are delivered. -/
structure FileWalk where
  blocks : List (Nat × Nat)
  fails : Bool
  deriving DecidableEq

/-- An attribute (stream) of a metadata entry. `walk` is what `tsk_fs_file_walk_type`
delivers for this attribute under the given flags. -/
structure TSK_FS_ATTR where
  name : CStr
  type : Nat
  id : Nat
  nonres : Bool
  walk : WalkFlags → FileWalk

/-- A metadata entry. `attrs` lists what `tsk_fs_file_attr_get_idx` returns for
`0 .. tsk_fs_file_attr_getsize - 1` (NULL is `none`), `name2` the parent-name records
`(par_inode, name)`, `walk` what `tsk_fs_file_walk` delivers. -/
structure TSK_FS_META where
  addr : Nat
  type : TSK_FS_META_TYPE_ENUM
  alloc : Bool
  attrs : List (Option TSK_FS_ATTR)
  name2 : List (Nat × CStr)
  walk : WalkFlags → FileWalk

/-- A file as returned by `tsk_fs_dir_get`: the name record and the metadata (NULL when
it could not be loaded). -/
structure TSK_FS_FILE where
  name : TSK_FS_NAME
  meta : Option TSK_FS_META

/-- A directory container: entry `i` is what `tsk_fs_dir_get (dir, i)` returns (NULL is
`none`); the length is `tsk_fs_dir_getsize`. -/
structure TSK_FS_DIR where
  names : List (Option TSK_FS_FILE)

/-- The file-system handle with the driver operations the generic code calls.
`dir_open_meta` is `tsk_fs_dir_open_meta` (NULL is `none`); `inodes` are the metadata
entries in the order `inode_walk` visits them, `inode_walk_fails` tells whether the
driver's walk itself fails after the last entry; `block_get` is `tsk_fs_block_get`
(the flags of the block, or NULL). -/
structure TSK_FS_INFO where
  ftype : TSK_FS_TYPE_ENUM
  block_size : Nat
  first_inum : Nat
  last_inum : Nat
  root_inum : Nat
  dir_open_meta : Nat → Option TSK_FS_DIR
  inodes : List TSK_FS_META
  inode_walk_fails : Bool
  block_get : Nat → Option Nat

/-! ## Path resolver (`ifind_lib.c`, `tsk_fs_path2inum`) -/

/-- The C library `strcmp` on strings: zero exactly on equal strings, otherwise the sign of
the first difference. -/
def strcmp : CStr → CStr → Int
  | [], [] => 0
  | [], _ :: _ => -1
  | _ :: _, [] => 1
  | a :: as, b :: bs => if a = b then strcmp as bs else if a < b then -1 else 1

/-- The C library `strcasecmp`: `strcmp` after `tolower` on every character (ASCII case
folding). -/
def strcasecmp : CStr → CStr → Int
  | [], [] => 0
  | [], _ :: _ => -1
  | _ :: _, [] => 1
  | a :: as, b :: bs =>
    if a.toLower = b.toLower then strcasecmp as bs
    else if a.toLower < b.toLower then -1 else 1

/-- The tokens that the successive calls `strtok_r (.., "/", ..)` return: the maximal
non-empty runs of characters other than `/`. `cur` is the token being read. -/
def strtok_loop : List Char → CStr → List CStr
  | [], cur => if cur = [] then [] else [cur]
  | c :: cs, cur =>
    if c = '/' then
      if cur = [] then strtok_loop cs [] else cur :: strtok_loop cs []
    else strtok_loop cs (cur ++ [c])

/-- All tokens of a path. -/
def strtok_all (a_path : CStr) : List CStr := strtok_loop a_path []

/-- Lines 206-210 and 336-340: on NTFS a token is cut at its first `:` (found with
`strchr`) into the name and the attribute name. -/
def split_attr (ftype : TSK_FS_TYPE_ENUM) (tok : CStr) : CStr × Option CStr :=
  if TSK_FS_TYPE_ISNTFS ftype && tok.contains ':' then
    (tok.takeWhile (fun c => c != ':'), some ((tok.dropWhile (fun c => c != ':')).drop 1))
  else (tok, none)

/-- Lines 277-289: the loop over the attributes of the entry; `found_name` becomes 1 when
an attribute that could be fetched has the name looked for. -/
def attr_name_loop (cur_attr : CStr) : List (Option TSK_FS_ATTR) → Bool → Bool
  | [], found_name => found_name
  | none :: rest, found_name => attr_name_loop cur_attr rest found_name
  | some fs_attr :: rest, found_name =>
    if strcasecmp fs_attr.name cur_attr = 0 then attr_name_loop cur_attr rest true
    else attr_name_loop cur_attr rest found_name

/-- What the name check of one entry (lines 247-303) decides. -/
inductive NameCheck
  | found
  | no_match
  | attr_missing
  deriving DecidableEq

/-- Lines 247-303: is this entry the name looked for? `attr_missing` is the
`return 1` of line 299. -/
def check_name (ftype : TSK_FS_TYPE_ENUM) (fs_file : TSK_FS_FILE) (cur_dir : CStr)
    (cur_attr : Option CStr) : NameCheck :=
  if TSK_FS_TYPE_ISFFS ftype || TSK_FS_TYPE_ISEXT ftype then
    if strcmp fs_file.name.name cur_dir = 0 then NameCheck.found else NameCheck.no_match
  else if TSK_FS_TYPE_ISFAT ftype then
    if strcasecmp fs_file.name.name cur_dir = 0 then NameCheck.found
    else if strcasecmp fs_file.name.shrt_name cur_dir = 0 then NameCheck.found
    else NameCheck.no_match
  else if TSK_FS_TYPE_ISNTFS ftype then
    if strcasecmp fs_file.name.name cur_dir = 0 then
      match cur_attr with
      | none => NameCheck.found
      | some attr =>
        let found_name :=
          match fs_file.meta with
          | some m => attr_name_loop attr m.attrs false
          | none => false
        if found_name then NameCheck.found else NameCheck.attr_missing
    else NameCheck.no_match
  else NameCheck.no_match

/-- The resource events of a call: directories opened and closed (by metadata address),
entries fetched and closed (by directory address and index). -/
inductive Event
  | dir_open (addr : Nat)
  | dir_close (addr : Nat)
  | file_open (dir : Nat) (idx : Nat)
  | file_close (dir : Nat) (idx : Nat)
  deriving DecidableEq

/-- The observable outcome of `tsk_fs_path2inum`: the return value (-1, 0, 1), the
address written to `a_result`, the caller's name record after the call (when one was
passed), and the resource events in order. -/
structure Path2Inum where
  retval : Int
  a_result : Nat
  a_fs_name : Option TSK_FS_NAME
  events : List Event
  deriving DecidableEq

/-- How the `for` loop over the entries of one directory (lines 234-370) ends. -/
inductive DirScan
  | ret (retval : Int) (a_result : Nat) (name : Option TSK_FS_NAME) (events : List Event)
  | descend (next_meta : Nat) (events : List Event)
  | exhausted (events : List Event)
  deriving DecidableEq

/-- Lines 234-370: the loop over the entries, from index `i` on. `cur_dir`, `cur_attr`
are the name looked for, `next_tok` the result of the next `strtok_r` (NULL when the
name looked for is the last one), `a_fs_name` the caller's name record. -/
def dir_scan (ftype : TSK_FS_TYPE_ENUM) (dir_addr : Nat) (cur_dir : CStr)
    (cur_attr : Option CStr) (next_tok : Option CStr) (a_fs_name : Option TSK_FS_NAME) :
    List (Option TSK_FS_FILE) → Nat → List Event → DirScan
  | [], _, ev => DirScan.exhausted ev
  | none :: _, _, ev => DirScan.ret (-1) 0 a_fs_name ev
  | some fs_file :: rest, i, ev =>
    let ev1 := ev ++ [Event.file_open dir_addr i]
    match check_name ftype fs_file cur_dir cur_attr with
    | NameCheck.attr_missing => DirScan.ret 1 0 a_fs_name ev1
    | NameCheck.no_match =>
      dir_scan ftype dir_addr cur_dir cur_attr next_tok a_fs_name rest (i + 1)
        (ev1 ++ [Event.file_close dir_addr i])
    | NameCheck.found =>
      match next_tok with
      | none =>
        DirScan.ret 0 fs_file.name.meta_addr (a_fs_name.map (fun _ => fs_file.name)) ev1
      | some _ =>
        match fs_file.meta with
        | none => DirScan.ret 1 0 a_fs_name ev1
        | some m =>
          if m.type ≠ TSK_FS_META_TYPE_ENUM.TSK_FS_META_TYPE_DIR then
            DirScan.ret 1 0 a_fs_name ev1
          else
            DirScan.descend fs_file.name.meta_addr (ev1 ++ [Event.file_close dir_addr i])

/-- Lines 220-380: one iteration of the descent loop `while (1)`: open the directory
`next_meta`, search it for the token `tok` (the attribute is cut off first), close it.
`Sum.inl` is a return from inside the loop, `Sum.inr` carries the directory to open in
the next iteration. `next_tok` is the result of the next `strtok_r`. -/
def path_iter (fs : TSK_FS_INFO) (a_fs_name : Option TSK_FS_NAME) (tok : CStr)
    (next_tok : Option CStr) (next_meta : Nat) (ev : List Event) :
    Path2Inum ⊕ (Nat × List Event) :=
  match fs.dir_open_meta next_meta with
  | none => Sum.inl { retval := -1, a_result := 0, a_fs_name := a_fs_name, events := ev }
  | some fs_dir =>
    match dir_scan fs.ftype next_meta (split_attr fs.ftype tok).1 (split_attr fs.ftype tok).2
        next_tok a_fs_name fs_dir.names 0 (ev ++ [Event.dir_open next_meta]) with
    | DirScan.ret r a n e =>
      Sum.inl { retval := r, a_result := a, a_fs_name := n, events := e }
    | DirScan.exhausted e =>
      Sum.inl { retval := 1, a_result := 0, a_fs_name := a_fs_name
                events := e ++ [Event.dir_close next_meta] }
    | DirScan.descend nm e => Sum.inr (nm, e ++ [Event.dir_close next_meta])

/-- Lines 220-384: the descent loop. `tok` is the current token, the list holds the
tokens still to come, `next_meta` is the directory to open. Every iteration returns or
moves on to the next token; the `return 1` after the loop (line 383) is never reached. -/
def path_loop (fs : TSK_FS_INFO) (a_fs_name : Option TSK_FS_NAME) :
    List CStr → CStr → Nat → List Event → Path2Inum
  | [], tok, next_meta, ev =>
    match path_iter fs a_fs_name tok none next_meta ev with
    | Sum.inl r => r
    | Sum.inr (_, e) => { retval := 1, a_result := 0, a_fs_name := a_fs_name, events := e }
  | t :: ts, tok, next_meta, ev =>
    match path_iter fs a_fs_name tok (some t) next_meta ev with
    | Sum.inl r => r
    | Sum.inr (nm, e) => path_loop fs a_fs_name ts t nm e

/-- The function `tsk_fs_path2inum` (lines 163-384). `malloc_ok` tells whether the
`tsk_malloc` of the path copy (line 177) succeeds: when it fails the function returns
-1 with `*a_result` set to 0 (line 174) and nothing else done. `a_fs_name` is the
caller's name record (NULL when no copy is wanted). -/
def tsk_fs_path2inum : Bool → TSK_FS_INFO → CStr → Option TSK_FS_NAME → Path2Inum
  | false, _, _, a_fs_name =>
    { retval := -1, a_result := 0, a_fs_name := a_fs_name, events := [] }
  | true, fs, a_path, a_fs_name =>
    match strtok_all a_path with
    | [] =>
      { retval := 0
        a_result := fs.root_inum
        a_fs_name := a_fs_name.map (fun _ =>
          { name := []
            shrt_name := []
            meta_addr := fs.root_inum
            type := TSK_FS_NAME_TYPE_ENUM.TSK_FS_NAME_TYPE_DIR
            flags := TSK_FS_NAME_FLAG_ENUM.TSK_FS_NAME_FLAG_ALLOC })
        events := [] }
    | tok :: rest => path_loop fs a_fs_name rest tok fs.root_inum []

/-! ## Reverse block lookup (`ifind_lib.c`, `tsk_fs_ifind_data`) -/

/-- Modelled from the spec: the flag bit `ifind_all` of `TSK_FS_IFIND_FLAG_ENUM` (declared
in a header that is not part of the sources at hand). -/
def TSK_FS_IFIND_ALL : Nat := 1

/-- Modelled from the spec: the flag bit `metadata` of the block flags (declared in a
header that is not part of the sources at hand). -/
def TSK_FS_BLOCK_FLAG_META : Nat := 8

/-- The struct `IFIND_DATA_DATA` (lines 444-452). -/
structure IFIND_DATA_DATA where
  block : Nat
  flags : Nat
  found : Nat
  curinode : Nat
  curtype : Nat
  curid : Nat
  deriving DecidableEq

/-- One line written with `tsk_printf` by the reverse lookup: `"%PRIuINUM\n"`,
`"%PRIuINUM-%PRIu32-%PRIu16\n"`, `"Meta Data\n"`, `"Inode not found\n"`. -/
inductive OutLine
  | inode (addr : Nat)
  | attr (addr : Nat) (type : Nat) (id : Nat)
  | meta_data
  | inode_not_found
  deriving DecidableEq

/-- The state of a reverse lookup: the callback data, the lines printed so far, the
error channel, and the file walks requested so far (metadata address, attribute type
and id when the walk is of one attribute, and the walk flags). -/
structure IfindState where
  data : IFIND_DATA_DATA
  out : List OutLine
  err : TskError
  walks : List (Nat × Option (Nat × Nat) × WalkFlags)
  deriving DecidableEq

/-- The function `ifind_data_file_act` (lines 458-485), the file-walk callback for the
file systems other than NTFS. `size + block_size - 1` is computed in `size_t`, the sum
with `addr` in `TSK_DADDR_T`. -/
def ifind_data_file_act (fs : TSK_FS_INFO) (addr size : Nat) (s : IfindState) :
    TSK_WALK_RET_ENUM × IfindState :=
  if addr = 0 then (TSK_WALK_RET_ENUM.TSK_WALK_CONT, s)
  else if s.data.block ≥ addr ∧
      s.data.block <
        wrap64 (addr + sub64 (wrap64 (size + fs.block_size)) 1 / fs.block_size) then
    let s1 : IfindState :=
      { s with out := s.out ++ [OutLine.inode s.data.curinode]
               data := { s.data with found := 1 } }
    if s.data.flags &&& TSK_FS_IFIND_ALL = 0 then (TSK_WALK_RET_ENUM.TSK_WALK_STOP, s1)
    else (TSK_WALK_RET_ENUM.TSK_WALK_CONT, s1)
  else (TSK_WALK_RET_ENUM.TSK_WALK_CONT, s)

/-- The function `ifind_data_file_ntfs_act` (lines 492-509), the file-walk callback for
NTFS. -/
def ifind_data_file_ntfs_act (addr _size : Nat) (s : IfindState) :
    TSK_WALK_RET_ENUM × IfindState :=
  if addr = s.data.block then
    let s1 : IfindState :=
      { s with out := s.out ++ [OutLine.attr s.data.curinode s.data.curtype s.data.curid]
               data := { s.data with found := 1 } }
    if s.data.flags &&& TSK_FS_IFIND_ALL = 0 then (TSK_WALK_RET_ENUM.TSK_WALK_STOP, s1)
    else (TSK_WALK_RET_ENUM.TSK_WALK_CONT, s1)
  else (TSK_WALK_RET_ENUM.TSK_WALK_CONT, s)

/-- Modelled from the spec: the callback protocol of a file walk (`tsk_fs_file_walk` is
not part of the sources at hand). The action is called on every block in order; `stop`
ends the walk cleanly, `error` ends it with failure. -/
def walk_blocks (action : Nat → Nat → IfindState → TSK_WALK_RET_ENUM × IfindState) :
    List (Nat × Nat) → IfindState → TSK_WALK_RET_ENUM × IfindState
  | [], s => (TSK_WALK_RET_ENUM.TSK_WALK_CONT, s)
  | (addr, size) :: rest, s =>
    match action addr size s with
    | (TSK_WALK_RET_ENUM.TSK_WALK_CONT, s1) => walk_blocks action rest s1
    | (r, s1) => (r, s1)

/-- Modelled from the spec: `tsk_fs_file_walk` and `tsk_fs_file_walk_type` (not part of
the sources at hand) return 0 when the walk ran to its end or was stopped by the
callback, and 1 when the callback returned `error` or the driver failed; a failure
leaves an error in the error channel. -/
def tsk_fs_file_walk (w : FileWalk)
    (action : Nat → Nat → IfindState → TSK_WALK_RET_ENUM × IfindState) (s : IfindState) :
    Nat × IfindState :=
  match walk_blocks action w.blocks s with
  | (TSK_WALK_RET_ENUM.TSK_WALK_CONT, s1) =>
    if w.fails then
      (1, { s1 with err := { s1.err with tsk_errno := TSK_ERR_ENUM.FS_READ } })
    else (0, s1)
  | (TSK_WALK_RET_ENUM.TSK_WALK_STOP, s1) => (0, s1)
  | (TSK_WALK_RET_ENUM.TSK_WALK_ERROR, s1) =>
    (1, { s1 with err := { s1.err with tsk_errno := TSK_ERR_ENUM.FS_READ } })

/-- Lines 532-553: the loop over the attributes of an NTFS entry. -/
def ifind_data_attr_loop (addr : Nat) (file_flags : WalkFlags) :
    List (Option TSK_FS_ATTR) → IfindState → IfindState
  | [], s => s
  | none :: rest, s => ifind_data_attr_loop addr file_flags rest s
  | some fs_attr :: rest, s =>
    let s1 : IfindState :=
      { s with data := { s.data with curtype := fs_attr.type, curid := fs_attr.id } }
    if fs_attr.nonres then
      let s2 : IfindState :=
        { s1 with walks := s1.walks ++ [(addr, some (fs_attr.type, fs_attr.id), file_flags)] }
      match tsk_fs_file_walk (fs_attr.walk file_flags) ifind_data_file_ntfs_act s2 with
      | (0, s3) => ifind_data_attr_loop addr file_flags rest s3
      | (_, s3) =>
        ifind_data_attr_loop addr file_flags rest { s3 with err := tsk_error_reset s3.err }
    else ifind_data_attr_loop addr file_flags rest s1

/-- The function `ifind_data_act` (lines 518-586), the inode-walk callback. -/
def ifind_data_act (fs : TSK_FS_INFO) (m : TSK_FS_META) (s : IfindState) :
    TSK_WALK_RET_ENUM × IfindState :=
  let s0 : IfindState := { s with data := { s.data with curinode := m.addr } }
  if TSK_FS_TYPE_ISNTFS fs.ftype then
    (TSK_WALK_RET_ENUM.TSK_WALK_CONT,
      ifind_data_attr_loop m.addr { aonly := true, slack := true } m.attrs s0)
  else
    let file_flags : WalkFlags :=
      if TSK_FS_TYPE_ISFAT fs.ftype then { aonly := true, slack := true }
      else { aonly := true, slack := false }
    let s1 : IfindState := { s0 with walks := s0.walks ++ [(m.addr, none, file_flags)] }
    match tsk_fs_file_walk (m.walk file_flags) (ifind_data_file_act fs) s1 with
    | (0, s2) => (TSK_WALK_RET_ENUM.TSK_WALK_CONT, s2)
    | (_, s2) => (TSK_WALK_RET_ENUM.TSK_WALK_CONT, { s2 with err := tsk_error_reset s2.err })

/-- Modelled from the spec: the callback protocol of `fs->inode_walk` (a driver
operation). The action is called on every entry in order; `stop` ends the walk with
return value 0, `error` with return value 1; after the last entry the walk returns 1
when the driver itself failed. -/
def inode_walk_loop (action : TSK_FS_META → IfindState → TSK_WALK_RET_ENUM × IfindState)
    (walk_fails : Bool) : List TSK_FS_META → IfindState → Nat × IfindState
  | [], s => (if walk_fails then 1 else 0, s)
  | m :: rest, s =>
    match action m s with
    | (TSK_WALK_RET_ENUM.TSK_WALK_CONT, s1) => inode_walk_loop action walk_fails rest s1
    | (TSK_WALK_RET_ENUM.TSK_WALK_STOP, s1) => (0, s1)
    | (TSK_WALK_RET_ENUM.TSK_WALK_ERROR, s1) => (1, s1)

/-- Modelled from the spec: `fs->inode_walk (fs, first, last, flags, action, ptr)` visits
the entries with address in `[first, last]` whose allocation state is selected by the
flags (`alloc`, `unalloc`), in the driver's order. -/
def inode_walk (fs : TSK_FS_INFO) (first last : Nat) (alloc unalloc : Bool)
    (action : TSK_FS_META → IfindState → TSK_WALK_RET_ENUM × IfindState) (s : IfindState) :
    Nat × IfindState :=
  inode_walk_loop action fs.inode_walk_fails
    (fs.inodes.filter (fun m =>
      decide (first ≤ m.addr) && decide (m.addr ≤ last) &&
        ((m.alloc && alloc) || (!m.alloc && unalloc)))) s

/-- The function `tsk_fs_ifind_data` (lines 594-630). `err` is the error channel before
the call. Returns the return value (0 or 1) and the final state. -/
def tsk_fs_ifind_data (fs : TSK_FS_INFO) (lclflags : Nat) (blk : Nat) (err : TskError) :
    Nat × IfindState :=
  let s0 : IfindState :=
    { data := { block := blk, flags := lclflags, found := 0, curinode := 0, curtype := 0
                curid := 0 }
      out := [], err := err, walks := [] }
  match inode_walk fs fs.first_inum fs.last_inum true true (ifind_data_act fs) s0 with
  | (0, s) =>
    let s1 : IfindState :=
      if s.data.found = 0 then
        match fs.block_get blk with
        | some flags =>
          if flags &&& TSK_FS_BLOCK_FLAG_META ≠ 0 then
            { s with out := s.out ++ [OutLine.meta_data], data := { s.data with found := 1 } }
          else s
        | none => s
      else s
    let s2 : IfindState :=
      if s1.data.found = 0 then { s1 with out := s1.out ++ [OutLine.inode_not_found] }
      else s1
    (0, s2)
  | (_, s) => (1, s)

/-! ## ISO9660 directory parser (`iso9660_dent.c`, `iso9660_proc_dir`) -/

/-- Modelled from the spec: `sizeof (iso9660_dentry)`, the size of the fixed part of a
directory record (the struct is declared in a header that is not part of the sources at
hand; ECMA-119 section 9.1 fixes the layout: 33 bytes before the file identifier). -/
def DENTRY_SIZE : Nat := 33

/-- Modelled from the spec: the offset of the field `ext_loc_m` (location of extent,
most significant byte first) in a directory record. -/
def EXT_LOC_M_OFF : Nat := 6

/-- Modelled from the spec: the offset of the field `flags` in a directory record. -/
def FLAGS_OFF : Nat := 25

/-- Modelled from the spec: the directory bit `ISO9660_FLAG_DIR` of a record's flags. -/
def ISO9660_FLAG_DIR : Nat := 2

/-- Modelled from the spec: the macro `TSK_IS_CNTRL` (control bytes are the bytes below
0x20). -/
def TSK_IS_CNTRL (c : Char) : Bool := decide (c.toNat < 32)

/-- Modelled from the spec: the macro `tsk_getu32` reads four bytes in the byte order of
the file system (`big = true`: most significant byte first). -/
def tsk_getu32 (big : Bool) (b : List Nat) : Nat :=
  if big then b.foldl (fun acc x => acc * 256 + x) 0
  else b.foldr (fun x acc => acc * 256 + x) 0

/-- An element of the master inode list `iso->in_list`: the extent location bytes
`inode.dr.ext_loc_m`, the file name `inode.fn`, and the metadata address `inum`. -/
structure iso9660_inode_node where
  ext_loc_m : List Nat
  fn : CStr
  inum : Nat
  deriving DecidableEq

/-- The part of `ISO_INFO` that the parser reads: the byte order and the master list. -/
structure ISO_INFO where
  big_endian : Bool
  in_list : List iso9660_inode_node
  deriving DecidableEq

/-- The outcome of the parser: a return with the directory container as it is then, or a
read outside the buffer (where the C code has no defined behaviour). -/
inductive ProcResult
  | ret (retval : TSK_RETVAL_ENUM) (names : List TSK_FS_NAME)
  | out_of_bounds (names : List TSK_FS_NAME)
  deriving DecidableEq

/-- The state of the scan: the offset of `dd` in the buffer, the remaining `length`, and
the entries added to `a_fs_dir`. -/
structure ProcState where
  pos : Nat
  length : Nat
  names : List TSK_FS_NAME
  deriving DecidableEq

/-- The four bytes of a field at offset `off`, if they lie in the buffer. -/
def read4 (buf : List Nat) (off : Nat) : Option (List Nat) :=
  match buf.get? off, buf.get? (off + 1), buf.get? (off + 2), buf.get? (off + 3) with
  | some a, some b, some c, some d => some [a, b, c, d]
  | _, _, _, _ => none

/-- Lines 104-108 and 127-133: the linear search of the master list for the node whose
extent location equals `ext`. -/
def find_inode (big : Bool) (ext : Nat) : List iso9660_inode_node → Option iso9660_inode_node
  | [] => none
  | n :: rest => if tsk_getu32 big n.ext_loc_m ≠ ext then find_inode big ext rest else some n

/-- The search of the master list for the record at `pos`; the record's `ext_loc_m` is
read only when the list is not empty. `none` is a read outside the buffer. -/
def lookup_record (iso : ISO_INFO) (buf : List Nat) (pos : Nat) :
    Option (Option iso9660_inode_node) :=
  match iso.in_list with
  | [] => some none
  | _ :: _ =>
    match read4 buf (pos + EXT_LOC_M_OFF) with
    | none => none
    | some ext => some (find_inode iso.big_endian (tsk_getu32 iso.big_endian ext) iso.in_list)

/-- Lines 145-153: the name of an entry, `strncpy` of at most `maxnamlen` bytes
(`ISO9660_MAXNAMLEN`) followed by the replacement of control bytes by `^`. -/
def clean_name (maxnamlen : Nat) (fn : CStr) : CStr :=
  (fn.take maxnamlen).map (fun c => if TSK_IS_CNTRL c then '^' else c)

/-- Modelled from the spec: `tsk_fs_dir_add` (not part of the sources at hand) appends a
copy of the entry to the directory container. -/
def tsk_fs_dir_add (names : List TSK_FS_NAME) (fs_name : TSK_FS_NAME) : List TSK_FS_NAME :=
  names ++ [fs_name]

/-- Lines 174-178: `while ((*a == 0) && (a != b)) a++;` with `n = b - a` bytes to go. The
byte at `a` is read before `a` is compared with `b`. `none` is a read outside the
buffer. -/
def zero_scan (buf : List Nat) : Nat → Nat → Option Nat
  | a, 0 =>
    match buf.get? a with
    | none => none
    | some _ => some a
  | a, n + 1 =>
    match buf.get? a with
    | none => none
    | some x => if x = 0 then zero_scan buf (a + 1) n else some a

/-- One iteration of the loop of lines 122-186, for a state with
`length > sizeof (iso9660_dentry)`. `Sum.inl` is a return from inside the loop. -/
def proc_step (iso : ISO_INFO) (maxnamlen : Nat) (buf : List Nat) (s : ProcState) :
    ProcResult ⊕ ProcState :=
  match buf.get? s.pos with
  | none => Sum.inl (ProcResult.out_of_bounds s.names)
  | some entry_len =>
    if entry_len ≠ 0 then
      match lookup_record iso buf s.pos with
      | none => Sum.inl (ProcResult.out_of_bounds s.names)
      | some none => Sum.inl (ProcResult.ret TSK_RETVAL_ENUM.TSK_COR s.names)
      | some (some node) =>
        match buf.get? (s.pos + FLAGS_OFF) with
        | none => Sum.inl (ProcResult.out_of_bounds s.names)
        | some flags =>
          let fs_name : TSK_FS_NAME :=
            { name := clean_name maxnamlen node.fn
              shrt_name := []
              meta_addr := node.inum
              type :=
                if flags &&& ISO9660_FLAG_DIR ≠ 0 then
                  TSK_FS_NAME_TYPE_ENUM.TSK_FS_NAME_TYPE_DIR
                else TSK_FS_NAME_TYPE_ENUM.TSK_FS_NAME_TYPE_REG
              flags := TSK_FS_NAME_FLAG_ENUM.TSK_FS_NAME_FLAG_ALLOC }
          Sum.inr
            { pos := s.pos + entry_len
              length := sub64 s.length entry_len
              names := tsk_fs_dir_add s.names fs_name }
    else
      match zero_scan buf s.pos DENTRY_SIZE with
      | none => Sum.inl (ProcResult.out_of_bounds s.names)
      | some a =>
        if a ≠ s.pos + DENTRY_SIZE then
          Sum.inr
            { pos := s.pos + (DENTRY_SIZE - (s.pos + DENTRY_SIZE - a))
              length := wrap64 (sub64 s.length DENTRY_SIZE + (s.pos + DENTRY_SIZE - a))
              names := s.names }
        else Sum.inr { s with length := sub64 s.length DENTRY_SIZE }

/-- Lines 122-186: the loop `while (length > sizeof (iso9660_dentry))`, with a bound on
the number of iterations (`none`: the bound was reached). -/
def proc_loop (iso : ISO_INFO) (maxnamlen : Nat) (buf : List Nat) :
    Nat → ProcState → Option ProcResult
  | 0, _ => none
  | fuel + 1, s =>
    if s.length > DENTRY_SIZE then
      match proc_step iso maxnamlen buf s with
      | Sum.inl r => some r
      | Sum.inr s1 => proc_loop iso maxnamlen buf fuel s1
    else some (ProcResult.ret TSK_RETVAL_ENUM.TSK_OK s.names)

/-- Lines 90-119: the entries `.` and `..`. `Sum.inl` is a read outside the buffer. -/
def proc_dots (iso : ISO_INFO) (buf : List Nat) (length : Nat) (a_addr : Nat)
    (names : List TSK_FS_NAME) : ProcResult ⊕ ProcState :=
  let dot : TSK_FS_NAME :=
    { name := ['.'], shrt_name := [], meta_addr := a_addr
      type := TSK_FS_NAME_TYPE_ENUM.TSK_FS_NAME_TYPE_DIR
      flags := TSK_FS_NAME_FLAG_ENUM.TSK_FS_NAME_FLAG_ALLOC }
  let names1 := tsk_fs_dir_add names dot
  match buf.get? 0 with
  | none => Sum.inl (ProcResult.out_of_bounds names1)
  | some len0 =>
    let length1 := sub64 length len0
    let pos1 := len0
    match lookup_record iso buf pos1 with
    | none => Sum.inl (ProcResult.out_of_bounds names1)
    | some found =>
      let names2 :=
        match found with
        | some node =>
          tsk_fs_dir_add names1
            { name := ['.', '.'], shrt_name := [], meta_addr := node.inum
              type := TSK_FS_NAME_TYPE_ENUM.TSK_FS_NAME_TYPE_DIR
              flags := TSK_FS_NAME_FLAG_ENUM.TSK_FS_NAME_FLAG_ALLOC }
        | none => names1
      match buf.get? pos1 with
      | none => Sum.inl (ProcResult.out_of_bounds names2)
      | some len1 =>
        Sum.inr { pos := pos1 + len1, length := sub64 length1 len1, names := names2 }

/-- The function `iso9660_proc_dir` (lines 77-191). `alloc_ok` tells whether
`tsk_fs_name_alloc` succeeds, `names` is the content of `a_fs_dir` before the call,
`fuel` bounds the number of loop iterations (`none`: the bound was reached). -/
def iso9660_proc_dir (iso : ISO_INFO) (maxnamlen : Nat) (alloc_ok : Bool)
    (names : List TSK_FS_NAME) (buf : List Nat) (length : Nat) (a_addr : Nat) (fuel : Nat) :
    Option ProcResult :=
  if !alloc_ok then some (ProcResult.ret TSK_RETVAL_ENUM.TSK_ERR names)
  else
    match proc_dots iso buf length a_addr names with
    | Sum.inl r => some r
    | Sum.inr s => proc_loop iso maxnamlen buf fuel s

/-- The events of fetching and closing the `n` entries from index `i` on. -/
def skip_events (dir : Nat) : Nat → Nat → List Event
  | _, 0 => []
  | i, n + 1 => Event.file_open dir i :: Event.file_close dir i :: skip_events dir (i + 1) n


/-! ## Example inputs -/

/-- The error channel with no error. -/
def no_error : TskError := { tsk_errno := TSK_ERR_ENUM.NONE, tsk_errstr := "", tsk_errstr2 := "" }

/-- An opener that succeeds with the handle `h` and leaves the error channel alone. -/
def opener_ok (h : String) (e : TskError) : OpenResult String := (some h, e)

/-- An opener that fails and leaves a read error. -/
def opener_fail (e : TskError) : OpenResult String :=
  (none, { e with tsk_errno := TSK_ERR_ENUM.FS_READ })

/-- Example: an image whose first sector carries a BSD disk label with the DOS magic. -/
def bsd_label_openers : VsOpeners Unit String :=
  { tsk_vs_dos_open := fun _ _ _ => opener_ok "dos"
    tsk_vs_bsd_open := fun _ _ => opener_ok "bsd"
    tsk_vs_gpt_open := fun _ _ => opener_fail
    tsk_vs_sun_open := fun _ _ => opener_fail
    tsk_vs_mac_open := fun _ _ => opener_fail }

/-- Example: an image on which the GPT and the Sun openers succeed. -/
def gpt_sun_openers : VsOpeners Unit String :=
  { tsk_vs_dos_open := fun _ _ _ => opener_fail
    tsk_vs_bsd_open := fun _ _ => opener_fail
    tsk_vs_gpt_open := fun _ _ => opener_ok "gpt"
    tsk_vs_sun_open := fun _ _ => opener_ok "sun"
    tsk_vs_mac_open := fun _ _ => opener_fail }

/-- A walk that delivers nothing. -/
def empty_walk (_f : WalkFlags) : FileWalk := { blocks := [], fails := false }

/-- An attribute with a name, of type 128 (`$DATA`). -/
def data_attr (name : String) (id : Nat) : TSK_FS_ATTR :=
  { name := name.toList, type := 128, id := id, nonres := true, walk := empty_walk }

/-- A directory entry with metadata of the given type and attributes. -/
def mk_file (name shrt : String) (addr : Nat) (type : TSK_FS_META_TYPE_ENUM)
    (attrs : List (Option TSK_FS_ATTR)) : TSK_FS_FILE :=
  { name :=
      { name := name.toList, shrt_name := shrt.toList, meta_addr := addr
        type :=
          if type = TSK_FS_META_TYPE_ENUM.TSK_FS_META_TYPE_DIR then
            TSK_FS_NAME_TYPE_ENUM.TSK_FS_NAME_TYPE_DIR
          else TSK_FS_NAME_TYPE_ENUM.TSK_FS_NAME_TYPE_REG
        flags := TSK_FS_NAME_FLAG_ENUM.TSK_FS_NAME_FLAG_ALLOC }
    meta := some { addr := addr, type := type, alloc := true, attrs := attrs, name2 := []
                   walk := empty_walk } }

/-- A file-system handle with the given type, root address 5 and directories. -/
def mk_fs (ftype : TSK_FS_TYPE_ENUM) (dirs : Nat → Option TSK_FS_DIR) : TSK_FS_INFO :=
  { ftype := ftype, block_size := 512, first_inum := 0, last_inum := 1000, root_inum := 5
    dir_open_meta := dirs, inodes := [], inode_walk_fails := false
    block_get := fun _ => none }

/-- Example: the entry `bob.txt` of the directory `users`. -/
def bob_file : TSK_FS_FILE :=
  mk_file "bob.txt" "" 63 TSK_FS_META_TYPE_ENUM.TSK_FS_META_TYPE_REG [some (data_attr "$Data" 1)]

/-- Example: the entry `alice.txt` with the default stream and the stream `notes`. -/
def alice_file : TSK_FS_FILE :=
  mk_file "alice.txt" "" 64 TSK_FS_META_TYPE_ENUM.TSK_FS_META_TYPE_REG
    [some (data_attr "$Data" 1), some (data_attr "notes" 3)]

/-- Example: a later entry `ALICE.TXT` that carries a stream `missing`. -/
def alice_upper_file : TSK_FS_FILE :=
  mk_file "ALICE.TXT" "" 65 TSK_FS_META_TYPE_ENUM.TSK_FS_META_TYPE_REG
    [some (data_attr "missing" 2)]

/-- Example: an NTFS file system with `/users/bob.txt`, `/users/alice.txt` and
`/users/ALICE.TXT`. -/
def ntfs_fs : TSK_FS_INFO :=
  mk_fs TSK_FS_TYPE_ENUM.NTFS (fun a =>
    if a = 5 then
      some { names := [some (mk_file "users" "" 30 TSK_FS_META_TYPE_ENUM.TSK_FS_META_TYPE_DIR [])] }
    else if a = 30 then
      some { names := [some bob_file, some alice_file, some alice_upper_file] }
    else none)

/-- Example: the FAT entry `LongFileName.TXT` with the alias `LONGFI~1.TXT`. -/
def long_file : TSK_FS_FILE :=
  mk_file "LongFileName.TXT" "LONGFI~1.TXT" 7 TSK_FS_META_TYPE_ENUM.TSK_FS_META_TYPE_REG []

/-- Example: the FAT entry `README.TXT`. -/
def readme_file : TSK_FS_FILE :=
  mk_file "README.TXT" "README.TXT" 3 TSK_FS_META_TYPE_ENUM.TSK_FS_META_TYPE_REG []

/-- Example: a FAT file system whose root holds `README.TXT` and `LongFileName.TXT`. -/
def fat_fs : TSK_FS_INFO :=
  mk_fs TSK_FS_TYPE_ENUM.FAT16 (fun a =>
    if a = 5 then some { names := [some readme_file, some long_file] } else none)

/-- Example: an ISO9660 file system whose root holds `README;1` at address 7. -/
def iso_fs : TSK_FS_INFO :=
  mk_fs TSK_FS_TYPE_ENUM.ISO9660 (fun a =>
    if a = 5 then
      some { names := [some (mk_file "README;1" "" 7
        TSK_FS_META_TYPE_ENUM.TSK_FS_META_TYPE_REG [])] }
    else none)

/-- Example: the ext entry `lost+found`, a directory. -/
def lost_found_file : TSK_FS_FILE :=
  mk_file "lost+found" "" 11 TSK_FS_META_TYPE_ENUM.TSK_FS_META_TYPE_DIR []

/-- Example: the ext entry `notes.txt`, a regular file. -/
def notes_file : TSK_FS_FILE :=
  mk_file "notes.txt" "" 12 TSK_FS_META_TYPE_ENUM.TSK_FS_META_TYPE_REG []

/-- Example: an ext file system whose root holds `lost+found` and `notes.txt`. -/
def ext_fs : TSK_FS_INFO :=
  mk_fs TSK_FS_TYPE_ENUM.EXT3 (fun a =>
    if a = 5 then some { names := [some lost_found_file, some notes_file] } else none)

/-- The state of a reverse lookup of block `blk` with flags `flags` before any callback,
with `curinode`, `curtype`, `curid` set as when the attribute `type`-`id` of the entry
`inode` is walked. -/
def ifind_state (blk flags inode type id : Nat) : IfindState :=
  { data := { block := blk, flags := flags, found := 0, curinode := inode, curtype := type
              curid := id }
    out := [], err := no_error, walks := [] }

/-- A metadata entry whose only content is the block run given. -/
def mk_meta (addr : Nat) (blocks : List (Nat × Nat)) : TSK_FS_META :=
  { addr := addr, type := TSK_FS_META_TYPE_ENUM.TSK_FS_META_TYPE_REG, alloc := true
    attrs := [], name2 := [], walk := fun _ => { blocks := blocks, fails := false } }

/-- Example: an ext file system with block size 1024 in which the entries 5 and 9 both
cover block 100 (entry 9 also block 101), and entry 7 covers block 200. -/
def shared_block_fs : TSK_FS_INFO :=
  { ftype := TSK_FS_TYPE_ENUM.EXT3, block_size := 1024, first_inum := 1, last_inum := 20
    root_inum := 2, dir_open_meta := fun _ => none
    inodes := [mk_meta 5 [(100, 1024)], mk_meta 7 [(200, 1024)],
      mk_meta 9 [(100, 1024), (101, 1024)]]
    inode_walk_fails := false, block_get := fun _ => none }

/-- Example: an NTFS file system in which the attribute 128-3 of entry 9 is non-resident
and starts with a sparse run, delivered by the walk with disk address 0. -/
def sparse_ntfs_fs : TSK_FS_INFO :=
  { ftype := TSK_FS_TYPE_ENUM.NTFS, block_size := 4096, first_inum := 0, last_inum := 20
    root_inum := 5, dir_open_meta := fun _ => none
    inodes :=
      [{ addr := 9, type := TSK_FS_META_TYPE_ENUM.TSK_FS_META_TYPE_REG, alloc := true
         attrs := [some { name := "$Data".toList, type := 128, id := 3, nonres := true
                          walk := fun _ => { blocks := [(0, 4096), (700, 4096)]
                                             fails := false } }]
         name2 := [], walk := empty_walk }]
    inode_walk_fails := false, block_get := fun _ => some TSK_FS_BLOCK_FLAG_META }

/-- The four bytes of a 32-bit value, most significant byte first. -/
def be32 (n : Nat) : List Nat := [n / 16777216 % 256, n / 65536 % 256, n / 256 % 256, n % 256]

/-- A directory record of `entry_len` bytes in the layout of ECMA-119 section 9.1: record
length, extended attribute length, extent location (both byte orders), data length (both
byte orders), recording time, flags, unit size, gap size, volume sequence number, length
of the file identifier, the file identifier, zero padding. -/
def dir_record (entry_len ext_loc flags : Nat) (fi : List Nat) : List Nat :=
  (([entry_len, 0] ++ (be32 ext_loc).reverse ++ be32 ext_loc ++ List.replicate 8 0 ++
    List.replicate 7 0 ++ [flags, 0, 0, 1, 0, 0, 1, fi.length] ++ fi) ++
    List.replicate entry_len 0).take entry_len

/-- Example: a master inode list with the root directory (extent 18, address 0), the
directory `DOCS` (extent 20, address 3) and the file `README;1` (extent 5, address 7). -/
def hole_iso : ISO_INFO :=
  { big_endian := true
    in_list := [{ ext_loc_m := be32 18, fn := [], inum := 0 },
      { ext_loc_m := be32 20, fn := "DOCS".toList, inum := 3 },
      { ext_loc_m := be32 5, fn := "README;1".toList, inum := 7 }] }

/-- Example: the extent of the directory `DOCS`: the record `.` (34 bytes), the record
`..` (34 bytes), a hole of `n` zero bytes, the record of `README;1` (50 bytes, extent 5,
directory flag clear), and `t` trailing zero bytes. -/
def hole_dir_buf (n t : Nat) : List Nat :=
  dir_record 34 20 2 [0] ++ dir_record 34 18 2 [1] ++ List.replicate n 0 ++
    dir_record 50 5 0 ("README;1".toList.map Char.toNat) ++ List.replicate t 0

/-- The entry `.` of the directory at address `a`. -/
def dot_entry (a : Nat) : TSK_FS_NAME :=
  { name := ['.'], shrt_name := [], meta_addr := a
    type := TSK_FS_NAME_TYPE_ENUM.TSK_FS_NAME_TYPE_DIR
    flags := TSK_FS_NAME_FLAG_ENUM.TSK_FS_NAME_FLAG_ALLOC }

/-- The entry `..` referring to the directory at address `a`. -/
def dotdot_entry (a : Nat) : TSK_FS_NAME :=
  { name := ['.', '.'], shrt_name := [], meta_addr := a
    type := TSK_FS_NAME_TYPE_ENUM.TSK_FS_NAME_TYPE_DIR
    flags := TSK_FS_NAME_FLAG_ENUM.TSK_FS_NAME_FLAG_ALLOC }

/-- The entry of the regular file `README;1` at address 7. -/
def readme_entry : TSK_FS_NAME :=
  { name := "README;1".toList, shrt_name := [], meta_addr := 7
    type := TSK_FS_NAME_TYPE_ENUM.TSK_FS_NAME_TYPE_REG
    flags := TSK_FS_NAME_FLAG_ENUM.TSK_FS_NAME_FLAG_ALLOC }

/-! ## Path resolver: trace projections and the comparison rule in the words of the
specification -/

/-- The directories opened by a call, in the order of opening. -/
def opened_dirs : List Event → List Nat
  | [] => []
  | Event.dir_open a :: rest => a :: opened_dirs rest
  | Event.dir_close _ :: rest => opened_dirs rest
  | Event.file_open _ _ :: rest => opened_dirs rest
  | Event.file_close _ _ :: rest => opened_dirs rest

/-- The events with which the loop over the entries of a directory ends. -/
def DirScan.events : DirScan → List Event
  | DirScan.ret _ _ _ e => e
  | DirScan.descend _ e => e
  | DirScan.exhausted e => e

/-- The comparison rule of the specification (section 4.3, table of per-file-system
rules), in its words: FAT matches the long or the short name ignoring case, NTFS the
primary name ignoring case, every other family (UFS/FFS, ext, ISO9660) the primary name
exactly. -/
def spec_name_match (ftype : TSK_FS_TYPE_ENUM) (n : TSK_FS_NAME) (tok : CStr) : Bool :=
  if TSK_FS_TYPE_ISFAT ftype then
    decide (n.name.map Char.toLower = tok.map Char.toLower) ||
      decide (n.shrt_name.map Char.toLower = tok.map Char.toLower)
  else if TSK_FS_TYPE_ISNTFS ftype then
    decide (n.name.map Char.toLower = tok.map Char.toLower)
  else decide (n.name = tok)

/-- The ways in which the search of the directory `d` for the token `tok` ends a call of
`tsk_fs_path2inum`, with the return value and the address written to the result:
the directory cannot be opened; an entry cannot be fetched; no entry matches; the first
entry with the name lacks the attribute; the first matching entry is the target; the
first matching entry cannot be descended into. `next_tok` is the token after `tok`. -/
inductive StopsAt (fs : TSK_FS_INFO) (tok : CStr) (next_tok : Option CStr) (d : Nat) :
    Int → Nat → Prop
  | open_failed : fs.dir_open_meta d = none → StopsAt fs tok next_tok d (-1) 0
  | fetch_failed (dir : TSK_FS_DIR) (pre : List TSK_FS_FILE)
      (post : List (Option TSK_FS_FILE)) :
      fs.dir_open_meta d = some dir → dir.names = pre.map some ++ none :: post →
      (∀ f ∈ pre, check_name fs.ftype f (split_attr fs.ftype tok).1
        (split_attr fs.ftype tok).2 = NameCheck.no_match) →
      StopsAt fs tok next_tok d (-1) 0
  | name_missing (dir : TSK_FS_DIR) (pre : List TSK_FS_FILE) :
      fs.dir_open_meta d = some dir → dir.names = pre.map some →
      (∀ f ∈ pre, check_name fs.ftype f (split_attr fs.ftype tok).1
        (split_attr fs.ftype tok).2 = NameCheck.no_match) →
      StopsAt fs tok next_tok d 1 0
  | attr_missing (dir : TSK_FS_DIR) (pre : List TSK_FS_FILE) (e : TSK_FS_FILE)
      (post : List (Option TSK_FS_FILE)) :
      fs.dir_open_meta d = some dir → dir.names = pre.map some ++ some e :: post →
      (∀ f ∈ pre, check_name fs.ftype f (split_attr fs.ftype tok).1
        (split_attr fs.ftype tok).2 = NameCheck.no_match) →
      check_name fs.ftype e (split_attr fs.ftype tok).1 (split_attr fs.ftype tok).2 =
        NameCheck.attr_missing →
      StopsAt fs tok next_tok d 1 0
  | found (dir : TSK_FS_DIR) (pre : List TSK_FS_FILE) (e : TSK_FS_FILE)
      (post : List (Option TSK_FS_FILE)) :
      fs.dir_open_meta d = some dir → dir.names = pre.map some ++ some e :: post →
      (∀ f ∈ pre, check_name fs.ftype f (split_attr fs.ftype tok).1
        (split_attr fs.ftype tok).2 = NameCheck.no_match) →
      check_name fs.ftype e (split_attr fs.ftype tok).1 (split_attr fs.ftype tok).2 =
        NameCheck.found →
      next_tok = none →
      StopsAt fs tok next_tok d 0 e.name.meta_addr
  | not_dir (dir : TSK_FS_DIR) (pre : List TSK_FS_FILE) (e : TSK_FS_FILE)
      (post : List (Option TSK_FS_FILE)) :
      fs.dir_open_meta d = some dir → dir.names = pre.map some ++ some e :: post →
      (∀ f ∈ pre, check_name fs.ftype f (split_attr fs.ftype tok).1
        (split_attr fs.ftype tok).2 = NameCheck.no_match) →
      check_name fs.ftype e (split_attr fs.ftype tok).1 (split_attr fs.ftype tok).2 =
        NameCheck.found →
      next_tok ≠ none →
      (e.meta = none ∨
        ∃ m, e.meta = some m ∧ m.type ≠ TSK_FS_META_TYPE_ENUM.TSK_FS_META_TYPE_DIR) →
      StopsAt fs tok next_tok d 1 0

/-- Example: an ext file system whose root holds the entry `ghost` of a deleted file: the
entry carries the metadata address 5000, beyond `last_inum` = 1000, and no metadata. -/
def stale_entry_fs : TSK_FS_INFO :=
  mk_fs TSK_FS_TYPE_ENUM.EXT3 (fun a =>
    if a = 5 then
      some { names := [some { name := { name := "ghost".toList, shrt_name := [], meta_addr := 5000
                                        type := TSK_FS_NAME_TYPE_ENUM.TSK_FS_NAME_TYPE_REG
                                        flags := TSK_FS_NAME_FLAG_ENUM.TSK_FS_NAME_FLAG_UNALLOC }
                              meta := none }] }
    else none)

/-- Example: an NTFS file system whose root holds `docs`, an entry whose metadata could
not be loaded, and `report.txt`, whose only attribute cannot be fetched. -/
def unloaded_ntfs_fs : TSK_FS_INFO :=
  mk_fs TSK_FS_TYPE_ENUM.NTFS (fun a =>
    if a = 5 then
      some { names :=
        [some { name := { name := "docs".toList, shrt_name := [], meta_addr := 40
                          type := TSK_FS_NAME_TYPE_ENUM.TSK_FS_NAME_TYPE_DIR
                          flags := TSK_FS_NAME_FLAG_ENUM.TSK_FS_NAME_FLAG_ALLOC }
                meta := none },
          some (mk_file "report.txt" "" 41 TSK_FS_META_TYPE_ENUM.TSK_FS_META_TYPE_REG [none])] }
    else none)

/-! ## Reverse lookup: invariants and the walks in the words of the specification -/

/-- Whether a printed line reports a metadata entry (a match line). -/
def is_match_line : OutLine → Bool
  | OutLine.inode _ => true
  | OutLine.attr _ _ _ => true
  | OutLine.meta_data => false
  | OutLine.inode_not_found => false

/-- The agreement between the flag `found` and the lines printed so far: nothing is
printed and `found` is 0, or `found` is 1 and one or more lines, all of them match
lines, are printed. -/
def found_iff_printed (s : IfindState) : Prop :=
  (s.data.found = 0 ∧ s.out = []) ∨
    (s.data.found = 1 ∧ s.out ≠ [] ∧ ∀ l ∈ s.out, is_match_line l = true)

/-- The effect of a file walk with one of the two callbacks on the lookup state: `k`
copies of the line `line` are printed, `found` is set when `k > 0`, and nothing else
changes. -/
def walk_effect (line : OutLine) (s s1 : IfindState) : Prop :=
  s1.err = s.err ∧ s1.walks = s.walks ∧ s1.data.block = s.data.block ∧
    s1.data.flags = s.data.flags ∧ s1.data.curinode = s.data.curinode ∧
    s1.data.curtype = s.data.curtype ∧ s1.data.curid = s.data.curid ∧
    ∃ k, s1.out = s.out ++ List.replicate k line ∧
      (k = 0 → s1.data.found = s.data.found) ∧ (0 < k → s1.data.found = 1)

/-- The file walks that the specification (section 4.4.1) prescribes for one metadata
entry, in its words: on NTFS one walk per non-resident attribute, in attribute order,
address-only with slack; on FAT a single walk, address-only with slack; on every other
family a single walk, address-only without slack. -/
def spec_entry_walks (ftype : TSK_FS_TYPE_ENUM) (m : TSK_FS_META) :
    List (Nat × Option (Nat × Nat) × WalkFlags) :=
  if TSK_FS_TYPE_ISNTFS ftype then
    m.attrs.filterMap (fun a =>
      match a with
      | some fs_attr =>
        if fs_attr.nonres then
          some (m.addr, some (fs_attr.type, fs_attr.id), { aonly := true, slack := true })
        else none
      | none => none)
  else if TSK_FS_TYPE_ISFAT ftype then [(m.addr, none, { aonly := true, slack := true })]
  else [(m.addr, none, { aonly := true, slack := false })]

/-- The state of the reverse lookup after the metadata walk. -/
def ifind_data_walked (fs : TSK_FS_INFO) (lclflags blk : Nat) (err : TskError) :
    IfindState :=
  (inode_walk fs fs.first_inum fs.last_inum true true (ifind_data_act fs)
    { data := { block := blk, flags := lclflags, found := 0, curinode := 0, curtype := 0
                curid := 0 }
      out := [], err := err, walks := [] }).2

/-- Example: an ext file system in which the file walk of entry 5 fails in the driver
and entry 9, visited after it, covers block 100. -/
def faulty_walk_fs : TSK_FS_INFO :=
  { ftype := TSK_FS_TYPE_ENUM.EXT3, block_size := 1024, first_inum := 1, last_inum := 20
    root_inum := 2, dir_open_meta := fun _ => none
    inodes :=
      [{ addr := 5, type := TSK_FS_META_TYPE_ENUM.TSK_FS_META_TYPE_REG, alloc := true
         attrs := [], name2 := [], walk := fun _ => { blocks := [], fails := true } },
       mk_meta 9 [(100, 1024)]]
    inode_walk_fails := false, block_get := fun _ => none }

/-- Example: an NTFS file system whose entry 9 has a resident attribute 48-2 and two
non-resident attributes, 128-3 covering block 700 and 128-4 covering blocks 700 and
701; one slot of the attribute list cannot be fetched. -/
def streams_ntfs_fs : TSK_FS_INFO :=
  { ftype := TSK_FS_TYPE_ENUM.NTFS, block_size := 4096, first_inum := 0, last_inum := 20
    root_inum := 5, dir_open_meta := fun _ => none
    inodes :=
      [{ addr := 9, type := TSK_FS_META_TYPE_ENUM.TSK_FS_META_TYPE_REG, alloc := false
         attrs :=
           [some { name := "$FILE_NAME".toList, type := 48, id := 2, nonres := false
                   walk := fun _ => { blocks := [(700, 4096)], fails := false } },
            none,
            some { name := "$Data".toList, type := 128, id := 3, nonres := true
                   walk := fun _ => { blocks := [(700, 4096)], fails := false } },
            some { name := "ads".toList, type := 128, id := 4, nonres := true
                   walk := fun _ => { blocks := [(700, 4096), (701, 4096)]
                                      fails := false } }]
         name2 := [], walk := empty_walk }]
    inode_walk_fails := false, block_get := fun _ => none }

/-! ## Parent-based search (`ifind_lib.c`, `tsk_fs_ifind_par`) -/

/-- Modelled from the spec: the flag `TSK_FS_IFIND_PAR_LONG` of `TSK_FS_IFIND_FLAG_ENUM`
(declared in a header that is not part of the sources at hand). -/
def TSK_FS_IFIND_PAR_LONG : Nat := 2

/-- Modelled from the spec: the attribute type of `$DATA` (declared in a header that is
not part of the sources at hand). -/
def TSK_FS_ATTR_TYPE_NTFS_DATA : Nat := 128

/-- Modelled from the spec: the attribute type of `$IDXROOT` (declared in a header that
is not part of the sources at hand). -/
def TSK_FS_ATTR_TYPE_NTFS_IDXROOT : Nat := 144

/-- The struct `IFIND_PAR_DATA` (lines 35-39). -/
structure IFIND_PAR_DATA where
  parinode : Nat
  flags : Nat
  found : Nat
  deriving DecidableEq

/-- One call of `tsk_fs_name_print_long` (`long_format`) or of `tsk_fs_name_print`
followed by a newline, with the name structure of the file and the attribute (type and
id) passed, `none` when the attribute passed is NULL. -/
structure ParLine where
  long_format : Bool
  fs_name : TSK_FS_NAME
  attr : Option (Nat × Nat)
  deriving DecidableEq

/-- The state of a parent-based search: the callback data, the prints so far, and the
number of calls of `tsk_fs_name_alloc` so far. -/
structure ParState where
  data : IFIND_PAR_DATA
  out : List ParLine
  allocs : Nat
  deriving DecidableEq

/-- Lines 74-92: the loop over the attributes of the entry. The state is the prints so
far and `printed`. -/
def ifind_par_attr_loop (flags : Nat) (fs_name : TSK_FS_NAME) :
    List (Option TSK_FS_ATTR) → List ParLine × Nat → List ParLine × Nat
  | [], st => st
  | none :: rest, st => ifind_par_attr_loop flags fs_name rest st
  | some fs_attr :: rest, (out, printed) =>
    if fs_attr.type = TSK_FS_ATTR_TYPE_NTFS_DATA ∨
        fs_attr.type = TSK_FS_ATTR_TYPE_NTFS_IDXROOT then
      ifind_par_attr_loop flags fs_name rest
        (out ++ [{ long_format := decide (flags &&& TSK_FS_IFIND_PAR_LONG ≠ 0)
                   fs_name := fs_name, attr := some (fs_attr.type, fs_attr.id) }], 1)
    else ifind_par_attr_loop flags fs_name rest (out, printed)

/-- Lines 52-115: the loop over the parent-name records of the entry `m`. `name_alloc n`
tells whether call number `n` of `tsk_fs_name_alloc (256, 0)` succeeds. The name
structure is filled as in lines 65-67: `strncpy` copies no more than `name_size` (256)
bytes of the recorded name; the fields that the code does not set are those of a fresh
structure. -/
def ifind_par_name_loop (name_alloc : Nat → Bool) (m : TSK_FS_META) :
    List (Nat × CStr) → ParState → TSK_WALK_RET_ENUM × ParState
  | [], s => (TSK_WALK_RET_ENUM.TSK_WALK_CONT, s)
  | (par_inode, name) :: rest, s =>
    if par_inode = s.data.parinode then
      if name_alloc s.allocs = false then
        (TSK_WALK_RET_ENUM.TSK_WALK_ERROR, { s with allocs := s.allocs + 1 })
      else
        let fs_name : TSK_FS_NAME :=
          { name := name.take 256, shrt_name := [], meta_addr := m.addr
            type := TSK_FS_NAME_TYPE_ENUM.TSK_FS_NAME_TYPE_UNDEF
            flags := TSK_FS_NAME_FLAG_ENUM.TSK_FS_NAME_FLAG_UNALLOC }
        let r := ifind_par_attr_loop s.data.flags fs_name m.attrs (s.out, 0)
        let out1 : List ParLine :=
          if r.2 = 0 then
            r.1 ++ [{ long_format := decide (s.data.flags &&& TSK_FS_IFIND_PAR_LONG ≠ 0)
                      fs_name := fs_name, attr := none }]
          else r.1
        ifind_par_name_loop name_alloc m rest
          { data := { s.data with found := 1 }, out := out1, allocs := s.allocs + 1 }
    else ifind_par_name_loop name_alloc m rest s

/-- The function `ifind_par_act` (lines 45-118), the inode-walk callback of the
parent-based search. -/
def ifind_par_act (name_alloc : Nat → Bool) (m : TSK_FS_META) (s : ParState) :
    TSK_WALK_RET_ENUM × ParState :=
  ifind_par_name_loop name_alloc m m.name2 s

/-- Modelled from the spec: the callback protocol of `fs->inode_walk`, as in
`inode_walk_loop`, for the state of the parent-based search. -/
def par_inode_walk_loop (action : TSK_FS_META → ParState → TSK_WALK_RET_ENUM × ParState)
    (walk_fails : Bool) : List TSK_FS_META → ParState → Nat × ParState
  | [], s => (if walk_fails then 1 else 0, s)
  | m :: rest, s =>
    match action m s with
    | (TSK_WALK_RET_ENUM.TSK_WALK_CONT, s1) => par_inode_walk_loop action walk_fails rest s1
    | (TSK_WALK_RET_ENUM.TSK_WALK_STOP, s1) => (0, s1)
    | (TSK_WALK_RET_ENUM.TSK_WALK_ERROR, s1) => (1, s1)

/-- Modelled from the spec: `fs->inode_walk`, as in `inode_walk`, for the state of the
parent-based search. -/
def par_inode_walk (fs : TSK_FS_INFO) (first last : Nat) (alloc unalloc : Bool)
    (action : TSK_FS_META → ParState → TSK_WALK_RET_ENUM × ParState) (s : ParState) :
    Nat × ParState :=
  par_inode_walk_loop action fs.inode_walk_fails
    (fs.inodes.filter (fun m =>
      decide (first ≤ m.addr) && decide (m.addr ≤ last) &&
        ((m.alloc && alloc) || (!m.alloc && unalloc)))) s

/-- The function `tsk_fs_ifind_par` (lines 130-147): the walk selects
`TSK_FS_META_FLAG_UNALLOC` only. Returns the return value (0 or 1) and the final
state. -/
def tsk_fs_ifind_par (name_alloc : Nat → Bool) (fs : TSK_FS_INFO) (lclflags par : Nat) :
    Nat × ParState :=
  let s0 : ParState :=
    { data := { parinode := par, flags := lclflags, found := 0 }, out := [], allocs := 0 }
  match par_inode_walk fs fs.first_inum fs.last_inum false true (ifind_par_act name_alloc)
      s0 with
  | (0, s) => (0, s)
  | (_, s) => (1, s)

/-- The attributes of `$DATA` or `$IDXROOT` type of an entry that can be fetched, in
attribute order. -/
def par_attrs (m : TSK_FS_META) : List TSK_FS_ATTR :=
  (m.attrs.filterMap id).filter (fun a =>
    decide (a.type = TSK_FS_ATTR_TYPE_NTFS_DATA ∨ a.type = TSK_FS_ATTR_TYPE_NTFS_IDXROOT))

/-- The name structure made for a parent-name record of the entry at `addr`: the
address of the entry, the recorded name cut to 256 bytes, the unallocated flag. -/
def par_name (addr : Nat) (name : CStr) : TSK_FS_NAME :=
  { name := name.take 256, shrt_name := [], meta_addr := addr
    type := TSK_FS_NAME_TYPE_ENUM.TSK_FS_NAME_TYPE_UNDEF
    flags := TSK_FS_NAME_FLAG_ENUM.TSK_FS_NAME_FLAG_UNALLOC }

/-- The outputs that the specification (section 4.4.2) prescribes for one parent-name
record, in its words: one output per `$DATA` and `$IDXROOT` attribute; if the entry has
neither, one output with no attribute. -/
def spec_par_record_lines (flags : Nat) (m : TSK_FS_META) (name : CStr) : List ParLine :=
  if (par_attrs m).isEmpty then
    [{ long_format := decide (flags &&& TSK_FS_IFIND_PAR_LONG ≠ 0)
       fs_name := par_name m.addr name, attr := none }]
  else
    (par_attrs m).map (fun a =>
      { long_format := decide (flags &&& TSK_FS_IFIND_PAR_LONG ≠ 0)
        fs_name := par_name m.addr name, attr := some (a.type, a.id) })

/-- The outputs prescribed for one metadata entry: those of its parent-name records
whose parent address is `par`, in list order. -/
def spec_par_entry_lines (flags par : Nat) (m : TSK_FS_META) : List ParLine :=
  (m.name2.filter (fun r => decide (r.1 = par))).flatMap
    (fun r => spec_par_record_lines flags m r.2)

/-- Example: an NTFS file system with the allocated entry 30 and the unallocated entries
31 (a `$DATA` and a `$IDXROOT` attribute, one attribute slot that cannot be fetched, two
names under parent 12 and one under parent 13), 32 (no attribute, one name under parent
12) and 33 (one name of 300 bytes under parent 14). -/
def orphan_ntfs_fs : TSK_FS_INFO :=
  { ftype := TSK_FS_TYPE_ENUM.NTFS, block_size := 4096, first_inum := 0, last_inum := 100
    root_inum := 5, dir_open_meta := fun _ => none
    inodes :=
      [{ addr := 30, type := TSK_FS_META_TYPE_ENUM.TSK_FS_META_TYPE_REG, alloc := true
         attrs := [], name2 := [(12, "live.txt".toList)], walk := empty_walk },
       { addr := 31, type := TSK_FS_META_TYPE_ENUM.TSK_FS_META_TYPE_DIR, alloc := false
         attrs :=
           [some { name := "$FILE_NAME".toList, type := 48, id := 2, nonres := false
                   walk := empty_walk },
            some { name := "$Data".toList, type := 128, id := 3, nonres := false
                   walk := empty_walk },
            none,
            some { name := "$I30".toList, type := 144, id := 4, nonres := false
                   walk := empty_walk }]
         name2 := [(12, "old".toList), (13, "elsewhere".toList), (12, "OLD~1".toList)]
         walk := empty_walk },
       { addr := 32, type := TSK_FS_META_TYPE_ENUM.TSK_FS_META_TYPE_REG, alloc := false
         attrs := [], name2 := [(12, "gone.txt".toList)], walk := empty_walk },
       { addr := 33, type := TSK_FS_META_TYPE_ENUM.TSK_FS_META_TYPE_REG, alloc := false
         attrs := [], name2 := [(14, List.replicate 300 'n')], walk := empty_walk }]
    inode_walk_fails := false, block_get := fun _ => none }

/-! ## ISO9660 directory parser: iterations of the scan -/

/-- The state at the head of the loop of lines 122-186 after `n` whole iterations from
`s`, none of which returned; `none` when the loop ended or returned before. -/
def proc_run (iso : ISO_INFO) (maxnamlen : Nat) (buf : List Nat) :
    Nat → ProcState → Option ProcState
  | 0, s => some s
  | n + 1, s =>
    if s.length > DENTRY_SIZE then
      match proc_step iso maxnamlen buf s with
      | Sum.inl _ => none
      | Sum.inr s1 => proc_run iso maxnamlen buf n s1
    else none

/-- Example: the extent of the directory `DOCS` with a record behind `README;1` whose
extent (99) is not in the master list, and a `..` record whose extent (77) is not in
the master list either, followed by 100 zero bytes. -/
def stray_dir_buf : List Nat :=
  dir_record 34 20 2 [0] ++ dir_record 34 77 2 [1] ++
    dir_record 50 5 0 ("README;1".toList.map Char.toNat) ++
    dir_record 40 99 0 ("X;1".toList.map Char.toNat) ++ List.replicate 100 0

/-! ## Volume-system dispatcher: the groups of the specification -/

/-- The number of the four groups of the specification (section 4.1), DOS or BSD, GPT,
Sun, Mac, in which an opener succeeds. -/
def succeeding_groups {H : Type} (rD rB rG rS rM : Option H) : Nat :=
  (if rD.isSome || rB.isSome then 1 else 0) + (if rG.isSome then 1 else 0) +
    (if rS.isSome then 1 else 0) + (if rM.isSome then 1 else 0)

/-- An image with a DOS table only: the DOS opener succeeds, the others fail. -/
def dos_only_openers : VsOpeners Unit String :=
  { tsk_vs_dos_open := fun _ _ _ => opener_ok "dos"
    tsk_vs_bsd_open := fun _ _ => opener_fail
    tsk_vs_gpt_open := fun _ _ => opener_fail
    tsk_vs_sun_open := fun _ _ => opener_fail
    tsk_vs_mac_open := fun _ _ => opener_fail }

/-- An image with a protective DOS table and a GPT: the DOS and the GPT opener
succeed. -/
def dos_gpt_openers : VsOpeners Unit String :=
  { tsk_vs_dos_open := fun _ _ _ => opener_ok "dos"
    tsk_vs_bsd_open := fun _ _ => opener_fail
    tsk_vs_gpt_open := fun _ _ => opener_ok "gpt"
    tsk_vs_sun_open := fun _ _ => opener_fail
    tsk_vs_mac_open := fun _ _ => opener_fail }

/-! ## Path resolver: open directories and files -/

/-- The number of directories that a sequence of events leaves open: the calls of
`tsk_fs_dir_open_meta` that succeeded less the calls of `tsk_fs_dir_close`. -/
def open_dirs : List Event → Int
  | [] => 0
  | Event.dir_open _ :: rest => open_dirs rest + 1
  | Event.dir_close _ :: rest => open_dirs rest - 1
  | Event.file_open _ _ :: rest => open_dirs rest
  | Event.file_close _ _ :: rest => open_dirs rest

/-- The number of files (directory entries) that a sequence of events leaves open: the
calls of `tsk_fs_dir_get` that succeeded less the calls of `tsk_fs_file_close`. -/
def open_files : List Event → Int
  | [] => 0
  | Event.dir_open _ :: rest => open_files rest
  | Event.dir_close _ :: rest => open_files rest
  | Event.file_open _ _ :: rest => open_files rest + 1
  | Event.file_close _ _ :: rest => open_files rest - 1

/-- Example: an ext file system whose root directory cannot deliver its second entry
(`tsk_fs_dir_get` returns NULL for it). -/
def broken_entry_fs : TSK_FS_INFO :=
  mk_fs TSK_FS_TYPE_ENUM.EXT3 (fun a =>
    if a = 5 then some { names := [some lost_found_file, none, some notes_file] } else none)

/-- Example: an ext file system whose directory graph is cyclic: the root (address 5)
holds the directory entry `loop`, which refers to the root itself, and the directory
entry `twin` at address 6, whose only entry `back` refers to the root. -/
def cyclic_fs : TSK_FS_INFO :=
  mk_fs TSK_FS_TYPE_ENUM.EXT3 (fun a =>
    if a = 5 then
      some { names := [some (mk_file "loop" "" 5 TSK_FS_META_TYPE_ENUM.TSK_FS_META_TYPE_DIR []),
                       some (mk_file "twin" "" 6 TSK_FS_META_TYPE_ENUM.TSK_FS_META_TYPE_DIR [])] }
    else if a = 6 then
      some { names := [some (mk_file "back" "" 5 TSK_FS_META_TYPE_ENUM.TSK_FS_META_TYPE_DIR [])] }
    else none)

/-! ## ISO9660 directory open (`iso9660_dent.c`, `iso9660_dir_open_meta`) -/

/-- The directory container with which the parser ends. -/
def ProcResult.names : ProcResult → List TSK_FS_NAME
  | ProcResult.ret _ ns => ns
  | ProcResult.out_of_bounds ns => ns

/-- What `iso9660_dir_open_meta` asks of the library and the driver, in call order:
`tsk_fs_dir_reset`, `tsk_fs_dir_alloc`, `tsk_fs_file_open_meta`, `tsk_malloc` of the
extent buffer, `tsk_fs_file_read`, and the call of `iso9660_proc_dir`. -/
inductive DirOpenEvent
  | dir_reset
  | dir_alloc
  | file_open (addr : Nat)
  | buf_alloc (len : Nat)
  | file_read (addr : Nat) (len : Nat)
  | proc_dir
  deriving DecidableEq

/-- Modelled from the spec: the operations that `iso9660_dir_open_meta` calls and that
are not part of the sources at hand. `dir_alloc_ok`: whether `tsk_fs_dir_alloc`
succeeds; `file_open_meta a`: the size field of the metadata of the file that
`tsk_fs_file_open_meta` opens at address `a` (`none` is NULL); `buf_alloc_ok n`: whether
`tsk_malloc (n)` succeeds; `file_read a n e`: the count and the bytes that
`tsk_fs_file_read` delivers for `n` bytes of the file at `a`, and the error channel it
leaves; `name_alloc_ok`: whether `tsk_fs_name_alloc` succeeds in `iso9660_proc_dir`. -/
structure IsoDriver where
  dir_alloc_ok : Bool
  file_open_meta : Nat → Option Nat
  buf_alloc_ok : Nat → Bool
  file_read : Nat → Nat → TskError → (Int × List Nat) × TskError
  name_alloc_ok : Bool

/-- How `iso9660_dir_open_meta` returns: with a value of its own, or with the value of
`iso9660_proc_dir` (`none`: the bound on the iterations was reached), which carries the
directory container. -/
inductive DirOpenRet
  | ret (retval : TSK_RETVAL_ENUM)
  | parsed (r : Option ProcResult)
  deriving DecidableEq

/-- The outcome of `iso9660_dir_open_meta`: the return, the argument `a_fs_dir` after
the checks and the reset or allocation (`none`: the pointer is NULL, `some none`: it
points to NULL, `some (some ns)`: it points to a container with the entries `ns`), the
error channel, and the events. -/
structure DirOpen where
  ret : DirOpenRet
  a_fs_dir : Option (Option (List TSK_FS_NAME))
  err : TskError
  events : List DirOpenEvent
  deriving DecidableEq

/-- The function `iso9660_dir_open_meta` (lines 208-287). The message to `stderr` under
`tsk_verbose` and the value `offs`, which is computed and not used, are left out. -/
def iso9660_dir_open_meta (iso : ISO_INFO) (maxnamlen : Nat) (drv : IsoDriver)
    (a_fs : TSK_FS_INFO) (a_fs_dir : Option (Option (List TSK_FS_NAME))) (a_addr : Nat)
    (err : TskError) (fuel : Nat) : DirOpen :=
  if a_addr < a_fs.first_inum ∨ a_addr > a_fs.last_inum then
    { ret := DirOpenRet.ret TSK_RETVAL_ENUM.TSK_ERR
      a_fs_dir := a_fs_dir
      err := { tsk_error_reset err with
               tsk_errno := TSK_ERR_ENUM.FS_WALK_RNG
               tsk_errstr := "iso9660_dir_open_meta: Invalid inode value: " ++
                 toString a_addr }
      events := [] }
  else
    match a_fs_dir with
    | none =>
      { ret := DirOpenRet.ret TSK_RETVAL_ENUM.TSK_ERR
        a_fs_dir := none
        err := { tsk_error_reset err with
                 tsk_errno := TSK_ERR_ENUM.FS_ARG
                 tsk_errstr := "iso9660_dir_open_meta: NULL fs_attr argument given" }
        events := [] }
    | some fs_dir =>
      let ev1 : List DirOpenEvent :=
        match fs_dir with
        | some _ => [DirOpenEvent.dir_reset]
        | none => [DirOpenEvent.dir_alloc]
      if fs_dir = none ∧ drv.dir_alloc_ok = false then
        { ret := DirOpenRet.ret TSK_RETVAL_ENUM.TSK_ERR, a_fs_dir := some none, err := err
          events := ev1 }
      else
        let ev2 := ev1 ++ [DirOpenEvent.file_open a_addr]
        match drv.file_open_meta a_addr with
        | none =>
          { ret := DirOpenRet.ret TSK_RETVAL_ENUM.TSK_COR
            a_fs_dir := some (some [])
            err := { tsk_error_reset err with
                     tsk_errno := TSK_ERR_ENUM.FS_INODE_NUM
                     tsk_errstr := "iso9660_dir_open_meta: " ++ toString a_addr ++
                       " is not a valid inode" }
            events := ev2 }
        | some size =>
          let length := wrap64 size
          let ev3 := ev2 ++ [DirOpenEvent.buf_alloc length]
          if drv.buf_alloc_ok length = false then
            { ret := DirOpenRet.ret TSK_RETVAL_ENUM.TSK_ERR, a_fs_dir := some (some [])
              err := err, events := ev3 }
          else
            let ev4 := ev3 ++ [DirOpenEvent.file_read a_addr length]
            let r := drv.file_read a_addr length err
            if r.1.1 ≠ (length : Int) then
              let err1 : TskError :=
                if r.1.1 ≥ 0 then
                  { tsk_error_reset r.2 with
                    tsk_errno := TSK_ERR_ENUM.FS_READ, tsk_errstr := "" }
                else r.2
              { ret := DirOpenRet.ret TSK_RETVAL_ENUM.TSK_ERR, a_fs_dir := some (some [])
                err := { err1 with tsk_errstr2 := "iso9660_dir_open_meta" }
                events := ev4 }
            else
              { ret := DirOpenRet.parsed
                  (iso9660_proc_dir iso maxnamlen drv.name_alloc_ok [] r.1.2 length a_addr
                    fuel)
                a_fs_dir := some (some [])
                err := r.2
                events := ev4 ++ [DirOpenEvent.proc_dir] }

/-- Example: a driver in which every allocation succeeds, the directory at address 3 is
the example extent of `DOCS` with a hole of one byte, and no other file can be opened. -/
def docs_driver : IsoDriver :=
  { dir_alloc_ok := true
    file_open_meta := fun a => if a = 3 then some 119 else none
    buf_alloc_ok := fun _ => true
    file_read := fun _ n e => ((n, (hole_dir_buf 1 0).take n), e)
    name_alloc_ok := true }

/-- The entry `..` that lines 109-117 add for the outcome of the search of the master
list: none when the search misses. -/
def dotdot_names : Option iso9660_inode_node → List TSK_FS_NAME
  | some node => [dotdot_entry node.inum]
  | none => []

/-! ## Path resolver: descents -/

/-- The descent through the tokens `toks`, each of which is followed by another token,
from the directory `d` to the directory `d2`: every directory on the way opens, and in
it the first entry that the name check accepts for the token, behind entries that were
all fetched and did not match, has loaded metadata of type directory; the descent goes
on in the directory at the address that this entry carries. -/
inductive Descends (fs : TSK_FS_INFO) : List CStr → Nat → Nat → Prop
  | here (d : Nat) : Descends fs [] d d
  | step (tok : CStr) (toks : List CStr) (d d2 : Nat) (dir : TSK_FS_DIR)
      (pre : List TSK_FS_FILE) (e : TSK_FS_FILE) (post : List (Option TSK_FS_FILE))
      (m : TSK_FS_META) :
      fs.dir_open_meta d = some dir → dir.names = pre.map some ++ some e :: post →
      (∀ f ∈ pre, check_name fs.ftype f (split_attr fs.ftype tok).1
        (split_attr fs.ftype tok).2 = NameCheck.no_match) →
      check_name fs.ftype e (split_attr fs.ftype tok).1 (split_attr fs.ftype tok).2 =
        NameCheck.found →
      e.meta = some m → m.type = TSK_FS_META_TYPE_ENUM.TSK_FS_META_TYPE_DIR →
      Descends fs toks e.name.meta_addr d2 →
      Descends fs (tok :: toks) d d2

/-! ## Parent-based search: allocations -/

/-- The number of calls of `tsk_fs_name_alloc` that succeed in a row, among the `n`
calls numbered from `start` on: `n` when all succeed, otherwise the distance of the
first failing call from `start`. -/
def alloc_run (name_alloc : Nat → Bool) : Nat → Nat → Nat
  | _, 0 => 0
  | start, n + 1 =>
    if name_alloc start then alloc_run name_alloc (start + 1) n + 1 else 0

/-- The parent-name records with parent address `par` of the entries of a list, each
with its entry, in the order in which the search meets them. -/
def par_matches (par : Nat) (ms : List TSK_FS_META) : List (TSK_FS_META × CStr) :=
  ms.flatMap (fun m => (m.name2.filter (fun r => decide (r.1 = par))).map (fun r => (m, r.2)))

/-! ## ISO9660 directory parser: an example with control bytes -/

/-- Example: a master inode list with the root directory (extent 18, address 0), the
directory `DOCS` (extent 20, address 3) and a file (extent 5, address 7) whose name of
twelve bytes holds a TAB and the control byte 1. -/
def ctrl_iso : ISO_INFO :=
  { big_endian := true
    in_list := [{ ext_loc_m := be32 18, fn := [], inum := 0 },
      { ext_loc_m := be32 20, fn := "DOCS".toList, inum := 3 },
      { ext_loc_m := be32 5
        fn := ['A', '\t', 'B', Char.ofNat 1, 'C', 'D', 'E', 'F', 'G', 'H', 'I', 'J']
        inum := 7 }] }

/-- Example: the extent of the directory `DOCS`: the record `.`, the record `..`, the
record of the file at extent 5 (50 bytes, directory flag clear), and 10 zero bytes. -/
def ctrl_dir_buf : List Nat :=
  dir_record 34 20 2 [0] ++ dir_record 34 18 2 [1] ++
    dir_record 50 5 0 [65, 9, 66, 1, 67, 68, 69, 70, 71, 72, 73, 74] ++ List.replicate 10 0

/-! ## Volume-system dispatcher: theorems -/

/-- C2. In autodetect mode, when the DOS opener (called with the tolerant flag 1) and the
BSD opener both succeed and the GPT, Sun and Mac openers all fail, `tsk_vs_open` returns
the handle produced by the BSD opener. -/
theorem tsk_vs_open_bsd_overrides_dos {I H : Type} (o : VsOpeners I H) (img : I)
    (offset : Nat) (st : VsState H) (hd hb : H)
    (hdos : ∀ e, (o.tsk_vs_dos_open img offset 1 e).1 = some hd)
    (hbsd : ∀ e, (o.tsk_vs_bsd_open img offset e).1 = some hb)
    (hgpt : ∀ e, (o.tsk_vs_gpt_open img offset e).1 = none)
    (hsun : ∀ e, (o.tsk_vs_sun_open img offset e).1 = none)
    (hmac : ∀ e, (o.tsk_vs_mac_open img offset e).1 = none) :
    (tsk_vs_open o img offset TSK_VS_TYPE_ENUM.TSK_VS_TYPE_DETECT st).1 = some hb := by
  simp [tsk_vs_open, tsk_vs_open_detect, detect_dos, detect_bsd, detect_exclusive, hdos,
    hbsd, hgpt, hsun, hmac]


theorem conflict_names_pair {I H : Type} (o : VsOpeners I H) (img : I)
    (offset : Nat) (st : VsState H) (rD rB rG rS rM : Option H)
    (hdos : ∀ e, (o.tsk_vs_dos_open img offset 1 e).1 = rD)
    (hbsd : ∀ e, (o.tsk_vs_bsd_open img offset e).1 = rB)
    (hgpt : ∀ e, (o.tsk_vs_gpt_open img offset e).1 = rG)
    (hsun : ∀ e, (o.tsk_vs_sun_open img offset e).1 = rS)
    (hmac : ∀ e, (o.tsk_vs_mac_open img offset e).1 = rM)
    (hconf : (rG ≠ none ∧ rS ≠ none) ∨ (rG ≠ none ∧ rM ≠ none) ∨ (rS ≠ none ∧ rM ≠ none)) :
    ∃ (later earlier : String) (hl he : H) (i j : Nat),
      i < j ∧ 2 ≤ j ∧
      [("DOS", rD), ("BSD", rB), ("GPT", rG), ("Sun", rS), ("Mac", rM)].get? i =
        some (earlier, some he) ∧
      [("DOS", rD), ("BSD", rB), ("GPT", rG), ("Sun", rS), ("Mac", rM)].get? j =
        some (later, some hl) ∧
      (tsk_vs_open o img offset TSK_VS_TYPE_ENUM.TSK_VS_TYPE_DETECT st).2.err.tsk_errstr =
        later ++ " or " ++ earlier ++ " at " ++ toString offset ∧
      (tsk_vs_open o img offset TSK_VS_TYPE_ENUM.TSK_VS_TYPE_DETECT st).2.closed =
        st.closed ++ [he, hl] := by
  cases rD <;> cases rB <;> cases rG <;> cases rS <;> cases rM <;>
    simp only [ne_eq, not_true_eq_false, false_and, and_false, or_self, reduceCtorEq,
      not_false_eq_true, and_self, or_true, true_or, or_false, false_or] at hconf <;>
    simp only [tsk_vs_open, tsk_vs_open_detect, detect_dos, detect_bsd, detect_exclusive,
      tsk_error_reset, hdos, hbsd, hgpt, hsun, hmac, Option.toList, List.append_assoc,
      List.singleton_append, List.nil_append] <;>
    first
      | exact ⟨_, _, _, _, 0, 2, by decide, by decide, rfl, rfl, rfl, rfl⟩
      | exact ⟨_, _, _, _, 1, 2, by decide, by decide, rfl, rfl, rfl, rfl⟩
      | exact ⟨_, _, _, _, 0, 3, by decide, by decide, rfl, rfl, rfl, rfl⟩
      | exact ⟨_, _, _, _, 1, 3, by decide, by decide, rfl, rfl, rfl, rfl⟩
      | exact ⟨_, _, _, _, 2, 3, by decide, by decide, rfl, rfl, rfl, rfl⟩
      | exact ⟨_, _, _, _, 2, 4, by decide, by decide, rfl, rfl, rfl, rfl⟩
      | exact ⟨_, _, _, _, 3, 4, by decide, by decide, rfl, rfl, rfl, rfl⟩

/-- C9. In autodetect mode, when at least two of the GPT, Sun and Mac openers succeed,
`tsk_vs_open` returns no handle and sets the error code to unknown-type; the description
is `later or earlier at offset` for two succeeding openers, `later` one of GPT, Sun, Mac
and `earlier` tried before it, and exactly the handles of these two have been closed
by the call, the earlier one first. When DOS and BSD fail, the two are the first two
succeeding ones of GPT, Sun, Mac: GPT then Sun, GPT then Mac, or Sun then Mac. -/
theorem tsk_vs_open_exclusive_conflict {I H : Type} (o : VsOpeners I H) (img : I)
    (offset : Nat) (st : VsState H) (rD rB rG rS rM : Option H)
    (hdos : ∀ e, (o.tsk_vs_dos_open img offset 1 e).1 = rD)
    (hbsd : ∀ e, (o.tsk_vs_bsd_open img offset e).1 = rB)
    (hgpt : ∀ e, (o.tsk_vs_gpt_open img offset e).1 = rG)
    (hsun : ∀ e, (o.tsk_vs_sun_open img offset e).1 = rS)
    (hmac : ∀ e, (o.tsk_vs_mac_open img offset e).1 = rM)
    (hconf : (rG ≠ none ∧ rS ≠ none) ∨ (rG ≠ none ∧ rM ≠ none) ∨ (rS ≠ none ∧ rM ≠ none)) :
    (tsk_vs_open o img offset TSK_VS_TYPE_ENUM.TSK_VS_TYPE_DETECT st).1 = none ∧
    (tsk_vs_open o img offset TSK_VS_TYPE_ENUM.TSK_VS_TYPE_DETECT st).2.err.tsk_errno =
      TSK_ERR_ENUM.VS_UNKTYPE ∧
    (∃ (later earlier : String) (hl he : H) (i j : Nat),
      i < j ∧ 2 ≤ j ∧
      [("DOS", rD), ("BSD", rB), ("GPT", rG), ("Sun", rS), ("Mac", rM)].get? i =
        some (earlier, some he) ∧
      [("DOS", rD), ("BSD", rB), ("GPT", rG), ("Sun", rS), ("Mac", rM)].get? j =
        some (later, some hl) ∧
      (tsk_vs_open o img offset TSK_VS_TYPE_ENUM.TSK_VS_TYPE_DETECT st).2.err.tsk_errstr =
        later ++ " or " ++ earlier ++ " at " ++ toString offset ∧
      (tsk_vs_open o img offset TSK_VS_TYPE_ENUM.TSK_VS_TYPE_DETECT st).2.closed =
        st.closed ++ [he, hl]) ∧
    (rD = none → rB = none →
      (∀ g s, rG = some g → rS = some s →
        (tsk_vs_open o img offset TSK_VS_TYPE_ENUM.TSK_VS_TYPE_DETECT st).2.err.tsk_errstr =
            "Sun or GPT at " ++ toString offset ∧
          (tsk_vs_open o img offset TSK_VS_TYPE_ENUM.TSK_VS_TYPE_DETECT st).2.closed =
            st.closed ++ [g, s]) ∧
      (∀ g m, rG = some g → rS = none → rM = some m →
        (tsk_vs_open o img offset TSK_VS_TYPE_ENUM.TSK_VS_TYPE_DETECT st).2.err.tsk_errstr =
            "Mac or GPT at " ++ toString offset ∧
          (tsk_vs_open o img offset TSK_VS_TYPE_ENUM.TSK_VS_TYPE_DETECT st).2.closed =
            st.closed ++ [g, m]) ∧
      (∀ s m, rG = none → rS = some s → rM = some m →
        (tsk_vs_open o img offset TSK_VS_TYPE_ENUM.TSK_VS_TYPE_DETECT st).2.err.tsk_errstr =
            "Mac or Sun at " ++ toString offset ∧
          (tsk_vs_open o img offset TSK_VS_TYPE_ENUM.TSK_VS_TYPE_DETECT st).2.closed =
            st.closed ++ [s, m])) := by
  refine ⟨?_, ?_,
    conflict_names_pair o img offset st rD rB rG rS rM hdos hbsd hgpt hsun hmac hconf, ?_⟩ <;>
    cases rD <;> cases rB <;> cases rG <;> cases rS <;> cases rM <;>
    simp_all [tsk_vs_open, tsk_vs_open_detect, detect_dos, detect_bsd, detect_exclusive,
      tsk_error_reset, String.append_assoc]

/-! ## Path resolver: theorems -/

theorem strcmp_eq_zero_iff (a b : CStr) : strcmp a b = 0 ↔ a = b := by
  induction a generalizing b with
  | nil => cases b <;> simp [strcmp]
  | cons x xs ih =>
    cases b with
    | nil => simp [strcmp]
    | cons y ys =>
      simp only [strcmp]
      by_cases h : x = y
      · simp [h, ih]
      · simp only [h, if_false, List.cons.injEq, false_and, iff_false]
        split <;> decide

theorem strcasecmp_eq_zero_iff (a b : CStr) :
    strcasecmp a b = 0 ↔ a.map Char.toLower = b.map Char.toLower := by
  induction a generalizing b with
  | nil => cases b <;> simp [strcasecmp]
  | cons x xs ih =>
    cases b with
    | nil => simp [strcasecmp]
    | cons y ys =>
      simp only [strcasecmp, List.map_cons, List.cons.injEq]
      by_cases h : x.toLower = y.toLower
      · simp [h, ih]
      · simp only [h, if_false, false_and, iff_false]
        split <;> decide

theorem attr_name_loop_true (cur_attr : CStr) (attrs : List (Option TSK_FS_ATTR)) :
    attr_name_loop cur_attr attrs true = true := by
  induction attrs with
  | nil => rfl
  | cons a rest ih =>
    cases a with
    | none => simpa [attr_name_loop] using ih
    | some x => simp [attr_name_loop, ih]

theorem attr_name_loop_false_iff (cur_attr : CStr) (attrs : List (Option TSK_FS_ATTR)) :
    attr_name_loop cur_attr attrs false = true ↔
      ∃ a, some a ∈ attrs ∧ a.name.map Char.toLower = cur_attr.map Char.toLower := by
  induction attrs with
  | nil => simp [attr_name_loop]
  | cons a rest ih =>
    cases a with
    | none => simp [attr_name_loop, ih]
    | some x =>
      simp only [attr_name_loop, strcasecmp_eq_zero_iff]
      by_cases h : x.name.map Char.toLower = cur_attr.map Char.toLower
      · simp only [h, if_true, attr_name_loop_true, true_iff]
        exact ⟨x, by simp, h⟩
      · simp only [h, if_false, ih, List.mem_cons, Option.some.injEq]
        constructor
        · rintro ⟨a, ha, hn⟩
          exact ⟨a, Or.inr ha, hn⟩
        · rintro ⟨a, ha | ha, hn⟩
          · subst ha; exact absurd hn h
          · exact ⟨a, ha, hn⟩

theorem split_attr_ntfs (ftype : TSK_FS_TYPE_ENUM) (name attr : CStr)
    (hnt : TSK_FS_TYPE_ISNTFS ftype = true) (hname : ':' ∉ name) :
    split_attr ftype (name ++ ':' :: attr) = (name, some attr) := by
  have h1 : (name ++ ':' :: attr).takeWhile (fun c => c != ':') = name := by
    induction name with
    | nil => simp [List.takeWhile]
    | cons x xs ih =>
      have hx : x ≠ ':' := fun h => hname (by simp [h])
      have hxs : ':' ∉ xs := fun h => hname (by simp [h])
      have hb : (x != ':') = true := by simp [hx]
      simp [List.takeWhile, hb, ih hxs]
  have h2 : (name ++ ':' :: attr).dropWhile (fun c => c != ':') = ':' :: attr := by
    clear h1
    induction name with
    | nil => simp [List.dropWhile]
    | cons x xs ih =>
      have hx : x ≠ ':' := fun h => hname (by simp [h])
      have hxs : ':' ∉ xs := fun h => hname (by simp [h])
      have hb : (x != ':') = true := by simp [hx]
      simp [List.dropWhile, hb, ih hxs]
  simp [split_attr, hnt, h1, h2]

theorem split_attr_not_ntfs (ftype : TSK_FS_TYPE_ENUM) (tok : CStr)
    (hnt : TSK_FS_TYPE_ISNTFS ftype = false) : split_attr ftype tok = (tok, none) := by
  simp [split_attr, hnt]

theorem split_attr_no_colon (ftype : TSK_FS_TYPE_ENUM) (tok : CStr) (h : ':' ∉ tok) :
    split_attr ftype tok = (tok, none) := by
  simp [split_attr, h]

theorem dir_scan_skip (ftype : TSK_FS_TYPE_ENUM) (dir_addr : Nat) (cur_dir : CStr)
    (cur_attr : Option CStr) (next_tok : Option CStr) (a_fs_name : Option TSK_FS_NAME)
    (pre : List TSK_FS_FILE) (rest : List (Option TSK_FS_FILE)) (i : Nat) (ev : List Event)
    (hpre : ∀ f ∈ pre, check_name ftype f cur_dir cur_attr = NameCheck.no_match) :
    dir_scan ftype dir_addr cur_dir cur_attr next_tok a_fs_name (pre.map some ++ rest) i ev =
      dir_scan ftype dir_addr cur_dir cur_attr next_tok a_fs_name rest (i + pre.length)
        (ev ++ skip_events dir_addr i pre.length) := by
  induction pre generalizing i ev with
  | nil => simp [skip_events]
  | cons f fs ih =>
    have hf := hpre f (by simp)
    have hfs : ∀ g ∈ fs, check_name ftype g cur_dir cur_attr = NameCheck.no_match :=
      fun g hg => hpre g (by simp [hg])
    simp only [List.map_cons, List.cons_append, dir_scan, hf, List.length_cons,
      List.append_eq]
    rw [ih (i + 1) _ hfs]
    simp [skip_events, Nat.add_comm, Nat.add_left_comm, List.append_assoc]

theorem isntfs_eq (ft : TSK_FS_TYPE_ENUM) (h : TSK_FS_TYPE_ISNTFS ft = true) :
    ft = TSK_FS_TYPE_ENUM.NTFS := by
  cases ft <;> simp_all [TSK_FS_TYPE_ISNTFS]

theorem isfat_not_others (ft : TSK_FS_TYPE_ENUM) (h : TSK_FS_TYPE_ISFAT ft = true) :
    TSK_FS_TYPE_ISNTFS ft = false ∧ TSK_FS_TYPE_ISFFS ft = false ∧
      TSK_FS_TYPE_ISEXT ft = false := by
  cases ft <;> simp_all [TSK_FS_TYPE_ISNTFS, TSK_FS_TYPE_ISFAT, TSK_FS_TYPE_ISFFS,
    TSK_FS_TYPE_ISEXT]

theorem check_name_fat (ft : TSK_FS_TYPE_ENUM) (h : TSK_FS_TYPE_ISFAT ft = true)
    (f : TSK_FS_FILE) (tok : CStr) (cur_attr : Option CStr) :
    (check_name ft f tok cur_attr = NameCheck.found ↔
      (f.name.name.map Char.toLower = tok.map Char.toLower ∨
        f.name.shrt_name.map Char.toLower = tok.map Char.toLower)) ∧
    (check_name ft f tok cur_attr = NameCheck.no_match ↔
      ¬ (f.name.name.map Char.toLower = tok.map Char.toLower ∨
        f.name.shrt_name.map Char.toLower = tok.map Char.toLower)) := by
  obtain ⟨-, h2, h3⟩ := isfat_not_others ft h
  simp only [check_name, h, h2, h3, Bool.or_self, Bool.false_eq_true, if_false, if_true,
    strcasecmp_eq_zero_iff]
  by_cases hl : f.name.name.map Char.toLower = tok.map Char.toLower
  · simp [hl]
  · by_cases hs : f.name.shrt_name.map Char.toLower = tok.map Char.toLower
    · simp [hl, hs]
    · simp [hl, hs]

theorem check_name_ntfs_attr (f : TSK_FS_FILE) (name attr : CStr) :
    check_name TSK_FS_TYPE_ENUM.NTFS f name (some attr) =
      if strcasecmp f.name.name name = 0 then
        (if (match f.meta with
              | some m => attr_name_loop attr m.attrs false
              | none => false) = true
          then NameCheck.found else NameCheck.attr_missing)
      else NameCheck.no_match := by
  simp [check_name, TSK_FS_TYPE_ISFFS, TSK_FS_TYPE_ISEXT, TSK_FS_TYPE_ISFAT,
    TSK_FS_TYPE_ISNTFS]

/-- C3. On NTFS, when the final token is `name:attr`, let `e` be the first entry of the
directory being searched whose name equals `name` ignoring case (the entries before it
are fetched and do not match). When `e` has metadata and one of its attributes has a
name equal to `attr` ignoring case, the descent returns found (0) with the metadata
address of `e`; otherwise it returns not found (1). In both cases the last event is the
fetch of `e`: no later entry is examined, whatever the entries after `e` are. -/
theorem path_loop_final_ntfs_attr (fs : TSK_FS_INFO) (a_fs_name : Option TSK_FS_NAME)
    (name attr : CStr) (d : Nat) (ev : List Event) (pre : List TSK_FS_FILE)
    (e : TSK_FS_FILE) (post : List (Option TSK_FS_FILE))
    (hnt : TSK_FS_TYPE_ISNTFS fs.ftype = true)
    (hname : ':' ∉ name)
    (hdir : fs.dir_open_meta d = some ⟨pre.map some ++ some e :: post⟩)
    (hpre : ∀ f ∈ pre, f.name.name.map Char.toLower ≠ name.map Char.toLower)
    (he : e.name.name.map Char.toLower = name.map Char.toLower) :
    ((∃ m a, e.meta = some m ∧ some a ∈ m.attrs ∧
        a.name.map Char.toLower = attr.map Char.toLower) →
      path_loop fs a_fs_name [] (name ++ ':' :: attr) d ev =
        { retval := 0
          a_result := e.name.meta_addr
          a_fs_name := a_fs_name.map (fun _ => e.name)
          events := ev ++ [Event.dir_open d] ++ skip_events d 0 pre.length ++
            [Event.file_open d pre.length] }) ∧
    ((¬ ∃ m a, e.meta = some m ∧ some a ∈ m.attrs ∧
        a.name.map Char.toLower = attr.map Char.toLower) →
      path_loop fs a_fs_name [] (name ++ ':' :: attr) d ev =
        { retval := 1
          a_result := 0
          a_fs_name := a_fs_name
          events := ev ++ [Event.dir_open d] ++ skip_events d 0 pre.length ++
            [Event.file_open d pre.length] }) := by
  have hft := isntfs_eq fs.ftype hnt
  have hsplit := split_attr_ntfs fs.ftype name attr hnt hname
  have hpre2 : ∀ f ∈ pre, check_name fs.ftype f name (some attr) = NameCheck.no_match := by
    intro f hf
    rw [hft, check_name_ntfs_attr]
    have h0 : strcasecmp f.name.name name ≠ 0 :=
      fun h => hpre f hf ((strcasecmp_eq_zero_iff _ _).1 h)
    simp [h0]
  have hscan := dir_scan_skip fs.ftype d name (some attr) none a_fs_name pre (some e :: post)
    0 (ev ++ [Event.dir_open d]) hpre2
  have hce : check_name fs.ftype e name (some attr) =
      if (match e.meta with
            | some m => attr_name_loop attr m.attrs false
            | none => false) = true
        then NameCheck.found else NameCheck.attr_missing := by
    rw [hft, check_name_ntfs_attr]
    rw [← strcasecmp_eq_zero_iff] at he
    simp [he]
  constructor
  · rintro ⟨m, a, hm, ha, han⟩
    have hloop : attr_name_loop attr m.attrs false = true :=
      (attr_name_loop_false_iff attr m.attrs).2 ⟨a, ha, han⟩
    simp only [path_loop, path_iter, hdir, hsplit, hscan, Nat.zero_add]
    simp [dir_scan, hce, hm, hloop]
  · intro hno
    have hloop : (match e.meta with
            | some m => attr_name_loop attr m.attrs false
            | none => false) = false := by
      cases hm : e.meta with
      | none => rfl
      | some m =>
        simp only
        by_contra hc
        have hc2 : attr_name_loop attr m.attrs false = true := by simpa using hc
        obtain ⟨a, ha, han⟩ := (attr_name_loop_false_iff attr m.attrs).1 hc2
        exact hno ⟨m, a, hm, ha, han⟩
    simp only [path_loop, path_iter, hdir, hsplit, hscan, Nat.zero_add]
    simp [dir_scan, hce, hloop]

/-- C10. When tokens remain after the current one and the first entry that matches the
current token has no metadata, or metadata of a type other than directory, the descent
returns not found (1), with 0 in the result, and the last event is the fetch of that
entry: no further directory is opened. -/
theorem path_loop_nonfinal_not_dir (fs : TSK_FS_INFO) (a_fs_name : Option TSK_FS_NAME)
    (tok t : CStr) (ts : List CStr) (d : Nat) (ev : List Event) (pre : List TSK_FS_FILE)
    (e : TSK_FS_FILE) (post : List (Option TSK_FS_FILE))
    (hdir : fs.dir_open_meta d = some ⟨pre.map some ++ some e :: post⟩)
    (hpre : ∀ f ∈ pre, check_name fs.ftype f (split_attr fs.ftype tok).1
      (split_attr fs.ftype tok).2 = NameCheck.no_match)
    (he : check_name fs.ftype e (split_attr fs.ftype tok).1 (split_attr fs.ftype tok).2 =
      NameCheck.found)
    (hmeta : e.meta = none ∨
      ∃ m, e.meta = some m ∧ m.type ≠ TSK_FS_META_TYPE_ENUM.TSK_FS_META_TYPE_DIR) :
    path_loop fs a_fs_name (t :: ts) tok d ev =
      { retval := 1
        a_result := 0
        a_fs_name := a_fs_name
        events := ev ++ [Event.dir_open d] ++ skip_events d 0 pre.length ++
          [Event.file_open d pre.length] } := by
  have hscan := dir_scan_skip fs.ftype d (split_attr fs.ftype tok).1
    (split_attr fs.ftype tok).2 (some t) a_fs_name pre (some e :: post)
    0 (ev ++ [Event.dir_open d]) hpre
  simp only [path_loop, path_iter, hdir, hscan, Nat.zero_add]
  rcases hmeta with hm | ⟨m, hm, hty⟩
  · simp [dir_scan, he, hm]
  · simp [dir_scan, he, hm, hty]

/-- A path with at least one token is resolved by the descent loop started at the root
directory with the first token. -/
theorem path2inum_eq_path_loop (fs : TSK_FS_INFO) (a_fs_name : Option TSK_FS_NAME)
    (a_path tok : CStr) (rest : List CStr) (htok : strtok_all a_path = tok :: rest) :
    tsk_fs_path2inum true fs a_path a_fs_name =
      path_loop fs a_fs_name rest tok fs.root_inum [] := by
  simp only [tsk_fs_path2inum, htok]

/-- When the allocation of the path copy fails the function returns -1 at once: the
result is 0, the name record is untouched, nothing is opened. -/
theorem path2inum_malloc_fails (fs : TSK_FS_INFO) (a_path : CStr)
    (a_fs_name : Option TSK_FS_NAME) :
    tsk_fs_path2inum false fs a_path a_fs_name =
      { retval := -1, a_result := 0, a_fs_name := a_fs_name, events := [] } := rfl

/-- A path without a token is answered with the root directory. -/
theorem path2inum_no_token (fs : TSK_FS_INFO) (a_fs_name : Option TSK_FS_NAME)
    (a_path : CStr) (htok : strtok_all a_path = []) :
    tsk_fs_path2inum true fs a_path a_fs_name =
      { retval := 0
        a_result := fs.root_inum
        a_fs_name := a_fs_name.map (fun _ =>
          { name := []
            shrt_name := []
            meta_addr := fs.root_inum
            type := TSK_FS_NAME_TYPE_ENUM.TSK_FS_NAME_TYPE_DIR
            flags := TSK_FS_NAME_FLAG_ENUM.TSK_FS_NAME_FLAG_ALLOC })
        events := [] } := by
  simp only [tsk_fs_path2inum, htok]

/-- One step of the descent: when the first entry that matches a non-final token has
metadata of type directory, the loop goes on in that directory with the next token. -/
theorem path_loop_descend (fs : TSK_FS_INFO) (a_fs_name : Option TSK_FS_NAME)
    (tok t : CStr) (ts : List CStr) (d : Nat) (ev : List Event) (pre : List TSK_FS_FILE)
    (e : TSK_FS_FILE) (post : List (Option TSK_FS_FILE)) (m : TSK_FS_META)
    (hdir : fs.dir_open_meta d = some ⟨pre.map some ++ some e :: post⟩)
    (hpre : ∀ f ∈ pre, check_name fs.ftype f (split_attr fs.ftype tok).1
      (split_attr fs.ftype tok).2 = NameCheck.no_match)
    (he : check_name fs.ftype e (split_attr fs.ftype tok).1 (split_attr fs.ftype tok).2 =
      NameCheck.found)
    (hm : e.meta = some m) (hty : m.type = TSK_FS_META_TYPE_ENUM.TSK_FS_META_TYPE_DIR) :
    path_loop fs a_fs_name (t :: ts) tok d ev =
      path_loop fs a_fs_name ts t e.name.meta_addr
        (ev ++ [Event.dir_open d] ++ skip_events d 0 pre.length ++
          [Event.file_open d pre.length, Event.file_close d pre.length, Event.dir_close d]) := by
  have hscan := dir_scan_skip fs.ftype d (split_attr fs.ftype tok).1
    (split_attr fs.ftype tok).2 (some t) a_fs_name pre (some e :: post)
    0 (ev ++ [Event.dir_open d]) hpre
  rw [path_loop]
  simp only [path_iter, hdir, hscan, Nat.zero_add]
  simp [dir_scan, he, hm, hty]

theorem path2inum_single_found (fs : TSK_FS_INFO) (a_fs_name : Option TSK_FS_NAME)
    (a_path tok : CStr) (pre : List TSK_FS_FILE) (e : TSK_FS_FILE)
    (post : List (Option TSK_FS_FILE))
    (htok : strtok_all a_path = [tok])
    (hroot : fs.dir_open_meta fs.root_inum = some ⟨pre.map some ++ some e :: post⟩)
    (hpre : ∀ f ∈ pre, check_name fs.ftype f (split_attr fs.ftype tok).1
      (split_attr fs.ftype tok).2 = NameCheck.no_match)
    (he : check_name fs.ftype e (split_attr fs.ftype tok).1 (split_attr fs.ftype tok).2 =
      NameCheck.found) :
    tsk_fs_path2inum true fs a_path a_fs_name =
      { retval := 0
        a_result := e.name.meta_addr
        a_fs_name := a_fs_name.map (fun _ => e.name)
        events := [Event.dir_open fs.root_inum] ++ skip_events fs.root_inum 0 pre.length ++
          [Event.file_open fs.root_inum pre.length] } := by
  have hscan := dir_scan_skip fs.ftype fs.root_inum (split_attr fs.ftype tok).1
    (split_attr fs.ftype tok).2 none a_fs_name pre (some e :: post)
    0 ([] ++ [Event.dir_open fs.root_inum]) hpre
  simp only [tsk_fs_path2inum, htok, path_loop, path_iter, hroot, hscan, Nat.zero_add]
  simp [dir_scan, he]

/-- C4. On a FAT file system a token matches an entry exactly when it equals, ignoring
ASCII case, the long name or the short name of the entry. Hence, when `e` is the first
entry of the root directory that matches, a one-segment path spelling the long name of
`e` and one spelling its short name, both in any letter case, resolve to found with
the metadata address of `e`. -/
theorem path2inum_fat_long_short (fs : TSK_FS_INFO) (a_fs_name : Option TSK_FS_NAME)
    (pathL pathS tokL tokS : CStr) (pre : List TSK_FS_FILE) (e : TSK_FS_FILE)
    (post : List (Option TSK_FS_FILE))
    (hfat : TSK_FS_TYPE_ISFAT fs.ftype = true)
    (hL : strtok_all pathL = [tokL]) (hS : strtok_all pathS = [tokS])
    (hroot : fs.dir_open_meta fs.root_inum = some ⟨pre.map some ++ some e :: post⟩)
    (hlong : tokL.map Char.toLower = e.name.name.map Char.toLower)
    (hshort : tokS.map Char.toLower = e.name.shrt_name.map Char.toLower)
    (hpre : ∀ f ∈ pre, ∀ tok ∈ [tokL, tokS],
      f.name.name.map Char.toLower ≠ tok.map Char.toLower ∧
        f.name.shrt_name.map Char.toLower ≠ tok.map Char.toLower) :
    (∀ (f : TSK_FS_FILE) (tok : CStr),
      check_name fs.ftype f (split_attr fs.ftype tok).1 (split_attr fs.ftype tok).2 =
          NameCheck.found ↔
        (tok.map Char.toLower = f.name.name.map Char.toLower ∨
          tok.map Char.toLower = f.name.shrt_name.map Char.toLower)) ∧
    (tsk_fs_path2inum true fs pathL a_fs_name).retval = 0 ∧
    (tsk_fs_path2inum true fs pathL a_fs_name).a_result = e.name.meta_addr ∧
    (tsk_fs_path2inum true fs pathS a_fs_name).retval = 0 ∧
    (tsk_fs_path2inum true fs pathS a_fs_name).a_result = e.name.meta_addr := by
  have hnt := (isfat_not_others fs.ftype hfat).1
  have hsp : ∀ tok, split_attr fs.ftype tok = (tok, none) :=
    fun tok => split_attr_not_ntfs fs.ftype tok hnt
  have hmatch : ∀ (f : TSK_FS_FILE) (tok : CStr),
      check_name fs.ftype f (split_attr fs.ftype tok).1 (split_attr fs.ftype tok).2 =
          NameCheck.found ↔
        (tok.map Char.toLower = f.name.name.map Char.toLower ∨
          tok.map Char.toLower = f.name.shrt_name.map Char.toLower) := by
    intro f tok
    rw [hsp tok, (check_name_fat fs.ftype hfat f tok none).1]
    constructor
    · rintro (h | h)
      · exact Or.inl h.symm
      · exact Or.inr h.symm
    · rintro (h | h)
      · exact Or.inl h.symm
      · exact Or.inr h.symm
  have hno : ∀ tok ∈ [tokL, tokS], ∀ f ∈ pre,
      check_name fs.ftype f (split_attr fs.ftype tok).1 (split_attr fs.ftype tok).2 =
        NameCheck.no_match := by
    intro tok htok f hf
    rw [hsp tok, (check_name_fat fs.ftype hfat f tok none).2]
    rintro (h | h)
    · exact (hpre f hf tok htok).1 h
    · exact (hpre f hf tok htok).2 h
  have hresL := path2inum_single_found fs a_fs_name pathL tokL pre e post hL hroot
    (hno tokL (by simp)) ((hmatch e tokL).2 (Or.inl hlong))
  have hresS := path2inum_single_found fs a_fs_name pathS tokS pre e post hS hroot
    (hno tokS (by simp)) ((hmatch e tokS).2 (Or.inr hshort))
  refine ⟨hmatch, ?_, ?_, ?_, ?_⟩
  · rw [hresL]
  · rw [hresL]
  · rw [hresS]
  · rw [hresS]

/-- Witness of C4: the entry `LongFileName.TXT` / `LONGFI~1.TXT` behind `README.TXT`. -/
theorem path2inum_fat_long_short_witness :
    (tsk_fs_path2inum true fat_fs "/LONGFILENAME.TXT".toList none).retval = 0 ∧
    (tsk_fs_path2inum true fat_fs "/LONGFILENAME.TXT".toList none).a_result = 7 ∧
    (tsk_fs_path2inum true fat_fs "/longfi~1.txt".toList none).retval = 0 ∧
    (tsk_fs_path2inum true fat_fs "/longfi~1.txt".toList none).a_result = 7 :=
  (path2inum_fat_long_short fat_fs none "/LONGFILENAME.TXT".toList "/longfi~1.txt".toList
    "LONGFILENAME.TXT".toList "longfi~1.txt".toList [readme_file] long_file []
    (by decide) (by decide) (by decide) (by rfl) (by decide) (by decide) (by decide)).2

theorem check_name_other_family (ft : TSK_FS_TYPE_ENUM) (f : TSK_FS_FILE) (cur_dir : CStr)
    (cur_attr : Option CStr)
    (h1 : TSK_FS_TYPE_ISFFS ft = false) (h2 : TSK_FS_TYPE_ISEXT ft = false)
    (h3 : TSK_FS_TYPE_ISFAT ft = false) (h4 : TSK_FS_TYPE_ISNTFS ft = false) :
    check_name ft f cur_dir cur_attr = NameCheck.no_match := by
  simp [check_name, h1, h2, h3, h4]

theorem dir_scan_other_family (ft : TSK_FS_TYPE_ENUM) (d : Nat) (cur_dir : CStr)
    (cur_attr next_tok : Option CStr) (nm : Option TSK_FS_NAME)
    (h1 : TSK_FS_TYPE_ISFFS ft = false) (h2 : TSK_FS_TYPE_ISEXT ft = false)
    (h3 : TSK_FS_TYPE_ISFAT ft = false) (h4 : TSK_FS_TYPE_ISNTFS ft = false)
    (es : List (Option TSK_FS_FILE)) (i : Nat) (ev : List Event) :
    (∃ e, dir_scan ft d cur_dir cur_attr next_tok nm es i ev = DirScan.exhausted e) ∨
    (∃ e, dir_scan ft d cur_dir cur_attr next_tok nm es i ev = DirScan.ret (-1) 0 nm e) := by
  induction es generalizing i ev with
  | nil => exact Or.inl ⟨ev, rfl⟩
  | cons x xs ih =>
    cases x with
    | none => exact Or.inr ⟨ev, rfl⟩
    | some f =>
      simp only [dir_scan, check_name_other_family ft f cur_dir cur_attr h1 h2 h3 h4]
      exact ih _ _

/-- On a file system of a family other than FFS, ext, FAT and NTFS (ISO9660 among them)
no entry ever matches: a path with at least one segment is never found. -/
theorem path2inum_other_family_never_found (fs : TSK_FS_INFO) (a_path : CStr)
    (nm : Option TSK_FS_NAME)
    (h1 : TSK_FS_TYPE_ISFFS fs.ftype = false) (h2 : TSK_FS_TYPE_ISEXT fs.ftype = false)
    (h3 : TSK_FS_TYPE_ISFAT fs.ftype = false) (h4 : TSK_FS_TYPE_ISNTFS fs.ftype = false)
    (hpath : strtok_all a_path ≠ []) :
    (tsk_fs_path2inum true fs a_path nm).retval ≠ 0 ∧
      (tsk_fs_path2inum true fs a_path nm).a_result = 0 := by
  cases htoks : strtok_all a_path with
  | nil => exact absurd htoks hpath
  | cons tok rest =>
    simp only [tsk_fs_path2inum, htoks]
    cases rest with
    | nil =>
      simp only [path_loop, path_iter]
      cases hd : fs.dir_open_meta fs.root_inum with
      | none => simp
      | some dir =>
        simp only
        rcases dir_scan_other_family fs.ftype fs.root_inum (split_attr fs.ftype tok).1
          (split_attr fs.ftype tok).2 none nm h1 h2 h3 h4 dir.names 0
          ([] ++ [Event.dir_open fs.root_inum]) with ⟨e, he⟩ | ⟨e, he⟩
        · rw [he]; simp
        · rw [he]; simp
    | cons t ts =>
      simp only [path_loop, path_iter]
      cases hd : fs.dir_open_meta fs.root_inum with
      | none => simp
      | some dir =>
        simp only
        rcases dir_scan_other_family fs.ftype fs.root_inum (split_attr fs.ftype tok).1
          (split_attr fs.ftype tok).2 (some t) nm h1 h2 h3 h4 dir.names 0
          ([] ++ [Event.dir_open fs.root_inum]) with ⟨e, he⟩ | ⟨e, he⟩
        · rw [he]; simp
        · rw [he]; simp

/-- C5 (the code at the failing input). On the ISO9660 file system whose root directory
holds the entry `README;1` at address 7, resolving `/README;1` returns not found (1)
and leaves 0 in the result, although the token equals the entry name byte for byte. -/
theorem path2inum_iso9660_not_found :
    (∃ f, (iso_fs.dir_open_meta iso_fs.root_inum).map (fun d => d.names) = some [some f] ∧
      f.name.name = "README;1".toList ∧ f.name.meta_addr = 7) ∧
    tsk_fs_path2inum true iso_fs "/README;1".toList none =
      { retval := 1, a_result := 0, a_fs_name := none
        events := [Event.dir_open 5, Event.file_open 5 0, Event.file_close 5 0,
          Event.dir_close 5] } := by
  refine ⟨⟨_, rfl, rfl, rfl⟩, ?_⟩
  decide

/-! ## Reverse block lookup: theorems -/

theorem size_round_no_overflow (size bs : Nat) (hbs : 0 < bs) (h1 : size + bs - 1 < 2 ^ 64) :
    sub64 (wrap64 (size + bs)) 1 = size + bs - 1 := by
  unfold sub64 wrap64
  norm_num at h1 ⊢
  omega

theorem ceil_div_eq (size bs : Nat) (hbs : 0 < bs) :
    (size + bs - 1) / bs = ⌈(size : ℚ) / (bs : ℚ)⌉₊ := by
  have hbq : (0 : ℚ) < (bs : ℚ) := by exact_mod_cast hbs
  rcases Nat.eq_zero_or_pos size with h0 | hpos
  · subst h0
    simp only [Nat.zero_add, Nat.cast_zero, zero_div, Nat.ceil_zero]
    exact Nat.div_eq_of_lt (by omega)
  · symm
    have hq1 : bs ≤ size + bs - 1 := by omega
    have hqpos : 0 < (size + bs - 1) / bs := Nat.div_pos hq1 hbs
    rw [Nat.ceil_eq_iff (Nat.pos_iff_ne_zero.1 hqpos)]
    have hlo : (size + bs - 1) / bs * bs ≤ size + bs - 1 := Nat.div_mul_le_self _ _
    have hhi : size + bs - 1 < ((size + bs - 1) / bs + 1) * bs := by
      have := Nat.lt_succ_iff.2 (le_refl ((size + bs - 1) / bs))
      exact (Nat.div_lt_iff_lt_mul hbs).1 this
    set q := (size + bs - 1) / bs with hq
    constructor
    · rw [lt_div_iff₀ hbq]
      have : (q - 1) * bs < size := by
        have h2 : (q - 1) * bs + bs = q * bs := by
          have : q - 1 + 1 = q := by omega
          calc (q - 1) * bs + bs = (q - 1 + 1) * bs := by ring
            _ = q * bs := by rw [this]
        omega
      exact_mod_cast this
    · rw [div_le_iff₀ hbq]
      have : size ≤ q * bs := by
        have h2 : (q + 1) * bs = q * bs + bs := by ring
        omega
      exact_mod_cast this

/-- C8. In the callback for the file systems other than NTFS, with a positive block size
and no overflow in `size + block_size - 1` and in the sum with `addr`, the current
metadata entry is reported exactly when `addr != 0` and
`addr <= B < addr + ceil (size / block_size)`; the quotient
`(size + block_size - 1) / block_size` of the code is that ceiling. A callback of size 0
reports nothing, and one with `0 < size <= block_size` reports exactly for `B = addr`. -/
theorem ifind_data_file_act_covers (fs : TSK_FS_INFO) (addr size : Nat) (s : IfindState)
    (hbs : 0 < fs.block_size)
    (hsize : size + fs.block_size - 1 < 2 ^ 64)
    (hsum : addr + (size + fs.block_size - 1) / fs.block_size < 2 ^ 64) :
    (size + fs.block_size - 1) / fs.block_size = ⌈(size : ℚ) / (fs.block_size : ℚ)⌉₊ ∧
    (((ifind_data_file_act fs addr size s).2.out = s.out ++ [OutLine.inode s.data.curinode] ∧
        (ifind_data_file_act fs addr size s).2.data.found = 1) ↔
      (addr ≠ 0 ∧ addr ≤ s.data.block ∧
        s.data.block < addr + ⌈(size : ℚ) / (fs.block_size : ℚ)⌉₊)) ∧
    (¬ (addr ≠ 0 ∧ addr ≤ s.data.block ∧
        s.data.block < addr + ⌈(size : ℚ) / (fs.block_size : ℚ)⌉₊) →
      ifind_data_file_act fs addr size s = (TSK_WALK_RET_ENUM.TSK_WALK_CONT, s)) ∧
    (size = 0 → ifind_data_file_act fs addr size s = (TSK_WALK_RET_ENUM.TSK_WALK_CONT, s)) ∧
    (0 < size → size ≤ fs.block_size →
      (((ifind_data_file_act fs addr size s).2.out =
            s.out ++ [OutLine.inode s.data.curinode] ∧
          (ifind_data_file_act fs addr size s).2.data.found = 1) ↔
        (addr ≠ 0 ∧ s.data.block = addr))) := by
  have hceil := ceil_div_eq size fs.block_size hbs
  have hround := size_round_no_overflow size fs.block_size hbs hsize
  have hwrap : wrap64 (addr + (size + fs.block_size - 1) / fs.block_size) =
      addr + (size + fs.block_size - 1) / fs.block_size := by
    unfold wrap64
    exact Nat.mod_eq_of_lt hsum
  have hne : s.out ≠ s.out ++ [OutLine.inode s.data.curinode] := by
    intro h
    have := congrArg List.length h
    simp at this
  have hmain : ((ifind_data_file_act fs addr size s).2.out =
        s.out ++ [OutLine.inode s.data.curinode] ∧
        (ifind_data_file_act fs addr size s).2.data.found = 1) ↔
      (addr ≠ 0 ∧ addr ≤ s.data.block ∧
        s.data.block < addr + ⌈(size : ℚ) / (fs.block_size : ℚ)⌉₊) := by
    rw [← hceil]
    unfold ifind_data_file_act
    rw [hround, hwrap]
    by_cases ha : addr = 0
    · simp [ha, hne]
    · by_cases hc : s.data.block ≥ addr ∧
          s.data.block < addr + (size + fs.block_size - 1) / fs.block_size
      · simp only [ha, if_false, hc, and_self, if_true]
        split <;> simp [hc.1, hc.2, ha]
      · simp only [ha, if_false, hc]
        constructor
        · intro h
          exact absurd h.1 hne
        · intro h
          exact h.2.elim
  have hnot : ¬ (addr ≠ 0 ∧ addr ≤ s.data.block ∧
        s.data.block < addr + ⌈(size : ℚ) / (fs.block_size : ℚ)⌉₊) →
      ifind_data_file_act fs addr size s = (TSK_WALK_RET_ENUM.TSK_WALK_CONT, s) := by
    rw [← hceil]
    intro hn
    unfold ifind_data_file_act
    rw [hround, hwrap]
    by_cases ha : addr = 0
    · simp [ha]
    · have hc : ¬ (s.data.block ≥ addr ∧
          s.data.block < addr + (size + fs.block_size - 1) / fs.block_size) :=
        fun h => hn ⟨ha, h.1, h.2⟩
      simp [ha, hc]
  refine ⟨hceil, hmain, hnot, ?_, ?_⟩
  · intro h0
    apply hnot
    rw [← hceil, h0, Nat.zero_add, Nat.div_eq_of_lt (by omega)]
    omega
  · intro hpos hle
    rw [hmain, ← hceil]
    have hq : (size + fs.block_size - 1) / fs.block_size = 1 := by
      apply Nat.div_eq_of_lt_le <;> omega
    rw [hq]
    constructor
    · rintro ⟨h1, h2, h3⟩
      exact ⟨h1, by omega⟩
    · rintro ⟨h1, h2⟩
      exact ⟨h1, by omega, by omega⟩

/-- Witness of C8: block size 1024, the callback `(addr, size) = (100, 1500)` covers the
blocks 100 and 101, and block 101 is looked for. -/
theorem ifind_data_file_act_covers_witness :
    (1500 + 1024 - 1) / 1024 = ⌈((1500 : Nat) : ℚ) / ((1024 : Nat) : ℚ)⌉₊ ∧
    (((ifind_data_file_act shared_block_fs 100 1500 (ifind_state 101 0 5 0 0)).2.out =
          [] ++ [OutLine.inode 5] ∧
        (ifind_data_file_act shared_block_fs 100 1500 (ifind_state 101 0 5 0 0)).2.data.found
          = 1) ↔
      ((100 : Nat) ≠ 0 ∧ 100 ≤ 101 ∧
        101 < 100 + ⌈((1500 : Nat) : ℚ) / ((1024 : Nat) : ℚ)⌉₊)) :=
  ⟨(ifind_data_file_act_covers shared_block_fs 100 1500 (ifind_state 101 0 5 0 0)
      (by decide) (by decide) (by decide)).1,
    (ifind_data_file_act_covers shared_block_fs 100 1500 (ifind_state 101 0 5 0 0)
      (by decide) (by decide) (by decide)).2.1⟩

theorem ifind_data_file_act_block_zero (fs : TSK_FS_INFO) (addr size : Nat) (s : IfindState)
    (h : s.data.block = 0) :
    ifind_data_file_act fs addr size s = (TSK_WALK_RET_ENUM.TSK_WALK_CONT, s) := by
  unfold ifind_data_file_act
  by_cases ha : addr = 0
  · simp [ha]
  · have hc : ¬ s.data.block ≥ addr := by omega
    simp [ha, hc]

theorem walk_blocks_block_zero (fs : TSK_FS_INFO) (blocks : List (Nat × Nat))
    (s : IfindState) (h : s.data.block = 0) :
    walk_blocks (ifind_data_file_act fs) blocks s = (TSK_WALK_RET_ENUM.TSK_WALK_CONT, s) := by
  induction blocks with
  | nil => rfl
  | cons b rest ih =>
    obtain ⟨addr, size⟩ := b
    simp only [walk_blocks, ifind_data_file_act_block_zero fs addr size s h]
    exact ih

theorem file_walk_block_zero (fs : TSK_FS_INFO) (w : FileWalk) (s : IfindState)
    (h : s.data.block = 0) :
    ∃ r s1, tsk_fs_file_walk w (ifind_data_file_act fs) s = (r, s1) ∧
      s1.out = s.out ∧ s1.data = s.data := by
  simp only [tsk_fs_file_walk, walk_blocks_block_zero fs w.blocks s h]
  cases w.fails
  · exact ⟨_, _, rfl, rfl, rfl⟩
  · exact ⟨_, _, rfl, rfl, rfl⟩

theorem ifind_data_act_block_zero (fs : TSK_FS_INFO) (m : TSK_FS_META) (s : IfindState)
    (hnt : TSK_FS_TYPE_ISNTFS fs.ftype = false) (h : s.data.block = 0) :
    ∃ s1, ifind_data_act fs m s = (TSK_WALK_RET_ENUM.TSK_WALK_CONT, s1) ∧
      s1.out = s.out ∧ s1.data.found = s.data.found ∧ s1.data.block = 0 := by
  simp only [ifind_data_act, hnt, Bool.false_eq_true, if_false]
  obtain ⟨r, s1, hw, ho, hd⟩ := file_walk_block_zero fs
    (m.walk (if TSK_FS_TYPE_ISFAT fs.ftype = true then { aonly := true, slack := true }
      else { aonly := true, slack := false }))
    { data := { s.data with curinode := m.addr }, out := s.out, err := s.err
      walks := s.walks ++ [(m.addr, none,
        if TSK_FS_TYPE_ISFAT fs.ftype = true then { aonly := true, slack := true }
        else { aonly := true, slack := false })] } h
  rw [hw]
  cases r with
  | zero => exact ⟨_, rfl, ho, by rw [hd], by rw [hd]; exact h⟩
  | succ n => exact ⟨_, rfl, ho, by simp [hd], by simp [hd, h]⟩

theorem inode_walk_loop_block_zero (fs : TSK_FS_INFO) (fails : Bool) (ms : List TSK_FS_META)
    (s : IfindState) (hnt : TSK_FS_TYPE_ISNTFS fs.ftype = false) (h : s.data.block = 0) :
    ∃ s1, inode_walk_loop (ifind_data_act fs) fails ms s = (if fails then 1 else 0, s1) ∧
      s1.out = s.out ∧ s1.data.found = s.data.found := by
  induction ms generalizing s with
  | nil => exact ⟨s, rfl, rfl, rfl⟩
  | cons m rest ih =>
    obtain ⟨s1, h1, ho, hf, hb⟩ := ifind_data_act_block_zero fs m s hnt h
    obtain ⟨s2, h2, ho2, hf2⟩ := ih s1 hb
    refine ⟨s2, ?_, ho2.trans ho, hf2.trans hf⟩
    simp only [inode_walk_loop, h1, h2]

theorem inode_walk_block_zero (fs : TSK_FS_INFO) (first last : Nat) (alloc unalloc : Bool)
    (s : IfindState) (hnt : TSK_FS_TYPE_ISNTFS fs.ftype = false) (h : s.data.block = 0) :
    ∃ s1, inode_walk fs first last alloc unalloc (ifind_data_act fs) s =
        (if fs.inode_walk_fails then 1 else 0, s1) ∧
      s1.out = s.out ∧ s1.data.found = s.data.found :=
  inode_walk_loop_block_zero fs fs.inode_walk_fails _ s hnt h

theorem ifind_data_block_zero (fs : TSK_FS_INFO) (lclflags : Nat) (err : TskError)
    (hnt : TSK_FS_TYPE_ISNTFS fs.ftype = false) :
    (fs.inode_walk_fails = true →
      (tsk_fs_ifind_data fs lclflags 0 err).1 = 1 ∧
        (tsk_fs_ifind_data fs lclflags 0 err).2.out = []) ∧
    (fs.inode_walk_fails = false →
      (tsk_fs_ifind_data fs lclflags 0 err).1 = 0 ∧
      (tsk_fs_ifind_data fs lclflags 0 err).2.out =
        match fs.block_get 0 with
        | some flags =>
          if flags &&& TSK_FS_BLOCK_FLAG_META ≠ 0 then [OutLine.meta_data]
          else [OutLine.inode_not_found]
        | none => [OutLine.inode_not_found]) := by
  obtain ⟨s1, h1, ho, hf⟩ := inode_walk_block_zero fs fs.first_inum fs.last_inum true true
    { data := { block := 0, flags := lclflags, found := 0, curinode := 0, curtype := 0
                curid := 0 }
      out := [], err := err, walks := [] } hnt rfl
  simp only at ho hf
  constructor
  · intro hfail
    rw [hfail] at h1
    simp only [tsk_fs_ifind_data, h1, if_true]
    exact ⟨trivial, ho⟩
  · intro hfail
    rw [hfail] at h1
    simp only [tsk_fs_ifind_data, h1, Bool.false_eq_true, if_false, hf, if_true]
    cases hbg : fs.block_get 0 with
    | none => simp [hf, ho]
    | some fl =>
      by_cases hm : fl &&& TSK_FS_BLOCK_FLAG_META = 0
      · simp [hm, hf, ho]
      · simp [hm, ho]

/-- Where sparse runs are dropped. In the callback for the file systems other than NTFS
(the guard of lines 466-472, `Drop references to block zero (sparse)`), a call with
disk address 0 reports no match and leaves the lookup state unchanged, for every block
looked for and every flag setting; in the NTFS callback the same holds for every block
other than 0. On a file system other than NTFS a lookup of block 0 prints no metadata
entry, and when the metadata walk does not fail it falls through to the check of the
block flags: it prints `Meta Data` when the flags of block 0 include metadata and
`Inode not found` otherwise. -/
theorem ifind_zero_address_not_reported (fs : TSK_FS_INFO) (lclflags : Nat) (err : TskError)
    (hnt : TSK_FS_TYPE_ISNTFS fs.ftype = false) :
    (∀ (size : Nat) (s : IfindState),
      ifind_data_file_act fs 0 size s = (TSK_WALK_RET_ENUM.TSK_WALK_CONT, s)) ∧
    (∀ (size : Nat) (s : IfindState), s.data.block ≠ 0 →
      ifind_data_file_ntfs_act 0 size s = (TSK_WALK_RET_ENUM.TSK_WALK_CONT, s)) ∧
    (∀ l ∈ (tsk_fs_ifind_data fs lclflags 0 err).2.out,
      l = OutLine.meta_data ∨ l = OutLine.inode_not_found) ∧
    (fs.inode_walk_fails = false →
      (tsk_fs_ifind_data fs lclflags 0 err).1 = 0 ∧
      (tsk_fs_ifind_data fs lclflags 0 err).2.out =
        match fs.block_get 0 with
        | some flags =>
          if flags &&& TSK_FS_BLOCK_FLAG_META ≠ 0 then [OutLine.meta_data]
          else [OutLine.inode_not_found]
        | none => [OutLine.inode_not_found]) := by
  have hz := ifind_data_block_zero fs lclflags err hnt
  refine ⟨?_, ?_, ?_, hz.2⟩
  · intro size s
    simp [ifind_data_file_act]
  · intro size s hb
    have : ¬ (0 = s.data.block) := fun h => hb h.symm
    simp [ifind_data_file_ntfs_act, this]
  · intro l hl
    cases hfail : fs.inode_walk_fails with
    | true =>
      rw [(hz.1 hfail).2] at hl
      simp at hl
    | false =>
      rw [(hz.2 hfail).2] at hl
      cases hbg : fs.block_get 0 with
      | none =>
        rw [hbg] at hl
        simp at hl
        exact Or.inr hl
      | some fl =>
        rw [hbg] at hl
        simp only at hl
        split at hl
        · simp at hl
          exact Or.inl hl
        · simp at hl
          exact Or.inr hl

/-- An instance: a lookup of block 0 on the ext file system `shared_block_fs`. -/
theorem ifind_zero_address_not_reported_witness :
    TSK_FS_TYPE_ISNTFS shared_block_fs.ftype = false ∧
    (tsk_fs_ifind_data shared_block_fs 0 0 no_error).1 = 0 ∧
    (tsk_fs_ifind_data shared_block_fs 0 0 no_error).2.out = [OutLine.inode_not_found] :=
  ⟨by decide,
    (ifind_zero_address_not_reported shared_block_fs 0 no_error (by decide)).2.2.2 rfl⟩

/-- C6 (the code at the failing input). On NTFS, with block 0 looked for, the callback
`ifind_data_file_ntfs_act` called with disk address 0 (a sparse run) reports the
attribute being walked as a match and marks the lookup as found; the lookup of block 0
then prints that match and does not fall through to the check of the block flags. The
sibling callback `ifind_data_file_act`, called with the same address and state, drops
the reference: it returns `continue`, prints nothing and leaves `found` at 0. -/
theorem ifind_ntfs_zero_address_reported :
    (ifind_data_file_ntfs_act 0 4096 (ifind_state 0 0 9 128 3)).1 =
      TSK_WALK_RET_ENUM.TSK_WALK_STOP ∧
    (ifind_data_file_ntfs_act 0 4096 (ifind_state 0 0 9 128 3)).2.out =
      [OutLine.attr 9 128 3] ∧
    (ifind_data_file_ntfs_act 0 4096 (ifind_state 0 0 9 128 3)).2.data.found = 1 ∧
    (tsk_fs_ifind_data sparse_ntfs_fs 0 0 no_error).2.out = [OutLine.attr 9 128 3] ∧
    (ifind_data_file_act sparse_ntfs_fs 0 4096 (ifind_state 0 0 9 128 3)).1 =
      TSK_WALK_RET_ENUM.TSK_WALK_CONT ∧
    (ifind_data_file_act sparse_ntfs_fs 0 4096 (ifind_state 0 0 9 128 3)).2.out = [] ∧
    (ifind_data_file_act sparse_ntfs_fs 0 4096 (ifind_state 0 0 9 128 3)).2.data.found =
      0 := by
  decide

/-- C7 (the code at the failing input). Without the flag `ifind_all`, on the ext file
system in which the entries 5 and 9 both cover block 100, the lookup of block 100
prints both entries: the `stop` of the file-walk callback ends the walk of entry 5 only,
and the metadata walk goes on to entry 9. -/
theorem ifind_data_reports_every_owner_without_all :
    0 &&& TSK_FS_IFIND_ALL = 0 ∧
    tsk_fs_ifind_data shared_block_fs 0 100 no_error =
      (0, { data := { block := 100, flags := 0, found := 1, curinode := 9, curtype := 0
                      curid := 0 }
            out := [OutLine.inode 5, OutLine.inode 9]
            err := no_error
            walks := [(5, none, { aonly := true, slack := false }),
              (7, none, { aonly := true, slack := false }),
              (9, none, { aonly := true, slack := false })] }) := by
  decide

/-! ## ISO9660 directory parser: theorems -/

theorem zero_scan_all_zero (buf : List Nat) (n a : Nat)
    (hz : ∀ i, i < n → buf.get? (a + i) = some 0)
    (hend : ∃ x, buf.get? (a + n) = some x) :
    zero_scan buf a n = some (a + n) := by
  induction n generalizing a with
  | zero =>
    obtain ⟨x, hx⟩ := hend
    simp only [Nat.add_zero] at hx
    rw [zero_scan, hx]
    rfl
  | succ k ih =>
    have h0 : buf.get? a = some 0 := by
      have := hz 0 (Nat.succ_pos k)
      rwa [Nat.add_zero] at this
    simp only [zero_scan, h0, if_true]
    rw [ih (a + 1)]
    · congr 1
      omega
    · intro i hi
      have := hz (i + 1) (by omega)
      rwa [show a + (i + 1) = a + 1 + i by omega] at this
    · obtain ⟨x, hx⟩ := hend
      exact ⟨x, by rwa [show a + (k + 1) = a + 1 + k by omega] at hx⟩

/-- Once a whole header's worth of bytes at `dd` is zero the loop never moves `dd`
again: it lowers `length` by the header size until `length` is at most the header size
and returns OK with the entries it has. -/
theorem proc_loop_stuck (iso : ISO_INFO) (maxnamlen : Nat) (buf : List Nat) (fuel : Nat)
    (s : ProcState)
    (hz : ∀ i, i < DENTRY_SIZE → buf.get? (s.pos + i) = some 0)
    (hend : ∃ x, buf.get? (s.pos + DENTRY_SIZE) = some x)
    (hlen : s.length < 2 ^ 64)
    (hfuel : s.length < DENTRY_SIZE * fuel) :
    proc_loop iso maxnamlen buf fuel s =
      some (ProcResult.ret TSK_RETVAL_ENUM.TSK_OK s.names) := by
  induction fuel generalizing s with
  | zero => simp at hfuel
  | succ k ih =>
    unfold proc_loop
    by_cases hgt : s.length > DENTRY_SIZE
    · have h0 : buf.get? s.pos = some 0 := by
        simpa using hz 0 (by decide)
      have hscan := zero_scan_all_zero buf DENTRY_SIZE s.pos hz hend
      have hsub : sub64 s.length DENTRY_SIZE = s.length - DENTRY_SIZE := by
        unfold sub64 DENTRY_SIZE at *
        norm_num at hlen hgt ⊢
        omega
      simp only [hgt, if_true, proc_step, h0, ne_eq, not_true_eq_false, if_false, hscan,
        hsub]
      rw [ih]
      · exact hz
      · exact hend
      · simp only
        omega
      · simp only
        unfold DENTRY_SIZE at *
        omega
    · simp [hgt]

theorem hole_dir_buf_split (n t : Nat) :
    hole_dir_buf n t =
      (dir_record 34 20 2 [0] ++ dir_record 34 18 2 [1]) ++
        (List.replicate n 0 ++
          (dir_record 50 5 0 ("README;1".toList.map Char.toNat) ++ List.replicate t 0)) := by
  simp only [hole_dir_buf, List.append_assoc]

theorem hole_dir_buf_head (n t i : Nat) (hi : i < 68) :
    (hole_dir_buf n t).get? i =
      (dir_record 34 20 2 [0] ++ dir_record 34 18 2 [1]).get? i := by
  rw [hole_dir_buf_split, List.get?_eq_getElem?, List.get?_eq_getElem?]
  exact List.getElem?_append_left (by simpa using hi)

theorem hole_dir_buf_hole (n t i : Nat) (hi : i < n) :
    (hole_dir_buf n t).get? (68 + i) = some 0 := by
  have h68 : (dir_record 34 20 2 [0] ++ dir_record 34 18 2 [1]).length = 68 := by rfl
  rw [hole_dir_buf_split, List.get?_eq_getElem?,
    List.getElem?_append_right (by rw [h68]; omega)]
  rw [h68, Nat.add_sub_cancel_left, List.getElem?_append_left (by simpa using hi)]
  simp [hi]

theorem hole_dir_buf_length (n t : Nat) : (hole_dir_buf n t).length = n + t + 118 := by
  rw [hole_dir_buf_split]
  have h68 : (dir_record 34 20 2 [0] ++ dir_record 34 18 2 [1]).length = 68 := by rfl
  have h50 : (dir_record 50 5 0 ("README;1".toList.map Char.toNat)).length = 50 := by rfl
  simp only [List.length_append, h68, h50, List.length_replicate]
  omega

theorem hole_dir_buf_dots (n t length : Nat) :
    proc_dots hole_iso (hole_dir_buf n t) length 3 [] =
      Sum.inr { pos := 68, length := sub64 (sub64 length 34) 34
                names := [dot_entry 3, dotdot_entry 0] } := by
  have g0 : (hole_dir_buf n t).get? 0 = some 34 := by
    rw [hole_dir_buf_head n t 0 (by decide)]; rfl
  have g34 : (hole_dir_buf n t).get? 34 = some 34 := by
    rw [hole_dir_buf_head n t 34 (by decide)]; rfl
  have g40 : (hole_dir_buf n t).get? (34 + EXT_LOC_M_OFF) = some 0 := by
    rw [hole_dir_buf_head n t _ (by decide)]; rfl
  have g41 : (hole_dir_buf n t).get? (34 + EXT_LOC_M_OFF + 1) = some 0 := by
    rw [hole_dir_buf_head n t _ (by decide)]; rfl
  have g42 : (hole_dir_buf n t).get? (34 + EXT_LOC_M_OFF + 2) = some 0 := by
    rw [hole_dir_buf_head n t _ (by decide)]; rfl
  have g43 : (hole_dir_buf n t).get? (34 + EXT_LOC_M_OFF + 3) = some 18 := by
    rw [hole_dir_buf_head n t _ (by decide)]; rfl
  have hlook : lookup_record hole_iso (hole_dir_buf n t) 34 =
      some (some { ext_loc_m := be32 18, fn := [], inum := 0 }) := by
    simp only [lookup_record, hole_iso, read4, g40, g41, g42, g43]
    decide
  simp only [proc_dots, g0, hlook, g34, tsk_fs_dir_add]
  rfl

/-- Every hole of at least a header's worth of zero bytes hides the record behind it: for
the extent `.`, `..`, `n >= 33` zero bytes, the record of `README;1`, `t` trailing
zeros, the parser returns OK with the entries `.` and `..` only. -/
theorem iso9660_proc_dir_long_hole (maxnamlen n t fuel : Nat) (hn : DENTRY_SIZE ≤ n)
    (hlen : n + t + 118 < 2 ^ 64) (hfuel : n + t + 50 < DENTRY_SIZE * fuel) :
    iso9660_proc_dir hole_iso maxnamlen true [] (hole_dir_buf n t) (n + t + 118) 3 fuel =
      some (ProcResult.ret TSK_RETVAL_ENUM.TSK_OK [dot_entry 3, dotdot_entry 0]) := by
  have hsub : sub64 (sub64 (n + t + 118) 34) 34 = n + t + 50 := by
    unfold sub64
    norm_num at hlen ⊢
    omega
  simp only [iso9660_proc_dir, Bool.not_true, Bool.false_eq_true, if_false,
    hole_dir_buf_dots, hsub]
  have hstuck := proc_loop_stuck hole_iso maxnamlen (hole_dir_buf n t) fuel
    { pos := 68, length := n + t + 50, names := [dot_entry 3, dotdot_entry 0] }
    (fun i hi => hole_dir_buf_hole n t i (by unfold DENTRY_SIZE at hi hn; omega))
    (by
      have hl : 68 + DENTRY_SIZE < (hole_dir_buf n t).length := by
        rw [hole_dir_buf_length]
        unfold DENTRY_SIZE
        omega
      exact ⟨(hole_dir_buf n t).get ⟨68 + DENTRY_SIZE, hl⟩, List.get?_eq_get hl⟩)
    (by simp only; omega) (by simpa using hfuel)
  exact hstuck

theorem zero_scan_stops (buf : List Nat) (n k a x : Nat)
    (hz : ∀ i, i < n → buf.get? (a + i) = some 0)
    (hx : buf.get? (a + n) = some x) (hne : x ≠ 0) :
    zero_scan buf a (n + k) = some (a + n) := by
  induction n generalizing a with
  | zero =>
    simp only [Nat.add_zero] at hx
    cases k with
    | zero => rw [Nat.zero_add, zero_scan, hx]; rfl
    | succ j => rw [Nat.zero_add, zero_scan, hx]; simp [hne]
  | succ m ih =>
    have h0 : buf.get? a = some 0 := by
      have := hz 0 (Nat.succ_pos m)
      rwa [Nat.add_zero] at this
    rw [show m + 1 + k = (m + k) + 1 by omega, zero_scan, h0]
    simp only [if_true]
    rw [ih (a + 1)]
    · congr 1
      omega
    · intro i hi
      have := hz (i + 1) (by omega)
      rwa [show a + (i + 1) = a + 1 + i by omega] at this
    · rwa [show a + (m + 1) = a + 1 + m by omega] at hx

theorem hole_dir_buf_record (n t i : Nat) (hi : i < 50) :
    (hole_dir_buf n t).get? (68 + n + i) =
      (dir_record 50 5 0 ("README;1".toList.map Char.toNat)).get? i := by
  have h68 : (dir_record 34 20 2 [0] ++ dir_record 34 18 2 [1]).length = 68 := by rfl
  have h50 : (dir_record 50 5 0 ("README;1".toList.map Char.toNat)).length = 50 := by rfl
  rw [hole_dir_buf_split, List.get?_eq_getElem?, List.get?_eq_getElem?,
    List.getElem?_append_right (by rw [h68]; omega), h68,
    List.getElem?_append_right (by rw [List.length_replicate]; omega),
    List.length_replicate, show 68 + n + i - 68 - n = i by omega,
    List.getElem?_append_left (by rw [h50]; exact hi)]

theorem hole_dir_buf_tail (n t i : Nat) (hi : i < t) :
    (hole_dir_buf n t).get? (118 + n + i) = some 0 := by
  have h68 : (dir_record 34 20 2 [0] ++ dir_record 34 18 2 [1]).length = 68 := by rfl
  have h50 : (dir_record 50 5 0 ("README;1".toList.map Char.toNat)).length = 50 := by rfl
  rw [hole_dir_buf_split, List.get?_eq_getElem?,
    List.getElem?_append_right (by rw [h68]; omega), h68,
    List.getElem?_append_right (by rw [List.length_replicate]; omega),
    List.length_replicate,
    List.getElem?_append_right (by rw [h50]; omega), h50,
    show 118 + n + i - 68 - n - 50 = i by omega]
  simp [hi]

/-- Every hole shorter than a record header is skipped: for the extent `.`, `..`,
`1 <= n <= 32` zero bytes, the record of `README;1`, `t` trailing zeros, the parser
returns OK with the entries `.`, `..` and `README;1`, of type regular. -/
theorem iso9660_proc_dir_short_hole_any (n t k : Nat) (h1 : 1 ≤ n) (h32 : n < DENTRY_SIZE)
    (hlen : n + t + 118 < 2 ^ 64) (hfuel : t < DENTRY_SIZE * k) :
    iso9660_proc_dir hole_iso 256 true [] (hole_dir_buf n t) (n + t + 118) 3 (k + 2) =
      some (ProcResult.ret TSK_RETVAL_ENUM.TSK_OK
        [dot_entry 3, dotdot_entry 0, readme_entry]) := by
  have hsub : sub64 (sub64 (n + t + 118) 34) 34 = n + t + 50 := by
    unfold sub64
    norm_num at hlen ⊢
    omega
  simp only [iso9660_proc_dir, Bool.not_true, Bool.false_eq_true, if_false,
    hole_dir_buf_dots, hsub]
  -- first iteration: the hole
  have hgt1 : n + t + 50 > DENTRY_SIZE := by unfold DENTRY_SIZE; omega
  have g68 : (hole_dir_buf n t).get? 68 = some 0 := hole_dir_buf_hole n t 0 (by omega)
  have hrec0 : (hole_dir_buf n t).get? (68 + n) = some 50 := by
    have := hole_dir_buf_record n t 0 (by decide)
    rw [Nat.add_zero] at this
    rw [this]; rfl
  have hscan : zero_scan (hole_dir_buf n t) 68 DENTRY_SIZE = some (68 + n) := by
    have := zero_scan_stops (hole_dir_buf n t) n (DENTRY_SIZE - n) 68 50
      (fun i hi => hole_dir_buf_hole n t i hi) hrec0 (by decide)
    rwa [show n + (DENTRY_SIZE - n) = DENTRY_SIZE by omega] at this
  have hne : 68 + n ≠ 68 + DENTRY_SIZE := by omega
  have hpos1 : 68 + (DENTRY_SIZE - (68 + DENTRY_SIZE - (68 + n))) = 68 + n := by
    unfold DENTRY_SIZE at *; omega
  have hlen1 : wrap64 (sub64 (n + t + 50) DENTRY_SIZE + (68 + DENTRY_SIZE - (68 + n))) =
      t + 50 := by
    unfold wrap64 sub64 DENTRY_SIZE at *
    norm_num at hlen ⊢
    omega
  rw [proc_loop]
  simp only [hgt1, if_true, proc_step, g68, ne_eq, not_true_eq_false, if_false, hscan, hne,
    not_false_eq_true, hpos1, hlen1]
  -- second iteration: the record
  have hgt2 : t + 50 > DENTRY_SIZE := by unfold DENTRY_SIZE; omega
  have e0 : (hole_dir_buf n t).get? (68 + n + EXT_LOC_M_OFF) = some 0 := by
    rw [hole_dir_buf_record n t _ (by decide)]; rfl
  have e1 : (hole_dir_buf n t).get? (68 + n + EXT_LOC_M_OFF + 1) = some 0 := by
    rw [Nat.add_assoc (68 + n), hole_dir_buf_record n t _ (by decide)]; rfl
  have e2 : (hole_dir_buf n t).get? (68 + n + EXT_LOC_M_OFF + 2) = some 0 := by
    rw [Nat.add_assoc (68 + n), hole_dir_buf_record n t _ (by decide)]; rfl
  have e3 : (hole_dir_buf n t).get? (68 + n + EXT_LOC_M_OFF + 3) = some 5 := by
    rw [Nat.add_assoc (68 + n), hole_dir_buf_record n t _ (by decide)]; rfl
  have hlook : lookup_record hole_iso (hole_dir_buf n t) (68 + n) =
      some (some { ext_loc_m := be32 5, fn := "README;1".toList, inum := 7 }) := by
    simp only [lookup_record, hole_iso, read4, e0, e1, e2, e3]
    decide
  have hflags : (hole_dir_buf n t).get? (68 + n + FLAGS_OFF) = some 0 := by
    rw [hole_dir_buf_record n t _ (by decide)]; rfl
  have hsub2 : sub64 (t + 50) 50 = t := by
    unfold sub64
    norm_num at hlen ⊢
    omega
  have hname : ({ name := clean_name 256 "README;1".toList, shrt_name := [], meta_addr := 7
                  type :=
                    if 0 &&& ISO9660_FLAG_DIR ≠ 0 then
                      TSK_FS_NAME_TYPE_ENUM.TSK_FS_NAME_TYPE_DIR
                    else TSK_FS_NAME_TYPE_ENUM.TSK_FS_NAME_TYPE_REG
                  flags := TSK_FS_NAME_FLAG_ENUM.TSK_FS_NAME_FLAG_ALLOC } : TSK_FS_NAME) =
      readme_entry := by decide
  rw [proc_loop]
  simp only [hgt2, if_true, proc_step, hrec0, ne_eq, OfNat.ofNat_ne_zero, not_false_eq_true,
    hlook, hflags, hsub2, hname, tsk_fs_dir_add]
  -- the trailing zeros
  by_cases ht : t > DENTRY_SIZE
  · have hstuck := proc_loop_stuck hole_iso 256 (hole_dir_buf n t) k
      { pos := 68 + n + 50, length := t
        names := [dot_entry 3, dotdot_entry 0] ++ [readme_entry] }
      (fun i hi => by
        have := hole_dir_buf_tail n t i (by unfold DENTRY_SIZE at hi ht; omega)
        rwa [show 118 + n + i = 68 + n + 50 + i by omega] at this)
      ⟨0, by
        have := hole_dir_buf_tail n t DENTRY_SIZE (by omega)
        rwa [show 118 + n + DENTRY_SIZE = 68 + n + 50 + DENTRY_SIZE by omega] at this⟩
      (by simp only; omega) hfuel
    rw [hstuck]
    rfl
  · cases k with
    | zero => simp at hfuel
    | succ j =>
      rw [proc_loop]
      simp [ht]

/-- A hole shorter than a record header is skipped: with 32 zero bytes between `..` and
the record of `README;1` the parser returns OK with the three entries. -/
theorem iso9660_proc_dir_short_hole :
    iso9660_proc_dir hole_iso 256 true [] (hole_dir_buf 32 1898) 2048 3 100 =
      some (ProcResult.ret TSK_RETVAL_ENUM.TSK_OK
        [dot_entry 3, dotdot_entry 0, readme_entry]) := by
  decide

set_option maxRecDepth 100000 in
/-- C1 (the code at the failing input). The extent is the record `.` (34 bytes), the record
`..` (34 bytes), a hole of 100 zero bytes, the record of `README;1` (50 bytes, extent 5,
in the master list, directory flag clear) and trailing zeros up to 2048 bytes. The
parser returns OK, but the directory container holds `.` and `..` only: once a whole
header's worth of bytes at `dd` is zero, every iteration lowers `length` by the header
size and leaves `dd` where it is, so the record behind the hole is never reached. The
result is `some`, so the loop ended by itself within the iteration bound. -/
theorem iso9660_proc_dir_hole_100 :
    (hole_dir_buf 100 1830).length = 2048 ∧
    (hole_dir_buf 100 1830).get? 168 = some 50 ∧
    iso9660_proc_dir hole_iso 256 true [] (hole_dir_buf 100 1830) 2048 3 100 =
      some (ProcResult.ret TSK_RETVAL_ENUM.TSK_OK [dot_entry 3, dotdot_entry 0]) := by
  refine ⟨by rfl, by rfl, ?_⟩
  decide

/-! ## Witnesses -/

/-- Witness of C2: an image with a BSD disk label, on which the DOS opener succeeds too. -/
theorem tsk_vs_open_bsd_overrides_dos_witness :
    (tsk_vs_open bsd_label_openers () 0 TSK_VS_TYPE_ENUM.TSK_VS_TYPE_DETECT
      { err := no_error, closed := [] }).1 = some "bsd" :=
  tsk_vs_open_bsd_overrides_dos bsd_label_openers () 0 { err := no_error, closed := [] }
    "dos" "bsd" (fun _ => rfl) (fun _ => rfl) (fun _ => rfl) (fun _ => rfl) (fun _ => rfl)

/-- Witness of C3: in the directory `users` (address 30) the stream `notes` of `alice.txt`
is found, the stream `missing` is not, although the later entry `ALICE.TXT` carries a
stream of that name. -/
theorem path_loop_final_ntfs_attr_witness :
    path_loop ntfs_fs none [] ("alice.txt".toList ++ ':' :: "notes".toList) 30 [] =
      { retval := 0, a_result := 64, a_fs_name := none
        events := [Event.dir_open 30, Event.file_open 30 0, Event.file_close 30 0,
          Event.file_open 30 1] } ∧
    path_loop ntfs_fs none [] ("alice.txt".toList ++ ':' :: "missing".toList) 30 [] =
      { retval := 1, a_result := 0, a_fs_name := none
        events := [Event.dir_open 30, Event.file_open 30 0, Event.file_close 30 0,
          Event.file_open 30 1] } ∧
    tsk_fs_path2inum true ntfs_fs "/users/alice.txt:notes".toList none =
      { retval := 0, a_result := 64, a_fs_name := none
        events := [Event.dir_open 5, Event.file_open 5 0, Event.file_close 5 0,
          Event.dir_close 5, Event.dir_open 30, Event.file_open 30 0, Event.file_close 30 0,
          Event.file_open 30 1] } :=
  ⟨(path_loop_final_ntfs_attr ntfs_fs none "alice.txt".toList "notes".toList 30 []
      [bob_file] alice_file [some alice_upper_file] (by decide) (by decide) (by rfl)
      (by decide) (by decide)).1 ⟨_, data_attr "notes" 3, rfl, by simp, by decide⟩,
    (path_loop_final_ntfs_attr ntfs_fs none "alice.txt".toList "missing".toList 30 []
      [bob_file] alice_file [some alice_upper_file] (by decide) (by decide) (by rfl)
      (by decide) (by decide)).2 (by
        rintro ⟨m, a, hm, ha, hn⟩
        have hm2 : m.attrs = [some (data_attr "$Data" 1), some (data_attr "notes" 3)] := by
          have := Option.some.inj hm
          rw [← this]
        rw [hm2] at ha
        simp only [List.mem_cons, Option.some.injEq, List.mem_singleton, List.not_mem_nil,
          or_false] at ha
        rcases ha with h | h <;> subst h <;> revert hn <;> decide),
    by decide⟩

/-- Witness of C9: an image on which the GPT and the Sun openers succeed. -/
theorem tsk_vs_open_exclusive_conflict_witness :
    (tsk_vs_open gpt_sun_openers () 63 TSK_VS_TYPE_ENUM.TSK_VS_TYPE_DETECT
      { err := no_error, closed := [] }).1 = none ∧
    (tsk_vs_open gpt_sun_openers () 63 TSK_VS_TYPE_ENUM.TSK_VS_TYPE_DETECT
      { err := no_error, closed := [] }).2.err.tsk_errno = TSK_ERR_ENUM.VS_UNKTYPE ∧
    (tsk_vs_open gpt_sun_openers () 63 TSK_VS_TYPE_ENUM.TSK_VS_TYPE_DETECT
      { err := no_error, closed := [] }).2.err.tsk_errstr = "Sun or GPT at " ++ toString 63 ∧
    (tsk_vs_open gpt_sun_openers () 63 TSK_VS_TYPE_ENUM.TSK_VS_TYPE_DETECT
      { err := no_error, closed := [] }).2.closed = [] ++ ["gpt", "sun"] :=
  have h := tsk_vs_open_exclusive_conflict gpt_sun_openers () 63
    { err := no_error, closed := [] } none none (some "gpt") (some "sun") none
    (fun _ => rfl) (fun _ => rfl) (fun _ => rfl) (fun _ => rfl) (fun _ => rfl)
    (Or.inl ⟨by simp, by simp⟩)
  ⟨h.1, h.2.1, ((h.2.2.2 rfl rfl).1 "gpt" "sun" rfl rfl).1,
    ((h.2.2.2 rfl rfl).1 "gpt" "sun" rfl rfl).2⟩

/-- Witness of C10: `/notes.txt/x` on the ext file system in which `notes.txt` is a
regular file. -/
theorem path_loop_nonfinal_not_dir_witness :
    path_loop ext_fs none ["x".toList] "notes.txt".toList 5 [] =
      { retval := 1, a_result := 0, a_fs_name := none
        events := [Event.dir_open 5, Event.file_open 5 0, Event.file_close 5 0,
          Event.file_open 5 1] } ∧
    tsk_fs_path2inum true ext_fs "/notes.txt/x".toList none =
      { retval := 1, a_result := 0, a_fs_name := none
        events := [Event.dir_open 5, Event.file_open 5 0, Event.file_close 5 0,
          Event.file_open 5 1] } :=
  ⟨path_loop_nonfinal_not_dir ext_fs none "notes.txt".toList "x".toList [] 5 []
      [lost_found_file] notes_file [] (by rfl) (by decide) (by decide)
      (Or.inr ⟨_, rfl, by decide⟩),
    by decide⟩

/-! ## Path resolver: tokens, the root, first match, outcomes -/

/-! ## Path resolver: the root and the tokens of a path -/

theorem strtok_loop_slashes (p : List Char) (h : ∀ c ∈ p, c = '/') : strtok_loop p [] = [] := by
  induction p with
  | nil => rfl
  | cons c cs ih =>
    have hc : c = '/' := h c (by simp)
    have hcs : ∀ x ∈ cs, x = '/' := fun x hx => h x (by simp [hx])
    simp [strtok_loop, hc, ih hcs]

theorem strtok_loop_append_slash (p : List Char) (cur : CStr) :
    strtok_loop (p ++ ['/']) cur = strtok_loop p cur := by
  induction p generalizing cur with
  | nil =>
    by_cases h : cur = []
    · simp [strtok_loop, h]
    · simp [strtok_loop, h]
  | cons c cs ih =>
    simp only [List.cons_append, strtok_loop, List.append_eq, ih]

theorem modifyHead_nil_append (l : List CStr) :
    l.modifyHead (fun s => ([] : CStr) ++ s) = l := by
  cases l <;> simp [List.modifyHead]

theorem strtok_loop_eq_splitOn (p : List Char) (cur : CStr) :
    strtok_loop p cur =
      ((p.splitOn '/').modifyHead (fun s => cur ++ s)).filter (fun s => decide (s ≠ [])) := by
  induction p generalizing cur with
  | nil =>
    by_cases h : cur = []
    · simp [strtok_loop, h, List.splitOn, List.modifyHead]
    · simp [strtok_loop, h, List.splitOn, List.modifyHead]
  | cons c cs ih =>
    by_cases hc : c = '/'
    · subst hc
      have hsplit : List.splitOn '/' ('/' :: cs) = [] :: List.splitOn '/' cs := by
        simp [List.splitOn]
      have h0 := ih []
      rw [modifyHead_nil_append] at h0
      rw [hsplit, List.modifyHead_cons, List.append_nil]
      by_cases h : cur = []
      · subst h
        rw [strtok_loop, if_pos rfl, if_pos rfl, h0]
        simp
      · rw [strtok_loop, if_pos rfl, if_neg h, h0]
        simp [h]
    · have hsplit : List.splitOn '/' (c :: cs) =
          (List.splitOn '/' cs).modifyHead (List.cons c) := by
        simp [List.splitOn, hc]
      rw [hsplit, List.modifyHead_modifyHead, strtok_loop, if_neg hc, ih]
      congr 2
      funext s
      simp

theorem strtok_all_eq_splitOn (p : List Char) :
    strtok_all p = (p.splitOn '/').filter (fun s => decide (s ≠ [])) := by
  unfold strtok_all
  rw [strtok_loop_eq_splitOn, modifyHead_nil_append]

/-- C11 (counterexample). When the allocation of the path copy fails, the call for the
path `/` on the NTFS example returns error (-1) with the result 0, not found with the
root address 5, and the name record that was passed is left as it was. -/
theorem path2inum_root_malloc_failure :
    (∀ c ∈ "/".toList, c = '/') ∧
    tsk_fs_path2inum false ntfs_fs "/".toList (some bob_file.name) =
      { retval := -1, a_result := 0, a_fs_name := some bob_file.name, events := [] } ∧
    (tsk_fs_path2inum false ntfs_fs "/".toList (some bob_file.name)).retval ≠ 0 ∧
    ntfs_fs.root_inum = 5 :=
  ⟨by decide, rfl, by decide, rfl⟩

/-- C11 (as amended). For every file-system handle and every path made of zero or more
`/` only (the empty path and `/` among them): when the allocation of the path copy
succeeds, `tsk_fs_path2inum` returns found (0) with the root metadata address, without
any directory or entry being opened, and a name record that was passed is filled with
the root address, the type directory, the flag allocated and empty long and short
names; when the allocation fails, it returns error (-1) with the result 0, without any
directory or entry being opened, and leaves the name record as it was. -/
theorem path2inum_root (malloc_ok : Bool) (fs : TSK_FS_INFO) (a_path : CStr)
    (a_fs_name : Option TSK_FS_NAME) (hpath : ∀ c ∈ a_path, c = '/') :
    tsk_fs_path2inum malloc_ok fs a_path a_fs_name =
      if malloc_ok then
        { retval := 0
          a_result := fs.root_inum
          a_fs_name := a_fs_name.map (fun _ =>
            { name := []
              shrt_name := []
              meta_addr := fs.root_inum
              type := TSK_FS_NAME_TYPE_ENUM.TSK_FS_NAME_TYPE_DIR
              flags := TSK_FS_NAME_FLAG_ENUM.TSK_FS_NAME_FLAG_ALLOC })
          events := [] }
      else { retval := -1, a_result := 0, a_fs_name := a_fs_name, events := [] } := by
  cases malloc_ok with
  | false => rfl
  | true =>
    simp only [tsk_fs_path2inum, strtok_all, strtok_loop_slashes a_path hpath, if_true]

/-- Witness of C11: the path `//` on the NTFS example, with a name record passed, when
the allocation succeeds and when it fails. -/
theorem path2inum_root_witness :
    tsk_fs_path2inum true ntfs_fs "//".toList (some bob_file.name) =
      { retval := 0
        a_result := 5
        a_fs_name := some
          { name := []
            shrt_name := []
            meta_addr := 5
            type := TSK_FS_NAME_TYPE_ENUM.TSK_FS_NAME_TYPE_DIR
            flags := TSK_FS_NAME_FLAG_ENUM.TSK_FS_NAME_FLAG_ALLOC }
        events := [] } ∧
    tsk_fs_path2inum false ntfs_fs "//".toList (some bob_file.name) =
      { retval := -1, a_result := 0, a_fs_name := some bob_file.name, events := [] } :=
  ⟨path2inum_root true ntfs_fs "//".toList (some bob_file.name) (by decide),
    path2inum_root false ntfs_fs "//".toList (some bob_file.name) (by decide)⟩

/-- C15. The result of `tsk_fs_path2inum` depends only on the non-empty `/`-separated
segments of the path: the tokens the resolver reads are the non-empty pieces of the
path split at `/`, and two paths with the same pieces give the same result. In
particular a trailing `/` changes nothing: when the path `p` is found with address `a`,
so is `p` followed by `/`. This holds whether the allocation of the path copy succeeds
or fails. -/
theorem path2inum_trailing_slash (malloc_ok : Bool) (fs : TSK_FS_INFO)
    (a_fs_name : Option TSK_FS_NAME) :
    (∀ p : CStr, strtok_all p = (p.splitOn '/').filter (fun s => decide (s ≠ []))) ∧
    (∀ p q : CStr,
      (p.splitOn '/').filter (fun s => decide (s ≠ [])) =
          (q.splitOn '/').filter (fun s => decide (s ≠ [])) →
        tsk_fs_path2inum malloc_ok fs p a_fs_name = tsk_fs_path2inum malloc_ok fs q a_fs_name) ∧
    (∀ p : CStr, tsk_fs_path2inum malloc_ok fs (p ++ ['/']) a_fs_name =
      tsk_fs_path2inum malloc_ok fs p a_fs_name) ∧
    (∀ (p : CStr) (a : Nat),
      (tsk_fs_path2inum malloc_ok fs p a_fs_name).retval = 0 →
        (tsk_fs_path2inum malloc_ok fs p a_fs_name).a_result = a →
          (tsk_fs_path2inum malloc_ok fs (p ++ ['/']) a_fs_name).retval = 0 ∧
            (tsk_fs_path2inum malloc_ok fs (p ++ ['/']) a_fs_name).a_result = a) := by
  cases malloc_ok with
  | false =>
    exact ⟨strtok_all_eq_splitOn, fun _ _ _ => rfl, fun _ => rfl,
      fun _ _ h0 ha => ⟨h0, ha⟩⟩
  | true =>
  have hslash : ∀ p : CStr,
      tsk_fs_path2inum true fs (p ++ ['/']) a_fs_name = tsk_fs_path2inum true fs p a_fs_name := by
    intro p
    simp only [tsk_fs_path2inum, strtok_all, strtok_loop_append_slash]
  refine ⟨strtok_all_eq_splitOn, ?_, hslash, ?_⟩
  · intro p q h
    rw [← strtok_all_eq_splitOn, ← strtok_all_eq_splitOn] at h
    simp only [tsk_fs_path2inum, h]
  · intro p a h0 ha
    rw [hslash p]
    exact ⟨h0, ha⟩

/-! ## Path resolver: how a descent ends -/

theorem opened_dirs_append (a b : List Event) :
    opened_dirs (a ++ b) = opened_dirs a ++ opened_dirs b := by
  induction a with
  | nil => rfl
  | cons x xs ih => cases x <;> simp [opened_dirs, ih]

theorem dir_scan_opened_dirs (ft : TSK_FS_TYPE_ENUM) (d : Nat) (cur_dir : CStr)
    (cur_attr next_tok : Option CStr) (nm : Option TSK_FS_NAME)
    (es : List (Option TSK_FS_FILE)) (i : Nat) (ev : List Event) :
    opened_dirs (dir_scan ft d cur_dir cur_attr next_tok nm es i ev).events =
      opened_dirs ev := by
  induction es generalizing i ev with
  | nil => rfl
  | cons x xs ih =>
    cases x with
    | none => rfl
    | some f =>
      simp only [dir_scan]
      cases check_name ft f cur_dir cur_attr with
      | attr_missing => simp [DirScan.events, opened_dirs_append, opened_dirs]
      | no_match =>
        simp only
        rw [ih]
        simp [opened_dirs_append, opened_dirs]
      | found =>
        simp only
        cases next_tok with
        | none => simp [DirScan.events, opened_dirs_append, opened_dirs]
        | some t =>
          simp only
          cases f.meta with
          | none => simp [DirScan.events, opened_dirs_append, opened_dirs]
          | some m =>
            simp only
            split <;> simp [DirScan.events, opened_dirs_append, opened_dirs]

/-- How the loop over the entries of a directory ends: the entries are all fetched and
none matches; or a fetch fails behind entries that do not match; or the first entry
that is not passed over decides. -/
theorem dir_scan_cases (ft : TSK_FS_TYPE_ENUM) (d : Nat) (cur_dir : CStr)
    (cur_attr next_tok : Option CStr) (nm : Option TSK_FS_NAME)
    (es : List (Option TSK_FS_FILE)) (i : Nat) (ev : List Event) :
    (∃ pre : List TSK_FS_FILE, es = pre.map some ∧
      (∀ f ∈ pre, check_name ft f cur_dir cur_attr = NameCheck.no_match) ∧
      ∃ e1, dir_scan ft d cur_dir cur_attr next_tok nm es i ev = DirScan.exhausted e1) ∨
    (∃ (pre : List TSK_FS_FILE) (post : List (Option TSK_FS_FILE)),
      es = pre.map some ++ none :: post ∧
      (∀ f ∈ pre, check_name ft f cur_dir cur_attr = NameCheck.no_match) ∧
      ∃ e1, dir_scan ft d cur_dir cur_attr next_tok nm es i ev = DirScan.ret (-1) 0 nm e1) ∨
    (∃ (pre : List TSK_FS_FILE) (e : TSK_FS_FILE) (post : List (Option TSK_FS_FILE)),
      es = pre.map some ++ some e :: post ∧
      (∀ f ∈ pre, check_name ft f cur_dir cur_attr = NameCheck.no_match) ∧
      ((check_name ft e cur_dir cur_attr = NameCheck.attr_missing ∧
          ∃ e1, dir_scan ft d cur_dir cur_attr next_tok nm es i ev = DirScan.ret 1 0 nm e1) ∨
        (check_name ft e cur_dir cur_attr = NameCheck.found ∧ next_tok = none ∧
          ∃ e1, dir_scan ft d cur_dir cur_attr next_tok nm es i ev =
            DirScan.ret 0 e.name.meta_addr (nm.map (fun _ => e.name)) e1) ∨
        (check_name ft e cur_dir cur_attr = NameCheck.found ∧ next_tok ≠ none ∧
          (e.meta = none ∨
            ∃ m, e.meta = some m ∧ m.type ≠ TSK_FS_META_TYPE_ENUM.TSK_FS_META_TYPE_DIR) ∧
          ∃ e1, dir_scan ft d cur_dir cur_attr next_tok nm es i ev = DirScan.ret 1 0 nm e1) ∨
        (check_name ft e cur_dir cur_attr = NameCheck.found ∧ next_tok ≠ none ∧
          (∃ m, e.meta = some m ∧ m.type = TSK_FS_META_TYPE_ENUM.TSK_FS_META_TYPE_DIR) ∧
          ∃ e1, dir_scan ft d cur_dir cur_attr next_tok nm es i ev =
            DirScan.descend e.name.meta_addr e1))) := by
  induction es generalizing i ev with
  | nil => exact Or.inl ⟨[], rfl, by simp, _, rfl⟩
  | cons x xs ih =>
    cases x with
    | none => exact Or.inr (Or.inl ⟨[], xs, rfl, by simp, _, rfl⟩)
    | some f =>
      cases hc : check_name ft f cur_dir cur_attr with
      | no_match =>
        have hstep : dir_scan ft d cur_dir cur_attr next_tok nm (some f :: xs) i ev =
            dir_scan ft d cur_dir cur_attr next_tok nm xs (i + 1)
              (ev ++ [Event.file_open d i] ++ [Event.file_close d i]) := by
          simp only [dir_scan, hc]
        rw [hstep]
        rcases ih (i + 1) (ev ++ [Event.file_open d i] ++ [Event.file_close d i]) with
          ⟨pre, hes, hpre, h⟩ | ⟨pre, post, hes, hpre, h⟩ | ⟨pre, e, post, hes, hpre, h⟩
        · refine Or.inl ⟨f :: pre, by simp [hes], ?_, h⟩
          intro g hg
          rcases List.mem_cons.1 hg with rfl | hg
          · exact hc
          · exact hpre g hg
        · refine Or.inr (Or.inl ⟨f :: pre, post, by simp [hes], ?_, h⟩)
          intro g hg
          rcases List.mem_cons.1 hg with rfl | hg
          · exact hc
          · exact hpre g hg
        · refine Or.inr (Or.inr ⟨f :: pre, e, post, by simp [hes], ?_, h⟩)
          intro g hg
          rcases List.mem_cons.1 hg with rfl | hg
          · exact hc
          · exact hpre g hg
      | attr_missing =>
        refine Or.inr (Or.inr ⟨[], f, xs, rfl, by simp, Or.inl ⟨hc, ?_⟩⟩)
        simp only [dir_scan, hc]
        exact ⟨_, rfl⟩
      | found =>
        refine Or.inr (Or.inr ⟨[], f, xs, rfl, by simp, Or.inr ?_⟩)
        cases hn : next_tok with
        | none =>
          refine Or.inl ⟨hc, rfl, ?_⟩
          simp only [dir_scan, hc]
          exact ⟨_, rfl⟩
        | some t =>
          cases hm : f.meta with
          | none =>
            refine Or.inr (Or.inl ⟨hc, by simp, Or.inl rfl, ?_⟩)
            simp only [dir_scan, hc, hm]
            exact ⟨_, rfl⟩
          | some m =>
            by_cases hty : m.type = TSK_FS_META_TYPE_ENUM.TSK_FS_META_TYPE_DIR
            · refine Or.inr (Or.inr ⟨hc, by simp, ⟨m, rfl, hty⟩, ?_⟩)
              simp only [dir_scan, hc, hm, hty, ne_eq, not_true_eq_false, if_false]
              exact ⟨_, rfl⟩
            · refine Or.inr (Or.inl ⟨hc, by simp, Or.inr ⟨m, rfl, hty⟩, ?_⟩)
              simp only [dir_scan, hc, hm, hty, ne_eq, not_false_eq_true, if_true]
              exact ⟨_, rfl⟩

theorem opened_dirs_getLast (ev : List Event) (d : Nat) (tail : List Event)
    (h : opened_dirs tail = []) :
    (opened_dirs (ev ++ [Event.dir_open d] ++ tail)).getLast? = some d := by
  simp [opened_dirs_append, opened_dirs, h]

/-- One iteration of the descent either ends the call in one of the ways of `StopsAt`, or
moves on, with a token still to come, into the first matching entry, whose metadata
is of type directory. -/
theorem path_iter_cases (fs : TSK_FS_INFO) (nm : Option TSK_FS_NAME) (tok : CStr)
    (next_tok : Option CStr) (d : Nat) (ev : List Event) :
    (∃ r, path_iter fs nm tok next_tok d ev = Sum.inl r ∧
      StopsAt fs tok next_tok d r.retval r.a_result ∧
      (fs.dir_open_meta d ≠ none → (opened_dirs r.events).getLast? = some d)) ∨
    (∃ (t : CStr) (dir : TSK_FS_DIR) (pre : List TSK_FS_FILE) (e : TSK_FS_FILE)
        (post : List (Option TSK_FS_FILE)) (m : TSK_FS_META) (e1 : List Event),
      next_tok = some t ∧ fs.dir_open_meta d = some dir ∧
      dir.names = pre.map some ++ some e :: post ∧
      (∀ f ∈ pre, check_name fs.ftype f (split_attr fs.ftype tok).1
        (split_attr fs.ftype tok).2 = NameCheck.no_match) ∧
      check_name fs.ftype e (split_attr fs.ftype tok).1 (split_attr fs.ftype tok).2 =
        NameCheck.found ∧
      e.meta = some m ∧ m.type = TSK_FS_META_TYPE_ENUM.TSK_FS_META_TYPE_DIR ∧
      path_iter fs nm tok next_tok d ev = Sum.inr (e.name.meta_addr, e1)) := by
  cases hd : fs.dir_open_meta d with
  | none =>
    refine Or.inl ⟨Path2Inum.mk (-1) 0 nm ev, ?_,
      StopsAt.open_failed hd, fun h => absurd rfl h⟩
    simp only [path_iter, hd]
  | some dir =>
    have hod := dir_scan_opened_dirs fs.ftype d (split_attr fs.ftype tok).1
      (split_attr fs.ftype tok).2 next_tok nm dir.names 0 (ev ++ [Event.dir_open d])
    rcases dir_scan_cases fs.ftype d (split_attr fs.ftype tok).1 (split_attr fs.ftype tok).2
        next_tok nm dir.names 0 (ev ++ [Event.dir_open d]) with
      ⟨pre, hes, hpre, e1, h⟩ | ⟨pre, post, hes, hpre, e1, h⟩ | ⟨pre, e, post, hes, hpre, h⟩
    · rw [h] at hod
      refine Or.inl ⟨Path2Inum.mk 1 0 nm (e1 ++ [Event.dir_close d]), ?_,
        StopsAt.name_missing dir pre hd hes hpre, fun _ => ?_⟩
      · simp only [path_iter, hd, h]
      · simp only [DirScan.events] at hod
        simp [opened_dirs_append, hod, opened_dirs]
    · rw [h] at hod
      refine Or.inl ⟨Path2Inum.mk (-1) 0 nm e1, ?_,
        StopsAt.fetch_failed dir pre post hd hes hpre, fun _ => ?_⟩
      · simp only [path_iter, hd, h]
      · simp only [DirScan.events] at hod
        simp [opened_dirs_append, hod, opened_dirs]
    · rcases h with ⟨hc, e1, h⟩ | ⟨hc, hn, e1, h⟩ | ⟨hc, hn, hm, e1, h⟩ | ⟨hc, hn, ⟨m, hm, hty⟩, e1, h⟩
      · rw [h] at hod
        refine Or.inl ⟨Path2Inum.mk 1 0 nm e1, ?_,
          StopsAt.attr_missing dir pre e post hd hes hpre hc, fun _ => ?_⟩
        · simp only [path_iter, hd, h]
        · simp only [DirScan.events] at hod
          simp [opened_dirs_append, hod, opened_dirs]
      · rw [h] at hod
        refine Or.inl ⟨Path2Inum.mk 0 e.name.meta_addr (nm.map (fun _ => e.name)) e1, ?_,
          StopsAt.found dir pre e post hd hes hpre hc hn, fun _ => ?_⟩
        · simp only [path_iter, hd, h]
        · simp only [DirScan.events] at hod
          simp [opened_dirs_append, hod, opened_dirs]
      · rw [h] at hod
        refine Or.inl ⟨Path2Inum.mk 1 0 nm e1, ?_,
          StopsAt.not_dir dir pre e post hd hes hpre hc hn hm, fun _ => ?_⟩
        · simp only [path_iter, hd, h]
        · simp only [DirScan.events] at hod
          simp [opened_dirs_append, hod, opened_dirs]
      · cases hnt : next_tok with
        | none => exact absurd hnt hn
        | some t =>
          rw [hnt] at h
          refine Or.inr ⟨t, dir, pre, e, post, m, e1 ++ [Event.dir_close d], rfl, rfl, hes,
            hpre, hc, hm, hty, ?_⟩
          simp only [path_iter, hd, h]

/-- Every call of the descent loop ends, at some directory `d` and for some token `tokc`
of the path, in one of the ways of `StopsAt`; `tokc` is the last token exactly when
no token is left after it, and `d` is the last directory opened unless it could not be
opened. -/
theorem path_loop_stops (fs : TSK_FS_INFO) (nm : Option TSK_FS_NAME) (rest : List CStr) :
    ∀ (tok : CStr) (d0 : Nat) (ev : List Event),
      ∃ (tokc : CStr) (nxt : Option CStr) (d : Nat),
        tokc ∈ tok :: rest ∧
        (nxt = none → (tok :: rest).getLast? = some tokc) ∧
        StopsAt fs tokc nxt d (path_loop fs nm rest tok d0 ev).retval
          (path_loop fs nm rest tok d0 ev).a_result ∧
        (fs.dir_open_meta d ≠ none →
          (opened_dirs (path_loop fs nm rest tok d0 ev).events).getLast? = some d) := by
  induction rest with
  | nil =>
    intro tok d0 ev
    rcases path_iter_cases fs nm tok none d0 ev with ⟨r, hr, hs, ho⟩ | ⟨t, _, _, _, _, _, _, hn, _⟩
    · refine ⟨tok, none, d0, by simp, fun _ => rfl, ?_, ?_⟩
      · simp only [path_loop, hr]; exact hs
      · simp only [path_loop, hr]; exact ho
    · exact absurd hn (by simp)
  | cons t ts ih =>
    intro tok d0 ev
    rcases path_iter_cases fs nm tok (some t) d0 ev with
      ⟨r, hr, hs, ho⟩ | ⟨t1, dir, pre, e, post, m, e1, hn, hd, hes, hpre, hc, hm, hty, hr⟩
    · refine ⟨tok, some t, d0, by simp, fun h => absurd h (by simp), ?_, ?_⟩
      · simp only [path_loop, hr]; exact hs
      · simp only [path_loop, hr]; exact ho
    · obtain ⟨tokc, nxt, d, hmem, hlast, hs, ho⟩ := ih t e.name.meta_addr e1
      refine ⟨tokc, nxt, d, List.mem_cons_of_mem _ hmem, ?_, ?_, ?_⟩
      · intro h
        rw [List.getLast?_cons_cons]
        exact hlast h
      · simp only [path_loop, hr]; exact hs
      · simp only [path_loop, hr]; exact ho

theorem check_name_found_family (ft : TSK_FS_TYPE_ENUM) (f : TSK_FS_FILE) (cd : CStr)
    (ca : Option CStr) (h : check_name ft f cd ca = NameCheck.found) :
    (TSK_FS_TYPE_ISFFS ft || TSK_FS_TYPE_ISEXT ft || TSK_FS_TYPE_ISFAT ft ||
      TSK_FS_TYPE_ISNTFS ft) = true := by
  by_contra hno
  simp only [Bool.or_eq_true, not_or, Bool.not_eq_true] at hno
  obtain ⟨⟨⟨h1, h2⟩, h3⟩, h4⟩ := hno
  rw [check_name_other_family ft f cd ca h1 h2 h3 h4] at h
  exact absurd h (by decide)

theorem check_name_found_spec (ft : TSK_FS_TYPE_ENUM) (f : TSK_FS_FILE) (cd : CStr)
    (ca : Option CStr) (h : check_name ft f cd ca = NameCheck.found) :
    spec_name_match ft f.name cd = true := by
  cases ft <;>
    simp only [check_name, spec_name_match, TSK_FS_TYPE_ISFFS, TSK_FS_TYPE_ISEXT,
      TSK_FS_TYPE_ISFAT, TSK_FS_TYPE_ISNTFS, Bool.or_self, Bool.or_true, Bool.or_false,
      Bool.false_eq_true, if_false, if_true, strcmp_eq_zero_iff, strcasecmp_eq_zero_iff,
      Bool.or_eq_true, decide_eq_true_eq, reduceCtorEq] at h ⊢
  all_goals first
    | (split at h <;> first | assumption | (exact absurd h (by decide)))
    | (split at h
       · exact Or.inl (by assumption)
       · split at h
         · exact Or.inr (by assumption)
         · exact absurd h (by decide))

theorem check_name_no_match_spec (ft : TSK_FS_TYPE_ENUM) (f : TSK_FS_FILE) (cd : CStr)
    (ca : Option CStr)
    (hfam : (TSK_FS_TYPE_ISFFS ft || TSK_FS_TYPE_ISEXT ft || TSK_FS_TYPE_ISFAT ft ||
      TSK_FS_TYPE_ISNTFS ft) = true)
    (h : check_name ft f cd ca = NameCheck.no_match) :
    spec_name_match ft f.name cd = false := by
  cases ft <;>
    simp only [TSK_FS_TYPE_ISFFS, TSK_FS_TYPE_ISEXT, TSK_FS_TYPE_ISFAT, TSK_FS_TYPE_ISNTFS,
      Bool.or_self, Bool.false_eq_true] at hfam <;>
    simp only [check_name, spec_name_match, TSK_FS_TYPE_ISFFS, TSK_FS_TYPE_ISEXT,
      TSK_FS_TYPE_ISFAT, TSK_FS_TYPE_ISNTFS, Bool.or_self, Bool.or_true, Bool.or_false,
      Bool.false_eq_true, if_false, if_true, strcmp_eq_zero_iff, strcasecmp_eq_zero_iff,
      Bool.or_eq_false_iff, decide_eq_false_iff_not, reduceCtorEq] at h ⊢
  all_goals first
    | (split at h
       · first
         | exact absurd h (by decide)
         | (split at h
            · exact absurd h (by decide)
            · split at h <;> exact absurd h (by decide))
       · first
         | assumption
         | (split at h
            · exact absurd h (by decide)
            · exact ⟨by assumption, by assumption⟩))

/-- C12. Whenever `tsk_fs_path2inum` returns found for a path with at least one segment,
the address it writes is the metadata address of an entry `e` of the last directory
opened; `e` matches the last segment under the comparison rule of the family (for
NTFS the part of the segment before `:`), and no earlier entry of that directory
does. -/
theorem path2inum_found_first_match (malloc_ok : Bool) (fs : TSK_FS_INFO) (a_path : CStr)
    (a_fs_name : Option TSK_FS_NAME)
    (hpath : strtok_all a_path ≠ [])
    (hfound : (tsk_fs_path2inum malloc_ok fs a_path a_fs_name).retval = 0) :
    ∃ (last : CStr) (d : Nat) (dir : TSK_FS_DIR) (pre : List TSK_FS_FILE) (e : TSK_FS_FILE)
        (post : List (Option TSK_FS_FILE)),
      (strtok_all a_path).getLast? = some last ∧
      (opened_dirs (tsk_fs_path2inum malloc_ok fs a_path a_fs_name).events).getLast? =
        some d ∧
      fs.dir_open_meta d = some dir ∧
      dir.names = pre.map some ++ some e :: post ∧
      (tsk_fs_path2inum malloc_ok fs a_path a_fs_name).a_result = e.name.meta_addr ∧
      spec_name_match fs.ftype e.name (split_attr fs.ftype last).1 = true ∧
      ∀ f ∈ pre, spec_name_match fs.ftype f.name (split_attr fs.ftype last).1 = false := by
  cases malloc_ok with
  | false =>
    rw [path2inum_malloc_fails] at hfound
    exact absurd hfound (show (-1 : Int) ≠ 0 by decide)
  | true =>
  cases htoks : strtok_all a_path with
  | nil => exact absurd htoks hpath
  | cons tok rest =>
    have heq := path2inum_eq_path_loop fs a_fs_name a_path tok rest htoks
    rw [heq] at hfound ⊢
    obtain ⟨tokc, nxt, d, -, hlast, hs, ho⟩ :=
      path_loop_stops fs a_fs_name rest tok fs.root_inum []
    generalize hrv : (path_loop fs a_fs_name rest tok fs.root_inum []).retval = rv at hs
    generalize hra : (path_loop fs a_fs_name rest tok fs.root_inum []).a_result = ra at hs
    rw [hfound] at hrv
    cases hs with
    | open_failed h => exact absurd hrv (by decide)
    | fetch_failed dir pre post hd hes hpre => exact absurd hrv (by decide)
    | name_missing dir pre hd hes hpre => exact absurd hrv (by decide)
    | attr_missing dir pre e post hd hes hpre hc => exact absurd hrv (by decide)
    | not_dir dir pre e post hd hes hpre hc hn hm => exact absurd hrv (by decide)
    | found dir pre e post hd hes hpre hc hn =>
      have hfam := check_name_found_family _ _ _ _ hc
      refine ⟨tokc, d, dir, pre, e, post, hlast hn, ho (by simp [hd]), hd, hes, rfl,
        check_name_found_spec _ _ _ _ hc, ?_⟩
      intro f hf
      exact check_name_no_match_spec _ _ _ _ hfam (hpre f hf)

/-- Witness of C12: `/longfi~1.txt` on the FAT example, found behind `README.TXT`. -/
theorem path2inum_found_first_match_witness :
    ∃ (last : CStr) (d : Nat) (dir : TSK_FS_DIR) (pre : List TSK_FS_FILE) (e : TSK_FS_FILE)
        (post : List (Option TSK_FS_FILE)),
      (strtok_all "/longfi~1.txt".toList).getLast? = some last ∧
      (opened_dirs (tsk_fs_path2inum true fat_fs "/longfi~1.txt".toList none).events).getLast? =
        some d ∧
      fat_fs.dir_open_meta d = some dir ∧
      dir.names = pre.map some ++ some e :: post ∧
      (tsk_fs_path2inum true fat_fs "/longfi~1.txt".toList none).a_result = e.name.meta_addr ∧
      spec_name_match fat_fs.ftype e.name (split_attr fat_fs.ftype last).1 = true ∧
      ∀ f ∈ pre, spec_name_match fat_fs.ftype f.name (split_attr fat_fs.ftype last).1 = false :=
  path2inum_found_first_match true fat_fs "/longfi~1.txt".toList none (by decide)
    (by decide)

/-- C13 (counterexample). On the NTFS example `unloaded_ntfs_fs` every directory open and
every entry fetch succeeds, but the metadata of `docs` could not be loaded and the only
attribute of `report.txt` cannot be fetched: `/docs/a.txt` and `/report.txt:notes` are
answered with not found (1), not with error (-1). -/
theorem path2inum_load_failure_not_found :
    (∃ f, some f ∈ ((unloaded_ntfs_fs.dir_open_meta 5).map (fun d => d.names)).getD [] ∧
      f.name.name = "docs".toList ∧ f.meta = none) ∧
    (tsk_fs_path2inum true unloaded_ntfs_fs "/docs/a.txt".toList none).retval = 1 ∧
    (∃ f m, some f ∈ ((unloaded_ntfs_fs.dir_open_meta 5).map (fun d => d.names)).getD [] ∧
      f.name.name = "report.txt".toList ∧ f.meta = some m ∧ m.attrs = [none]) ∧
    (tsk_fs_path2inum true unloaded_ntfs_fs "/report.txt:notes".toList none).retval = 1 := by
  refine ⟨⟨_, List.mem_cons_self _ _, rfl, rfl⟩, by decide,
    ⟨_, _, List.mem_cons_of_mem _ (List.mem_cons_self _ _), rfl, rfl, rfl⟩, by decide⟩

/-- C14 (counterexample). On the ext example `stale_entry_fs`, whose root address 5 lies
in `[first_inum, last_inum]` = `[0, 1000]`, the path `/ghost` is found and the address
written to the result is 5000, the address carried by the directory entry. -/
theorem path2inum_found_out_of_range :
    (stale_entry_fs.first_inum ≤ stale_entry_fs.root_inum ∧
      stale_entry_fs.root_inum ≤ stale_entry_fs.last_inum) ∧
    (tsk_fs_path2inum true stale_entry_fs "/ghost".toList none).retval = 0 ∧
    (tsk_fs_path2inum true stale_entry_fs "/ghost".toList none).a_result = 5000 ∧
    ¬ (tsk_fs_path2inum true stale_entry_fs "/ghost".toList none).a_result ≤
      stale_entry_fs.last_inum := by
  decide

/-- C14 (as amended). When the root address lies in `[first_inum, last_inum]` and every
directory entry that the driver delivers carries a metadata address in that range,
the address written by a call that returns found lies in the range: it is the root
address or the address carried by the matched entry. -/
theorem path2inum_found_in_range (malloc_ok : Bool) (fs : TSK_FS_INFO) (a_path : CStr)
    (a_fs_name : Option TSK_FS_NAME)
    (hroot : fs.first_inum ≤ fs.root_inum ∧ fs.root_inum ≤ fs.last_inum)
    (hent : ∀ (d : Nat) (dir : TSK_FS_DIR) (f : TSK_FS_FILE),
      fs.dir_open_meta d = some dir → some f ∈ dir.names →
        fs.first_inum ≤ f.name.meta_addr ∧ f.name.meta_addr ≤ fs.last_inum)
    (hfound : (tsk_fs_path2inum malloc_ok fs a_path a_fs_name).retval = 0) :
    fs.first_inum ≤ (tsk_fs_path2inum malloc_ok fs a_path a_fs_name).a_result ∧
      (tsk_fs_path2inum malloc_ok fs a_path a_fs_name).a_result ≤ fs.last_inum := by
  cases malloc_ok with
  | false =>
    rw [path2inum_malloc_fails] at hfound
    exact absurd hfound (show (-1 : Int) ≠ 0 by decide)
  | true =>
  cases htoks : strtok_all a_path with
  | nil =>
    simp only [tsk_fs_path2inum, htoks]
    exact hroot
  | cons tok rest =>
    have heq := path2inum_eq_path_loop fs a_fs_name a_path tok rest htoks
    rw [heq] at hfound ⊢
    obtain ⟨tokc, nxt, d, -, -, hs, -⟩ :=
      path_loop_stops fs a_fs_name rest tok fs.root_inum []
    generalize hrv : (path_loop fs a_fs_name rest tok fs.root_inum []).retval = rv at hs
    generalize hra : (path_loop fs a_fs_name rest tok fs.root_inum []).a_result = ra at hs
    rw [hfound] at hrv
    cases hs with
    | open_failed h => exact absurd hrv (by decide)
    | fetch_failed dir pre post hd hes hpre => exact absurd hrv (by decide)
    | name_missing dir pre hd hes hpre => exact absurd hrv (by decide)
    | attr_missing dir pre e post hd hes hpre hc => exact absurd hrv (by decide)
    | not_dir dir pre e post hd hes hpre hc hn hm => exact absurd hrv (by decide)
    | found dir pre e post hd hes hpre hc hn =>
      exact hent d dir e hd (by rw [hes]; simp)

/-- Witness of C14: `/longfi~1.txt` on the FAT example, all of whose entries carry
addresses in `[0, 1000]`. -/
theorem path2inum_found_in_range_witness :
    fat_fs.first_inum ≤ (tsk_fs_path2inum true fat_fs "/longfi~1.txt".toList none).a_result ∧
      (tsk_fs_path2inum true fat_fs "/longfi~1.txt".toList none).a_result ≤ fat_fs.last_inum :=
  path2inum_found_in_range true fat_fs "/longfi~1.txt".toList none (by decide)
    (by
      intro d dir f hd hf
      have h5 : d = 5 := by
        by_contra hne
        simp [fat_fs, mk_fs, hne] at hd
      subst h5
      have hdir : dir = { names := [some readme_file, some long_file] } := by
        have : fat_fs.dir_open_meta 5 = some { names := [some readme_file, some long_file] } :=
          rfl
        rw [this] at hd
        exact (Option.some.inj hd).symm
      subst hdir
      simp only [List.mem_cons, Option.some.injEq, List.mem_singleton, List.not_mem_nil,
        or_false] at hf
      rcases hf with h | h <;> subst h <;> decide)
    (by decide)

/-! ## Reverse lookup: outputs, errors and walks -/

/-! ## Reverse block lookup: what a walk does to the lookup state -/

theorem walk_effect_refl (line : OutLine) (s : IfindState) : walk_effect line s s :=
  ⟨rfl, rfl, rfl, rfl, rfl, rfl, rfl, 0, by simp, fun _ => rfl, fun h => absurd h (by decide)⟩

theorem walk_effect_trans (line : OutLine) (s s1 s2 : IfindState)
    (h1 : walk_effect line s s1) (h2 : walk_effect line s1 s2) : walk_effect line s s2 := by
  obtain ⟨a1, a2, a3, a4, a5, a6, a7, k1, ho1, hz1, hp1⟩ := h1
  obtain ⟨b1, b2, b3, b4, b5, b6, b7, k2, ho2, hz2, hp2⟩ := h2
  refine ⟨b1.trans a1, b2.trans a2, b3.trans a3, b4.trans a4, b5.trans a5, b6.trans a6,
    b7.trans a7, k1 + k2, ?_, ?_, ?_⟩
  · rw [ho2, ho1, List.append_assoc, List.replicate_add]
  · intro h
    have hk1 : k1 = 0 := by omega
    have hk2 : k2 = 0 := by omega
    rw [hz2 hk2, hz1 hk1]
  · intro h
    rcases Nat.eq_zero_or_pos k2 with hk2 | hk2
    · rw [hz2 hk2]
      exact hp1 (by omega)
    · exact hp2 hk2

theorem ifind_data_file_act_effect (fs : TSK_FS_INFO) (addr size : Nat) (s : IfindState) :
    walk_effect (OutLine.inode s.data.curinode) s (ifind_data_file_act fs addr size s).2 := by
  unfold ifind_data_file_act
  split
  · exact walk_effect_refl _ s
  · split
    · have hone : walk_effect (OutLine.inode s.data.curinode) s
          { s with out := s.out ++ [OutLine.inode s.data.curinode]
                   data := { s.data with found := 1 } } :=
        ⟨rfl, rfl, rfl, rfl, rfl, rfl, rfl, 1, by simp, fun h => absurd h (by decide),
          fun _ => rfl⟩
      split <;> exact hone
    · exact walk_effect_refl _ s

theorem ifind_data_file_ntfs_act_effect (addr size : Nat) (s : IfindState) :
    walk_effect (OutLine.attr s.data.curinode s.data.curtype s.data.curid) s
      (ifind_data_file_ntfs_act addr size s).2 := by
  unfold ifind_data_file_ntfs_act
  split
  · have hone : walk_effect (OutLine.attr s.data.curinode s.data.curtype s.data.curid) s
        { s with out := s.out ++ [OutLine.attr s.data.curinode s.data.curtype s.data.curid]
                 data := { s.data with found := 1 } } :=
      ⟨rfl, rfl, rfl, rfl, rfl, rfl, rfl, 1, by simp, fun h => absurd h (by decide),
        fun _ => rfl⟩
    split <;> exact hone
  · exact walk_effect_refl _ s

theorem walk_blocks_effect
    (action : Nat → Nat → IfindState → TSK_WALK_RET_ENUM × IfindState)
    (line : IfindState → OutLine)
    (hact : ∀ addr size s, walk_effect (line s) s (action addr size s).2)
    (hline : ∀ s s1 l, walk_effect l s s1 → line s1 = line s)
    (blocks : List (Nat × Nat)) (s : IfindState) :
    walk_effect (line s) s (walk_blocks action blocks s).2 := by
  induction blocks generalizing s with
  | nil => exact walk_effect_refl _ s
  | cons b rest ih =>
    obtain ⟨addr, size⟩ := b
    have h1 := hact addr size s
    rcases hr : action addr size s with ⟨r, s1⟩
    rw [hr] at h1
    cases r with
    | TSK_WALK_CONT =>
      simp only [walk_blocks, hr]
      have h2 := ih s1
      rw [hline s s1 _ h1] at h2
      exact walk_effect_trans _ _ _ _ h1 h2
    | TSK_WALK_STOP =>
      simp only [walk_blocks, hr]
      exact h1
    | TSK_WALK_ERROR =>
      simp only [walk_blocks, hr]
      exact h1

/-- A file walk with the callback for the other file systems prints only copies of the
address of the current entry; the walk itself touches nothing but the error channel. -/
theorem file_walk_effect (fs : TSK_FS_INFO) (w : FileWalk) (s : IfindState) :
    walk_effect (OutLine.inode s.data.curinode)
      { s with err := (tsk_fs_file_walk w (ifind_data_file_act fs) s).2.err }
      (tsk_fs_file_walk w (ifind_data_file_act fs) s).2 := by
  have h := walk_blocks_effect (ifind_data_file_act fs)
    (fun s => OutLine.inode s.data.curinode) (ifind_data_file_act_effect fs)
    (fun s s1 l hl => by simp only; rw [hl.2.2.2.2.1]) w.blocks s
  simp only at h
  unfold tsk_fs_file_walk
  rcases hr : walk_blocks (ifind_data_file_act fs) w.blocks s with ⟨r, s1⟩
  rw [hr] at h
  obtain ⟨a1, a2, a3, a4, a5, a6, a7, hk⟩ := h
  cases r with
  | TSK_WALK_CONT =>
    simp only
    split
    · exact ⟨rfl, a2, a3, a4, a5, a6, a7, hk⟩
    · exact ⟨rfl, a2, a3, a4, a5, a6, a7, hk⟩
  | TSK_WALK_STOP => exact ⟨rfl, a2, a3, a4, a5, a6, a7, hk⟩
  | TSK_WALK_ERROR => exact ⟨rfl, a2, a3, a4, a5, a6, a7, hk⟩

/-- A file walk with the NTFS callback prints only copies of the triple of the current
entry and attribute. -/
theorem file_walk_ntfs_effect (w : FileWalk) (s : IfindState) :
    walk_effect (OutLine.attr s.data.curinode s.data.curtype s.data.curid)
      { s with err := (tsk_fs_file_walk w ifind_data_file_ntfs_act s).2.err }
      (tsk_fs_file_walk w ifind_data_file_ntfs_act s).2 := by
  have h := walk_blocks_effect ifind_data_file_ntfs_act
    (fun s => OutLine.attr s.data.curinode s.data.curtype s.data.curid)
    ifind_data_file_ntfs_act_effect
    (fun s s1 l hl => by simp only; rw [hl.2.2.2.2.1, hl.2.2.2.2.2.1, hl.2.2.2.2.2.2.1])
    w.blocks s
  simp only at h
  unfold tsk_fs_file_walk
  rcases hr : walk_blocks ifind_data_file_ntfs_act w.blocks s with ⟨r, s1⟩
  rw [hr] at h
  obtain ⟨a1, a2, a3, a4, a5, a6, a7, hk⟩ := h
  cases r with
  | TSK_WALK_CONT =>
    simp only
    split
    · exact ⟨rfl, a2, a3, a4, a5, a6, a7, hk⟩
    · exact ⟨rfl, a2, a3, a4, a5, a6, a7, hk⟩
  | TSK_WALK_STOP => exact ⟨rfl, a2, a3, a4, a5, a6, a7, hk⟩
  | TSK_WALK_ERROR => exact ⟨rfl, a2, a3, a4, a5, a6, a7, hk⟩

/-- The error channel after a file walk: untouched when the walk returns 0. -/
theorem file_walk_err (w : FileWalk)
    (action : Nat → Nat → IfindState → TSK_WALK_RET_ENUM × IfindState) (s : IfindState)
    (hact : ∀ addr size s, (action addr size s).2.err = s.err)
    (h0 : (tsk_fs_file_walk w action s).1 = 0) :
    (tsk_fs_file_walk w action s).2.err = s.err := by
  have hwb : ∀ (blocks : List (Nat × Nat)) (s : IfindState),
      (walk_blocks action blocks s).2.err = s.err := by
    intro blocks
    induction blocks with
    | nil => intro s; rfl
    | cons b rest ih =>
      intro s
      obtain ⟨addr, size⟩ := b
      have h1 := hact addr size s
      rcases hr : action addr size s with ⟨r, s1⟩
      rw [hr] at h1
      cases r <;> simp only [walk_blocks, hr]
      · rw [ih s1]; exact h1
      · exact h1
      · exact h1
  have h2 := hwb w.blocks s
  unfold tsk_fs_file_walk at h0 ⊢
  rcases hr : walk_blocks action w.blocks s with ⟨r, s1⟩
  rw [hr] at h0 h2
  cases r with
  | TSK_WALK_CONT =>
    simp only at h0 ⊢
    split at h0
    · simp at h0
    · rename_i hf
      simp only [hf]
      exact h2
  | TSK_WALK_STOP => exact h2
  | TSK_WALK_ERROR => simp at h0

/-- The attribute loop of an NTFS entry: one walk per non-resident attribute that can be
fetched, in attribute order; every line printed is the triple of the entry and of such
an attribute; the error channel is left as it was or reset. -/
theorem ifind_data_attr_loop_effect (addr : Nat) (ff : WalkFlags)
    (attrs : List (Option TSK_FS_ATTR)) (s : IfindState) :
    (ifind_data_attr_loop addr ff attrs s).walks =
      s.walks ++ attrs.filterMap (fun a =>
        match a with
        | some fs_attr =>
          if fs_attr.nonres then some (addr, some (fs_attr.type, fs_attr.id), ff) else none
        | none => none) ∧
    (∃ new, (ifind_data_attr_loop addr ff attrs s).out = s.out ++ new ∧
      (∀ l ∈ new, ∃ a, some a ∈ attrs ∧ a.nonres = true ∧
        l = OutLine.attr s.data.curinode a.type a.id) ∧
      (new = [] → (ifind_data_attr_loop addr ff attrs s).data.found = s.data.found) ∧
      (new ≠ [] → (ifind_data_attr_loop addr ff attrs s).data.found = 1)) ∧
    (ifind_data_attr_loop addr ff attrs s).data.block = s.data.block ∧
    (ifind_data_attr_loop addr ff attrs s).data.flags = s.data.flags ∧
    (ifind_data_attr_loop addr ff attrs s).data.curinode = s.data.curinode ∧
    ((ifind_data_attr_loop addr ff attrs s).err = s.err ∨
      (ifind_data_attr_loop addr ff attrs s).err = tsk_error_reset s.err) := by
  induction attrs generalizing s with
  | nil =>
    exact ⟨by simp [ifind_data_attr_loop], ⟨[], by simp [ifind_data_attr_loop], by simp,
      fun _ => rfl, fun h => absurd rfl h⟩, rfl, rfl, rfl, Or.inl rfl⟩
  | cons a rest ih =>
    cases a with
    | none =>
      obtain ⟨hw, ⟨new, ho, hl, hz, hp⟩, hb, hf, hc, he⟩ := ih s
      refine ⟨by simpa [ifind_data_attr_loop] using hw, ⟨new, by simpa [ifind_data_attr_loop] using ho,
        ?_, by simpa [ifind_data_attr_loop] using hz, by simpa [ifind_data_attr_loop] using hp⟩,
        by simpa [ifind_data_attr_loop] using hb, by simpa [ifind_data_attr_loop] using hf,
        by simpa [ifind_data_attr_loop] using hc, by simpa [ifind_data_attr_loop] using he⟩
      intro l hl1
      obtain ⟨x, hx, hxn, hxl⟩ := hl l hl1
      exact ⟨x, List.mem_cons_of_mem _ hx, hxn, hxl⟩
    | some fa =>
      by_cases hnr : fa.nonres = true
      · -- a non-resident attribute: one walk
        let s1 : IfindState :=
          { s with data := { s.data with curtype := fa.type, curid := fa.id } }
        let s2 : IfindState :=
          { s1 with walks := s1.walks ++ [(addr, some (fa.type, fa.id), ff)] }
        have hwalk := file_walk_ntfs_effect (fa.walk ff) s2
        rcases hr : tsk_fs_file_walk (fa.walk ff) ifind_data_file_ntfs_act s2 with ⟨r, s3⟩
        rw [hr] at hwalk
        obtain ⟨-, a2, a3, a4, a5, a6, a7, k, hk, hkz, hkp⟩ := hwalk
        simp only at a2 a3 a4 a5 a6 a7 hk hkz hkp
        have herr3 : r = 0 → s3.err = s.err := by
          intro h0
          have := file_walk_err (fa.walk ff) ifind_data_file_ntfs_act s2
            (fun addr size s => (ifind_data_file_ntfs_act_effect addr size s).1)
            (by rw [hr]; exact h0)
          rw [hr] at this
          exact this
        -- the state handed to the rest of the loop
        have hnext : ∃ s4 : IfindState,
            ifind_data_attr_loop addr ff (some fa :: rest) s =
              ifind_data_attr_loop addr ff rest s4 ∧
            s4.walks = s3.walks ∧ s4.out = s3.out ∧ s4.data = s3.data ∧
            (s4.err = s.err ∨ s4.err = tsk_error_reset s.err) := by
          cases r with
          | zero =>
            refine ⟨s3, ?_, rfl, rfl, rfl, Or.inl (herr3 rfl)⟩
            simp only [ifind_data_attr_loop, hnr, if_true]
            rw [hr]
          | succ n =>
            refine ⟨{ s3 with err := tsk_error_reset s3.err }, ?_, rfl, rfl, rfl, Or.inr rfl⟩
            simp only [ifind_data_attr_loop, hnr, if_true]
            rw [hr]
            rfl
        obtain ⟨s4, heq, h4w, h4o, h4d, h4e⟩ := hnext
        obtain ⟨hw, ⟨new, ho, hl, hz, hp⟩, hb, hf, hc, he⟩ := ih s4
        rw [heq]
        refine ⟨?_, ⟨List.replicate k (OutLine.attr s.data.curinode fa.type fa.id) ++ new,
          ?_, ?_, ?_, ?_⟩, ?_, ?_, ?_, ?_⟩
        · rw [hw, h4w, a2]
          simp [List.filterMap_cons, hnr, s2, s1]
        · rw [ho, h4o, hk]
          simp [s2, s1, a5]
        · intro l hl1
          rcases List.mem_append.1 hl1 with h | h
          · exact ⟨fa, by simp, hnr, List.eq_of_mem_replicate h⟩
          · obtain ⟨x, hx, hxn, hxl⟩ := hl l h
            refine ⟨x, List.mem_cons_of_mem _ hx, hxn, ?_⟩
            rw [hxl, h4d, a5]
        · intro hnil
          have hk0 : k = 0 := by
            by_contra hne
            have : List.replicate k (OutLine.attr s.data.curinode fa.type fa.id) ≠ [] := by
              simp [hne]
            exact this (List.append_eq_nil.1 hnil).1
          have hnew : new = [] := (List.append_eq_nil.1 hnil).2
          rw [hz hnew, h4d, hkz hk0]
        · intro hne
          by_cases hnew : new = []
          · have hk0 : 0 < k := by
              by_contra h0
              have : k = 0 := by omega
              subst this
              exact hne (by simp [hnew])
            rw [hz hnew, h4d, hkp hk0]
          · exact hp hnew
        · rw [hb, h4d, a3]
        · rw [hf, h4d, a4]
        · rw [hc, h4d, a5]
        · rcases he with he | he
          · rw [he]; exact h4e
          · exact Or.inr he
      · -- a resident attribute: no walk
        have hnr2 : fa.nonres = false := by simpa using hnr
        obtain ⟨hw, ⟨new, ho, hl, hz, hp⟩, hb, hf, hc, he⟩ :=
          ih { s with data := { s.data with curtype := fa.type, curid := fa.id } }
        have heq : ifind_data_attr_loop addr ff (some fa :: rest) s =
            ifind_data_attr_loop addr ff rest
              { s with data := { s.data with curtype := fa.type, curid := fa.id } } := by
          simp only [ifind_data_attr_loop, hnr2, Bool.false_eq_true, if_false]
        rw [heq]
        refine ⟨?_, ⟨new, ho, ?_, hz, hp⟩, hb, hf, hc, he⟩
        · rw [hw]
          simp [List.filterMap_cons, hnr2]
        · intro l hl1
          obtain ⟨x, hx, hxn, hxl⟩ := hl l hl1
          exact ⟨x, List.mem_cons_of_mem _ hx, hxn, hxl⟩

/-- The attribute loop over a concatenation runs the loop over the first part and then
over the second. -/
theorem ifind_data_attr_loop_append (addr : Nat) (ff : WalkFlags)
    (pre post : List (Option TSK_FS_ATTR)) (s : IfindState) :
    ifind_data_attr_loop addr ff (pre ++ post) s =
      ifind_data_attr_loop addr ff post (ifind_data_attr_loop addr ff pre s) := by
  induction pre generalizing s with
  | nil => rfl
  | cons a rest ih =>
    cases a with
    | none => simpa [ifind_data_attr_loop] using ih s
    | some fa =>
      by_cases hnr : fa.nonres = true
      · simp only [List.cons_append, ifind_data_attr_loop, hnr, if_true]
        rcases tsk_fs_file_walk (fa.walk ff) ifind_data_file_ntfs_act _ with ⟨r, s3⟩
        cases r with
        | zero => exact ih _
        | succ n => exact ih _
      · have hnr2 : fa.nonres = false := by simpa using hnr
        simp only [List.cons_append, ifind_data_attr_loop, hnr2, Bool.false_eq_true, if_false]
        exact ih _

/-- A failing walk of the first attribute leaves the error channel reset at the end of
the attribute loop. -/
theorem ifind_data_attr_loop_head_fails (addr : Nat) (ff : WalkFlags) (fa : TSK_FS_ATTR)
    (rest : List (Option TSK_FS_ATTR)) (s : IfindState) (hnr : fa.nonres = true)
    (hfail : (tsk_fs_file_walk (fa.walk ff) ifind_data_file_ntfs_act
      { s with data := { s.data with curtype := fa.type, curid := fa.id }
               walks := s.walks ++ [(addr, some (fa.type, fa.id), ff)] }).1 ≠ 0) :
    (ifind_data_attr_loop addr ff (some fa :: rest) s).err = tsk_error_reset s.err := by
  simp only [ifind_data_attr_loop, hnr, if_true]
  rcases hr : tsk_fs_file_walk (fa.walk ff) ifind_data_file_ntfs_act
      { s with data := { s.data with curtype := fa.type, curid := fa.id }
               walks := s.walks ++ [(addr, some (fa.type, fa.id), ff)] } with ⟨r, s3⟩
  rw [hr] at hfail
  cases r with
  | zero => exact absurd rfl hfail
  | succ n =>
    rcases (ifind_data_attr_loop_effect addr ff rest
      { s3 with err := tsk_error_reset s3.err }).2.2.2.2.2 with h | h
    · exact h
    · exact h

/-- The effect of the callback `ifind_data_act` on one metadata entry: it returns
`continue`; the walks requested are those of the entry's family; the lines printed are
triples of the entry and one of its non-resident attributes on NTFS and the address of
the entry elsewhere; `found` is set exactly when a line is printed; the block, the flags
are kept; the error channel is kept or reset. -/
theorem ifind_data_act_effect (fs : TSK_FS_INFO) (m : TSK_FS_META) (s : IfindState) :
    (ifind_data_act fs m s).1 = TSK_WALK_RET_ENUM.TSK_WALK_CONT ∧
    (ifind_data_act fs m s).2.walks = s.walks ++ spec_entry_walks fs.ftype m ∧
    (∃ new, (ifind_data_act fs m s).2.out = s.out ++ new ∧
      (∀ l ∈ new,
        if TSK_FS_TYPE_ISNTFS fs.ftype then
          ∃ a, some a ∈ m.attrs ∧ a.nonres = true ∧ l = OutLine.attr m.addr a.type a.id
        else l = OutLine.inode m.addr) ∧
      (new = [] → (ifind_data_act fs m s).2.data.found = s.data.found) ∧
      (new ≠ [] → (ifind_data_act fs m s).2.data.found = 1)) ∧
    (ifind_data_act fs m s).2.data.block = s.data.block ∧
    (ifind_data_act fs m s).2.data.flags = s.data.flags ∧
    ((ifind_data_act fs m s).2.err = s.err ∨
      (ifind_data_act fs m s).2.err = tsk_error_reset s.err) := by
  by_cases hn : TSK_FS_TYPE_ISNTFS fs.ftype = true
  · obtain ⟨hw, ⟨new, ho, hl, hz, hp⟩, hb, hf, -, he⟩ :=
      ifind_data_attr_loop_effect m.addr { aonly := true, slack := true } m.attrs
        { s with data := { s.data with curinode := m.addr } }
    have heq : ifind_data_act fs m s = (TSK_WALK_RET_ENUM.TSK_WALK_CONT,
        ifind_data_attr_loop m.addr { aonly := true, slack := true } m.attrs
          { s with data := { s.data with curinode := m.addr } }) := by
      simp only [ifind_data_act, hn, if_true]
    rw [heq]
    refine ⟨rfl, ?_, ⟨new, ho, ?_, hz, hp⟩, hb, hf, he⟩
    · rw [hw]; simp only [spec_entry_walks, hn, if_true]
    · intro l hl1
      rw [if_pos hn]
      exact hl l hl1
  · have hn2 : TSK_FS_TYPE_ISNTFS fs.ftype = false := by simpa using hn
    obtain ⟨ff, hff, hspec⟩ : ∃ ff : WalkFlags,
        ff = (if TSK_FS_TYPE_ISFAT fs.ftype then ({ aonly := true, slack := true } : WalkFlags)
          else { aonly := true, slack := false }) ∧
        spec_entry_walks fs.ftype m = [(m.addr, none, ff)] := by
      refine ⟨_, rfl, ?_⟩
      simp only [spec_entry_walks, hn2, Bool.false_eq_true, if_false]
      split <;> rfl
    let s1 : IfindState :=
      { s with data := { s.data with curinode := m.addr }
               walks := s.walks ++ [(m.addr, none, ff)] }
    have hwalk := file_walk_effect fs (m.walk ff) s1
    have herr0 := file_walk_err (m.walk ff) (ifind_data_file_act fs) s1
      (fun addr size s => (ifind_data_file_act_effect fs addr size s).1)
    rcases hr : tsk_fs_file_walk (m.walk ff) (ifind_data_file_act fs) s1 with ⟨r, s2⟩
    rw [hr] at hwalk herr0
    obtain ⟨-, a2, a3, a4, a5, -, -, k, hk, hkz, hkp⟩ := hwalk
    simp only at a2 a3 a4 a5 hk hkz hkp herr0
    have hres : ∃ s3 : IfindState,
        ifind_data_act fs m s = (TSK_WALK_RET_ENUM.TSK_WALK_CONT, s3) ∧
        s3.walks = s2.walks ∧ s3.out = s2.out ∧ s3.data = s2.data ∧
        (s3.err = s.err ∨ s3.err = tsk_error_reset s.err) := by
      cases r with
      | zero =>
        refine ⟨s2, ?_, rfl, rfl, rfl, Or.inl (herr0 rfl)⟩
        simp only [ifind_data_act, hn2, Bool.false_eq_true, if_false]
        rw [← hff]
        show (match tsk_fs_file_walk (m.walk ff) (ifind_data_file_act fs) s1 with
          | (0, s2) => (TSK_WALK_RET_ENUM.TSK_WALK_CONT, s2)
          | (_, s2) => (TSK_WALK_RET_ENUM.TSK_WALK_CONT,
              { s2 with err := tsk_error_reset s2.err })) = _
        rw [hr]
      | succ n =>
        refine ⟨{ s2 with err := tsk_error_reset s2.err }, ?_, rfl, rfl, rfl, Or.inr rfl⟩
        simp only [ifind_data_act, hn2, Bool.false_eq_true, if_false]
        rw [← hff]
        show (match tsk_fs_file_walk (m.walk ff) (ifind_data_file_act fs) s1 with
          | (0, s2) => (TSK_WALK_RET_ENUM.TSK_WALK_CONT, s2)
          | (_, s2) => (TSK_WALK_RET_ENUM.TSK_WALK_CONT,
              { s2 with err := tsk_error_reset s2.err })) = _
        rw [hr]
        rfl
    obtain ⟨s3, heq, h3w, h3o, h3d, h3e⟩ := hres
    rw [heq]
    refine ⟨rfl, ?_, ⟨List.replicate k (OutLine.inode m.addr), ?_, ?_, ?_, ?_⟩, ?_, ?_, h3e⟩
    · show s3.walks = _
      rw [h3w, a2, hspec]
    · show s3.out = _
      rw [h3o, hk]
    · intro l hl1
      rw [if_neg hn]
      exact List.eq_of_mem_replicate hl1
    · intro hnil
      have hk0 : k = 0 := by
        by_contra hne
        have : List.replicate k (OutLine.inode m.addr) ≠ [] := by simp [hne]
        exact this hnil
      show s3.data.found = _
      rw [h3d, hkz hk0]
    · intro hne
      have hk0 : 0 < k := by
        by_contra h0
        have : k = 0 := by omega
        subst this
        exact hne rfl
      show s3.data.found = _
      rw [h3d, hkp hk0]
    · show s3.data.block = _
      rw [h3d, a3]
    · show s3.data.flags = _
      rw [h3d, a4]

/-- The metadata walk with the callback `ifind_data_act` visits every entry of the list:
its final state is the fold of the callback over the list, and its return value only
depends on whether the driver fails. -/
theorem inode_walk_loop_fold (fs : TSK_FS_INFO) (wf : Bool) (ms : List TSK_FS_META)
    (s : IfindState) :
    inode_walk_loop (ifind_data_act fs) wf ms s =
      (if wf then 1 else 0, ms.foldl (fun st m => (ifind_data_act fs m st).2) s) := by
  induction ms generalizing s with
  | nil => rfl
  | cons m rest ih =>
    have hc := (ifind_data_act_effect fs m s).1
    rcases hr : ifind_data_act fs m s with ⟨r, s1⟩
    rw [hr] at hc
    simp only at hc
    subst hc
    simp only [inode_walk_loop, List.foldl_cons, hr]
    exact ih s1

/-- The callback keeps the agreement between `found` and the printed lines. -/
theorem ifind_data_act_found_iff_printed (fs : TSK_FS_INFO) (m : TSK_FS_META)
    (s : IfindState) (h : found_iff_printed s) :
    found_iff_printed (ifind_data_act fs m s).2 := by
  obtain ⟨-, -, ⟨new, ho, hl, hz, hp⟩, -, -, -⟩ := ifind_data_act_effect fs m s
  have hmatch : ∀ l ∈ new, is_match_line l = true := by
    intro l hl1
    have := hl l hl1
    split at this
    · obtain ⟨a, -, -, rfl⟩ := this
      rfl
    · subst this
      rfl
  by_cases hnew : new = []
  · subst hnew
    rw [List.append_nil] at ho
    rcases h with ⟨h1, h2⟩ | ⟨h1, h2, h3⟩
    · exact Or.inl ⟨by rw [hz rfl, h1], by rw [ho, h2]⟩
    · exact Or.inr ⟨by rw [hz rfl, h1], by rw [ho]; exact h2, by rw [ho]; exact h3⟩
  · refine Or.inr ⟨hp hnew, ?_, ?_⟩
    · rw [ho]
      intro hnil
      exact hnew (List.append_eq_nil.1 hnil).2
    · rw [ho]
      intro l hl1
      rcases List.mem_append.1 hl1 with h1 | h1
      · rcases h with ⟨-, h2⟩ | ⟨-, -, h3⟩
        · rw [h2] at h1
          exact absurd h1 (List.not_mem_nil l)
        · exact h3 l h1
      · exact hmatch l h1

/-- The fold of the callback over a list of entries: the walks requested are those of
the entries, in order; the agreement between `found` and the printed lines is kept; the
block is kept. -/
theorem ifind_data_fold_effect (fs : TSK_FS_INFO) (ms : List TSK_FS_META) (s : IfindState) :
    (ms.foldl (fun st m => (ifind_data_act fs m st).2) s).walks =
      s.walks ++ ms.flatMap (spec_entry_walks fs.ftype) ∧
    (found_iff_printed s →
      found_iff_printed (ms.foldl (fun st m => (ifind_data_act fs m st).2) s)) ∧
    (ms.foldl (fun st m => (ifind_data_act fs m st).2) s).data.block = s.data.block := by
  induction ms generalizing s with
  | nil => exact ⟨by simp, fun h => h, rfl⟩
  | cons m rest ih =>
    obtain ⟨h1, h2, h3⟩ := ih (ifind_data_act fs m s).2
    obtain ⟨-, hw, -, hb, -, -⟩ := ifind_data_act_effect fs m s
    refine ⟨?_, ?_, ?_⟩
    · rw [List.foldl_cons, h1, hw, List.flatMap_cons, List.append_assoc]
    · intro h
      rw [List.foldl_cons]
      exact h2 (ifind_data_act_found_iff_printed fs m s h)
    · rw [List.foldl_cons, h3, hb]

/-- The metadata walk of the reverse lookup selects both allocation states: it visits
every entry with address in `[first_inum, last_inum]`. -/
theorem ifind_data_inode_walk_eq (fs : TSK_FS_INFO) (s : IfindState) :
    inode_walk fs fs.first_inum fs.last_inum true true (ifind_data_act fs) s =
      (if fs.inode_walk_fails then 1 else 0,
        (fs.inodes.filter (fun m =>
          decide (fs.first_inum ≤ m.addr) && decide (m.addr ≤ fs.last_inum))).foldl
          (fun st m => (ifind_data_act fs m st).2) s) := by
  have hfilter : fs.inodes.filter (fun m =>
      decide (fs.first_inum ≤ m.addr) && decide (m.addr ≤ fs.last_inum) &&
        ((m.alloc && true) || (!m.alloc && true))) =
      fs.inodes.filter (fun m =>
        decide (fs.first_inum ≤ m.addr) && decide (m.addr ≤ fs.last_inum)) := by
    apply List.filter_congr
    intro m _
    cases m.alloc <;> simp
  unfold inode_walk
  rw [hfilter]
  exact inode_walk_loop_fold fs _ _ s

/-- The return value of the reverse lookup only depends on the metadata walk. -/
theorem ifind_data_retval (fs : TSK_FS_INFO) (lclflags blk : Nat) (err : TskError) :
    (tsk_fs_ifind_data fs lclflags blk err).1 = if fs.inode_walk_fails then 1 else 0 := by
  unfold tsk_fs_ifind_data
  simp only
  rw [ifind_data_inode_walk_eq]
  cases fs.inode_walk_fails <;> rfl

/-- After the metadata walk of the reverse lookup `found` agrees with the printed
lines. -/
theorem ifind_data_walked_found_iff_printed (fs : TSK_FS_INFO) (lclflags blk : Nat)
    (err : TskError) : found_iff_printed (ifind_data_walked fs lclflags blk err) := by
  unfold ifind_data_walked
  rw [ifind_data_inode_walk_eq]
  exact (ifind_data_fold_effect fs _ _).2.1 (Or.inl ⟨rfl, rfl⟩)

/-- The tail of `tsk_fs_ifind_data` after a metadata walk that completed. -/
theorem ifind_data_after_walk (fs : TSK_FS_INFO) (lclflags blk : Nat) (err : TskError)
    (hwalk : fs.inode_walk_fails = false) :
    (tsk_fs_ifind_data fs lclflags blk err).2 =
      (let s := ifind_data_walked fs lclflags blk err
       let s1 : IfindState :=
         if s.data.found = 0 then
           match fs.block_get blk with
           | some flags =>
             if flags &&& TSK_FS_BLOCK_FLAG_META ≠ 0 then
               { s with out := s.out ++ [OutLine.meta_data]
                        data := { s.data with found := 1 } }
             else s
           | none => s
         else s
       if s1.data.found = 0 then { s1 with out := s1.out ++ [OutLine.inode_not_found] }
       else s1) := by
  have h := ifind_data_inode_walk_eq fs
    { data := { block := blk, flags := lclflags, found := 0, curinode := 0, curtype := 0
                curid := 0 }
      out := [], err := err, walks := [] }
  rw [hwalk] at h
  unfold tsk_fs_ifind_data ifind_data_walked
  simp only
  rw [h]
  rfl

/-- C16. When the metadata walk of `tsk_fs_ifind_data` completes without error, the
function returns 0 and its output is of exactly one of three kinds: one or more lines,
all of them match lines (no fallback line is printed after a match); or no entry
matched, the flags of the block include metadata, and the output is the single line
`Meta Data`; or no entry matched, the block is not flagged metadata or its flags cannot
be obtained, and the output is the single line `Inode not found`. -/
theorem ifind_data_output_kinds (fs : TSK_FS_INFO) (lclflags blk : Nat) (err : TskError)
    (hwalk : fs.inode_walk_fails = false) :
    (tsk_fs_ifind_data fs lclflags blk err).1 = 0 ∧
    (((ifind_data_walked fs lclflags blk err).data.found = 1 ∧
        (tsk_fs_ifind_data fs lclflags blk err).2.out ≠ [] ∧
        (tsk_fs_ifind_data fs lclflags blk err).2.out =
          (ifind_data_walked fs lclflags blk err).out ∧
        ∀ l ∈ (tsk_fs_ifind_data fs lclflags blk err).2.out, is_match_line l = true) ∨
      ((ifind_data_walked fs lclflags blk err).data.found = 0 ∧
        (ifind_data_walked fs lclflags blk err).out = [] ∧
        (∃ flags, fs.block_get blk = some flags ∧ flags &&& TSK_FS_BLOCK_FLAG_META ≠ 0) ∧
        (tsk_fs_ifind_data fs lclflags blk err).2.out = [OutLine.meta_data]) ∨
      ((ifind_data_walked fs lclflags blk err).data.found = 0 ∧
        (ifind_data_walked fs lclflags blk err).out = [] ∧
        (fs.block_get blk = none ∨
          ∃ flags, fs.block_get blk = some flags ∧ flags &&& TSK_FS_BLOCK_FLAG_META = 0) ∧
        (tsk_fs_ifind_data fs lclflags blk err).2.out = [OutLine.inode_not_found])) := by
  refine ⟨by rw [ifind_data_retval, hwalk]; rfl, ?_⟩
  rw [ifind_data_after_walk fs lclflags blk err hwalk]
  rcases ifind_data_walked_found_iff_printed fs lclflags blk err with ⟨h1, h2⟩ | ⟨h1, h2, h3⟩
  · cases hb : fs.block_get blk with
    | none =>
      refine Or.inr (Or.inr ⟨h1, h2, Or.inl rfl, ?_⟩)
      simp [h1, h2]
    | some flags =>
      by_cases hm : flags &&& TSK_FS_BLOCK_FLAG_META = 0
      · refine Or.inr (Or.inr ⟨h1, h2, Or.inr ⟨flags, rfl, hm⟩, ?_⟩)
        simp [h1, h2, hm]
      · refine Or.inr (Or.inl ⟨h1, h2, ⟨flags, rfl, hm⟩, ?_⟩)
        simp [h1, h2, hm]
  · refine Or.inl ⟨h1, ?_, ?_, ?_⟩
    · simpa [h1] using h2
    · simp [h1]
    · simpa [h1] using h3

/-- An instance of C16: in the example NTFS file system with a sparse run the lookup of
block 7 completes and prints lines of one of the three kinds. -/
theorem ifind_data_output_kinds_witness :
    sparse_ntfs_fs.inode_walk_fails = false ∧
    (tsk_fs_ifind_data sparse_ntfs_fs 0 7 no_error).1 = 0 ∧
    (((ifind_data_walked sparse_ntfs_fs 0 7 no_error).data.found = 1 ∧
        (tsk_fs_ifind_data sparse_ntfs_fs 0 7 no_error).2.out ≠ [] ∧
        (tsk_fs_ifind_data sparse_ntfs_fs 0 7 no_error).2.out =
          (ifind_data_walked sparse_ntfs_fs 0 7 no_error).out ∧
        ∀ l ∈ (tsk_fs_ifind_data sparse_ntfs_fs 0 7 no_error).2.out,
          is_match_line l = true) ∨
      ((ifind_data_walked sparse_ntfs_fs 0 7 no_error).data.found = 0 ∧
        (ifind_data_walked sparse_ntfs_fs 0 7 no_error).out = [] ∧
        (∃ flags, sparse_ntfs_fs.block_get 7 = some flags ∧
          flags &&& TSK_FS_BLOCK_FLAG_META ≠ 0) ∧
        (tsk_fs_ifind_data sparse_ntfs_fs 0 7 no_error).2.out = [OutLine.meta_data]) ∨
      ((ifind_data_walked sparse_ntfs_fs 0 7 no_error).data.found = 0 ∧
        (ifind_data_walked sparse_ntfs_fs 0 7 no_error).out = [] ∧
        (sparse_ntfs_fs.block_get 7 = none ∨
          ∃ flags, sparse_ntfs_fs.block_get 7 = some flags ∧
            flags &&& TSK_FS_BLOCK_FLAG_META = 0) ∧
        (tsk_fs_ifind_data sparse_ntfs_fs 0 7 no_error).2.out =
          [OutLine.inode_not_found])) :=
  ⟨rfl, ifind_data_output_kinds sparse_ntfs_fs 0 7 no_error rfl⟩

/-- C17. For every metadata entry the callback `ifind_data_act` returns `continue`,
whether or not a file walk of the entry fails, and leaves the error channel as it was
or reset; a failing file walk (the single walk of a non-NTFS entry, the walk of any
non-resident attribute of an NTFS entry) leaves the error channel reset; so the
metadata walk calls the callback on every entry, and `tsk_fs_ifind_data` returns 1
exactly when the metadata walk itself fails. -/
theorem ifind_data_act_continues (fs : TSK_FS_INFO) :
    (∀ m s, (ifind_data_act fs m s).1 = TSK_WALK_RET_ENUM.TSK_WALK_CONT ∧
      ((ifind_data_act fs m s).2.err = s.err ∨
        (ifind_data_act fs m s).2.err = tsk_error_reset s.err)) ∧
    (∀ (m : TSK_FS_META) (s : IfindState), TSK_FS_TYPE_ISNTFS fs.ftype = false →
      (tsk_fs_file_walk
        (m.walk (if TSK_FS_TYPE_ISFAT fs.ftype then { aonly := true, slack := true }
          else { aonly := true, slack := false }))
        (ifind_data_file_act fs)
        { s with data := { s.data with curinode := m.addr }
                 walks := s.walks ++ [(m.addr, none,
                   if TSK_FS_TYPE_ISFAT fs.ftype then { aonly := true, slack := true }
                   else { aonly := true, slack := false })] }).1 ≠ 0 →
      (ifind_data_act fs m s).2.err = tsk_error_reset s.err) ∧
    (∀ (m : TSK_FS_META) (s : IfindState) (pre post : List (Option TSK_FS_ATTR))
        (fa : TSK_FS_ATTR),
      TSK_FS_TYPE_ISNTFS fs.ftype = true → m.attrs = pre ++ some fa :: post →
      fa.nonres = true →
      (tsk_fs_file_walk (fa.walk { aonly := true, slack := true }) ifind_data_file_ntfs_act
        { ifind_data_attr_loop m.addr { aonly := true, slack := true } pre
            { s with data := { s.data with curinode := m.addr } } with
          data := { (ifind_data_attr_loop m.addr { aonly := true, slack := true } pre
            { s with data := { s.data with curinode := m.addr } }).data with
              curtype := fa.type, curid := fa.id }
          walks := (ifind_data_attr_loop m.addr { aonly := true, slack := true } pre
            { s with data := { s.data with curinode := m.addr } }).walks ++
              [(m.addr, some (fa.type, fa.id), { aonly := true, slack := true })] }).1 ≠ 0 →
      (ifind_data_act fs m s).2.err = tsk_error_reset s.err) ∧
    (∀ wf ms s, inode_walk_loop (ifind_data_act fs) wf ms s =
      (if wf then 1 else 0, ms.foldl (fun st m => (ifind_data_act fs m st).2) s)) ∧
    (∀ lclflags blk err,
      ((tsk_fs_ifind_data fs lclflags blk err).1 = 1 ↔ fs.inode_walk_fails = true) ∧
      ((tsk_fs_ifind_data fs lclflags blk err).1 = 0 ↔ fs.inode_walk_fails = false)) := by
  refine ⟨?_, ?_, ?_, ?_, ?_⟩
  · intro m s
    exact ⟨(ifind_data_act_effect fs m s).1, (ifind_data_act_effect fs m s).2.2.2.2.2⟩
  · intro m s hn hfail
    simp only [ifind_data_act, hn, Bool.false_eq_true, if_false]
    rcases hr : tsk_fs_file_walk
        (m.walk (if TSK_FS_TYPE_ISFAT fs.ftype then { aonly := true, slack := true }
          else { aonly := true, slack := false }))
        (ifind_data_file_act fs)
        { s with data := { s.data with curinode := m.addr }
                 walks := s.walks ++ [(m.addr, none,
                   if TSK_FS_TYPE_ISFAT fs.ftype then { aonly := true, slack := true }
                   else { aonly := true, slack := false })] } with ⟨r, s2⟩
    rw [hr] at hfail
    cases r with
    | zero => exact absurd rfl hfail
    | succ n => rfl
  · intro m s pre post fa hn hattrs hnr hfail
    have heq : (ifind_data_act fs m s).2 =
        ifind_data_attr_loop m.addr { aonly := true, slack := true } m.attrs
          { s with data := { s.data with curinode := m.addr } } := by
      simp only [ifind_data_act, hn, if_true]
    rw [heq, hattrs, ifind_data_attr_loop_append]
    have h := ifind_data_attr_loop_head_fails m.addr { aonly := true, slack := true } fa post
      (ifind_data_attr_loop m.addr { aonly := true, slack := true } pre
        { s with data := { s.data with curinode := m.addr } }) hnr hfail
    rw [h]
    rfl
  · intro wf ms s
    exact inode_walk_loop_fold fs wf ms s
  · intro lclflags blk err
    rw [ifind_data_retval]
    cases fs.inode_walk_fails <;> simp

/-- An instance of C17: in the example ext file system the walk of entry 5 fails, the
callback resets the error channel and returns `continue`, and the lookup of block 100
still reports entry 9 and returns 0. -/
theorem ifind_data_act_continues_witness :
    (tsk_fs_file_walk { blocks := [], fails := true } (ifind_data_file_act faulty_walk_fs)
      { ifind_state 100 0 0 0 0 with
        data := { (ifind_state 100 0 0 0 0).data with curinode := 5 }
        walks := [(5, none, { aonly := true, slack := false })] }).1 ≠ 0 ∧
    (ifind_data_act faulty_walk_fs
      { addr := 5, type := TSK_FS_META_TYPE_ENUM.TSK_FS_META_TYPE_REG, alloc := true
        attrs := [], name2 := [], walk := fun _ => { blocks := [], fails := true } }
      (ifind_state 100 0 0 0 0)).2.err = tsk_error_reset no_error ∧
    tsk_fs_ifind_data faulty_walk_fs 0 100 no_error =
      (0, { data := { block := 100, flags := 0, found := 1, curinode := 9, curtype := 0
                      curid := 0 }
            out := [OutLine.inode 9], err := no_error
            walks := [(5, none, { aonly := true, slack := false }),
                      (9, none, { aonly := true, slack := false })] }) :=
  ⟨by decide,
    (ifind_data_act_continues faulty_walk_fs).2.1
      { addr := 5, type := TSK_FS_META_TYPE_ENUM.TSK_FS_META_TYPE_REG, alloc := true
        attrs := [], name2 := [], walk := fun _ => { blocks := [], fails := true } }
      (ifind_state 100 0 0 0 0) rfl (by decide),
    by decide⟩

/-- C18. The file walks that the reverse lookup requests for one metadata entry are
those that the specification prescribes for the family of the file system: on NTFS one
walk per non-resident attribute, in attribute order, address-only with slack, none for
a resident attribute, and the lines printed during the walk of the attribute `t`-`i` of
entry `m` are the triple `m-t-i`; on FAT one walk, address-only with slack; elsewhere
one walk, address-only without slack; outside NTFS every line printed is the address of
the entry. The lookup walks every entry with address in `[first_inum, last_inum]`,
allocated or not. -/
theorem ifind_data_act_walks_by_family (fs : TSK_FS_INFO) :
    (∀ m s, (ifind_data_act fs m s).2.walks = s.walks ++ spec_entry_walks fs.ftype m) ∧
    (∀ m s, ∃ new, (ifind_data_act fs m s).2.out = s.out ++ new ∧
      ∀ l ∈ new,
        if TSK_FS_TYPE_ISNTFS fs.ftype then
          ∃ a, some a ∈ m.attrs ∧ a.nonres = true ∧ l = OutLine.attr m.addr a.type a.id
        else l = OutLine.inode m.addr) ∧
    (∀ (addr : Nat) (ff : WalkFlags) (pre : List (Option TSK_FS_ATTR)) (fa : TSK_FS_ATTR)
        (s : IfindState),
      if fa.nonres then
        (ifind_data_attr_loop addr ff (pre ++ [some fa]) s).walks =
          (ifind_data_attr_loop addr ff pre s).walks ++ [(addr, some (fa.type, fa.id), ff)] ∧
        ∃ k, (ifind_data_attr_loop addr ff (pre ++ [some fa]) s).out =
          (ifind_data_attr_loop addr ff pre s).out ++
            List.replicate k (OutLine.attr s.data.curinode fa.type fa.id)
      else
        (ifind_data_attr_loop addr ff (pre ++ [some fa]) s).walks =
          (ifind_data_attr_loop addr ff pre s).walks ∧
        (ifind_data_attr_loop addr ff (pre ++ [some fa]) s).out =
          (ifind_data_attr_loop addr ff pre s).out) ∧
    (∀ m,
      (TSK_FS_TYPE_ISNTFS fs.ftype = true →
        spec_entry_walks fs.ftype m =
          ((m.attrs.filterMap id).filter (fun a => a.nonres)).map
            (fun a => (m.addr, some (a.type, a.id), { aonly := true, slack := true }))) ∧
      (TSK_FS_TYPE_ISNTFS fs.ftype = false → TSK_FS_TYPE_ISFAT fs.ftype = true →
        spec_entry_walks fs.ftype m = [(m.addr, none, { aonly := true, slack := true })]) ∧
      (TSK_FS_TYPE_ISNTFS fs.ftype = false → TSK_FS_TYPE_ISFAT fs.ftype = false →
        spec_entry_walks fs.ftype m = [(m.addr, none, { aonly := true, slack := false })])) ∧
    (∀ lclflags blk err,
      (tsk_fs_ifind_data fs lclflags blk err).2.walks =
        (fs.inodes.filter (fun m =>
          decide (fs.first_inum ≤ m.addr) && decide (m.addr ≤ fs.last_inum))).flatMap
          (spec_entry_walks fs.ftype)) := by
  refine ⟨?_, ?_, ?_, ?_, ?_⟩
  · intro m s
    exact (ifind_data_act_effect fs m s).2.1
  · intro m s
    obtain ⟨-, -, ⟨new, ho, hl, -, -⟩, -, -, -⟩ := ifind_data_act_effect fs m s
    exact ⟨new, ho, hl⟩
  · intro addr ff pre fa s
    have hcur := (ifind_data_attr_loop_effect addr ff pre s).2.2.2.2.1
    by_cases hnr : fa.nonres = true
    · rw [if_pos hnr, ifind_data_attr_loop_append]
      obtain ⟨hw, ⟨new, ho, hl, -, -⟩, -, -, -, -⟩ :=
        ifind_data_attr_loop_effect addr ff [some fa] (ifind_data_attr_loop addr ff pre s)
      refine ⟨?_, ?_⟩
      · rw [hw]; simp [hnr]
      · have hall : ∀ l ∈ new, l = OutLine.attr s.data.curinode fa.type fa.id := by
          intro l hl1
          obtain ⟨a, ha, -, rfl⟩ := hl l hl1
          have : a = fa := by simpa using ha
          rw [this, hcur]
        refine ⟨new.length, ?_⟩
        rw [ho]
        exact congrArg _ (List.eq_replicate_of_mem hall)
    · have hnr2 : fa.nonres = false := by simpa using hnr
      rw [if_neg hnr, ifind_data_attr_loop_append]
      simp only [ifind_data_attr_loop, hnr2, Bool.false_eq_true, if_false, and_self]
  · intro m
    refine ⟨?_, ?_, ?_⟩
    · intro hn
      simp only [spec_entry_walks, hn, if_true]
      induction m.attrs with
      | nil => rfl
      | cons a rest ih =>
        cases a with
        | none => simpa using ih
        | some fa =>
          by_cases hnr : fa.nonres = true
          · simp [List.filterMap_cons, hnr, List.filter_cons]
            simpa using ih
          · have hnr2 : fa.nonres = false := by simpa using hnr
            simp [List.filterMap_cons, hnr2, List.filter_cons]
            simpa using ih
    · intro hn hf
      simp only [spec_entry_walks, hn, hf, Bool.false_eq_true, if_false, if_true]
    · intro hn hf
      simp only [spec_entry_walks, hn, hf, Bool.false_eq_true, if_false]
  · intro lclflags blk err
    cases hwf : fs.inode_walk_fails with
    | false =>
      rw [ifind_data_after_walk fs lclflags blk err hwf]
      have hw : (ifind_data_walked fs lclflags blk err).walks =
          (fs.inodes.filter (fun m =>
            decide (fs.first_inum ≤ m.addr) && decide (m.addr ≤ fs.last_inum))).flatMap
            (spec_entry_walks fs.ftype) := by
        unfold ifind_data_walked
        rw [ifind_data_inode_walk_eq, (ifind_data_fold_effect fs _ _).1]
        rfl
      rw [← hw]
      simp only
      split_ifs <;> first | rfl | (split <;> first | rfl | (split_ifs <;> rfl))
    | true =>
      have h := ifind_data_inode_walk_eq fs
        { data := { block := blk, flags := lclflags, found := 0, curinode := 0, curtype := 0
                    curid := 0 }
          out := [], err := err, walks := [] }
      rw [hwf] at h
      unfold tsk_fs_ifind_data
      simp only
      rw [h]
      exact ((ifind_data_fold_effect fs _ _).1).trans (List.nil_append _)

/-- An instance of C18: in the example NTFS file system the lookup of block 700 with
`TSK_FS_IFIND_ALL` walks the two non-resident attributes of the unallocated entry 9, in
order, address-only with slack, and prints the triples `9-128-3` and `9-128-4`. -/
theorem ifind_data_act_walks_by_family_witness :
    TSK_FS_TYPE_ISNTFS streams_ntfs_fs.ftype = true ∧
    (tsk_fs_ifind_data streams_ntfs_fs TSK_FS_IFIND_ALL 700 no_error).2.walks =
      [(9, some (128, 3), { aonly := true, slack := true }),
       (9, some (128, 4), { aonly := true, slack := true })] ∧
    (tsk_fs_ifind_data streams_ntfs_fs TSK_FS_IFIND_ALL 700 no_error).2.out =
      [OutLine.attr 9 128 3, OutLine.attr 9 128 4] :=
  ⟨rfl,
    ((ifind_data_act_walks_by_family streams_ntfs_fs).2.2.2.2
      TSK_FS_IFIND_ALL 700 no_error).trans (by decide),
    by decide⟩

/-! ## Parent-based search: theorems -/

/-- The attribute loop of the parent-based search prints one line per `$DATA` or
`$IDXROOT` attribute that can be fetched, in attribute order, and sets `printed` when it
printed a line. -/
theorem ifind_par_attr_loop_eq (flags : Nat) (fs_name : TSK_FS_NAME)
    (attrs : List (Option TSK_FS_ATTR)) (out : List ParLine) (printed : Nat) :
    ifind_par_attr_loop flags fs_name attrs (out, printed) =
      (out ++ ((attrs.filterMap id).filter (fun a =>
          decide (a.type = TSK_FS_ATTR_TYPE_NTFS_DATA ∨
            a.type = TSK_FS_ATTR_TYPE_NTFS_IDXROOT))).map (fun a =>
          { long_format := decide (flags &&& TSK_FS_IFIND_PAR_LONG ≠ 0)
            fs_name := fs_name, attr := some (a.type, a.id) }),
        if ((attrs.filterMap id).filter (fun a =>
          decide (a.type = TSK_FS_ATTR_TYPE_NTFS_DATA ∨
            a.type = TSK_FS_ATTR_TYPE_NTFS_IDXROOT))).isEmpty then printed else 1) := by
  induction attrs generalizing out printed with
  | nil => simp [ifind_par_attr_loop]
  | cons a rest ih =>
    cases a with
    | none => simpa [ifind_par_attr_loop] using ih out printed
    | some fa =>
      by_cases ht : fa.type = TSK_FS_ATTR_TYPE_NTFS_DATA ∨
          fa.type = TSK_FS_ATTR_TYPE_NTFS_IDXROOT
      · simp only [ifind_par_attr_loop, if_pos ht]
        rw [ih]
        simp [List.filterMap_cons, List.filter_cons, ht]
      · simp only [ifind_par_attr_loop, if_neg ht]
        rw [ih]
        have ht2 := not_or.1 ht
        have hf : List.filter (fun a : TSK_FS_ATTR =>
              decide (a.type = TSK_FS_ATTR_TYPE_NTFS_DATA ∨
                a.type = TSK_FS_ATTR_TYPE_NTFS_IDXROOT)) (fa :: List.filterMap id rest) =
            List.filter (fun a : TSK_FS_ATTR =>
              decide (a.type = TSK_FS_ATTR_TYPE_NTFS_DATA ∨
                a.type = TSK_FS_ATTR_TYPE_NTFS_IDXROOT)) (List.filterMap id rest) := by
          simp [List.filter_cons, ht2.1, ht2.2]
        simp only [List.filterMap_cons, id, hf]

/-- The prints for one parent-name record whose parent is the one looked for. -/
theorem ifind_par_record_out (flags : Nat) (m : TSK_FS_META) (name : CStr)
    (out : List ParLine) :
    (if (ifind_par_attr_loop flags (par_name m.addr name) m.attrs (out, 0)).2 = 0 then
      (ifind_par_attr_loop flags (par_name m.addr name) m.attrs (out, 0)).1 ++
        [{ long_format := decide (flags &&& TSK_FS_IFIND_PAR_LONG ≠ 0)
           fs_name := par_name m.addr name, attr := none }]
    else (ifind_par_attr_loop flags (par_name m.addr name) m.attrs (out, 0)).1) =
      out ++ spec_par_record_lines flags m name := by
  rw [ifind_par_attr_loop_eq]
  unfold spec_par_record_lines par_attrs
  cases hk : ((m.attrs.filterMap id).filter (fun a =>
      decide (a.type = TSK_FS_ATTR_TYPE_NTFS_DATA ∨
        a.type = TSK_FS_ATTR_TYPE_NTFS_IDXROOT))) with
  | nil => simp
  | cons a rest => simp

/-- The number of outputs prescribed for one parent-name record is `max (1, k)`, with
`k` the number of `$DATA` and `$IDXROOT` attributes of the entry that can be fetched. -/
theorem spec_par_record_lines_length (flags : Nat) (m : TSK_FS_META) (name : CStr) :
    (spec_par_record_lines flags m name).length = max 1 (par_attrs m).length := by
  unfold spec_par_record_lines
  cases h : par_attrs m with
  | nil => simp
  | cons a rest => simp

theorem alloc_run_le (f : Nat → Bool) (n start : Nat) : alloc_run f start n ≤ n := by
  induction n generalizing start with
  | zero => simp [alloc_run]
  | succ k ih =>
    rw [alloc_run]
    split
    · have := ih (start + 1)
      omega
    · omega

/-- The run of successes is the whole range exactly when every call in it succeeds. -/
theorem alloc_run_eq_iff (f : Nat → Bool) (n start : Nat) :
    alloc_run f start n = n ↔ ∀ i, i < n → f (start + i) = true := by
  induction n generalizing start with
  | zero => simp [alloc_run]
  | succ k ih =>
    rw [alloc_run]
    by_cases h : f start = true
    · rw [if_pos h]
      constructor
      · intro hk i hi
        have hk1 : alloc_run f (start + 1) k = k := by omega
        cases i with
        | zero => simpa using h
        | succ i1 =>
          have := (ih (start + 1)).1 hk1 i1 (by omega)
          rwa [show start + 1 + i1 = start + (i1 + 1) by omega] at this
      · intro hall
        have : alloc_run f (start + 1) k = k := by
          apply (ih (start + 1)).2
          intro i hi
          have := hall (i + 1) (by omega)
          rwa [show start + (i + 1) = start + 1 + i by omega] at this
        omega
    · rw [if_neg h]
      constructor
      · intro hk
        omega
      · intro hall
        exact absurd (by simpa using hall 0 (by omega)) h

/-- A run of successes that ends before the range does ends at a failing call, behind
calls that all succeed. -/
theorem alloc_run_lt (f : Nat → Bool) (n start : Nat) (h : alloc_run f start n < n) :
    f (start + alloc_run f start n) = false ∧
      ∀ i, i < alloc_run f start n → f (start + i) = true := by
  induction n generalizing start with
  | zero => simp at h
  | succ k ih =>
    rw [alloc_run] at h ⊢
    by_cases hs : f start = true
    · rw [if_pos hs] at h ⊢
      obtain ⟨h1, h2⟩ := ih (start + 1) (by omega)
      constructor
      · rwa [show start + (alloc_run f (start + 1) k + 1) =
          start + 1 + alloc_run f (start + 1) k by omega]
      · intro i hi
        cases i with
        | zero => simpa using hs
        | succ i1 =>
          have := h2 i1 (by omega)
          rwa [show start + 1 + i1 = start + (i1 + 1) by omega] at this
    · rw [if_neg hs]
      exact ⟨by simpa using hs, fun i hi => absurd hi (by omega)⟩

/-- The run of successes over two ranges in a row. -/
theorem alloc_run_add (f : Nat → Bool) (a b start : Nat) :
    alloc_run f start (a + b) =
      if alloc_run f start a = a then a + alloc_run f (start + a) b
      else alloc_run f start a := by
  induction a generalizing start with
  | zero => simp [alloc_run]
  | succ k ih =>
    rw [show k + 1 + b = (k + b) + 1 by omega, alloc_run, alloc_run]
    by_cases hs : f start = true
    · rw [if_pos hs, if_pos hs, ih (start + 1)]
      by_cases hk : alloc_run f (start + 1) k = k
      · rw [if_pos hk, if_pos (by omega), show start + 1 + k = start + (k + 1) by omega]
        omega
      · rw [if_neg hk, if_neg (by omega)]
    · rw [if_neg hs, if_neg hs, if_neg (by omega)]

/-- The loop over the parent-name records, whatever the allocations do: with `j` the
number of matching records whose allocation succeeds in a row, the outputs of the first
`j` matching records are printed; the loop returns `continue` when these are all
matching records, and `error`, at the first allocation that fails, otherwise. -/
theorem ifind_par_name_loop_run (name_alloc : Nat → Bool) (m : TSK_FS_META)
    (recs : List (Nat × CStr)) (s : ParState) :
    (ifind_par_name_loop name_alloc m recs s).1 =
      (if alloc_run name_alloc s.allocs
          (recs.filter (fun r => decide (r.1 = s.data.parinode))).length =
          (recs.filter (fun r => decide (r.1 = s.data.parinode))).length
        then TSK_WALK_RET_ENUM.TSK_WALK_CONT else TSK_WALK_RET_ENUM.TSK_WALK_ERROR) ∧
    (ifind_par_name_loop name_alloc m recs s).2.out =
      s.out ++ ((recs.filter (fun r => decide (r.1 = s.data.parinode))).take
        (alloc_run name_alloc s.allocs
          (recs.filter (fun r => decide (r.1 = s.data.parinode))).length)).flatMap
        (fun r => spec_par_record_lines s.data.flags m r.2) ∧
    (ifind_par_name_loop name_alloc m recs s).2.allocs =
      s.allocs + min (recs.filter (fun r => decide (r.1 = s.data.parinode))).length
        (alloc_run name_alloc s.allocs
          (recs.filter (fun r => decide (r.1 = s.data.parinode))).length + 1) ∧
    (ifind_par_name_loop name_alloc m recs s).2.data.parinode = s.data.parinode ∧
    (ifind_par_name_loop name_alloc m recs s).2.data.flags = s.data.flags := by
  induction recs generalizing s with
  | nil => simp [ifind_par_name_loop, alloc_run]
  | cons r rest ih =>
    obtain ⟨par_inode, name⟩ := r
    by_cases hp : par_inode = s.data.parinode
    · have hfilter : ((par_inode, name) :: rest).filter
          (fun r => decide (r.1 = s.data.parinode)) =
          (par_inode, name) :: rest.filter (fun r => decide (r.1 = s.data.parinode)) := by
        simp [List.filter_cons, hp]
      rw [hfilter]
      simp only [List.length_cons, alloc_run]
      by_cases ha : name_alloc s.allocs = true
      · have hrec := ifind_par_record_out s.data.flags m name s.out
        have hstep : ifind_par_name_loop name_alloc m ((par_inode, name) :: rest) s =
            ifind_par_name_loop name_alloc m rest
              { data := { s.data with found := 1 }
                out := s.out ++ spec_par_record_lines s.data.flags m name
                allocs := s.allocs + 1 } := by
          rw [← hrec]
          simp only [ifind_par_name_loop, if_pos hp, ha, Bool.true_eq_false, if_false]
          rfl
        rw [hstep]
        simp only [ha, ↓reduceIte]
        obtain ⟨h1, h2, h3, h4, h5⟩ := ih
          { data := { s.data with found := 1 }
            out := s.out ++ spec_par_record_lines s.data.flags m name
            allocs := s.allocs + 1 }
        simp only at h1 h2 h3 h4 h5
        refine ⟨?_, ?_, ?_, h4, h5⟩
        · rw [h1]
          by_cases hk : alloc_run name_alloc (s.allocs + 1)
              (rest.filter (fun r => decide (r.1 = s.data.parinode))).length =
              (rest.filter (fun r => decide (r.1 = s.data.parinode))).length
          · rw [if_pos hk, if_pos (by omega)]
          · rw [if_neg hk, if_neg (by omega)]
        · rw [h2, List.take_succ_cons, List.flatMap_cons, List.append_assoc]
        · rw [h3]
          omega
      · have ha2 : name_alloc s.allocs = false := by simpa using ha
        simp only [ifind_par_name_loop, if_pos hp, ha2, Bool.false_eq_true, ↓reduceIte]
        refine ⟨by rw [if_neg (by omega)], by simp, by simp, ?_⟩
        simp
    · have hfilter : ((par_inode, name) :: rest).filter
          (fun r => decide (r.1 = s.data.parinode)) =
          rest.filter (fun r => decide (r.1 = s.data.parinode)) := by
        simp [List.filter_cons, hp]
      rw [hfilter]
      simp only [ifind_par_name_loop, if_neg hp]
      exact ih s

theorem flatMap_take_map {α β γ : Type} (l : List α) (f : α → β) (g : β → List γ) (j : Nat) :
    ((l.map f).take j).flatMap g = (l.take j).flatMap (fun x => g (f x)) := by
  induction l generalizing j with
  | nil => simp
  | cons x xs ih =>
    cases j with
    | zero => simp
    | succ k => simp [List.flatMap_cons, ih]

/-- The metadata walk of the parent-based search, whatever the allocations do: with `j`
the number of matching records, over all entries of the list in order, whose
allocation succeeds in a row, the outputs of the first `j` matching records are
printed; the walk returns 1 when an allocation fails, and otherwise what the driver's
walk returns. -/
theorem par_inode_walk_loop_run (name_alloc : Nat → Bool) (wf : Bool)
    (ms : List TSK_FS_META) (s : ParState) :
    (par_inode_walk_loop (ifind_par_act name_alloc) wf ms s).1 =
      (if alloc_run name_alloc s.allocs (par_matches s.data.parinode ms).length =
          (par_matches s.data.parinode ms).length
        then (if wf then 1 else 0) else 1) ∧
    (par_inode_walk_loop (ifind_par_act name_alloc) wf ms s).2.out =
      s.out ++ ((par_matches s.data.parinode ms).take
        (alloc_run name_alloc s.allocs (par_matches s.data.parinode ms).length)).flatMap
        (fun p => spec_par_record_lines s.data.flags p.1 p.2) := by
  induction ms generalizing s with
  | nil => simp [par_inode_walk_loop, par_matches, alloc_run]
  | cons m rest ih =>
    obtain ⟨h1, h2, h3, h4, h5⟩ := ifind_par_name_loop_run name_alloc m m.name2 s
    have hact : ifind_par_act name_alloc m s =
        ifind_par_name_loop name_alloc m m.name2 s := rfl
    rw [← hact] at h1 h2 h3 h4 h5
    have hM : par_matches s.data.parinode (m :: rest) =
        (m.name2.filter (fun r => decide (r.1 = s.data.parinode))).map (fun r => (m, r.2)) ++
          par_matches s.data.parinode rest := by
      simp [par_matches, List.flatMap_cons]
    obtain ⟨F, hF⟩ : ∃ F, F = m.name2.filter (fun r => decide (r.1 = s.data.parinode)) :=
      ⟨_, rfl⟩
    obtain ⟨R, hR⟩ : ∃ R, R = par_matches s.data.parinode rest := ⟨_, rfl⟩
    rw [← hF] at h1 h2 h3 hM
    rw [← hR] at hM
    have hPlen : (F.map (fun r => (m, r.2))).length = F.length := List.length_map _ _
    have hlen : (par_matches s.data.parinode (m :: rest)).length = F.length + R.length := by
      rw [hM, List.length_append, hPlen]
    have hadd := alloc_run_add name_alloc F.length R.length s.allocs
    have hle := alloc_run_le name_alloc F.length s.allocs
    rw [hlen, hadd]
    rcases hr : ifind_par_act name_alloc m s with ⟨r, s1⟩
    rw [hr] at h1 h2 h3 h4 h5
    simp only at h1 h2 h3 h4 h5
    by_cases hfull : alloc_run name_alloc s.allocs F.length = F.length
    · -- every allocation for this entry succeeds
      rw [if_pos hfull] at h1
      rw [if_pos hfull]
      subst h1
      have hs1 : s1.allocs = s.allocs + F.length := by rw [h3, hfull]; omega
      obtain ⟨i1, i2⟩ := ih s1
      rw [h4, hs1, ← hR] at i1
      rw [h4, h5, hs1, ← hR] at i2
      simp only [par_inode_walk_loop, hr]
      refine ⟨?_, ?_⟩
      · rw [i1]
        by_cases hr2 : alloc_run name_alloc (s.allocs + F.length) R.length = R.length
        · simp [hr2]
        · simp [hr2]
      · rw [i2, h2, hfull, hM, List.take_length, ← hPlen, List.take_append,
          List.flatMap_append, List.append_assoc]
        congr 2
        have := flatMap_take_map F (fun r => (m, r.2))
          (fun p => spec_par_record_lines s.data.flags p.1 p.2) F.length
        rw [List.take_length, ← hPlen, List.take_length] at this
        exact this.symm
    · -- an allocation for this entry fails
      rw [if_neg hfull] at h1
      rw [if_neg hfull]
      subst h1
      simp only [par_inode_walk_loop, hr]
      refine ⟨by rw [if_neg (by omega)], ?_⟩
      rw [h2, hM, List.take_append_of_le_length (by rw [hPlen]; exact hle),
        flatMap_take_map]

theorem par_matches_flatMap (flags par : Nat) (ms : List TSK_FS_META) :
    (par_matches par ms).flatMap (fun p => spec_par_record_lines flags p.1 p.2) =
      ms.flatMap (spec_par_entry_lines flags par) := by
  induction ms with
  | nil => rfl
  | cons m rest ih =>
    have hM : par_matches par (m :: rest) =
        (m.name2.filter (fun r => decide (r.1 = par))).map (fun r => (m, r.2)) ++
          par_matches par rest := by
      simp [par_matches, List.flatMap_cons]
    rw [hM, List.flatMap_append, ih, List.flatMap_cons]
    congr 1
    have := flatMap_take_map (m.name2.filter (fun r => decide (r.1 = par)))
      (fun r => (m, r.2)) (fun p => spec_par_record_lines flags p.1 p.2)
      (m.name2.filter (fun r => decide (r.1 = par))).length
    rw [List.take_length, ← List.length_map (m.name2.filter (fun r => decide (r.1 = par)))
      (fun r => (m, r.2)), List.take_length] at this
    exact this

/-- The parent-based search, whatever the allocations do. -/
theorem tsk_fs_ifind_par_run (name_alloc : Nat → Bool) (fs : TSK_FS_INFO)
    (lclflags par : Nat) :
    (tsk_fs_ifind_par name_alloc fs lclflags par).1 =
      (if alloc_run name_alloc 0 (par_matches par (fs.inodes.filter (fun m =>
            decide (fs.first_inum ≤ m.addr) && decide (m.addr ≤ fs.last_inum) &&
              !m.alloc))).length =
          (par_matches par (fs.inodes.filter (fun m =>
            decide (fs.first_inum ≤ m.addr) && decide (m.addr ≤ fs.last_inum) &&
              !m.alloc))).length
        then (if fs.inode_walk_fails then 1 else 0) else 1) ∧
    (tsk_fs_ifind_par name_alloc fs lclflags par).2.out =
      ((par_matches par (fs.inodes.filter (fun m =>
          decide (fs.first_inum ≤ m.addr) && decide (m.addr ≤ fs.last_inum) &&
            !m.alloc))).take
        (alloc_run name_alloc 0 (par_matches par (fs.inodes.filter (fun m =>
          decide (fs.first_inum ≤ m.addr) && decide (m.addr ≤ fs.last_inum) &&
            !m.alloc))).length)).flatMap
        (fun p => spec_par_record_lines lclflags p.1 p.2) := by
  have hfilter : fs.inodes.filter (fun m =>
      decide (fs.first_inum ≤ m.addr) && decide (m.addr ≤ fs.last_inum) &&
        ((m.alloc && false) || (!m.alloc && true))) =
      fs.inodes.filter (fun m =>
        decide (fs.first_inum ≤ m.addr) && decide (m.addr ≤ fs.last_inum) && !m.alloc) := by
    apply List.filter_congr
    intro m _
    cases m.alloc <;> simp
  have hwalk := par_inode_walk_loop_run name_alloc fs.inode_walk_fails
    (fs.inodes.filter (fun m =>
      decide (fs.first_inum ≤ m.addr) && decide (m.addr ≤ fs.last_inum) && !m.alloc))
    { data := { parinode := par, flags := lclflags, found := 0 }, out := [], allocs := 0 }
  unfold tsk_fs_ifind_par par_inode_walk
  simp only
  rw [hfilter]
  rcases hr : par_inode_walk_loop (ifind_par_act name_alloc) fs.inode_walk_fails _ _ with ⟨r, s1⟩
  rw [hr] at hwalk
  obtain ⟨h1, h2⟩ := hwalk
  simp only [List.nil_append] at h1 h2
  subst h1
  refine ⟨?_, ?_⟩
  · split_ifs <;> rfl
  · split_ifs <;> exact h2

set_option maxRecDepth 100000 in
/-- C19 (counterexample). In the example NTFS file system the recorded name of entry
33 is 300 bytes long and the output for parent 14 carries only its first 256 bytes; and
when `tsk_fs_name_alloc` fails the callback returns `error` on the first matching name
record, and the search for parent 12 returns 1 without output. -/
theorem ifind_par_name_cut_and_alloc_error :
    (tsk_fs_ifind_par (fun _ => true) orphan_ntfs_fs 0 14).2.out =
      [{ long_format := false
         fs_name := { name := List.replicate 256 'n', shrt_name := [], meta_addr := 33
                      type := TSK_FS_NAME_TYPE_ENUM.TSK_FS_NAME_TYPE_UNDEF
                      flags := TSK_FS_NAME_FLAG_ENUM.TSK_FS_NAME_FLAG_UNALLOC }
         attr := none }] ∧
    List.replicate 256 'n' ≠ List.replicate 300 'n' ∧
    (∃ m ∈ orphan_ntfs_fs.inodes, m.addr = 33 ∧ m.name2 = [(14, List.replicate 300 'n')]) ∧
    (∃ m ∈ orphan_ntfs_fs.inodes, m.addr = 32 ∧ m.alloc = false ∧
      m.name2 = [(12, "gone.txt".toList)] ∧
      (ifind_par_act (fun _ => false) m
        { data := { parinode := 12, flags := 0, found := 0 }, out := [], allocs := 0 }).1 =
        TSK_WALK_RET_ENUM.TSK_WALK_ERROR) ∧
    (tsk_fs_ifind_par (fun _ => false) orphan_ntfs_fs 0 12).1 = 1 ∧
    (tsk_fs_ifind_par (fun _ => false) orphan_ntfs_fs 0 12).2.out = [] := by
  refine ⟨by decide, by decide, ⟨_, List.mem_cons_of_mem _ (List.mem_cons_of_mem _
    (List.mem_cons_of_mem _ (List.mem_cons_self _ _))), rfl, rfl⟩,
    ⟨_, List.mem_cons_of_mem _ (List.mem_cons_of_mem _ (List.mem_cons_self _ _)),
      rfl, rfl, rfl, by decide⟩, by decide, by decide⟩

/-- C19 (as amended). Whatever the calls of `tsk_fs_name_alloc` do. With `M` the
parent-name records of the entry whose parent address is the one looked for, in list
order, and `j = alloc_run ..` the number of leading calls of `tsk_fs_name_alloc` that
succeed (at most `|M|`; equal to `|M|` exactly when all of them succeed; otherwise call
number `j` is the first that fails): the callback prints the outputs of the first `j`
records of `M`, makes `min (|M|, j + 1)` allocations, and returns `continue` when
`j = |M|` and `error` otherwise. The outputs of one record are `max (1, k)` in number,
`k` being the number of the entry's `$DATA` and `$IDXROOT` attributes that can be
fetched, each carrying the address of the entry, the first 256 bytes of the recorded
name (the whole name when it is no longer) and the unallocated flag. An entry without a
record of that parent prints nothing, allocates nothing and returns `continue`. The
search walks the unallocated entries in `[first_inum, last_inum]` only; over their
matching records in walk order (`par_matches`) it prints the outputs of those before
the first failing allocation, and returns 1 when an allocation fails, and otherwise
exactly when the metadata walk fails. When every allocation succeeds the callback always
returns `continue` and all outputs of all walked entries are printed. -/
theorem ifind_par_outputs (name_alloc : Nat → Bool) (fs : TSK_FS_INFO) (lclflags par : Nat) :
    (∀ m s,
      (ifind_par_act name_alloc m s).1 =
        (if alloc_run name_alloc s.allocs
            (m.name2.filter (fun r => decide (r.1 = s.data.parinode))).length =
            (m.name2.filter (fun r => decide (r.1 = s.data.parinode))).length
          then TSK_WALK_RET_ENUM.TSK_WALK_CONT else TSK_WALK_RET_ENUM.TSK_WALK_ERROR) ∧
      (ifind_par_act name_alloc m s).2.out =
        s.out ++ ((m.name2.filter (fun r => decide (r.1 = s.data.parinode))).take
          (alloc_run name_alloc s.allocs
            (m.name2.filter (fun r => decide (r.1 = s.data.parinode))).length)).flatMap
          (fun r => spec_par_record_lines s.data.flags m r.2) ∧
      (ifind_par_act name_alloc m s).2.allocs =
        s.allocs + min (m.name2.filter (fun r => decide (r.1 = s.data.parinode))).length
          (alloc_run name_alloc s.allocs
            (m.name2.filter (fun r => decide (r.1 = s.data.parinode))).length + 1)) ∧
    (∀ start n,
      alloc_run name_alloc start n ≤ n ∧
      (alloc_run name_alloc start n = n ↔ ∀ i, i < n → name_alloc (start + i) = true) ∧
      (alloc_run name_alloc start n < n →
        name_alloc (start + alloc_run name_alloc start n) = false ∧
        ∀ i, i < alloc_run name_alloc start n → name_alloc (start + i) = true)) ∧
    (∀ flags m name,
      (spec_par_record_lines flags m name).length = max 1 (par_attrs m).length ∧
      ∀ l ∈ spec_par_record_lines flags m name,
        l.fs_name.meta_addr = m.addr ∧ l.fs_name.name = name.take 256 ∧
        (name.length ≤ 256 → l.fs_name.name = name) ∧
        l.fs_name.flags = TSK_FS_NAME_FLAG_ENUM.TSK_FS_NAME_FLAG_UNALLOC ∧
        l.long_format = decide (flags &&& TSK_FS_IFIND_PAR_LONG ≠ 0) ∧
        (l.attr = none ∨ ∃ a ∈ par_attrs m, l.attr = some (a.type, a.id))) ∧
    (∀ m s, (∀ r ∈ m.name2, r.1 ≠ s.data.parinode) →
      (ifind_par_act name_alloc m s).1 = TSK_WALK_RET_ENUM.TSK_WALK_CONT ∧
      (ifind_par_act name_alloc m s).2.out = s.out ∧
      (ifind_par_act name_alloc m s).2.allocs = s.allocs) ∧
    (∀ m s, (∃ r ∈ m.name2, r.1 = s.data.parinode) → name_alloc s.allocs = false →
      (ifind_par_act name_alloc m s).1 = TSK_WALK_RET_ENUM.TSK_WALK_ERROR ∧
      (ifind_par_act name_alloc m s).2.out = s.out) ∧
    (tsk_fs_ifind_par name_alloc fs lclflags par).1 =
      (if alloc_run name_alloc 0 (par_matches par (fs.inodes.filter (fun m =>
            decide (fs.first_inum ≤ m.addr) && decide (m.addr ≤ fs.last_inum) &&
              !m.alloc))).length =
          (par_matches par (fs.inodes.filter (fun m =>
            decide (fs.first_inum ≤ m.addr) && decide (m.addr ≤ fs.last_inum) &&
              !m.alloc))).length
        then (if fs.inode_walk_fails then 1 else 0) else 1) ∧
    (tsk_fs_ifind_par name_alloc fs lclflags par).2.out =
      ((par_matches par (fs.inodes.filter (fun m =>
          decide (fs.first_inum ≤ m.addr) && decide (m.addr ≤ fs.last_inum) &&
            !m.alloc))).take
        (alloc_run name_alloc 0 (par_matches par (fs.inodes.filter (fun m =>
          decide (fs.first_inum ≤ m.addr) && decide (m.addr ≤ fs.last_inum) &&
            !m.alloc))).length)).flatMap
        (fun p => spec_par_record_lines lclflags p.1 p.2) ∧
    ((∀ n, name_alloc n = true) →
      (∀ m s, (ifind_par_act name_alloc m s).1 = TSK_WALK_RET_ENUM.TSK_WALK_CONT ∧
        (ifind_par_act name_alloc m s).2.out =
          s.out ++ (m.name2.filter (fun r => decide (r.1 = s.data.parinode))).flatMap
            (fun r => spec_par_record_lines s.data.flags m r.2)) ∧
      (tsk_fs_ifind_par name_alloc fs lclflags par).1 =
        (if fs.inode_walk_fails then 1 else 0) ∧
      (tsk_fs_ifind_par name_alloc fs lclflags par).2.out =
        (fs.inodes.filter (fun m =>
          decide (fs.first_inum ≤ m.addr) && decide (m.addr ≤ fs.last_inum) &&
            !m.alloc)).flatMap (spec_par_entry_lines lclflags par)) := by
  have hact : ∀ m s, ifind_par_act name_alloc m s =
      ifind_par_name_loop name_alloc m m.name2 s := fun _ _ => rfl
  refine ⟨?_, ?_, ?_, ?_, ?_, (tsk_fs_ifind_par_run name_alloc fs lclflags par).1,
    (tsk_fs_ifind_par_run name_alloc fs lclflags par).2, ?_⟩
  · intro m s
    obtain ⟨h1, h2, h3, _, _⟩ := ifind_par_name_loop_run name_alloc m m.name2 s
    exact ⟨h1, h2, h3⟩
  · intro start n
    exact ⟨alloc_run_le name_alloc n start, alloc_run_eq_iff name_alloc n start,
      alloc_run_lt name_alloc n start⟩
  · intro flags m name
    refine ⟨spec_par_record_lines_length flags m name, ?_⟩
    intro l hl
    unfold spec_par_record_lines at hl
    split at hl
    · rw [List.mem_singleton] at hl
      subst hl
      exact ⟨rfl, rfl, fun h => List.take_of_length_le h, rfl, rfl, Or.inl rfl⟩
    · obtain ⟨a, ha, rfl⟩ := List.mem_map.1 hl
      exact ⟨rfl, rfl, fun h => List.take_of_length_le h, rfl, rfl, Or.inr ⟨a, ha, rfl⟩⟩
  · intro m s hno
    have hnil : m.name2.filter (fun r => decide (r.1 = s.data.parinode)) = [] := by
      rw [List.filter_eq_nil_iff]
      intro r hr
      simpa using hno r hr
    obtain ⟨h1, h2, h3, _, _⟩ := ifind_par_name_loop_run name_alloc m m.name2 s
    rw [hnil] at h1 h2 h3
    rw [hact]
    refine ⟨?_, ?_, ?_⟩
    · rw [h1]; simp [alloc_run]
    · rw [h2]; simp
    · rw [h3]; simp
  · intro m s hex hfail
    obtain ⟨r, hr, hrp⟩ := hex
    have hmem : r ∈ m.name2.filter (fun r => decide (r.1 = s.data.parinode)) :=
      List.mem_filter.2 ⟨hr, by simpa using hrp⟩
    obtain ⟨h1, h2, _, _, _⟩ := ifind_par_name_loop_run name_alloc m m.name2 s
    rw [hact]
    cases hM : m.name2.filter (fun r => decide (r.1 = s.data.parinode)) with
    | nil => rw [hM] at hmem; cases hmem
    | cons x xs =>
      rw [hM] at h1 h2
      have h0 : alloc_run name_alloc s.allocs (x :: xs).length = 0 := by
        simp [alloc_run, hfail]
      rw [h0] at h1 h2
      refine ⟨?_, ?_⟩
      · rw [h1]; simp
      · rw [h2]; simp
  · intro halloc
    have hfull : ∀ start n, alloc_run name_alloc start n = n := fun start n =>
      (alloc_run_eq_iff name_alloc n start).2 (fun i _ => halloc _)
    refine ⟨?_, ?_, ?_⟩
    · intro m s
      obtain ⟨h1, h2, _, _, _⟩ := ifind_par_name_loop_run name_alloc m m.name2 s
      rw [hfull] at h1 h2
      rw [hact]
      exact ⟨by rw [h1, if_pos rfl], by rw [h2, List.take_length]⟩
    · rw [(tsk_fs_ifind_par_run name_alloc fs lclflags par).1, hfull, if_pos rfl]
    · rw [(tsk_fs_ifind_par_run name_alloc fs lclflags par).2, hfull, List.take_length,
        par_matches_flatMap]

set_option maxRecDepth 100000 in
/-- An instance of C19: in the example NTFS file system, with the third call of
`tsk_fs_name_alloc` failing, the search for parent 12 skips the allocated entry 30,
prints two outputs (the `$DATA` and the `$IDXROOT` attribute) for each of the two names
of entry 31 under parent 12, none for its name under parent 13, and returns 1 without an
output for entry 32, whose allocation fails; with every call succeeding it prints the
output of entry 32 as well and returns 0. -/
theorem ifind_par_outputs_witness :
    (tsk_fs_ifind_par (fun n => n != 2) orphan_ntfs_fs 0 12).1 = 1 ∧
    ((tsk_fs_ifind_par (fun n => n != 2) orphan_ntfs_fs 0 12).2.out.map
      (fun l => (l.fs_name.meta_addr, l.fs_name.name, l.attr))) =
      [(31, "old".toList, some (128, 3)), (31, "old".toList, some (144, 4)),
       (31, "OLD~1".toList, some (128, 3)), (31, "OLD~1".toList, some (144, 4))] ∧
    (∀ n, (fun _ : Nat => true) n = true) ∧
    (tsk_fs_ifind_par (fun _ => true) orphan_ntfs_fs 0 12).1 = 0 ∧
    ((tsk_fs_ifind_par (fun _ => true) orphan_ntfs_fs 0 12).2.out.map
      (fun l => (l.fs_name.meta_addr, l.fs_name.name, l.attr))) =
      [(31, "old".toList, some (128, 3)), (31, "old".toList, some (144, 4)),
       (31, "OLD~1".toList, some (128, 3)), (31, "OLD~1".toList, some (144, 4)),
       (32, "gone.txt".toList, none)] :=
  ⟨(ifind_par_outputs (fun n => n != 2) orphan_ntfs_fs 0 12).2.2.2.2.2.1.trans (by decide),
    (congrArg (List.map (fun l : ParLine => (l.fs_name.meta_addr, l.fs_name.name, l.attr)))
      (ifind_par_outputs (fun n => n != 2) orphan_ntfs_fs 0 12).2.2.2.2.2.2.1).trans
      (by decide),
    fun _ => rfl,
    ((ifind_par_outputs (fun _ => true) orphan_ntfs_fs 0 12).2.2.2.2.2.2.2
      (fun _ => rfl)).2.1,
    (congrArg (List.map (fun l : ParLine => (l.fs_name.meta_addr, l.fs_name.name, l.attr)))
      ((ifind_par_outputs (fun _ => true) orphan_ntfs_fs 0 12).2.2.2.2.2.2.2
        (fun _ => rfl)).2.2).trans (by decide)⟩

/-! ## ISO9660 directory parser: the return value `corrupted` -/

/-- An iteration of the scan returns `corrupted` exactly on a record of non-zero length
whose search in the master list misses; the container is then as before the record. -/
theorem proc_step_cor (iso : ISO_INFO) (maxnamlen : Nat) (buf : List Nat) (s : ProcState)
    (ns : List TSK_FS_NAME) :
    proc_step iso maxnamlen buf s = Sum.inl (ProcResult.ret TSK_RETVAL_ENUM.TSK_COR ns) ↔
      ∃ entry_len, buf.get? s.pos = some entry_len ∧ entry_len ≠ 0 ∧
        lookup_record iso buf s.pos = some none ∧ ns = s.names := by
  unfold proc_step
  cases hget : buf.get? s.pos with
  | none => simp
  | some entry_len =>
    by_cases hz : entry_len = 0
    · subst hz
      simp only [ne_eq, not_true_eq_false, if_false, Option.some.injEq, exists_eq_left',
        false_and, iff_false]
      cases zero_scan buf s.pos DENTRY_SIZE with
      | none => simp
      | some a => simp only; split_ifs <;> simp
    · simp only [ne_eq, hz, not_false_eq_true, if_true, Option.some.injEq, exists_eq_left',
        true_and]
      cases hl : lookup_record iso buf s.pos with
      | none => simp
      | some found =>
        cases found with
        | none =>
          simp only [Sum.inl.injEq, ProcResult.ret.injEq, true_and]
          exact ⟨fun h => h.symm, fun h => h.symm⟩
        | some node =>
          simp only
          cases buf.get? (s.pos + FLAGS_OFF) with
          | none => simp
          | some flags => simp

/-- An iteration of the scan that does not return keeps the entries of the container. -/
theorem proc_step_names (iso : ISO_INFO) (maxnamlen : Nat) (buf : List Nat)
    (s s1 : ProcState) (h : proc_step iso maxnamlen buf s = Sum.inr s1) :
    ∃ extra, s1.names = s.names ++ extra := by
  unfold proc_step at h
  cases hget : buf.get? s.pos with
  | none => rw [hget] at h; simp at h
  | some entry_len =>
    rw [hget] at h
    simp only at h
    by_cases hz : entry_len = 0
    · subst hz
      simp only [ne_eq, not_true_eq_false, if_false] at h
      cases hs : zero_scan buf s.pos DENTRY_SIZE with
      | none => rw [hs] at h; simp at h
      | some a =>
        rw [hs] at h
        simp only at h
        split_ifs at h <;>
        · have := Sum.inr.inj h
          subst this
          exact ⟨[], by simp⟩
    · simp only [ne_eq, hz, not_false_eq_true, if_true] at h
      cases hl : lookup_record iso buf s.pos with
      | none => rw [hl] at h; simp at h
      | some found =>
        rw [hl] at h
        cases found with
        | none => simp at h
        | some node =>
          simp only at h
          cases hf : buf.get? (s.pos + FLAGS_OFF) with
          | none => rw [hf] at h; simp at h
          | some flags =>
            rw [hf] at h
            simp only at h
            have := Sum.inr.inj h
            subst this
            exact ⟨_, rfl⟩

/-- Whole iterations of the scan keep the entries of the container. -/
theorem proc_run_names (iso : ISO_INFO) (maxnamlen : Nat) (buf : List Nat) (n : Nat)
    (s0 s : ProcState) (h : proc_run iso maxnamlen buf n s0 = some s) :
    ∃ extra, s.names = s0.names ++ extra := by
  induction n generalizing s0 with
  | zero =>
    simp only [proc_run, Option.some.injEq] at h
    subst h
    exact ⟨[], by simp⟩
  | succ k ih =>
    unfold proc_run at h
    split_ifs at h with hgt
    cases hstep : proc_step iso maxnamlen buf s0 with
    | inl r => rw [hstep] at h; simp at h
    | inr s1 =>
      rw [hstep] at h
      simp only at h
      obtain ⟨e1, he1⟩ := proc_step_names iso maxnamlen buf s0 s1 hstep
      obtain ⟨e2, he2⟩ := ih s1 h
      exact ⟨e1 ++ e2, by rw [he2, he1, List.append_assoc]⟩

/-- The loop returns `corrupted` only from an iteration on a record of non-zero length
whose search in the master list misses. -/
theorem proc_loop_cor (iso : ISO_INFO) (maxnamlen : Nat) (buf : List Nat) (fuel : Nat)
    (s0 : ProcState) (ns : List TSK_FS_NAME)
    (h : proc_loop iso maxnamlen buf fuel s0 =
      some (ProcResult.ret TSK_RETVAL_ENUM.TSK_COR ns)) :
    ∃ n s entry_len, proc_run iso maxnamlen buf n s0 = some s ∧ s.length > DENTRY_SIZE ∧
      buf.get? s.pos = some entry_len ∧ entry_len ≠ 0 ∧
      lookup_record iso buf s.pos = some none ∧ ns = s.names := by
  induction fuel generalizing s0 with
  | zero => simp [proc_loop] at h
  | succ k ih =>
    unfold proc_loop at h
    split_ifs at h with hgt
    · cases hstep : proc_step iso maxnamlen buf s0 with
      | inl r =>
        rw [hstep] at h
        simp only [Option.some.injEq] at h
        subst h
        obtain ⟨len, h1, h2, h3, h4⟩ := (proc_step_cor iso maxnamlen buf s0 ns).1 hstep
        exact ⟨0, s0, len, rfl, hgt, h1, h2, h3, h4⟩
      | inr s1 =>
        rw [hstep] at h
        simp only at h
        obtain ⟨n, s, len, h0, h1, h2, h3, h4, h5⟩ := ih s1 h
        refine ⟨n + 1, s, len, ?_, h1, h2, h3, h4, h5⟩
        rw [proc_run, if_pos hgt, hstep]
        exact h0
    · simp at h

/-- A result of the loop from the state after `n` whole iterations is the result of the
loop from the start, with `n` more iterations allowed. -/
theorem proc_loop_of_run (iso : ISO_INFO) (maxnamlen : Nat) (buf : List Nat) (n : Nat)
    (s0 s : ProcState) (fuel : Nat) (r : ProcResult)
    (hrun : proc_run iso maxnamlen buf n s0 = some s)
    (hloop : proc_loop iso maxnamlen buf fuel s = some r) :
    proc_loop iso maxnamlen buf (n + fuel) s0 = some r := by
  induction n generalizing s0 with
  | zero =>
    simp only [proc_run, Option.some.injEq] at hrun
    subst hrun
    rw [Nat.zero_add]
    exact hloop
  | succ k ih =>
    unfold proc_run at hrun
    split_ifs at hrun with hgt
    cases hstep : proc_step iso maxnamlen buf s0 with
    | inl r1 => rw [hstep] at hrun; simp at hrun
    | inr s1 =>
      rw [hstep] at hrun
      simp only at hrun
      rw [show k + 1 + fuel = (k + fuel) + 1 by omega, proc_loop, if_pos hgt, hstep]
      exact ih s1 hrun

/-- The entries `.` and `..` never end in a return: either a byte outside the buffer is
read, or the scan starts, with `.` in the container. -/
theorem proc_dots_cases (iso : ISO_INFO) (buf : List Nat) (length a_addr : Nat)
    (names : List TSK_FS_NAME) :
    (∃ ns, proc_dots iso buf length a_addr names = Sum.inl (ProcResult.out_of_bounds ns)) ∨
    (∃ s0 extra, proc_dots iso buf length a_addr names = Sum.inr s0 ∧
      s0.names = names ++ dot_entry a_addr :: extra) := by
  unfold proc_dots
  simp only
  cases buf.get? 0 with
  | none => exact Or.inl ⟨_, rfl⟩
  | some len0 =>
    simp only
    cases lookup_record iso buf len0 with
    | none => exact Or.inl ⟨_, rfl⟩
    | some found =>
      simp only
      cases buf.get? len0 with
      | none => exact Or.inl ⟨_, rfl⟩
      | some len1 =>
        refine Or.inr ⟨_, ?_, rfl, ?_⟩
        · exact match found with
            | some node => [dotdot_entry node.inum]
            | none => []
        · cases found with
          | none => simp [tsk_fs_dir_add, dot_entry]
          | some node => simp [tsk_fs_dir_add, dot_entry, dotdot_entry]

/-- The search of the master list misses exactly when no node of the list has the
extent location of the record (the location is not read when the list is empty). -/
theorem find_inode_none_iff (big : Bool) (ext : Nat) (l : List iso9660_inode_node) :
    find_inode big ext l = none ↔ ∀ node ∈ l, tsk_getu32 big node.ext_loc_m ≠ ext := by
  induction l with
  | nil => simp [find_inode]
  | cons n rest ih =>
    by_cases h : tsk_getu32 big n.ext_loc_m = ext
    · simp [find_inode, h]
    · simp [find_inode, h, ih]

/-- C20. The parser `iso9660_proc_dir` returns `corrupted` with the container `ns` (for
some bound on the iterations that lets the loop end) if and only if the name structure
was allocated, the entries `.` and `..` were read, and after some number of whole
iterations of the scan the loop is at a record of non-zero length whose search in the
master list misses, `ns` being the container then. Such a miss means that no node of
the master list has the extent location of the record. The container then holds what
it held before the call, the entry `.` and whatever was added before the record. The
part that handles `.` and `..` never returns `corrupted`: a miss on `..` leaves `..`
out and goes on. -/
theorem iso9660_proc_dir_cor_iff (iso : ISO_INFO) (maxnamlen : Nat) (alloc_ok : Bool)
    (names : List TSK_FS_NAME) (buf : List Nat) (length a_addr : Nat)
    (ns : List TSK_FS_NAME) :
    ((∃ fuel, iso9660_proc_dir iso maxnamlen alloc_ok names buf length a_addr fuel =
        some (ProcResult.ret TSK_RETVAL_ENUM.TSK_COR ns)) ↔
      (alloc_ok = true ∧
        ∃ s0 n s entry_len,
          proc_dots iso buf length a_addr names = Sum.inr s0 ∧
          proc_run iso maxnamlen buf n s0 = some s ∧ s.length > DENTRY_SIZE ∧
          buf.get? s.pos = some entry_len ∧ entry_len ≠ 0 ∧
          lookup_record iso buf s.pos = some none ∧ ns = s.names)) ∧
    (∀ pos, lookup_record iso buf pos = some none ↔
      (iso.in_list = [] ∨
        ∃ ext, read4 buf (pos + EXT_LOC_M_OFF) = some ext ∧
          ∀ node ∈ iso.in_list,
            tsk_getu32 iso.big_endian node.ext_loc_m ≠ tsk_getu32 iso.big_endian ext)) ∧
    ((∃ fuel, iso9660_proc_dir iso maxnamlen alloc_ok names buf length a_addr fuel =
        some (ProcResult.ret TSK_RETVAL_ENUM.TSK_COR ns)) →
      ∃ extra, ns = names ++ dot_entry a_addr :: extra) ∧
    (∀ r ns1, proc_dots iso buf length a_addr names = Sum.inl r →
      r ≠ ProcResult.ret TSK_RETVAL_ENUM.TSK_COR ns1) := by
  have hdots := proc_dots_cases iso buf length a_addr names
  have hfwd : (∃ fuel, iso9660_proc_dir iso maxnamlen alloc_ok names buf length a_addr fuel =
        some (ProcResult.ret TSK_RETVAL_ENUM.TSK_COR ns)) →
      (alloc_ok = true ∧
        ∃ s0 n s entry_len,
          proc_dots iso buf length a_addr names = Sum.inr s0 ∧
          proc_run iso maxnamlen buf n s0 = some s ∧ s.length > DENTRY_SIZE ∧
          buf.get? s.pos = some entry_len ∧ entry_len ≠ 0 ∧
          lookup_record iso buf s.pos = some none ∧ ns = s.names) := by
    rintro ⟨fuel, h⟩
    unfold iso9660_proc_dir at h
    cases alloc_ok with
    | false => simp at h
    | true =>
      simp only [Bool.not_true, Bool.false_eq_true, if_false] at h
      rcases hdots with ⟨ns1, hd⟩ | ⟨s0, extra, hd, -⟩
      · rw [hd] at h
        simp at h
      · rw [hd] at h
        simp only at h
        obtain ⟨n, s, len, h0, h1, h2, h3, h4, h5⟩ := proc_loop_cor iso maxnamlen buf fuel s0 ns h
        exact ⟨rfl, s0, n, s, len, hd, h0, h1, h2, h3, h4, h5⟩
  refine ⟨⟨hfwd, ?_⟩, ?_, ?_, ?_⟩
  · rintro ⟨ha, s0, n, s, len, hd, hrun, hgt, hget, hne, hlook, hns⟩
    refine ⟨n + 1, ?_⟩
    subst ha
    unfold iso9660_proc_dir
    simp only [Bool.not_true, Bool.false_eq_true, if_false, hd]
    apply proc_loop_of_run iso maxnamlen buf n s0 s 1 _ hrun
    rw [proc_loop, if_pos hgt, (proc_step_cor iso maxnamlen buf s ns).2 ⟨len, hget, hne, hlook, hns⟩]
  · intro pos
    unfold lookup_record
    cases hl : iso.in_list with
    | nil => simp
    | cons n rest =>
      simp only [List.cons_ne_nil, false_or]
      cases read4 buf (pos + EXT_LOC_M_OFF) with
      | none => simp
      | some ext =>
        simp only [Option.some.injEq, exists_eq_left']
        exact find_inode_none_iff iso.big_endian _ (n :: rest)
  · intro h
    obtain ⟨-, s0, n, s, len, hd, hrun, -, -, -, -, hns⟩ := hfwd h
    rcases hdots with ⟨ns1, hd1⟩ | ⟨s1, extra, hd1, hnames⟩
    · rw [hd1] at hd
      simp at hd
    · rw [hd1] at hd
      have := Sum.inr.inj hd
      subst this
      obtain ⟨e2, he2⟩ := proc_run_names iso maxnamlen buf n s1 s hrun
      exact ⟨extra ++ e2, by rw [hns, he2, hnames]; simp⟩
  · intro r ns1 hr
    rcases hdots with ⟨ns2, hd⟩ | ⟨s0, extra, hd, -⟩
    · rw [hd] at hr
      have := Sum.inl.inj hr
      subst this
      simp
    · rw [hd] at hr
      simp at hr

/-- An instance of C20: in the example extent the `..` record misses the master list
and is left out; the record behind `README;1` misses the master list too, and the
parser returns `corrupted` with `.` and `README;1` in the container. -/
theorem iso9660_proc_dir_cor_iff_witness :
    iso9660_proc_dir hole_iso 256 true [] stray_dir_buf 258 3 5 =
      some (ProcResult.ret TSK_RETVAL_ENUM.TSK_COR [dot_entry 3, readme_entry]) ∧
    ∃ s0 n s entry_len,
      proc_dots hole_iso stray_dir_buf 258 3 [] = Sum.inr s0 ∧
      proc_run hole_iso 256 stray_dir_buf n s0 = some s ∧ s.length > DENTRY_SIZE ∧
      stray_dir_buf.get? s.pos = some entry_len ∧ entry_len ≠ 0 ∧
      lookup_record hole_iso stray_dir_buf s.pos = some none ∧
      [dot_entry 3, readme_entry] = s.names :=
  ⟨by decide,
    ((iso9660_proc_dir_cor_iff hole_iso 256 true [] stray_dir_buf 258 3
      [dot_entry 3, readme_entry]).1.1 ⟨5, by decide⟩).2⟩

/-! ## Volume-system dispatcher: which detections give a handle -/

/-- A string that starts with a non-empty string is not empty. -/
theorem append_ne_empty (a b : String) (h : 0 < a.length) : a ++ b ≠ "" := by
  intro e
  have h1 := congrArg String.length e
  rw [String.length_append] at h1
  have h0 : "".length = 0 := rfl
  omega

/-- C25. In autodetect mode, with the outcomes of the five openers given, `tsk_vs_open`
returns a handle if and only if an opener succeeds in exactly one of the four groups
DOS or BSD, GPT, Sun, Mac; the handle is that of BSD when BSD succeeded, otherwise that
of the only opener that succeeded. In every other case it returns no handle, the error
code is unknown-type, and the description is empty exactly when no opener succeeded. -/
theorem tsk_vs_open_detect_groups {I H : Type} (o : VsOpeners I H) (img : I)
    (offset : Nat) (st : VsState H) (rD rB rG rS rM : Option H)
    (hdos : ∀ e, (o.tsk_vs_dos_open img offset 1 e).1 = rD)
    (hbsd : ∀ e, (o.tsk_vs_bsd_open img offset e).1 = rB)
    (hgpt : ∀ e, (o.tsk_vs_gpt_open img offset e).1 = rG)
    (hsun : ∀ e, (o.tsk_vs_sun_open img offset e).1 = rS)
    (hmac : ∀ e, (o.tsk_vs_mac_open img offset e).1 = rM) :
    ((tsk_vs_open o img offset TSK_VS_TYPE_ENUM.TSK_VS_TYPE_DETECT st).1 ≠ none ↔
      succeeding_groups rD rB rG rS rM = 1) ∧
    ((tsk_vs_open o img offset TSK_VS_TYPE_ENUM.TSK_VS_TYPE_DETECT st).1 ≠ none →
      (rB ≠ none →
        (tsk_vs_open o img offset TSK_VS_TYPE_ENUM.TSK_VS_TYPE_DETECT st).1 = rB) ∧
      (rB = none → ∀ r ∈ [rD, rG, rS, rM], r ≠ none →
        (tsk_vs_open o img offset TSK_VS_TYPE_ENUM.TSK_VS_TYPE_DETECT st).1 = r)) ∧
    ((tsk_vs_open o img offset TSK_VS_TYPE_ENUM.TSK_VS_TYPE_DETECT st).1 = none →
      (tsk_vs_open o img offset TSK_VS_TYPE_ENUM.TSK_VS_TYPE_DETECT st).2.err.tsk_errno =
        TSK_ERR_ENUM.VS_UNKTYPE ∧
      ((tsk_vs_open o img offset TSK_VS_TYPE_ENUM.TSK_VS_TYPE_DETECT st).2.err.tsk_errstr =
          "" ↔
        rD = none ∧ rB = none ∧ rG = none ∧ rS = none ∧ rM = none)) := by
  cases rD <;> cases rB <;> cases rG <;> cases rS <;> cases rM <;>
    simp [tsk_vs_open, tsk_vs_open_detect, detect_dos, detect_bsd, detect_exclusive,
      tsk_error_reset, succeeding_groups, hdos, hbsd, hgpt, hsun, hmac] <;>
    exact append_ne_empty _ _ (by decide)

/-- An instance of C25: an image on which only the DOS opener succeeds gives a handle,
that of DOS; an image on which the DOS and the GPT opener succeed (two groups) gives no
handle and the error code unknown-type. -/
theorem tsk_vs_open_detect_groups_witness :
    succeeding_groups (some "dos") none none none none = 1 ∧
    (tsk_vs_open dos_only_openers () 0 TSK_VS_TYPE_ENUM.TSK_VS_TYPE_DETECT
      { err := no_error, closed := [] }).1 = some "dos" ∧
    (tsk_vs_open dos_gpt_openers () 0 TSK_VS_TYPE_ENUM.TSK_VS_TYPE_DETECT
      { err := no_error, closed := [] }).1 = none ∧
    (tsk_vs_open dos_gpt_openers () 0 TSK_VS_TYPE_ENUM.TSK_VS_TYPE_DETECT
      { err := no_error, closed := [] }).2.err.tsk_errno = TSK_ERR_ENUM.VS_UNKTYPE :=
  have h1 := tsk_vs_open_detect_groups dos_only_openers () 0
    { err := no_error, closed := [] } (some "dos") none none none none
    (fun _ => rfl) (fun _ => rfl) (fun _ => rfl) (fun _ => rfl) (fun _ => rfl)
  have h2 := tsk_vs_open_detect_groups dos_gpt_openers () 0
    { err := no_error, closed := [] } (some "dos") none (some "gpt") none none
    (fun _ => rfl) (fun _ => rfl) (fun _ => rfl) (fun _ => rfl) (fun _ => rfl)
  ⟨rfl, (h1.2.1 (h1.1.2 rfl)).2 rfl (some "dos") (by simp) (by simp), rfl, (h2.2.2 rfl).1⟩

/-! ## Path resolver: resources and termination -/

theorem open_dirs_append (a b : List Event) : open_dirs (a ++ b) = open_dirs a + open_dirs b := by
  induction a with
  | nil => simp [open_dirs]
  | cons x xs ih => cases x <;> simp [open_dirs, ih] <;> omega

theorem open_files_append (a b : List Event) :
    open_files (a ++ b) = open_files a + open_files b := by
  induction a with
  | nil => simp [open_files]
  | cons x xs ih => cases x <;> simp [open_files, ih] <;> omega

/-- The loop over the entries of a directory opens and closes no directory; it closes
every entry it fetched unless it returns with the entry at hand: a return other than
the one for an entry that cannot be fetched (-1) leaves that entry open. -/
theorem dir_scan_balance (ft : TSK_FS_TYPE_ENUM) (d : Nat) (cur_dir : CStr)
    (cur_attr next_tok : Option CStr) (nm : Option TSK_FS_NAME)
    (es : List (Option TSK_FS_FILE)) (i : Nat) (ev : List Event) :
    match dir_scan ft d cur_dir cur_attr next_tok nm es i ev with
    | DirScan.ret r _ _ e =>
      open_dirs e = open_dirs ev ∧
        ((r = -1 ∧ open_files e = open_files ev) ∨
          ((r = 0 ∨ r = 1) ∧ open_files e = open_files ev + 1))
    | DirScan.descend _ e => open_dirs e = open_dirs ev ∧ open_files e = open_files ev
    | DirScan.exhausted e => open_dirs e = open_dirs ev ∧ open_files e = open_files ev := by
  induction es generalizing i ev with
  | nil => exact ⟨rfl, rfl⟩
  | cons x xs ih =>
    cases x with
    | none => exact ⟨rfl, Or.inl ⟨rfl, rfl⟩⟩
    | some f =>
      simp only [dir_scan]
      cases check_name ft f cur_dir cur_attr with
      | attr_missing =>
        simp only
        exact ⟨by simp [open_dirs_append, open_dirs],
          Or.inr ⟨by simp, by simp [open_files_append, open_files]⟩⟩
      | no_match =>
        simp only
        have h := ih (i + 1) (ev ++ [Event.file_open d i] ++ [Event.file_close d i])
        have hd : open_dirs (ev ++ [Event.file_open d i] ++ [Event.file_close d i]) =
            open_dirs ev := by simp [open_dirs_append, open_dirs]
        have hf : open_files (ev ++ [Event.file_open d i] ++ [Event.file_close d i]) =
            open_files ev := by simp [open_files_append, open_files]
        rw [hd, hf] at h
        exact h
      | found =>
        simp only
        cases next_tok with
        | none =>
          simp only
          exact ⟨by simp [open_dirs_append, open_dirs],
            Or.inr ⟨by simp, by simp [open_files_append, open_files]⟩⟩
        | some t =>
          simp only
          cases f.meta with
          | none =>
            simp only
            exact ⟨by simp [open_dirs_append, open_dirs],
              Or.inr ⟨by simp, by simp [open_files_append, open_files]⟩⟩
          | some m =>
            simp only
            split_ifs
            · exact ⟨by simp [open_dirs_append, open_dirs],
                Or.inr ⟨by simp, by simp [open_files_append, open_files]⟩⟩
            · exact ⟨by simp [open_dirs_append, open_dirs],
                by simp [open_files_append, open_files]⟩

/-- One iteration of the descent: when it moves on to the next directory everything it
opened is closed; when it returns found, the directory and the matching entry are left
open. -/
theorem path_iter_balance (fs : TSK_FS_INFO) (nm : Option TSK_FS_NAME) (tok : CStr)
    (next_tok : Option CStr) (d : Nat) (ev : List Event) :
    match path_iter fs nm tok next_tok d ev with
    | Sum.inl r =>
      r.retval = 0 → open_dirs r.events = open_dirs ev + 1 ∧
        open_files r.events = open_files ev + 1
    | Sum.inr (_, e) => open_dirs e = open_dirs ev ∧ open_files e = open_files ev := by
  unfold path_iter
  cases fs.dir_open_meta d with
  | none =>
    simp only
    intro h
    exact absurd h (by decide)
  | some fs_dir =>
    simp only
    have h := dir_scan_balance fs.ftype d (split_attr fs.ftype tok).1
      (split_attr fs.ftype tok).2 next_tok nm fs_dir.names 0 (ev ++ [Event.dir_open d])
    have hd : open_dirs (ev ++ [Event.dir_open d]) = open_dirs ev + 1 := by
      simp [open_dirs_append, open_dirs]
    have hf : open_files (ev ++ [Event.dir_open d]) = open_files ev := by
      simp [open_files_append, open_files]
    rw [hd, hf] at h
    cases hs : dir_scan fs.ftype d (split_attr fs.ftype tok).1 (split_attr fs.ftype tok).2
        next_tok nm fs_dir.names 0 (ev ++ [Event.dir_open d]) with
    | ret r a n e =>
      rw [hs] at h
      simp only at h ⊢
      intro h0
      subst h0
      rcases h.2 with ⟨h1, -⟩ | ⟨-, h2⟩
      · exact absurd h1 (by decide)
      · exact ⟨h.1, h2⟩
    | exhausted e =>
      simp only
      intro h0
      exact absurd h0 (by decide)
    | descend nx e =>
      rw [hs] at h
      simp only at h ⊢
      constructor
      · rw [open_dirs_append, h.1]; simp [open_dirs]
      · rw [open_files_append, h.2]; simp [open_files]

/-- A found return of the descent loop leaves one directory and one file open. -/
theorem path_loop_found_leaves_open (fs : TSK_FS_INFO) (nm : Option TSK_FS_NAME)
    (rest : List CStr) :
    ∀ (tok : CStr) (d : Nat) (ev : List Event),
      (path_loop fs nm rest tok d ev).retval = 0 →
      open_dirs (path_loop fs nm rest tok d ev).events = open_dirs ev + 1 ∧
        open_files (path_loop fs nm rest tok d ev).events = open_files ev + 1 := by
  induction rest with
  | nil =>
    intro tok d ev
    have h := path_iter_balance fs nm tok none d ev
    unfold path_loop
    cases hp : path_iter fs nm tok none d ev with
    | inl r =>
      rw [hp] at h
      simpa using h
    | inr p =>
      obtain ⟨n1, e⟩ := p
      simp only
      intro h0
      exact absurd h0 (by decide)
  | cons t ts ih =>
    intro tok d ev
    have h := path_iter_balance fs nm tok (some t) d ev
    rw [path_loop]
    cases hp : path_iter fs nm tok (some t) d ev with
    | inl r =>
      rw [hp] at h
      simpa using h
    | inr p =>
      obtain ⟨n1, e⟩ := p
      rw [hp] at h
      simp only at h ⊢
      intro h0
      have := ih t n1 e h0
      rw [h.1, h.2] at this
      exact this

/-- Every found return of `tsk_fs_path2inum` for a path with at least one segment leaves
one directory and one file open. -/
theorem path2inum_found_leaves_open (fs : TSK_FS_INFO) (a_path : CStr)
    (a_fs_name : Option TSK_FS_NAME) (htok : strtok_all a_path ≠ [])
    (hfound : (tsk_fs_path2inum true fs a_path a_fs_name).retval = 0) :
    open_dirs (tsk_fs_path2inum true fs a_path a_fs_name).events = 1 ∧
      open_files (tsk_fs_path2inum true fs a_path a_fs_name).events = 1 := by
  cases ht : strtok_all a_path with
  | nil => exact absurd ht htok
  | cons tok rest =>
    rw [path2inum_eq_path_loop fs a_fs_name a_path tok rest ht] at hfound ⊢
    have := path_loop_found_leaves_open fs a_fs_name rest tok fs.root_inum [] hfound
    simpa [open_dirs, open_files] using this

/-- C24 (the code at failing inputs). On the ext example whose root holds `lost+found`
and `notes.txt`: the call for `/notes.txt` returns found with the root directory and
the entry `notes.txt` still open; the call for `/notes.txt/x` returns not found with
the same two still open; on the example whose root cannot deliver its second entry the
call returns error with the root directory still open. Only the return after a
directory was searched to its end (`/absent`) has closed everything. -/
theorem path2inum_returns_without_closing :
    tsk_fs_path2inum true ext_fs "/notes.txt".toList none =
      { retval := 0, a_result := 12, a_fs_name := none
        events := [Event.dir_open 5, Event.file_open 5 0, Event.file_close 5 0,
          Event.file_open 5 1] } ∧
    open_dirs (tsk_fs_path2inum true ext_fs "/notes.txt".toList none).events = 1 ∧
    open_files (tsk_fs_path2inum true ext_fs "/notes.txt".toList none).events = 1 ∧
    (tsk_fs_path2inum true ext_fs "/notes.txt/x".toList none).retval = 1 ∧
    open_dirs (tsk_fs_path2inum true ext_fs "/notes.txt/x".toList none).events = 1 ∧
    open_files (tsk_fs_path2inum true ext_fs "/notes.txt/x".toList none).events = 1 ∧
    tsk_fs_path2inum true broken_entry_fs "/notes.txt".toList none =
      { retval := -1, a_result := 0, a_fs_name := none
        events := [Event.dir_open 5, Event.file_open 5 0, Event.file_close 5 0] } ∧
    open_dirs (tsk_fs_path2inum true broken_entry_fs "/notes.txt".toList none).events = 1 ∧
    open_files (tsk_fs_path2inum true broken_entry_fs "/notes.txt".toList none).events = 0 ∧
    (tsk_fs_path2inum true ext_fs "/absent".toList none).retval = 1 ∧
    open_dirs (tsk_fs_path2inum true ext_fs "/absent".toList none).events = 0 ∧
    open_files (tsk_fs_path2inum true ext_fs "/absent".toList none).events = 0 := by
  decide

/-- One iteration of the descent opens at most one directory, and exactly one when it
moves on to the next token. -/
theorem path_iter_opened (fs : TSK_FS_INFO) (nm : Option TSK_FS_NAME) (tok : CStr)
    (next_tok : Option CStr) (d : Nat) (ev : List Event) :
    match path_iter fs nm tok next_tok d ev with
    | Sum.inl r => (opened_dirs r.events).length ≤ (opened_dirs ev).length + 1
    | Sum.inr (_, e) => (opened_dirs e).length = (opened_dirs ev).length + 1 := by
  unfold path_iter
  cases fs.dir_open_meta d with
  | none => simp
  | some fs_dir =>
    simp only
    have h := dir_scan_opened_dirs fs.ftype d (split_attr fs.ftype tok).1
      (split_attr fs.ftype tok).2 next_tok nm fs_dir.names 0 (ev ++ [Event.dir_open d])
    cases hs : dir_scan fs.ftype d (split_attr fs.ftype tok).1 (split_attr fs.ftype tok).2
        next_tok nm fs_dir.names 0 (ev ++ [Event.dir_open d]) with
    | ret r a n e =>
      rw [hs] at h
      simp only [DirScan.events] at h
      simp [h, opened_dirs_append, opened_dirs]
    | exhausted e =>
      rw [hs] at h
      simp only [DirScan.events] at h
      simp [h, opened_dirs_append, opened_dirs]
    | descend nx e =>
      rw [hs] at h
      simp only [DirScan.events] at h
      simp [h, opened_dirs_append, opened_dirs]

/-- An iteration of the descent on the last token always returns. -/
theorem path_iter_last_returns (fs : TSK_FS_INFO) (nm : Option TSK_FS_NAME) (tok : CStr)
    (d : Nat) (ev : List Event) : ∃ r, path_iter fs nm tok none d ev = Sum.inl r := by
  rcases path_iter_cases fs nm tok none d ev with ⟨r, hr, -, -⟩ | ⟨t, _, _, _, _, _, _, hn, _⟩
  · exact ⟨r, hr⟩
  · exact absurd hn (by simp)

/-- The descent loop opens at most one directory per token. -/
theorem path_loop_opened (fs : TSK_FS_INFO) (nm : Option TSK_FS_NAME) (rest : List CStr) :
    ∀ (tok : CStr) (d : Nat) (ev : List Event),
      (opened_dirs (path_loop fs nm rest tok d ev).events).length ≤
        (opened_dirs ev).length + (rest.length + 1) := by
  induction rest with
  | nil =>
    intro tok d ev
    have h := path_iter_opened fs nm tok none d ev
    unfold path_loop
    cases hp : path_iter fs nm tok none d ev with
    | inl r =>
      rw [hp] at h
      simpa using h
    | inr p =>
      obtain ⟨n1, e⟩ := p
      rw [hp] at h
      simp only at h ⊢
      simp only [List.length_nil, Nat.zero_add]
      omega
  | cons t ts ih =>
    intro tok d ev
    have h := path_iter_opened fs nm tok (some t) d ev
    rw [path_loop]
    cases hp : path_iter fs nm tok (some t) d ev with
    | inl r =>
      rw [hp] at h
      simp only at h ⊢
      simp only [List.length_cons]
      omega
    | inr p =>
      obtain ⟨n1, e⟩ := p
      rw [hp] at h
      simp only at h ⊢
      have := ih t n1 e
      simp only [List.length_cons]
      omega

/-- C28. The resolver `tsk_fs_path2inum` returns on every path and every file system
whose directories are finite lists, whatever the directory graph (the embedding is a
total function whose descent recurses on the tokens still to come): every iteration of
the descent loop returns or moves on to the next token, the iteration on the last
token always returns, and the call opens at most as many directories as the path has
non-empty segments (none when the allocation of the path copy fails). -/
theorem path2inum_opens_at_most_segments (malloc_ok : Bool) (fs : TSK_FS_INFO)
    (a_path : CStr) (a_fs_name : Option TSK_FS_NAME) :
    (opened_dirs (tsk_fs_path2inum malloc_ok fs a_path a_fs_name).events).length ≤
      ((a_path.splitOn '/').filter (fun s => decide (s ≠ []))).length ∧
    (∀ tok d ev, ∃ r, path_iter fs a_fs_name tok none d ev = Sum.inl r) ∧
    (∀ t ts tok d ev,
      (∃ r, path_iter fs a_fs_name tok (some t) d ev = Sum.inl r ∧
        path_loop fs a_fs_name (t :: ts) tok d ev = r) ∨
      (∃ nx e, path_iter fs a_fs_name tok (some t) d ev = Sum.inr (nx, e) ∧
        (opened_dirs e).length = (opened_dirs ev).length + 1 ∧
        path_loop fs a_fs_name (t :: ts) tok d ev = path_loop fs a_fs_name ts t nx e)) ∧
    (∀ tok d ev, ∃ r, path_iter fs a_fs_name tok none d ev = Sum.inl r ∧
      path_loop fs a_fs_name [] tok d ev = r) := by
  refine ⟨?_, fun tok d ev => path_iter_last_returns fs a_fs_name tok d ev, ?_, ?_⟩
  · rw [← strtok_all_eq_splitOn]
    cases malloc_ok with
    | false =>
      rw [path2inum_malloc_fails]
      simp [opened_dirs]
    | true =>
      cases ht : strtok_all a_path with
      | nil =>
        rw [path2inum_no_token fs a_fs_name a_path ht]
        simp [opened_dirs]
      | cons tok rest =>
        rw [path2inum_eq_path_loop fs a_fs_name a_path tok rest ht]
        have := path_loop_opened fs a_fs_name rest tok fs.root_inum []
        simpa [opened_dirs] using this
  · intro t ts tok d ev
    have h := path_iter_opened fs a_fs_name tok (some t) d ev
    cases hp : path_iter fs a_fs_name tok (some t) d ev with
    | inl r =>
      refine Or.inl ⟨r, rfl, ?_⟩
      rw [path_loop, hp]
    | inr p =>
      obtain ⟨nx, e⟩ := p
      rw [hp] at h
      refine Or.inr ⟨nx, e, rfl, h, ?_⟩
      rw [path_loop, hp]
  · intro tok d ev
    obtain ⟨r, hr⟩ := path_iter_last_returns fs a_fs_name tok d ev
    refine ⟨r, hr, ?_⟩
    rw [path_loop, hr]

/-- An instance of C28: in the example with a cyclic directory graph the call for
`/loop/twin/back/loop/x` walks round the cycle, opens five directories for five
segments, and returns not found. -/
theorem path2inum_opens_at_most_segments_witness :
    (opened_dirs (tsk_fs_path2inum true cyclic_fs "/loop/twin/back/loop/x".toList none).events).length ≤
      (("/loop/twin/back/loop/x".toList.splitOn '/').filter (fun s => decide (s ≠ []))).length ∧
    opened_dirs (tsk_fs_path2inum true cyclic_fs "/loop/twin/back/loop/x".toList none).events =
      [5, 5, 6, 5, 5] ∧
    (tsk_fs_path2inum true cyclic_fs "/loop/twin/back/loop/x".toList none).retval = 1 :=
  ⟨(path2inum_opens_at_most_segments true cyclic_fs "/loop/twin/back/loop/x".toList
      none).1,
    by decide, by decide⟩

/-! ## ISO9660 directory open: argument checks -/

/-- C23. The function `iso9660_dir_open_meta` checks its arguments before anything
else: for an address below `first_inum` or above `last_inum` it returns error with the
code walk_rng (whatever the directory pointer is), and for an address in the range with
a NULL directory pointer it returns error with the code arg; in both cases no
directory is reset or allocated, no file is opened, nothing is read and the parser is
not called. -/
theorem iso9660_dir_open_meta_validates (iso : ISO_INFO) (maxnamlen : Nat)
    (drv : IsoDriver) (a_fs : TSK_FS_INFO) (a_fs_dir : Option (Option (List TSK_FS_NAME)))
    (a_addr : Nat) (err : TskError) (fuel : Nat) :
    ((a_addr < a_fs.first_inum ∨ a_addr > a_fs.last_inum) →
      (iso9660_dir_open_meta iso maxnamlen drv a_fs a_fs_dir a_addr err fuel).ret =
        DirOpenRet.ret TSK_RETVAL_ENUM.TSK_ERR ∧
      (iso9660_dir_open_meta iso maxnamlen drv a_fs a_fs_dir a_addr err fuel).err.tsk_errno =
        TSK_ERR_ENUM.FS_WALK_RNG ∧
      (iso9660_dir_open_meta iso maxnamlen drv a_fs a_fs_dir a_addr err fuel).err.tsk_errstr =
        "iso9660_dir_open_meta: Invalid inode value: " ++ toString a_addr ∧
      (iso9660_dir_open_meta iso maxnamlen drv a_fs a_fs_dir a_addr err fuel).events = [] ∧
      (iso9660_dir_open_meta iso maxnamlen drv a_fs a_fs_dir a_addr err fuel).a_fs_dir =
        a_fs_dir) ∧
    (a_fs.first_inum ≤ a_addr → a_addr ≤ a_fs.last_inum → a_fs_dir = none →
      (iso9660_dir_open_meta iso maxnamlen drv a_fs a_fs_dir a_addr err fuel).ret =
        DirOpenRet.ret TSK_RETVAL_ENUM.TSK_ERR ∧
      (iso9660_dir_open_meta iso maxnamlen drv a_fs a_fs_dir a_addr err fuel).err.tsk_errno =
        TSK_ERR_ENUM.FS_ARG ∧
      (iso9660_dir_open_meta iso maxnamlen drv a_fs a_fs_dir a_addr err fuel).events = []) ∧
    ((iso9660_dir_open_meta iso maxnamlen drv a_fs a_fs_dir a_addr err fuel).events ≠ [] →
      a_fs.first_inum ≤ a_addr ∧ a_addr ≤ a_fs.last_inum ∧ a_fs_dir ≠ none) := by
  refine ⟨?_, ?_, ?_⟩
  · intro h
    simp [iso9660_dir_open_meta, h]
  · intro h1 h2 h3
    have h : ¬ (a_addr < a_fs.first_inum ∨ a_addr > a_fs.last_inum) := by omega
    subst h3
    simp [iso9660_dir_open_meta, h]
  · intro hev
    by_cases h : a_addr < a_fs.first_inum ∨ a_addr > a_fs.last_inum
    · simp [iso9660_dir_open_meta, h] at hev
    · cases a_fs_dir with
      | none =>
        simp [iso9660_dir_open_meta, h] at hev
      | some d => exact ⟨by omega, by omega, by simp⟩

/-- An instance of C23: with the range `[0, 1000]` the address 1001 is refused with
walk_rng and the address 3 with a NULL directory pointer with arg, without any event;
with a pointer to NULL the directory at address 3 is allocated, opened, read and
parsed. -/
theorem iso9660_dir_open_meta_validates_witness :
    (iso9660_dir_open_meta hole_iso 256 docs_driver iso_fs (some none) 1001 no_error
      5).err.tsk_errno = TSK_ERR_ENUM.FS_WALK_RNG ∧
    (iso9660_dir_open_meta hole_iso 256 docs_driver iso_fs (some none) 1001 no_error
      5).events = [] ∧
    (iso9660_dir_open_meta hole_iso 256 docs_driver iso_fs none 3 no_error
      5).err.tsk_errno = TSK_ERR_ENUM.FS_ARG ∧
    (iso9660_dir_open_meta hole_iso 256 docs_driver iso_fs none 3 no_error 5).events = [] ∧
    iso9660_dir_open_meta hole_iso 256 docs_driver iso_fs (some none) 3 no_error 5 =
      { ret := DirOpenRet.parsed (some (ProcResult.ret TSK_RETVAL_ENUM.TSK_OK
          [dot_entry 3, dotdot_entry 0, readme_entry]))
        a_fs_dir := some (some []), err := no_error
        events := [DirOpenEvent.dir_alloc, DirOpenEvent.file_open 3,
          DirOpenEvent.buf_alloc 119, DirOpenEvent.file_read 3 119,
          DirOpenEvent.proc_dir] } :=
  have h1 := (iso9660_dir_open_meta_validates hole_iso 256 docs_driver iso_fs (some none)
    1001 no_error 5).1 (Or.inr (by decide))
  have h2 := (iso9660_dir_open_meta_validates hole_iso 256 docs_driver iso_fs none
    3 no_error 5).2.1 (by decide) (by decide) rfl
  ⟨h1.2.1, h1.2.2.2.1, h2.2.1, h2.2.2, by decide⟩

/-! ## ISO9660 directory parser: `.`, `..`, padding, names and bounds -/

/-- A hit of the search of the master list is a node of the list with the extent
location looked for. -/
theorem find_inode_some (big : Bool) (ext : Nat) (l : List iso9660_inode_node)
    (n : iso9660_inode_node) (h : find_inode big ext l = some n) :
    n ∈ l ∧ tsk_getu32 big n.ext_loc_m = ext := by
  induction l with
  | nil => simp [find_inode] at h
  | cons x rest ih =>
    by_cases hx : tsk_getu32 big x.ext_loc_m = ext
    · simp only [find_inode, hx, ne_eq, not_true_eq_false, if_false, Option.some.injEq] at h
      subst h
      exact ⟨List.mem_cons_self _ _, hx⟩
    · simp only [find_inode, ne_eq, hx, not_false_eq_true, if_true] at h
      exact ⟨List.mem_cons_of_mem _ (ih h).1, (ih h).2⟩

/-- A hit of the search for the record at `pos` is a node of the master list whose
extent location equals the one read from the record. -/
theorem lookup_record_some (iso : ISO_INFO) (buf : List Nat) (pos : Nat)
    (node : iso9660_inode_node) (h : lookup_record iso buf pos = some (some node)) :
    node ∈ iso.in_list ∧
      ∃ ext, read4 buf (pos + EXT_LOC_M_OFF) = some ext ∧
        tsk_getu32 iso.big_endian node.ext_loc_m = tsk_getu32 iso.big_endian ext := by
  unfold lookup_record at h
  cases hl : iso.in_list with
  | nil => rw [hl] at h; simp at h
  | cons x rest =>
    rw [hl] at h
    simp only at h
    cases hr : read4 buf (pos + EXT_LOC_M_OFF) with
    | none => rw [hr] at h; simp at h
    | some ext =>
      rw [hr] at h
      simp only [Option.some.injEq] at h
      rw [← hl] at h
      have := find_inode_some _ _ _ _ h
      rw [← hl]
      exact ⟨this.1, ext, rfl, this.2⟩

/-- The handling of `.` and `..`, given the length byte of the first record and the
outcome of the search for the second: `.` is added, `..` is added exactly when the
search hits, and the scan starts behind the second record. -/
theorem proc_dots_eq (iso : ISO_INFO) (buf : List Nat) (length a_addr : Nat)
    (names : List TSK_FS_NAME) (len0 : Nat) (found : Option iso9660_inode_node)
    (h0 : buf.get? 0 = some len0) (hl : lookup_record iso buf len0 = some found) :
    proc_dots iso buf length a_addr names =
      match buf.get? len0 with
      | none =>
        Sum.inl (ProcResult.out_of_bounds (names ++ dot_entry a_addr ::
          dotdot_names found))
      | some len1 =>
        Sum.inr
          { pos := len0 + len1, length := sub64 (sub64 length len0) len1
            names := names ++ dot_entry a_addr ::
              dotdot_names found } := by
  unfold proc_dots
  simp only [h0, hl, tsk_fs_dir_add]
  cases found with
  | none =>
    cases buf.get? len0 with
    | none => simp [dot_entry, dotdot_names]
    | some len1 => simp [dot_entry, dotdot_names]
  | some node =>
    cases buf.get? len0 with
    | none => simp [dot_entry, dotdot_entry, dotdot_names]
    | some len1 => simp [dot_entry, dotdot_entry, dotdot_names]

/-- An iteration of the scan that returns leaves the container as it was. -/
theorem proc_step_inl_names (iso : ISO_INFO) (maxnamlen : Nat) (buf : List Nat)
    (s : ProcState) (r : ProcResult) (h : proc_step iso maxnamlen buf s = Sum.inl r) :
    r.names = s.names := by
  unfold proc_step at h
  cases hget : buf.get? s.pos with
  | none =>
    rw [hget] at h
    simp only [Sum.inl.injEq] at h
    subst h
    rfl
  | some entry_len =>
    rw [hget] at h
    simp only at h
    by_cases hz : entry_len = 0
    · subst hz
      simp only [ne_eq, not_true_eq_false, if_false] at h
      cases hs : zero_scan buf s.pos DENTRY_SIZE with
      | none =>
        rw [hs] at h
        simp only [Sum.inl.injEq] at h
        subst h
        rfl
      | some a =>
        rw [hs] at h
        simp only at h
        split_ifs at h
    · simp only [ne_eq, hz, not_false_eq_true, if_true] at h
      cases hl : lookup_record iso buf s.pos with
      | none =>
        rw [hl] at h
        simp only [Sum.inl.injEq] at h
        subst h
        rfl
      | some found =>
        rw [hl] at h
        cases found with
        | none =>
          simp only [Sum.inl.injEq] at h
          subst h
          rfl
        | some node =>
          simp only at h
          cases hf : buf.get? (s.pos + FLAGS_OFF) with
          | none =>
            rw [hf] at h
            simp only [Sum.inl.injEq] at h
            subst h
            rfl
          | some flags => rw [hf] at h; simp at h

/-- Four bytes that lie in the buffer are read as they stand. -/
theorem read4_eq (buf : List Nat) (off : Nat) (h : off + 4 ≤ buf.length) :
    read4 buf off = some ((buf.drop off).take 4) := by
  have e0 : buf.get? off = some (buf.get ⟨off, by omega⟩) := List.get?_eq_get _
  have e1 : buf.get? (off + 1) = some (buf.get ⟨off + 1, by omega⟩) := List.get?_eq_get _
  have e2 : buf.get? (off + 2) = some (buf.get ⟨off + 2, by omega⟩) := List.get?_eq_get _
  have e3 : buf.get? (off + 3) = some (buf.get ⟨off + 3, by omega⟩) := List.get?_eq_get _
  unfold read4
  rw [e0, e1, e2, e3]
  simp only [Option.some.injEq]
  apply List.ext_get?
  intro i
  simp only [List.get?_eq_getElem?, List.getElem?_take, List.getElem?_drop]
  rcases i with _ | _ | _ | _ | _ | i
  · simp [List.getElem?_eq_getElem (show off < buf.length by omega)]
  · simp [List.getElem?_eq_getElem (show off + 1 < buf.length by omega)]
  · simp [List.getElem?_eq_getElem (show off + 2 < buf.length by omega)]
  · simp [List.getElem?_eq_getElem (show off + 3 < buf.length by omega)]
  · simp
  · rw [if_neg (by omega)]
    rfl

/-- C22. For an extent that consists of a `.` record, a `..` record whose extent
location is that of a node of the master list, and then `n` zero bytes, for every `n`:
once the bound on the iterations is no less than `n / 33 + 1`, the parser returns OK
and the container holds, behind what it held before the call, exactly the two entries
`.` and `..`. -/
theorem iso9660_proc_dir_only_padding (iso : ISO_INFO) (maxnamlen : Nat)
    (names : List TSK_FS_NAME) (rec0 rec1 : List Nat) (n a_addr fuel : Nat)
    (h0 : rec0.head? = some rec0.length) (h1 : rec1.head? = some rec1.length)
    (h1len : EXT_LOC_M_OFF + 4 ≤ rec1.length)
    (hin : ∃ m ∈ iso.in_list, tsk_getu32 iso.big_endian m.ext_loc_m =
      tsk_getu32 iso.big_endian ((rec1.drop EXT_LOC_M_OFF).take 4))
    (hlen : rec0.length + rec1.length + n < 2 ^ 64)
    (hfuel : n < DENTRY_SIZE * fuel) :
    ∃ node, node ∈ iso.in_list ∧
      tsk_getu32 iso.big_endian node.ext_loc_m =
        tsk_getu32 iso.big_endian ((rec1.drop EXT_LOC_M_OFF).take 4) ∧
      iso9660_proc_dir iso maxnamlen true names (rec0 ++ rec1 ++ List.replicate n 0)
          (rec0.length + rec1.length + n) a_addr fuel =
        some (ProcResult.ret TSK_RETVAL_ENUM.TSK_OK
          (names ++ [dot_entry a_addr, dotdot_entry node.inum])) := by
  -- the bytes of the extent
  have hbuf0 : (rec0 ++ rec1 ++ List.replicate n 0).get? 0 = some rec0.length := by
    cases rec0 with
    | nil => simp at h0
    | cons x xs =>
      simp only [List.head?_cons, Option.some.injEq] at h0
      exact congrArg some h0
  have hbuf1 : (rec0 ++ rec1 ++ List.replicate n 0).get? rec0.length = some rec1.length := by
    rw [List.append_assoc, List.get?_eq_getElem?, List.getElem?_append_right (le_refl _)]
    cases rec1 with
    | nil => simp at h1
    | cons x xs =>
      simp only [List.head?_cons, Option.some.injEq] at h1
      rw [Nat.sub_self, List.cons_append, List.getElem?_cons_zero]
      exact congrArg some h1
  have hzero : ∀ i, i < n →
      (rec0 ++ rec1 ++ List.replicate n 0).get? (rec0.length + rec1.length + i) = some 0 := by
    intro i hi
    rw [List.get?_eq_getElem?, List.getElem?_append_right (by simp)]
    simp [hi]
  have hread : read4 (rec0 ++ rec1 ++ List.replicate n 0) (rec0.length + EXT_LOC_M_OFF) =
      some ((rec1.drop EXT_LOC_M_OFF).take 4) := by
    rw [read4_eq _ _ (by simp only [List.length_append, List.length_replicate]; omega)]
    congr 1
    rw [List.append_assoc, List.drop_append_eq_append_drop,
      List.drop_of_length_le (by omega : rec0.length ≤ rec0.length + EXT_LOC_M_OFF)]
    simp only [List.nil_append, Nat.add_sub_cancel_left]
    rw [List.drop_append_eq_append_drop, List.take_append_eq_append_take]
    have h4 : 4 - (List.drop EXT_LOC_M_OFF rec1).length = 0 := by
      simp only [List.length_drop]; omega
    rw [h4]
    simp
  -- the search for the second record hits
  obtain ⟨node, hnode⟩ : ∃ node, find_inode iso.big_endian
      (tsk_getu32 iso.big_endian ((rec1.drop EXT_LOC_M_OFF).take 4)) iso.in_list =
        some node := by
    cases hf : find_inode iso.big_endian
        (tsk_getu32 iso.big_endian ((rec1.drop EXT_LOC_M_OFF).take 4)) iso.in_list with
    | some node => exact ⟨node, rfl⟩
    | none =>
      obtain ⟨m, hm, hme⟩ := hin
      exact absurd hme ((find_inode_none_iff _ _ _).1 hf m hm)
  have hlook : lookup_record iso (rec0 ++ rec1 ++ List.replicate n 0) rec0.length =
      some (some node) := by
    unfold lookup_record
    cases hl : iso.in_list with
    | nil =>
      obtain ⟨m, hm, -⟩ := hin
      rw [hl] at hm
      exact absurd hm (List.not_mem_nil m)
    | cons x rest =>
      simp only [hread]
      rw [← hl, hnode]
  refine ⟨node, (find_inode_some _ _ _ _ hnode).1, (find_inode_some _ _ _ _ hnode).2, ?_⟩
  have hsub : sub64 (sub64 (rec0.length + rec1.length + n) rec0.length) rec1.length = n := by
    unfold sub64
    norm_num at hlen ⊢
    omega
  have hd := proc_dots_eq iso (rec0 ++ rec1 ++ List.replicate n 0)
    (rec0.length + rec1.length + n) a_addr names rec0.length (some node) hbuf0 hlook
  rw [hbuf1] at hd
  simp only [hsub, dotdot_names] at hd
  simp only [iso9660_proc_dir, Bool.not_true, Bool.false_eq_true, if_false, hd]
  by_cases hn : n > DENTRY_SIZE
  · exact proc_loop_stuck iso maxnamlen (rec0 ++ rec1 ++ List.replicate n 0) fuel
      { pos := rec0.length + rec1.length, length := n
        names := names ++ [dot_entry a_addr, dotdot_entry node.inum] }
      (fun i hi => hzero i (by unfold DENTRY_SIZE at hi hn; omega))
      ⟨0, hzero DENTRY_SIZE hn⟩ (by simp only; omega) hfuel
  · cases fuel with
    | zero => simp at hfuel
    | succ k =>
      rw [proc_loop]
      simp [hn]

/-- An instance of C22: the records `.` and `..` of the example extent followed by 1980
zero bytes; with 61 iterations allowed the parser returns OK with `.` and `..`. -/
theorem iso9660_proc_dir_only_padding_witness :
    ∃ node, node ∈ hole_iso.in_list ∧
      tsk_getu32 hole_iso.big_endian node.ext_loc_m =
        tsk_getu32 hole_iso.big_endian
          (((dir_record 34 18 2 [1]).drop EXT_LOC_M_OFF).take 4) ∧
      iso9660_proc_dir hole_iso 256 true []
          (dir_record 34 20 2 [0] ++ dir_record 34 18 2 [1] ++ List.replicate 1980 0)
          ((dir_record 34 20 2 [0]).length + (dir_record 34 18 2 [1]).length + 1980) 3 61 =
        some (ProcResult.ret TSK_RETVAL_ENUM.TSK_OK
          ([] ++ [dot_entry 3, dotdot_entry node.inum])) :=
  iso9660_proc_dir_only_padding hole_iso 256 [] (dir_record 34 20 2 [0])
    (dir_record 34 18 2 [1]) 1980 3 61 (by decide) (by decide) (by decide)
    ⟨{ ext_loc_m := be32 18, fn := [], inum := 0 }, by decide, by decide⟩
    (by decide) (by decide)

/-- An iteration of the scan that goes on either leaves the container as it was (a run
of zero bytes) or adds one entry: the address of the master-list node found for the
record and the cleaned name of that node. -/
theorem proc_step_emits (iso : ISO_INFO) (maxnamlen : Nat) (buf : List Nat)
    (s s1 : ProcState) (h : proc_step iso maxnamlen buf s = Sum.inr s1) :
    s1.names = s.names ∨
      ∃ node e, lookup_record iso buf s.pos = some (some node) ∧
        s1.names = s.names ++ [e] ∧ e.name = clean_name maxnamlen node.fn ∧
        e.meta_addr = node.inum := by
  unfold proc_step at h
  cases hget : buf.get? s.pos with
  | none => rw [hget] at h; simp at h
  | some entry_len =>
    rw [hget] at h
    simp only at h
    by_cases hz : entry_len = 0
    · subst hz
      simp only [ne_eq, not_true_eq_false, if_false] at h
      cases hs : zero_scan buf s.pos DENTRY_SIZE with
      | none => rw [hs] at h; simp at h
      | some a =>
        rw [hs] at h
        simp only at h
        split_ifs at h <;>
        · have := Sum.inr.inj h
          subst this
          exact Or.inl rfl
    · simp only [ne_eq, hz, not_false_eq_true, if_true] at h
      cases hl : lookup_record iso buf s.pos with
      | none => rw [hl] at h; simp at h
      | some found =>
        rw [hl] at h
        cases found with
        | none => simp at h
        | some node =>
          simp only at h
          cases hf : buf.get? (s.pos + FLAGS_OFF) with
          | none => rw [hf] at h; simp at h
          | some flags =>
            rw [hf] at h
            simp only at h
            have := Sum.inr.inj h
            subst this
            exact Or.inr ⟨node, _, rfl, rfl, rfl, rfl⟩

/-- Every entry that whole iterations of the scan add carries the cleaned name of a node
of the master list. -/
theorem proc_run_emits (iso : ISO_INFO) (maxnamlen : Nat) (buf : List Nat) (n : Nat)
    (s0 s : ProcState) (h : proc_run iso maxnamlen buf n s0 = some s) :
    ∃ extra, s.names = s0.names ++ extra ∧
      ∀ e ∈ extra, ∃ node ∈ iso.in_list,
        e.name = clean_name maxnamlen node.fn ∧ e.meta_addr = node.inum := by
  induction n generalizing s0 with
  | zero =>
    simp only [proc_run, Option.some.injEq] at h
    subst h
    exact ⟨[], by simp, by simp⟩
  | succ k ih =>
    unfold proc_run at h
    split_ifs at h with hgt
    cases hstep : proc_step iso maxnamlen buf s0 with
    | inl r => rw [hstep] at h; simp at h
    | inr s1 =>
      rw [hstep] at h
      simp only at h
      obtain ⟨e2, he2, hall⟩ := ih s1 h
      rcases proc_step_emits iso maxnamlen buf s0 s1 hstep with h1 | ⟨node, e, hl, h1, hn, ha⟩
      · exact ⟨e2, by rw [he2, h1], hall⟩
      · refine ⟨e :: e2, by rw [he2, h1]; simp, ?_⟩
        intro x hx
        rcases List.mem_cons.1 hx with hx | hx
        · subst hx
          exact ⟨node, (lookup_record_some iso buf s0.pos node hl).1, hn, ha⟩
        · exact hall x hx

/-- The entries `.` and `..`: whether `proc_dots` returns or hands over to the scan, the
container holds what it held, then `.`, then `..` for a node of the master list or
nothing. -/
theorem proc_dots_names (iso : ISO_INFO) (buf : List Nat) (length a_addr : Nat)
    (names : List TSK_FS_NAME) :
    ∃ dd, (dd = [] ∨ ∃ node ∈ iso.in_list, dd = [dotdot_entry node.inum]) ∧
      ((∃ r, proc_dots iso buf length a_addr names = Sum.inl r ∧
          r.names = names ++ dot_entry a_addr :: dd) ∨
        (∃ s0, proc_dots iso buf length a_addr names = Sum.inr s0 ∧
          s0.names = names ++ dot_entry a_addr :: dd)) := by
  unfold proc_dots
  simp only
  cases buf.get? 0 with
  | none =>
    exact ⟨[], Or.inl rfl, Or.inl ⟨_, rfl, by simp [ProcResult.names, tsk_fs_dir_add, dot_entry]⟩⟩
  | some len0 =>
    simp only
    cases hl : lookup_record iso buf len0 with
    | none =>
      exact ⟨[], Or.inl rfl,
        Or.inl ⟨_, rfl, by simp [ProcResult.names, tsk_fs_dir_add, dot_entry]⟩⟩
    | some found =>
      simp only
      cases found with
      | none =>
        refine ⟨[], Or.inl rfl, ?_⟩
        cases buf.get? len0 with
        | none =>
          exact Or.inl ⟨_, rfl, by simp [ProcResult.names, tsk_fs_dir_add, dot_entry]⟩
        | some len1 => exact Or.inr ⟨_, rfl, by simp [tsk_fs_dir_add, dot_entry]⟩
      | some node =>
        refine ⟨[dotdot_entry node.inum],
          Or.inr ⟨node, (lookup_record_some iso buf len0 node hl).1, rfl⟩, ?_⟩
        cases buf.get? len0 with
        | none =>
          exact Or.inl ⟨_, rfl,
            by simp [ProcResult.names, tsk_fs_dir_add, dot_entry, dotdot_entry]⟩
        | some len1 =>
          exact Or.inr ⟨_, rfl, by simp [tsk_fs_dir_add, dot_entry, dotdot_entry]⟩

/-- Every entry that the loop of the scan adds before it returns carries the cleaned
name of a node of the master list. -/
theorem proc_loop_emits (iso : ISO_INFO) (maxnamlen : Nat) (buf : List Nat) (fuel : Nat)
    (s : ProcState) (r : ProcResult) (h : proc_loop iso maxnamlen buf fuel s = some r) :
    ∃ extra, r.names = s.names ++ extra ∧
      ∀ e ∈ extra, ∃ node ∈ iso.in_list,
        e.name = clean_name maxnamlen node.fn ∧ e.meta_addr = node.inum := by
  induction fuel generalizing s with
  | zero => simp [proc_loop] at h
  | succ k ih =>
    unfold proc_loop at h
    split_ifs at h with hgt
    · cases hstep : proc_step iso maxnamlen buf s with
      | inl r1 =>
        rw [hstep] at h
        simp only [Option.some.injEq] at h
        subst h
        exact ⟨[], by rw [proc_step_inl_names iso maxnamlen buf s r1 hstep]; simp, by simp⟩
      | inr s1 =>
        rw [hstep] at h
        simp only at h
        obtain ⟨e2, he2, hall⟩ := ih s1 h
        rcases proc_step_emits iso maxnamlen buf s s1 hstep with
          h1 | ⟨node, e, hl, h1, hn, ha⟩
        · exact ⟨e2, by rw [he2, h1], hall⟩
        · refine ⟨e :: e2, by rw [he2, h1]; simp, ?_⟩
          intro x hx
          rcases List.mem_cons.1 hx with hx | hx
          · subst hx
            exact ⟨node, (lookup_record_some iso buf s.pos node hl).1, hn, ha⟩
          · exact hall x hx
    · simp only [Option.some.injEq] at h
      subst h
      exact ⟨[], by simp [ProcResult.names], by simp⟩

/-- What `iso9660_proc_dir` returns: when the name structure cannot be allocated, an
error with the container as it was; otherwise the container as it was, then `.`, then
`..` for a node of the master list or nothing, then the entries of the scan, each with
the cleaned name and the address of a node of the master list. -/
theorem iso9660_proc_dir_emits (iso : ISO_INFO) (maxnamlen : Nat) (buf : List Nat)
    (alloc_ok : Bool) (names : List TSK_FS_NAME) (length a_addr fuel : Nat)
    (r : ProcResult)
    (h : iso9660_proc_dir iso maxnamlen alloc_ok names buf length a_addr fuel = some r) :
    (alloc_ok = false ∧ r = ProcResult.ret TSK_RETVAL_ENUM.TSK_ERR names) ∨
    (alloc_ok = true ∧ ∃ dd extra,
      r.names = names ++ dot_entry a_addr :: dd ++ extra ∧
      (dd = [] ∨ ∃ node ∈ iso.in_list, dd = [dotdot_entry node.inum]) ∧
      ∀ e ∈ extra, ∃ node ∈ iso.in_list,
        e.name = clean_name maxnamlen node.fn ∧ e.meta_addr = node.inum) := by
  cases alloc_ok with
  | false =>
    simp only [iso9660_proc_dir, Bool.not_false, if_true, Option.some.injEq] at h
    exact Or.inl ⟨rfl, h.symm⟩
  | true =>
    simp only [iso9660_proc_dir, Bool.not_true, Bool.false_eq_true, if_false] at h
    refine Or.inr ⟨rfl, ?_⟩
    obtain ⟨dd, hdd, hcase⟩ := proc_dots_names iso buf length a_addr names
    rcases hcase with ⟨r0, hr0, hn0⟩ | ⟨s0, hs0, hn0⟩
    · rw [hr0] at h
      simp only [Option.some.injEq] at h
      subst h
      exact ⟨dd, [], by simp [hn0], hdd, by simp⟩
    · rw [hs0] at h
      simp only at h
      obtain ⟨extra, he, hall⟩ := proc_loop_emits iso maxnamlen buf fuel s0 r h
      exact ⟨dd, extra, by rw [he, hn0], hdd, hall⟩

/-- C26. Every entry that the scan of `iso9660_proc_dir` adds to the container carries
the name of the master-list node found for its record, cut to at most
`ISO9660_MAXNAMLEN` bytes, with every control byte replaced by `^` and every other byte
as it is: the name has the length of the cut name, which is below the capacity
`ISO9660_MAXNAMLEN + 1` of the name buffer, and holds no control byte. This holds for
one iteration of the scan, for any number of whole iterations, for the loop when it
returns, and for the container that `iso9660_proc_dir` returns: behind what the
container held, `.` and `..`, every entry is one of the scan. -/
theorem iso9660_proc_dir_clean_names (iso : ISO_INFO) (maxnamlen : Nat) (buf : List Nat) :
    (∀ s s1, proc_step iso maxnamlen buf s = Sum.inr s1 →
      s1.names = s.names ∨
        ∃ node e, lookup_record iso buf s.pos = some (some node) ∧
          s1.names = s.names ++ [e] ∧ e.name = clean_name maxnamlen node.fn ∧
          e.meta_addr = node.inum) ∧
    (∀ n s0 s, proc_run iso maxnamlen buf n s0 = some s →
      ∃ extra, s.names = s0.names ++ extra ∧
        ∀ e ∈ extra, ∃ node ∈ iso.in_list,
          e.name = clean_name maxnamlen node.fn ∧ e.meta_addr = node.inum) ∧
    (∀ fn : CStr,
      (clean_name maxnamlen fn).length = (fn.take maxnamlen).length ∧
      (clean_name maxnamlen fn).length ≤ maxnamlen ∧
      (clean_name maxnamlen fn).length < maxnamlen + 1 ∧
      (∀ c ∈ clean_name maxnamlen fn, TSK_IS_CNTRL c = false) ∧
      (∀ i, (clean_name maxnamlen fn).get? i =
        ((fn.take maxnamlen).get? i).map (fun c => if TSK_IS_CNTRL c then '^' else c)) ∧
      (∀ i c, (fn.take maxnamlen).get? i = some c → TSK_IS_CNTRL c = true →
        (clean_name maxnamlen fn).get? i = some '^') ∧
      (∀ i c, (fn.take maxnamlen).get? i = some c → TSK_IS_CNTRL c = false →
        (clean_name maxnamlen fn).get? i = some c)) ∧
    (∀ fuel s r, proc_loop iso maxnamlen buf fuel s = some r →
      ∃ extra, r.names = s.names ++ extra ∧
        ∀ e ∈ extra, ∃ node ∈ iso.in_list,
          e.name = clean_name maxnamlen node.fn ∧ e.meta_addr = node.inum) ∧
    (∀ alloc_ok names length a_addr fuel r,
      iso9660_proc_dir iso maxnamlen alloc_ok names buf length a_addr fuel = some r →
      (alloc_ok = false ∧ r = ProcResult.ret TSK_RETVAL_ENUM.TSK_ERR names) ∨
      (alloc_ok = true ∧ ∃ dd extra,
        r.names = names ++ dot_entry a_addr :: dd ++ extra ∧
        (dd = [] ∨ ∃ node ∈ iso.in_list, dd = [dotdot_entry node.inum]) ∧
        ∀ e ∈ extra, ∃ node ∈ iso.in_list,
          e.name = clean_name maxnamlen node.fn ∧ e.meta_addr = node.inum ∧
          e.name.length ≤ maxnamlen ∧ ∀ c ∈ e.name, TSK_IS_CNTRL c = false)) := by
  have hclean : ∀ fn : CStr,
      (clean_name maxnamlen fn).length = (fn.take maxnamlen).length ∧
      (clean_name maxnamlen fn).length ≤ maxnamlen ∧
      (clean_name maxnamlen fn).length < maxnamlen + 1 ∧
      (∀ c ∈ clean_name maxnamlen fn, TSK_IS_CNTRL c = false) ∧
      (∀ i, (clean_name maxnamlen fn).get? i =
        ((fn.take maxnamlen).get? i).map (fun c => if TSK_IS_CNTRL c then '^' else c)) ∧
      (∀ i c, (fn.take maxnamlen).get? i = some c → TSK_IS_CNTRL c = true →
        (clean_name maxnamlen fn).get? i = some '^') ∧
      (∀ i c, (fn.take maxnamlen).get? i = some c → TSK_IS_CNTRL c = false →
        (clean_name maxnamlen fn).get? i = some c) := by
    intro fn
    have hlen : (clean_name maxnamlen fn).length = (fn.take maxnamlen).length := by
      simp [clean_name]
    have hle : (fn.take maxnamlen).length ≤ maxnamlen := by
      simp only [List.length_take]
      omega
    have hget : ∀ i, (clean_name maxnamlen fn).get? i =
        ((fn.take maxnamlen).get? i).map (fun c => if TSK_IS_CNTRL c then '^' else c) := by
      intro i
      unfold clean_name
      rw [List.get?_eq_getElem?, List.get?_eq_getElem?, List.getElem?_map]
    refine ⟨hlen, by omega, by omega, ?_, hget, ?_, ?_⟩
    · intro c hc
      simp only [clean_name, List.mem_map] at hc
      obtain ⟨x, -, hx⟩ := hc
      by_cases hcx : TSK_IS_CNTRL x = true
      · rw [if_pos hcx] at hx
        subst hx
        decide
      · rw [if_neg hcx] at hx
        subst hx
        simpa using hcx
    · intro i c hi hc
      rw [hget, hi]
      simp [hc]
    · intro i c hi hc
      rw [hget, hi]
      simp [hc]
  refine ⟨fun s s1 h => proc_step_emits iso maxnamlen buf s s1 h,
    fun n s0 s h => proc_run_emits iso maxnamlen buf n s0 s h, hclean,
    fun fuel s r h => proc_loop_emits iso maxnamlen buf fuel s r h, ?_⟩
  intro alloc_ok names length a_addr fuel r h
  rcases iso9660_proc_dir_emits iso maxnamlen buf alloc_ok names length a_addr fuel r h with
    h1 | ⟨h1, dd, extra, h2, h3, h4⟩
  · exact Or.inl h1
  · refine Or.inr ⟨h1, dd, extra, h2, h3, ?_⟩
    intro e he
    obtain ⟨node, hn, hname, haddr⟩ := h4 e he
    refine ⟨node, hn, hname, haddr, ?_, ?_⟩
    · rw [hname]; exact (hclean node.fn).2.1
    · rw [hname]; exact (hclean node.fn).2.2.2.1

set_option maxRecDepth 100000 in
/-- An instance of C26: in the example extent the record of the file at extent 5 is
found in the master list under a name of twelve bytes with a TAB and the control byte
1; with a capacity of 8 bytes the parser returns OK with `.`, `..` and the entry of
address 7 named `A^B^CDEF`, which has 8 bytes and no control byte. -/
theorem iso9660_proc_dir_clean_names_witness :
    iso9660_proc_dir ctrl_iso 8 true [] ctrl_dir_buf 128 3 5 =
      some (ProcResult.ret TSK_RETVAL_ENUM.TSK_OK
        [dot_entry 3, dotdot_entry 0,
          { name := "A^B^CDEF".toList, shrt_name := [], meta_addr := 7
            type := TSK_FS_NAME_TYPE_ENUM.TSK_FS_NAME_TYPE_REG
            flags := TSK_FS_NAME_FLAG_ENUM.TSK_FS_NAME_FLAG_ALLOC }]) ∧
    clean_name 8 ['A', '\t', 'B', Char.ofNat 1, 'C', 'D', 'E', 'F', 'G', 'H', 'I', 'J'] =
      "A^B^CDEF".toList ∧
    ((true = false ∧
        ProcResult.ret TSK_RETVAL_ENUM.TSK_OK
          [dot_entry 3, dotdot_entry 0,
            { name := "A^B^CDEF".toList, shrt_name := [], meta_addr := 7
              type := TSK_FS_NAME_TYPE_ENUM.TSK_FS_NAME_TYPE_REG
              flags := TSK_FS_NAME_FLAG_ENUM.TSK_FS_NAME_FLAG_ALLOC }] =
          ProcResult.ret TSK_RETVAL_ENUM.TSK_ERR []) ∨
      (true = true ∧ ∃ dd extra,
        (ProcResult.ret TSK_RETVAL_ENUM.TSK_OK
          [dot_entry 3, dotdot_entry 0,
            { name := "A^B^CDEF".toList, shrt_name := [], meta_addr := 7
              type := TSK_FS_NAME_TYPE_ENUM.TSK_FS_NAME_TYPE_REG
              flags := TSK_FS_NAME_FLAG_ENUM.TSK_FS_NAME_FLAG_ALLOC }]).names =
          [] ++ dot_entry 3 :: dd ++ extra ∧
        (dd = [] ∨ ∃ node ∈ ctrl_iso.in_list, dd = [dotdot_entry node.inum]) ∧
        ∀ e ∈ extra, ∃ node ∈ ctrl_iso.in_list,
          e.name = clean_name 8 node.fn ∧ e.meta_addr = node.inum ∧
          e.name.length ≤ 8 ∧ ∀ c ∈ e.name, TSK_IS_CNTRL c = false)) :=
  ⟨by decide, by decide,
    (iso9660_proc_dir_clean_names ctrl_iso 8 ctrl_dir_buf).2.2.2.2 true [] 128 3 5 _
      (by decide)⟩

/-- The search for the next non-zero byte, when the window and its end byte lie in the
buffer: it stops inside the window or at its end, and behind the start when the first
byte is zero. -/
theorem zero_scan_bounds (buf : List Nat) (n a : Nat) (h : a + n < buf.length) :
    ∃ r, zero_scan buf a n = some r ∧ a ≤ r ∧ r ≤ a + n ∧
      (buf.get? a = some 0 → 0 < n → a < r) := by
  induction n generalizing a with
  | zero =>
    have hg : buf.get? a = some (buf.get ⟨a, by omega⟩) := List.get?_eq_get _
    exact ⟨a, by rw [zero_scan, hg], le_refl _, le_refl _, fun _ hn => absurd hn (by omega)⟩
  | succ k ih =>
    have hg : buf.get? a = some (buf.get ⟨a, by omega⟩) := List.get?_eq_get _
    by_cases hx : buf.get ⟨a, by omega⟩ = 0
    · obtain ⟨r, hr, h1, h2, -⟩ := ih (a + 1) (by omega)
      refine ⟨r, ?_, by omega, by omega, fun _ _ => by omega⟩
      rw [zero_scan, hg]
      simp only [hx, if_true]
      exact hr
    · refine ⟨a, ?_, le_refl _, by omega, ?_⟩
      · rw [zero_scan, hg]
        simp only [hx, if_false]
      · intro h0
        rw [hg] at h0
        exact absurd (Option.some.inj h0) hx

/-- One iteration of the scan under the precondition: with the position and the
remaining length inside the extent, the remaining length above the header size, and a
record length that is zero or at most the remaining length, every byte read lies in
the extent; the iteration returns `corrupted` or goes on with a strictly smaller
remaining length that did not underflow, a position that did not move back, and their
sum no larger than before. -/
theorem proc_step_safe (iso : ISO_INFO) (maxnamlen : Nat) (buf : List Nat) (s : ProcState)
    (hinv : s.pos + s.length ≤ buf.length) (hL : buf.length < 2 ^ 64)
    (hgt : s.length > DENTRY_SIZE)
    (hrec : ∀ e, buf.get? s.pos = some e → e ≠ 0 → e ≤ s.length) :
    (∃ ns, proc_step iso maxnamlen buf s =
        Sum.inl (ProcResult.ret TSK_RETVAL_ENUM.TSK_COR ns)) ∨
    (∃ s1, proc_step iso maxnamlen buf s = Sum.inr s1 ∧ s1.length < s.length ∧
      s.pos ≤ s1.pos ∧ s1.pos + s1.length ≤ s.pos + s.length) := by
  have hpos : s.pos + DENTRY_SIZE < buf.length := by omega
  obtain ⟨e, hg⟩ : ∃ e, buf.get? s.pos = some e :=
    ⟨buf.get ⟨s.pos, by omega⟩, List.get?_eq_get _⟩
  unfold proc_step
  rw [hg]
  simp only
  by_cases hz : e = 0
  · -- a run of zero bytes
    simp only [hz, ne_eq, not_true_eq_false, if_false]
    obtain ⟨r, hr, h1, h2, h3⟩ := zero_scan_bounds buf DENTRY_SIZE s.pos hpos
    have h4 : s.pos < r := h3 (by rw [hg, hz]) (by decide)
    rw [hr]
    simp only
    by_cases hne : r = s.pos + DENTRY_SIZE
    · right
      rw [if_neg (by simpa using hne)]
      refine ⟨_, rfl, ?_, le_refl _, ?_⟩
      · show sub64 s.length DENTRY_SIZE < s.length
        unfold sub64 DENTRY_SIZE at *
        norm_num at hL ⊢
        omega
      · show s.pos + sub64 s.length DENTRY_SIZE ≤ s.pos + s.length
        unfold sub64 DENTRY_SIZE at *
        norm_num at hL ⊢
        omega
    · right
      rw [if_pos hne]
      refine ⟨_, rfl, ?_, ?_, ?_⟩
      · show wrap64 (sub64 s.length DENTRY_SIZE + (s.pos + DENTRY_SIZE - r)) < s.length
        unfold wrap64 sub64 DENTRY_SIZE at *
        norm_num at hL ⊢
        omega
      · show s.pos ≤ s.pos + (DENTRY_SIZE - (s.pos + DENTRY_SIZE - r))
        omega
      · show s.pos + (DENTRY_SIZE - (s.pos + DENTRY_SIZE - r)) +
            wrap64 (sub64 s.length DENTRY_SIZE + (s.pos + DENTRY_SIZE - r)) ≤
          s.pos + s.length
        unfold wrap64 sub64 DENTRY_SIZE at *
        norm_num at hL ⊢
        omega
  · -- a record
    have hle := hrec _ hg hz
    simp only [ne_eq, hz, not_false_eq_true, if_true]
    have hlook : lookup_record iso buf s.pos = some none ∨
        ∃ node, lookup_record iso buf s.pos = some (some node) := by
      unfold lookup_record
      cases iso.in_list with
      | nil => exact Or.inl rfl
      | cons x rest =>
        simp only
        rw [read4_eq buf (s.pos + EXT_LOC_M_OFF) (by unfold EXT_LOC_M_OFF DENTRY_SIZE at *; omega)]
        simp only
        cases find_inode iso.big_endian _ (x :: rest) with
        | none => exact Or.inl rfl
        | some node => exact Or.inr ⟨node, rfl⟩
    rcases hlook with hl | ⟨node, hl⟩
    · left
      rw [hl]
      exact ⟨_, rfl⟩
    · right
      rw [hl]
      simp only
      have hf : buf.get? (s.pos + FLAGS_OFF) =
          some (buf.get ⟨s.pos + FLAGS_OFF, by unfold FLAGS_OFF DENTRY_SIZE at *; omega⟩) :=
        List.get?_eq_get _
      rw [hf]
      simp only
      refine ⟨_, rfl, ?_, ?_, ?_⟩
      · show sub64 s.length e < s.length
        unfold sub64
        norm_num at hL ⊢
        omega
      · show s.pos ≤ s.pos + e
        omega
      · show s.pos + e + sub64 s.length e ≤ s.pos + s.length
        unfold sub64
        norm_num at hL ⊢
        omega

/-- Whole iterations from the state after one iteration. -/
theorem proc_run_succ (iso : ISO_INFO) (maxnamlen : Nat) (buf : List Nat) (n : Nat)
    (s s1 : ProcState) (hgt : s.length > DENTRY_SIZE)
    (hstep : proc_step iso maxnamlen buf s = Sum.inr s1) :
    proc_run iso maxnamlen buf (n + 1) s = proc_run iso maxnamlen buf n s1 := by
  rw [proc_run, if_pos hgt, hstep]

/-- Under the precondition the sum of the position and the remaining length stays
inside the extent through all iterations. -/
theorem proc_run_in_bounds (iso : ISO_INFO) (maxnamlen : Nat) (buf : List Nat)
    (hL : buf.length < 2 ^ 64) (n : Nat) :
    ∀ s0 s : ProcState, s0.pos + s0.length ≤ buf.length →
      (∀ m t e, proc_run iso maxnamlen buf m s0 = some t → t.length > DENTRY_SIZE →
        buf.get? t.pos = some e → e ≠ 0 → e ≤ t.length) →
      proc_run iso maxnamlen buf n s0 = some s →
      s.pos + s.length ≤ buf.length ∧ s.length ≤ s0.length ∧
        ∀ m t e, proc_run iso maxnamlen buf m s = some t → t.length > DENTRY_SIZE →
          buf.get? t.pos = some e → e ≠ 0 → e ≤ t.length := by
  induction n with
  | zero =>
    intro s0 s hinv hrec h
    simp only [proc_run, Option.some.injEq] at h
    subst h
    exact ⟨hinv, le_refl _, hrec⟩
  | succ k ih =>
    intro s0 s hinv hrec h
    unfold proc_run at h
    split_ifs at h with hgt
    cases hstep : proc_step iso maxnamlen buf s0 with
    | inl r => rw [hstep] at h; simp at h
    | inr s1 =>
      rw [hstep] at h
      simp only at h
      rcases proc_step_safe iso maxnamlen buf s0 hinv hL hgt
        (fun e he hne => hrec 0 s0 e rfl hgt he hne) with ⟨ns, hc⟩ | ⟨s2, h2, hlt, -, hsum⟩
      · rw [hc] at hstep
        simp at hstep
      · rw [h2] at hstep
        have := Sum.inr.inj hstep
        subst this
        have hrec1 : ∀ m t e, proc_run iso maxnamlen buf m s2 = some t →
            t.length > DENTRY_SIZE → buf.get? t.pos = some e → e ≠ 0 → e ≤ t.length := by
          intro m t e hm
          exact hrec (m + 1) t e (by rw [proc_run_succ iso maxnamlen buf m s0 s2 hgt h2]; exact hm)
        obtain ⟨a1, a2, a3⟩ := ih s2 s (by omega) hrec1 h
        exact ⟨a1, by omega, a3⟩

/-- Under the precondition the loop ends with a return value, within as many
iterations as the remaining length. -/
theorem proc_loop_terminates (iso : ISO_INFO) (maxnamlen : Nat) (buf : List Nat)
    (hL : buf.length < 2 ^ 64) (k : Nat) :
    ∀ s : ProcState, s.length ≤ k → s.pos + s.length ≤ buf.length →
      (∀ m t e, proc_run iso maxnamlen buf m s = some t → t.length > DENTRY_SIZE →
        buf.get? t.pos = some e → e ≠ 0 → e ≤ t.length) →
      ∃ rv ns, proc_loop iso maxnamlen buf (k + 1) s = some (ProcResult.ret rv ns) := by
  induction k with
  | zero =>
    intro s hk _ _
    refine ⟨TSK_RETVAL_ENUM.TSK_OK, s.names, ?_⟩
    rw [proc_loop, if_neg (by omega)]
  | succ j ih =>
    intro s hk hinv hrec
    by_cases hgt : s.length > DENTRY_SIZE
    · rcases proc_step_safe iso maxnamlen buf s hinv hL hgt
        (fun e he hne => hrec 0 s e rfl hgt he hne) with ⟨ns, hc⟩ | ⟨s1, h1, hlt, -, hsum⟩
      · exact ⟨TSK_RETVAL_ENUM.TSK_COR, ns, by rw [proc_loop, if_pos hgt, hc]⟩
      · have hrec1 : ∀ m t e, proc_run iso maxnamlen buf m s1 = some t →
            t.length > DENTRY_SIZE → buf.get? t.pos = some e → e ≠ 0 → e ≤ t.length := by
          intro m t e hm
          exact hrec (m + 1) t e (by rw [proc_run_succ iso maxnamlen buf m s s1 hgt h1]; exact hm)
        obtain ⟨rv, ns, hr⟩ := ih s1 (by omega) (by omega) hrec1
        exact ⟨rv, ns, by rw [proc_loop, if_pos hgt, h1]; exact hr⟩
    · exact ⟨TSK_RETVAL_ENUM.TSK_OK, s.names, by rw [proc_loop, if_neg hgt]⟩

/-- C27. Let the records `.` and `..` be at least a record header long and fit in the
extent, the length passed be that of the extent, and every non-zero record length that
the scan reaches be at most the remaining length there. Then the scan starts behind
the two records with position plus remaining length equal to the extent length; at the
head of every iteration position plus remaining length is at most the extent length;
in every iteration the whole header window, its end byte included (so the record
length, the extent location, the flags and the padding window), lies in the extent,
the iteration returns `corrupted` or goes on with a strictly smaller remaining length
(no underflow) and a position plus remaining length no larger than before; and the
parser returns a value, within as many iterations as the extent has bytes, without
ever reading outside the extent. -/
theorem iso9660_proc_dir_in_bounds (iso : ISO_INFO) (maxnamlen : Nat)
    (names : List TSK_FS_NAME) (buf : List Nat) (a_addr len0 len1 : Nat)
    (h0 : buf.get? 0 = some len0) (h1 : buf.get? len0 = some len1)
    (hl0 : DENTRY_SIZE ≤ len0) (hl1 : DENTRY_SIZE ≤ len1)
    (hfit : len0 + len1 ≤ buf.length) (hL : buf.length < 2 ^ 64)
    (hrec : ∀ s0 m t e, proc_dots iso buf buf.length a_addr names = Sum.inr s0 →
      proc_run iso maxnamlen buf m s0 = some t → t.length > DENTRY_SIZE →
      buf.get? t.pos = some e → e ≠ 0 → e ≤ t.length) :
    ∃ s0, proc_dots iso buf buf.length a_addr names = Sum.inr s0 ∧
      s0.pos = len0 + len1 ∧ s0.length = buf.length - len0 - len1 ∧
      (∀ n s, proc_run iso maxnamlen buf n s0 = some s →
        s.pos + s.length ≤ buf.length ∧
        (s.length > DENTRY_SIZE →
          s.pos + DENTRY_SIZE < buf.length ∧
          ((∃ ns, proc_step iso maxnamlen buf s =
              Sum.inl (ProcResult.ret TSK_RETVAL_ENUM.TSK_COR ns)) ∨
            (∃ s1, proc_step iso maxnamlen buf s = Sum.inr s1 ∧ s1.length < s.length ∧
              s.pos ≤ s1.pos ∧ s1.pos + s1.length ≤ s.pos + s.length)))) ∧
      ∃ rv ns, iso9660_proc_dir iso maxnamlen true names buf buf.length a_addr
        (buf.length + 1) = some (ProcResult.ret rv ns) := by
  -- the search for the second record reads inside the extent
  obtain ⟨found, hlook⟩ : ∃ found, lookup_record iso buf len0 = some found := by
    unfold lookup_record
    cases iso.in_list with
    | nil => exact ⟨none, rfl⟩
    | cons x rest =>
      simp only
      rw [read4_eq buf (len0 + EXT_LOC_M_OFF) (by unfold EXT_LOC_M_OFF DENTRY_SIZE at *; omega)]
      exact ⟨_, rfl⟩
  have hd := proc_dots_eq iso buf buf.length a_addr names len0 found h0 hlook
  rw [h1] at hd
  simp only at hd
  have hsub : sub64 (sub64 buf.length len0) len1 = buf.length - len0 - len1 := by
    unfold sub64
    norm_num at hL ⊢
    omega
  rw [hsub] at hd
  have hinv0 : len0 + len1 + (buf.length - len0 - len1) ≤ buf.length := by omega
  refine ⟨_, hd, rfl, rfl, ?_, ?_⟩
  · intro n s hrun
    obtain ⟨a1, -, a3⟩ := proc_run_in_bounds iso maxnamlen buf hL n _ s hinv0
      (fun m t e => hrec _ m t e hd) hrun
    refine ⟨a1, fun hgt => ⟨by omega, ?_⟩⟩
    exact proc_step_safe iso maxnamlen buf s a1 hL hgt
      (fun e he hne => a3 0 s e rfl hgt he hne)
  · obtain ⟨rv, ns, hr⟩ := proc_loop_terminates iso maxnamlen buf hL buf.length _
      (show (buf.length - len0 - len1) ≤ buf.length by omega) hinv0
      (fun m t e => hrec _ m t e hd)
    refine ⟨rv, ns, ?_⟩
    simp only [iso9660_proc_dir, Bool.not_true, Bool.false_eq_true, if_false, hd]
    exact hr

set_option maxRecDepth 100000 in
/-- An instance of C27: the example extent of `DOCS` with a hole of one byte (119
bytes). The scan reaches the record of `README;1` (50 bytes) with 50 bytes remaining;
the parser returns a value without reading outside the extent. -/
theorem iso9660_proc_dir_in_bounds_witness :
    (hole_dir_buf 1 0).get? 0 = some 34 ∧ (hole_dir_buf 1 0).get? 34 = some 34 ∧
    ∃ s0, proc_dots hole_iso (hole_dir_buf 1 0) (hole_dir_buf 1 0).length 3 [] = Sum.inr s0 ∧
      s0.pos = 34 + 34 ∧ s0.length = (hole_dir_buf 1 0).length - 34 - 34 ∧
      ∃ rv ns, iso9660_proc_dir hole_iso 256 true [] (hole_dir_buf 1 0)
        (hole_dir_buf 1 0).length 3 ((hole_dir_buf 1 0).length + 1) =
          some (ProcResult.ret rv ns) :=
  have hd0 : proc_dots hole_iso (hole_dir_buf 1 0) (hole_dir_buf 1 0).length 3 [] =
      Sum.inr { pos := 68, length := 51, names := [dot_entry 3, dotdot_entry 0] } := by
    decide
  have hs1 : proc_step hole_iso 256 (hole_dir_buf 1 0)
      { pos := 68, length := 51, names := [dot_entry 3, dotdot_entry 0] } =
      Sum.inr { pos := 69, length := 50, names := [dot_entry 3, dotdot_entry 0] } := by
    decide
  have hs2 : proc_step hole_iso 256 (hole_dir_buf 1 0)
      { pos := 69, length := 50, names := [dot_entry 3, dotdot_entry 0] } =
      Sum.inr { pos := 119, length := 0
                names := [dot_entry 3, dotdot_entry 0, readme_entry] } := by
    decide
  have h := iso9660_proc_dir_in_bounds hole_iso 256 [] (hole_dir_buf 1 0) 3 34 34
    (by decide) (by decide) (by decide) (by decide) (by decide) (by decide)
    (by
      intro s0 m t e hd hrun hgt hget hne
      rw [hd0] at hd
      have hs0 := Sum.inr.inj hd
      subst hs0
      match m with
      | 0 =>
        simp only [proc_run, Option.some.injEq] at hrun
        subst hrun
        have : (hole_dir_buf 1 0).get? 68 = some 0 := by decide
        rw [this] at hget
        exact absurd (Option.some.inj hget).symm hne
      | 1 =>
        rw [proc_run_succ hole_iso 256 _ 0 _ _ (by decide) hs1] at hrun
        simp only [proc_run, Option.some.injEq] at hrun
        subst hrun
        have : (hole_dir_buf 1 0).get? 69 = some 50 := by decide
        rw [this] at hget
        have := Option.some.inj hget
        subst this
        decide
      | 2 =>
        rw [proc_run_succ hole_iso 256 _ 1 _ _ (by decide) hs1,
          proc_run_succ hole_iso 256 _ 0 _ _ (by decide) hs2] at hrun
        simp only [proc_run, Option.some.injEq] at hrun
        subst hrun
        exact absurd hgt (by decide)
      | k + 3 =>
        rw [proc_run_succ hole_iso 256 _ (k + 2) _ _ (by decide) hs1,
          proc_run_succ hole_iso 256 _ (k + 1) _ _ (by decide) hs2, proc_run,
          if_neg (by decide)] at hrun
        exact absurd hrun (by simp))
  match h with
  | ⟨s0, a1, a2, a3, _, a5⟩ => ⟨by decide, by decide, s0, a1, a2, a3, a5⟩

/-! ## Path resolver: the three return values -/

/-- An iteration of the descent that stops in one of the ways of `StopsAt` returns with
the return value and the result of that way. -/
theorem path_iter_stops_sound (fs : TSK_FS_INFO) (nm : Option TSK_FS_NAME) (tok : CStr)
    (next_tok : Option CStr) (d : Nat) (ev : List Event) (r : Int) (a : Nat)
    (h : StopsAt fs tok next_tok d r a) :
    ∃ res, path_iter fs nm tok next_tok d ev = Sum.inl res ∧ res.retval = r ∧
      res.a_result = a := by
  suffices key : ∀ x, path_iter fs nm tok next_tok d ev = x →
      ∃ res, x = Sum.inl res ∧ res.retval = r ∧ res.a_result = a from key _ rfl
  intro x hx
  cases h with
  | open_failed h0 =>
    simp only [path_iter, h0] at hx
    subst hx
    exact ⟨_, rfl, rfl, rfl⟩
  | fetch_failed dir pre post hd hes hpre =>
    have hscan := dir_scan_skip fs.ftype d (split_attr fs.ftype tok).1
      (split_attr fs.ftype tok).2 next_tok nm pre (none :: post) 0
      (ev ++ [Event.dir_open d]) hpre
    rw [← hes] at hscan
    simp only [path_iter, hd, hscan, dir_scan] at hx
    subst hx
    exact ⟨_, rfl, rfl, rfl⟩
  | name_missing dir pre hd hes hpre =>
    have hscan := dir_scan_skip fs.ftype d (split_attr fs.ftype tok).1
      (split_attr fs.ftype tok).2 next_tok nm pre [] 0
      (ev ++ [Event.dir_open d]) hpre
    rw [List.append_nil, ← hes] at hscan
    simp only [path_iter, hd, hscan, dir_scan] at hx
    subst hx
    exact ⟨_, rfl, rfl, rfl⟩
  | attr_missing dir pre e post hd hes hpre hc =>
    have hscan := dir_scan_skip fs.ftype d (split_attr fs.ftype tok).1
      (split_attr fs.ftype tok).2 next_tok nm pre (some e :: post) 0
      (ev ++ [Event.dir_open d]) hpre
    rw [← hes] at hscan
    simp only [path_iter, hd, hscan, dir_scan, hc] at hx
    subst hx
    exact ⟨_, rfl, rfl, rfl⟩
  | found dir pre e post hd hes hpre hc hn =>
    have hscan := dir_scan_skip fs.ftype d (split_attr fs.ftype tok).1
      (split_attr fs.ftype tok).2 next_tok nm pre (some e :: post) 0
      (ev ++ [Event.dir_open d]) hpre
    rw [← hes] at hscan
    subst hn
    simp only [path_iter, hd, hscan, dir_scan, hc] at hx
    subst hx
    exact ⟨_, rfl, rfl, rfl⟩
  | not_dir dir pre e post hd hes hpre hc hn hm =>
    have hscan := dir_scan_skip fs.ftype d (split_attr fs.ftype tok).1
      (split_attr fs.ftype tok).2 next_tok nm pre (some e :: post) 0
      (ev ++ [Event.dir_open d]) hpre
    rw [← hes] at hscan
    cases next_tok with
    | none => exact absurd rfl hn
    | some t =>
      rcases hm with hm | ⟨m, hm, hty⟩
      · simp only [path_iter, hd, hscan, dir_scan, hc, hm] at hx
        subst hx
        exact ⟨_, rfl, rfl, rfl⟩
      · simp only [path_iter, hd, hscan, dir_scan, hc, hm, ne_eq, hty, not_false_eq_true,
          if_true] at hx
        subst hx
        exact ⟨_, rfl, rfl, rfl⟩

/-- The descent loop at a token where the descent stops returns the return value and
the result of the way it stops. -/
theorem path_loop_stops_sound (fs : TSK_FS_INFO) (nm : Option TSK_FS_NAME) (tok : CStr)
    (rest : List CStr) (d : Nat) (ev : List Event) (r : Int) (a : Nat)
    (h : StopsAt fs tok rest.head? d r a) :
    (path_loop fs nm rest tok d ev).retval = r ∧
      (path_loop fs nm rest tok d ev).a_result = a := by
  obtain ⟨res, hres, h1, h2⟩ := path_iter_stops_sound fs nm tok rest.head? d ev r a h
  cases rest with
  | nil =>
    simp only [List.head?_nil] at hres
    rw [path_loop, hres]
    exact ⟨h1, h2⟩
  | cons t ts =>
    simp only [List.head?_cons] at hres
    rw [path_loop, hres]
    exact ⟨h1, h2⟩

/-- The descent loop follows a descent: from the directory where the descent starts,
with the tokens of the descent in front, it arrives at the directory where the descent
ends with the tokens behind. -/
theorem path_loop_descends (fs : TSK_FS_INFO) (nm : Option TSK_FS_NAME)
    (done : List CStr) (d0 d : Nat) (h : Descends fs done d0 d) :
    ∀ (tok : CStr) (rest : List CStr) (t0 : CStr) (ts : List CStr) (ev : List Event),
      done ++ tok :: rest = t0 :: ts →
      ∃ ev1, path_loop fs nm ts t0 d0 ev = path_loop fs nm rest tok d ev1 := by
  induction h with
  | here d =>
    intro tok rest t0 ts ev heq
    simp only [List.nil_append, List.cons.injEq] at heq
    obtain ⟨h1, h2⟩ := heq
    subst h1 h2
    exact ⟨ev, rfl⟩
  | step tok1 toks d d2 dir pre e post m hd hes hpre hc hm hty _ ih =>
    intro tok rest t0 ts ev heq
    simp only [List.cons_append, List.cons.injEq] at heq
    obtain ⟨h1, h2⟩ := heq
    subst h1
    -- the tokens behind the first one are not empty
    cases hts : ts with
    | nil =>
      rw [hts] at h2
      exact absurd h2 (by simp)
    | cons t ts1 =>
      have hdir : fs.dir_open_meta d = some ⟨pre.map some ++ some e :: post⟩ := by
        rw [hd, ← hes]
      rw [path_loop_descend fs nm tok1 t ts1 d ev pre e post m hdir hpre hc hm hty]
      exact ih tok rest t ts1 _ (by rw [h2, hts])

/-- Where the descent loop ends: behind a descent through some of the tokens, at the
token and in the directory where it stops in one of the ways of `StopsAt`. -/
theorem path_loop_ends (fs : TSK_FS_INFO) (nm : Option TSK_FS_NAME) (rest : List CStr) :
    ∀ (tok : CStr) (d0 : Nat) (ev : List Event),
      ∃ (done : List CStr) (tokc : CStr) (rest1 : List CStr) (d : Nat),
        tok :: rest = done ++ tokc :: rest1 ∧ Descends fs done d0 d ∧
        StopsAt fs tokc rest1.head? d (path_loop fs nm rest tok d0 ev).retval
          (path_loop fs nm rest tok d0 ev).a_result := by
  induction rest with
  | nil =>
    intro tok d0 ev
    rcases path_iter_cases fs nm tok none d0 ev with ⟨r, hr, hs, -⟩ | ⟨t, _, _, _, _, _, _, hn, _⟩
    · refine ⟨[], tok, [], d0, rfl, Descends.here d0, ?_⟩
      simp only [path_loop, hr]
      exact hs
    · exact absurd hn (by simp)
  | cons t ts ih =>
    intro tok d0 ev
    rcases path_iter_cases fs nm tok (some t) d0 ev with
      ⟨r, hr, hs, -⟩ | ⟨t1, dir, pre, e, post, m, e1, -, hd, hes, hpre, hc, hm, hty, hr⟩
    · refine ⟨[], tok, t :: ts, d0, rfl, Descends.here d0, ?_⟩
      rw [path_loop, hr]
      exact hs
    · obtain ⟨done, tokc, rest1, d, hsplit, hdesc, hs⟩ := ih t e.name.meta_addr e1
      refine ⟨tok :: done, tokc, rest1, d, by rw [hsplit]; rfl,
        Descends.step tok done d0 d dir pre e post m hd hes hpre hc hm hty hdesc, ?_⟩
      rw [path_loop, hr]
      exact hs

/-- The outcome of a call whose allocation succeeded, for a path with a token: it is
the outcome of the way in which the descent stops, behind a descent from the root
through some of the tokens; and every such descent and stop gives the outcome of the
call. -/
theorem path2inum_outcome (fs : TSK_FS_INFO) (a_path : CStr) (nm : Option TSK_FS_NAME) :
    (strtok_all a_path ≠ [] →
      ∃ (done : List CStr) (tok : CStr) (rest : List CStr) (d : Nat),
        strtok_all a_path = done ++ tok :: rest ∧ Descends fs done fs.root_inum d ∧
        StopsAt fs tok rest.head? d (tsk_fs_path2inum true fs a_path nm).retval
          (tsk_fs_path2inum true fs a_path nm).a_result) ∧
    (∀ (done : List CStr) (tok : CStr) (rest : List CStr) (d : Nat) (r : Int) (a : Nat),
      strtok_all a_path = done ++ tok :: rest → Descends fs done fs.root_inum d →
      StopsAt fs tok rest.head? d r a →
      (tsk_fs_path2inum true fs a_path nm).retval = r ∧
        (tsk_fs_path2inum true fs a_path nm).a_result = a) := by
  constructor
  · intro hne
    cases ht : strtok_all a_path with
    | nil => exact absurd ht hne
    | cons tok0 rest0 =>
      rw [path2inum_eq_path_loop fs nm a_path tok0 rest0 ht]
      exact path_loop_ends fs nm rest0 tok0 fs.root_inum []
  · intro done tok rest d r a hsplit hdesc hstop
    cases ht : strtok_all a_path with
    | nil =>
      rw [ht] at hsplit
      exact absurd hsplit.symm (by simp)
    | cons tok0 rest0 =>
      rw [path2inum_eq_path_loop fs nm a_path tok0 rest0 ht]
      obtain ⟨ev1, hev⟩ := path_loop_descends fs nm done fs.root_inum d hdesc tok rest
        tok0 rest0 [] (by rw [← hsplit, ht])
      rw [hev]
      exact path_loop_stops_sound fs nm tok rest d ev1 r a hstop

/-- C13 (as amended). The call returns -1, 0 or 1. It returns error (-1) exactly when
the allocation of the path copy fails or, behind a descent from the root through some
of the tokens, the directory reached cannot be opened or one of its entries cannot be
fetched before an entry is met that matches the token. It returns not found (1)
exactly when the allocation succeeds and, behind such a descent, the directory reached
opens and no entry matches the token (all entries being fetched), or the first entry
with the name lacks the attribute asked for, or the first matching entry of a token
that is not the last has no loaded metadata or is not a directory. It returns found (0)
exactly when the allocation succeeds and the path has no token or the descent through
all tokens but the last reaches a directory in which an entry matches the last
token. -/
theorem path2inum_error_iff (malloc_ok : Bool) (fs : TSK_FS_INFO) (a_path : CStr)
    (a_fs_name : Option TSK_FS_NAME) :
    ((tsk_fs_path2inum malloc_ok fs a_path a_fs_name).retval = -1 ∨
      (tsk_fs_path2inum malloc_ok fs a_path a_fs_name).retval = 0 ∨
      (tsk_fs_path2inum malloc_ok fs a_path a_fs_name).retval = 1) ∧
    ((tsk_fs_path2inum malloc_ok fs a_path a_fs_name).retval = -1 ↔
      malloc_ok = false ∨
      ∃ (done : List CStr) (tok : CStr) (rest : List CStr) (d : Nat),
        strtok_all a_path = done ++ tok :: rest ∧ Descends fs done fs.root_inum d ∧
        (fs.dir_open_meta d = none ∨
          ∃ (dir : TSK_FS_DIR) (pre : List TSK_FS_FILE) (post : List (Option TSK_FS_FILE)),
            fs.dir_open_meta d = some dir ∧ dir.names = pre.map some ++ none :: post ∧
            ∀ f ∈ pre, check_name fs.ftype f (split_attr fs.ftype tok).1
              (split_attr fs.ftype tok).2 = NameCheck.no_match)) ∧
    ((tsk_fs_path2inum malloc_ok fs a_path a_fs_name).retval = 1 ↔
      malloc_ok = true ∧
      ∃ (done : List CStr) (tok : CStr) (rest : List CStr) (d : Nat) (dir : TSK_FS_DIR),
        strtok_all a_path = done ++ tok :: rest ∧ Descends fs done fs.root_inum d ∧
        fs.dir_open_meta d = some dir ∧
        ((∃ pre : List TSK_FS_FILE, dir.names = pre.map some ∧
            ∀ f ∈ pre, check_name fs.ftype f (split_attr fs.ftype tok).1
              (split_attr fs.ftype tok).2 = NameCheck.no_match) ∨
          (∃ (pre : List TSK_FS_FILE) (e : TSK_FS_FILE) (post : List (Option TSK_FS_FILE)),
            dir.names = pre.map some ++ some e :: post ∧
            (∀ f ∈ pre, check_name fs.ftype f (split_attr fs.ftype tok).1
              (split_attr fs.ftype tok).2 = NameCheck.no_match) ∧
            (check_name fs.ftype e (split_attr fs.ftype tok).1
                (split_attr fs.ftype tok).2 = NameCheck.attr_missing ∨
              (check_name fs.ftype e (split_attr fs.ftype tok).1
                  (split_attr fs.ftype tok).2 = NameCheck.found ∧
                rest ≠ [] ∧
                (e.meta = none ∨
                  ∃ m, e.meta = some m ∧
                    m.type ≠ TSK_FS_META_TYPE_ENUM.TSK_FS_META_TYPE_DIR)))))) ∧
    ((tsk_fs_path2inum malloc_ok fs a_path a_fs_name).retval = 0 ↔
      malloc_ok = true ∧
      (strtok_all a_path = [] ∨
        ∃ (done : List CStr) (tok : CStr) (d : Nat) (dir : TSK_FS_DIR)
            (pre : List TSK_FS_FILE) (e : TSK_FS_FILE) (post : List (Option TSK_FS_FILE)),
          strtok_all a_path = done ++ [tok] ∧ Descends fs done fs.root_inum d ∧
          fs.dir_open_meta d = some dir ∧ dir.names = pre.map some ++ some e :: post ∧
          (∀ f ∈ pre, check_name fs.ftype f (split_attr fs.ftype tok).1
            (split_attr fs.ftype tok).2 = NameCheck.no_match) ∧
          check_name fs.ftype e (split_attr fs.ftype tok).1
            (split_attr fs.ftype tok).2 = NameCheck.found)) := by
  cases malloc_ok with
  | false =>
    rw [path2inum_malloc_fails]
    refine ⟨Or.inl rfl, ⟨fun _ => Or.inl rfl, fun _ => rfl⟩,
      ⟨fun h => absurd h (show (-1 : Int) ≠ 1 by decide), fun h => absurd h.1 (by decide)⟩,
      ⟨fun h => absurd h (show (-1 : Int) ≠ 0 by decide), fun h => absurd h.1 (by decide)⟩⟩
  | true =>
    obtain ⟨hfw, hbw⟩ := path2inum_outcome fs a_path a_fs_name
    have hnone : ∀ l : List CStr, l ≠ [] → l.head? ≠ none := by
      intro l hl
      cases l with
      | nil => exact absurd rfl hl
      | cons x xs => simp
    cases ht : strtok_all a_path with
    | nil =>
      rw [path2inum_no_token fs a_fs_name a_path ht]
      refine ⟨Or.inr (Or.inl rfl), ⟨fun h => absurd h (show (0 : Int) ≠ -1 by decide), ?_⟩,
        ⟨fun h => absurd h (show (0 : Int) ≠ 1 by decide), ?_⟩,
        ⟨fun _ => ⟨rfl, Or.inl rfl⟩, fun _ => rfl⟩⟩
      · rintro (h | ⟨done, tok, rest, d, hs, -⟩)
        · exact absurd h (by decide)
        · exact absurd hs.symm (by simp)
      · rintro ⟨-, done, tok, rest, d, dir, hs, -⟩
        exact absurd hs.symm (by simp)
    | cons tok0 rest0 =>
      have hne : strtok_all a_path ≠ [] := by rw [ht]; simp
      obtain ⟨done, tok, rest, d, hsplit, hdesc, hstop⟩ := hfw hne
      rw [ht] at hsplit hbw
      generalize hrv : (tsk_fs_path2inum true fs a_path a_fs_name).retval = rv at hstop hbw
      generalize hra : (tsk_fs_path2inum true fs a_path a_fs_name).a_result = ra at hstop hbw
      -- the converse directions, from any descent and stop
      have hB : (∃ (done : List CStr) (tok : CStr) (rest : List CStr) (d : Nat),
          tok0 :: rest0 = done ++ tok :: rest ∧ Descends fs done fs.root_inum d ∧
          (fs.dir_open_meta d = none ∨
            ∃ (dir : TSK_FS_DIR) (pre : List TSK_FS_FILE) (post : List (Option TSK_FS_FILE)),
              fs.dir_open_meta d = some dir ∧ dir.names = pre.map some ++ none :: post ∧
              ∀ f ∈ pre, check_name fs.ftype f (split_attr fs.ftype tok).1
                (split_attr fs.ftype tok).2 = NameCheck.no_match)) → rv = -1 := by
        rintro ⟨done1, tok1, rest1, d1, hs1, hd1, h | ⟨dir, pre, post, h1, h2, h3⟩⟩
        · exact (hbw done1 tok1 rest1 d1 (-1) 0 hs1 hd1 (StopsAt.open_failed h)).1
        · exact (hbw done1 tok1 rest1 d1 (-1) 0 hs1 hd1
            (StopsAt.fetch_failed dir pre post h1 h2 h3)).1
      have hC : (∃ (done : List CStr) (tok : CStr) (rest : List CStr) (d : Nat)
            (dir : TSK_FS_DIR),
          tok0 :: rest0 = done ++ tok :: rest ∧ Descends fs done fs.root_inum d ∧
          fs.dir_open_meta d = some dir ∧
          ((∃ pre : List TSK_FS_FILE, dir.names = pre.map some ∧
              ∀ f ∈ pre, check_name fs.ftype f (split_attr fs.ftype tok).1
                (split_attr fs.ftype tok).2 = NameCheck.no_match) ∨
            (∃ (pre : List TSK_FS_FILE) (e : TSK_FS_FILE)
                (post : List (Option TSK_FS_FILE)),
              dir.names = pre.map some ++ some e :: post ∧
              (∀ f ∈ pre, check_name fs.ftype f (split_attr fs.ftype tok).1
                (split_attr fs.ftype tok).2 = NameCheck.no_match) ∧
              (check_name fs.ftype e (split_attr fs.ftype tok).1
                  (split_attr fs.ftype tok).2 = NameCheck.attr_missing ∨
                (check_name fs.ftype e (split_attr fs.ftype tok).1
                    (split_attr fs.ftype tok).2 = NameCheck.found ∧
                  rest ≠ [] ∧
                  (e.meta = none ∨
                    ∃ m, e.meta = some m ∧
                      m.type ≠ TSK_FS_META_TYPE_ENUM.TSK_FS_META_TYPE_DIR)))))) →
          rv = 1 := by
        rintro ⟨done1, tok1, rest1, d1, dir, hs1, hd1, ho, ⟨pre, h1, h2⟩ |
          ⟨pre, e, post, h1, h2, h3 | ⟨h3, h4, h5⟩⟩⟩
        · exact (hbw done1 tok1 rest1 d1 1 0 hs1 hd1 (StopsAt.name_missing dir pre ho h1 h2)).1
        · exact (hbw done1 tok1 rest1 d1 1 0 hs1 hd1
            (StopsAt.attr_missing dir pre e post ho h1 h2 h3)).1
        · exact (hbw done1 tok1 rest1 d1 1 0 hs1 hd1
            (StopsAt.not_dir dir pre e post ho h1 h2 h3 (hnone rest1 h4) h5)).1
      have hD : (∃ (done : List CStr) (tok : CStr) (d : Nat) (dir : TSK_FS_DIR)
            (pre : List TSK_FS_FILE) (e : TSK_FS_FILE) (post : List (Option TSK_FS_FILE)),
          tok0 :: rest0 = done ++ [tok] ∧ Descends fs done fs.root_inum d ∧
          fs.dir_open_meta d = some dir ∧ dir.names = pre.map some ++ some e :: post ∧
          (∀ f ∈ pre, check_name fs.ftype f (split_attr fs.ftype tok).1
            (split_attr fs.ftype tok).2 = NameCheck.no_match) ∧
          check_name fs.ftype e (split_attr fs.ftype tok).1
            (split_attr fs.ftype tok).2 = NameCheck.found) → rv = 0 := by
        rintro ⟨done1, tok1, d1, dir, pre, e, post, hs1, hd1, ho, h1, h2, h3⟩
        exact (hbw done1 tok1 [] d1 0 e.name.meta_addr hs1 hd1
          (StopsAt.found dir pre e post ho h1 h2 h3 rfl)).1
      have hD2 : (true = true ∧ ((tok0 :: rest0 : List CStr) = [] ∨
          ∃ (done : List CStr) (tok : CStr) (d : Nat) (dir : TSK_FS_DIR)
            (pre : List TSK_FS_FILE) (e : TSK_FS_FILE) (post : List (Option TSK_FS_FILE)),
          tok0 :: rest0 = done ++ [tok] ∧ Descends fs done fs.root_inum d ∧
          fs.dir_open_meta d = some dir ∧ dir.names = pre.map some ++ some e :: post ∧
          (∀ f ∈ pre, check_name fs.ftype f (split_attr fs.ftype tok).1
            (split_attr fs.ftype tok).2 = NameCheck.no_match) ∧
          check_name fs.ftype e (split_attr fs.ftype tok).1
            (split_attr fs.ftype tok).2 = NameCheck.found)) → rv = 0 := by
        rintro ⟨-, h | h⟩
        · exact absurd h (by simp)
        · exact hD h
      cases hstop with
      | open_failed h =>
        exact ⟨Or.inl rfl, ⟨fun _ => Or.inr ⟨done, tok, rest, d, hsplit, hdesc, Or.inl h⟩,
            fun _ => rfl⟩,
          ⟨fun h1 => absurd h1 (by decide), fun h1 => hC h1.2⟩,
          ⟨fun h1 => absurd h1 (by decide), hD2⟩⟩
      | fetch_failed dir pre post hd hes hpre =>
        exact ⟨Or.inl rfl,
          ⟨fun _ => Or.inr ⟨done, tok, rest, d, hsplit, hdesc,
            Or.inr ⟨dir, pre, post, hd, hes, hpre⟩⟩, fun _ => rfl⟩,
          ⟨fun h1 => absurd h1 (by decide), fun h1 => hC h1.2⟩,
          ⟨fun h1 => absurd h1 (by decide), hD2⟩⟩
      | name_missing dir pre hd hes hpre =>
        refine ⟨Or.inr (Or.inr rfl), ⟨fun h1 => absurd h1 (by decide), ?_⟩,
          ⟨fun _ => ⟨rfl, done, tok, rest, d, dir, hsplit, hdesc, hd,
            Or.inl ⟨pre, hes, hpre⟩⟩, fun _ => rfl⟩,
          ⟨fun h1 => absurd h1 (by decide), hD2⟩⟩
        rintro (h | h)
        · exact absurd h (by decide)
        · exact hB h
      | attr_missing dir pre e post hd hes hpre hc =>
        refine ⟨Or.inr (Or.inr rfl), ⟨fun h1 => absurd h1 (by decide), ?_⟩,
          ⟨fun _ => ⟨rfl, done, tok, rest, d, dir, hsplit, hdesc, hd,
            Or.inr ⟨pre, e, post, hes, hpre, Or.inl hc⟩⟩, fun _ => rfl⟩,
          ⟨fun h1 => absurd h1 (by decide), hD2⟩⟩
        rintro (h | h)
        · exact absurd h (by decide)
        · exact hB h
      | not_dir dir pre e post hd hes hpre hc hn hm =>
        have hrest : rest ≠ [] := by
          intro h
          rw [h] at hn
          exact hn rfl
        refine ⟨Or.inr (Or.inr rfl), ⟨fun h1 => absurd h1 (by decide), ?_⟩,
          ⟨fun _ => ⟨rfl, done, tok, rest, d, dir, hsplit, hdesc, hd,
            Or.inr ⟨pre, e, post, hes, hpre, Or.inr ⟨hc, hrest, hm⟩⟩⟩, fun _ => rfl⟩,
          ⟨fun h1 => absurd h1 (by decide), hD2⟩⟩
        rintro (h | h)
        · exact absurd h (by decide)
        · exact hB h
      | found dir pre e post hd hes hpre hc hn =>
        have hrest : rest = [] := by
          cases rest with
          | nil => rfl
          | cons x xs => simp at hn
        subst hrest
        refine ⟨Or.inr (Or.inl rfl), ⟨fun h1 => absurd h1 (by decide), ?_⟩,
          ⟨fun h1 => absurd h1 (by decide), fun h1 => hC h1.2⟩,
          ⟨fun _ => ⟨rfl, Or.inr ⟨done, tok, d, dir, pre, e, post, hsplit, hdesc, hd, hes,
            hpre, hc⟩⟩, fun _ => rfl⟩⟩
        rintro (h | h)
        · exact absurd h (by decide)
        · exact hB h

/-- Instances of C13. On the ext example whose root cannot deliver its second entry,
`/notes.txt` is answered with error: `lost+found` is fetched and does not match, the
next entry cannot be fetched. On the ext example `/lost+found/x` is answered with
error: the descent goes through `lost+found` (a directory at address 11), and the
directory 11 cannot be opened. On the NTFS example `/docs/a.txt` is answered with not
found: `docs` matches, is not the last token, and has no loaded metadata. When the
allocation of the path copy fails the answer is error. -/
theorem path2inum_error_iff_witness :
    (tsk_fs_path2inum true broken_entry_fs "/notes.txt".toList none).retval = -1 ∧
    (tsk_fs_path2inum true ext_fs "/lost+found/x".toList none).retval = -1 ∧
    (tsk_fs_path2inum true unloaded_ntfs_fs "/docs/a.txt".toList none).retval = 1 ∧
    (tsk_fs_path2inum false ext_fs "/notes.txt".toList none).retval = -1 :=
  ⟨(path2inum_error_iff true broken_entry_fs "/notes.txt".toList none).2.1.2
      (Or.inr ⟨[], "notes.txt".toList, [], 5, by decide, Descends.here 5,
        Or.inr ⟨⟨[some lost_found_file, none, some notes_file]⟩, [lost_found_file],
          [some notes_file], rfl, rfl, by
            intro f hf
            rw [List.mem_singleton] at hf
            subst hf
            decide⟩⟩),
    (path2inum_error_iff true ext_fs "/lost+found/x".toList none).2.1.2
      (Or.inr ⟨["lost+found".toList], "x".toList, [], 11, by decide,
        Descends.step "lost+found".toList [] 5 11
          ⟨[some lost_found_file, some notes_file]⟩ [] lost_found_file [some notes_file]
          { addr := 11, type := TSK_FS_META_TYPE_ENUM.TSK_FS_META_TYPE_DIR, alloc := true
            attrs := [], name2 := [], walk := empty_walk }
          rfl rfl (by intro f hf; exact absurd hf (List.not_mem_nil f)) (by decide) rfl rfl
          (Descends.here 11),
        Or.inl rfl⟩),
    (path2inum_error_iff true unloaded_ntfs_fs "/docs/a.txt".toList none).2.2.1.2
      ⟨rfl, [], "docs".toList, ["a.txt".toList], 5,
        ⟨[some { name := { name := "docs".toList, shrt_name := [], meta_addr := 40
                           type := TSK_FS_NAME_TYPE_ENUM.TSK_FS_NAME_TYPE_DIR
                           flags := TSK_FS_NAME_FLAG_ENUM.TSK_FS_NAME_FLAG_ALLOC }
                 meta := none },
          some (mk_file "report.txt" "" 41 TSK_FS_META_TYPE_ENUM.TSK_FS_META_TYPE_REG
            [none])]⟩,
        by decide, Descends.here 5, rfl,
        Or.inr ⟨[], _, _, rfl, by intro f hf; exact absurd hf (List.not_mem_nil f),
          Or.inr ⟨by decide, by simp, Or.inl rfl⟩⟩⟩,
    (path2inum_error_iff false ext_fs "/notes.txt".toList none).2.1.2 (Or.inl rfl)⟩

end Tsk
